import Mathlib

/-!
# KUtrace `rawtoevent`: a shallow embedding of the raw-trace decoder

The definitions below follow `src/postproc/rawtoevent.cc` and
`src/include/linux/kutrace.h`.  C++ `uint64` values are natural numbers;
every operation that can leave the 64-bit range is reduced with `u64`.
-/

namespace KUtrace

/-! ## Machine arithmetic -/

/-- Reduction of a natural number to an unsigned 64-bit value. -/
def u64 (x : Nat) : Nat := x % 2 ^ 64

/-- Reinterpretation of an unsigned 64-bit value as `int64` (two's complement). -/
def toInt64 (x : Nat) : Int := if x < 2 ^ 63 then (x : Int) else (x : Int) - 2 ^ 64

/-- Reinterpretation of an `int64` as `uint64`. -/
def ofInt64 (v : Int) : Nat := (v % 2 ^ 64).toNat

/-- The mask `~0xfffff` at 64 bits. -/
def notLow20 : Nat := 0xFFFFFFFFFFF00000

/-- The mask `~0x0200` at 64 bits. -/
def not0200 : Nat := 0xFFFFFFFFFFFFFDFF

/-! ## Constants of `kutrace.h` and `rawtoevent.cc` -/

def KUTRACE_PIDNAME : Nat := 0x002
def KUTRACE_USERPID : Nat := 0x200
def KUTRACE_RPCIDREQ : Nat := 0x201
def KUTRACE_RPCIDRESP : Nat := 0x202
def KUTRACE_RUNNABLE : Nat := 0x206
def KUTRACE_PSTATE : Nat := 0x209
def KUTRACE_TRAP : Nat := 0x0400
def KUTRACE_IRQ : Nat := 0x0500
def KUTRACE_TRAPRET : Nat := 0x0600
def KUTRACE_IRQRET : Nat := 0x0700
def KUTRACE_SYSCALL64 : Nat := 0x0800
def KUTRACE_SYSRET64 : Nat := 0x0A00
def KUTRACE_SYSCALL32 : Nat := 0x0C00
def KUTRACE_SYSRET32 : Nat := 0x0E00
def KUTRACE_BOTTOM_HALF : Nat := 255

def kLargeTsdelta : Nat := 2000000000
def kLateStoreThresh : Nat := 0x20000
def kDefaultLowResNsec10 : Nat := 35
def kMAX_CPUS : Nat := 80
def kTraceBufSize : Nat := 8192

/-- The bound `99900000000LL` used by `OutputName` and `OutputEvent`. -/
def kCrazyTime : Nat := 99900000000

/-! ## Timestamp wrap tests (lines 296-304) -/

/-- The test `Wrapped(prior, now)`: prior is more than 4096 counts above now. -/
def Wrapped (prior now : Nat) : Bool :=
  if prior ≤ now then false else decide (prior > u64 (now + 4096))

/-- The test `LateStore(prior, now)`: prior is above now by at most `kLateStoreThresh`. -/
def LateStore (prior now : Nat) : Bool :=
  if prior ≤ now then false else decide (prior ≤ u64 (now + kLateStoreThresh))

/-! ## Event tests (lines 326-332) -/

def is_call (event : Nat) : Bool :=
  decide (event ≤ 0xffff) && decide (KUTRACE_TRAP ≤ event) && decide (event &&& 0x0200 = 0)

def is_opt_call (event delta_t : Nat) : Bool :=
  decide (delta_t > 0) && is_call event

def is_return (event : Nat) : Bool :=
  decide (event ≤ 0xffff) && decide (KUTRACE_TRAP ≤ event) && decide (event &&& 0x0200 ≠ 0)

/-! ## Entry field extraction (lines 1020-1032) -/

/-- The fields picked out of one 64-bit trace entry. -/
structure Fields where
  t : Nat
  n : Nat
  arg : Nat
  argall : Nat
  arg_hi : Nat
  delta_t : Nat
  retval : Nat
  deriving DecidableEq

def decodeFields (w : Nat) : Fields where
  t := w >>> 44
  n := (w >>> 32) &&& 0xfff
  arg := w &&& 0x0000ffff
  argall := w &&& 0xffffffff
  arg_hi := (w >>> 16) &&& 0xffff
  delta_t := (w >>> 24) &&& 0xff
  retval := (w >>> 16) &&& 0xff

/-- Line 1032: `(uint64)(((int64)(retval << 56)) >> 56) & 0xffff`. -/
def signExtendRetval (retval : Nat) : Nat :=
  ofInt64 (Int.shiftRight (toInt64 (u64 (retval <<< 56))) 56) &&& 0xffff

/-! ## Timestamp reconstruction (lines 1099-1130) -/

/-- The rolling reconstruction state together with the entry's timestamp. -/
structure TimeState where
  prepend : Nat
  prior_t : Nat
  deriving DecidableEq

/-- Lines 1100-1117: the update performed by a TSDELTA entry. -/
def tsdeltaUpdate (s : TimeState) (argall : Nat) : TimeState :=
  if argall < kLargeTsdelta then
    let oldfull := s.prepend ||| s.prior_t
    let newfull := u64 (oldfull + argall)
    { prepend := newfull &&& notLow20, prior_t := newfull &&& 0xfffff }
  else
    let oldfull := s.prepend ||| s.prior_t
    let newfull := u64 (oldfull + (0xFFFFFFFF00000000 ||| argall))
    { prepend := newfull &&& notLow20, prior_t := newfull &&& 0xfffff }

/-- Lines 1122-1124: the prepend after a non-TSDELTA entry with timestamp `t`. -/
def advancePrepend (s : TimeState) (t : Nat) : Nat :=
  if Wrapped s.prior_t t && !LateStore s.prior_t t then u64 (s.prepend + 0x100000)
  else s.prepend

/-- Lines 1122-1130: state after a non-TSDELTA entry; `tfull` is the second component. -/
def timeUpdate (s : TimeState) (t : Nat) : TimeState × Nat :=
  let prepend := advancePrepend s t
  ({ prepend := prepend, prior_t := t }, prepend ||| t)

/-- Lines 885-891 and 994-996: the reconstruction state at the start of a block. -/
def blockTimeState (base_cycle first_timestamp : Nat) : TimeState :=
  let prepend := base_cycle &&& notLow20
  { prepend := if Wrapped first_timestamp base_cycle then u64 (prepend + 2 ^ 64 - 0x100000)
               else prepend,
    prior_t := first_timestamp }

/-! ## Output lines (lines 433-469) -/

/-- A C string: its bytes up to, and without, the terminating NUL. -/
abbrev CStr := List Nat

/-- The bytes of a string literal. -/
def lit (s : String) : CStr := s.toList.map Char.toNat

/-- One line written to the output stream, as the values handed to `fprintf`. -/
inductive Line where
  | event (nsec10 duration event cpu pid rpc arg retval ipc : Nat) (name : CStr)
  | name (ts : Int) (dur event argall : Nat) (name : CStr)
  deriving DecidableEq

/-- The lines written by `OutputName`; `argall` is a `uint32` parameter. -/
def OutputName (nsec10 event argall : Nat) (name : CStr) : List Line :=
  if nsec10 ≥ kCrazyTime then []
  else
    let dur := 1
    let len := u64 ((u64 (name.length + 7) >>> 3) + 1)
    let event := (event &&& 0xF0F) ||| u64 (len <<< 4)
    [Line.name (nsec10 : Int) dur event (argall % 2 ^ 32) name,
     Line.name (-1) dur event (argall % 2 ^ 32) name]

/-- The lines written by `OutputEvent`. -/
def OutputEvent (nsec10 duration event current_cpu pid rpc arg retval ipc : Nat)
    (name : CStr) : List Line :=
  let fail := false
  let fail := if nsec10 ≥ kCrazyTime then true else fail
  let fail := if duration ≥ kCrazyTime then true else fail
  let fail := if u64 (nsec10 + duration) ≥ kCrazyTime then true else fail
  if fail then []
  else [Line.event nsec10 duration event current_cpu pid rpc arg retval ipc name]

/-! ## Constants and tables of `kutrace_lib.h` and `from_base40.h`

`rawtoevent.cc` takes these from headers that are not among the sources at hand, so the
decoder below is parameterised over them. -/

/-- Constants, the special-name table and the base-40 decoder used by the inner loop. -/
structure LibConsts where
  KUTRACE_TSDELTA : Nat
  KUTRACE_MBIT_SEC : Nat
  KUTRACE_PC_TEMP : Nat
  KUTRACE_PC_U : Nat
  KUTRACE_PC_K : Nat
  KUTRACE_MAX_SPECIAL : Nat
  KUTRACE_TIMEPAIR : Nat
  KUTRACE_KERNEL_VER : Nat
  KUTRACE_MODEL_NAME : Nat
  KUTRACE_HOST_NAME : Nat
  KUTRACE_QUEUE_NAME : Nat
  KUTRACE_RES_NAME : Nat
  KUTRACE_RPCIDTXMSG : Nat
  KUTRACE_RX_PKT : Nat
  KUTRACE_TX_PKT : Nat
  KUTRACE_RX_USER : Nat
  KUTRACE_TX_USER : Nat
  KUTRACE_LOCKNOACQUIRE : Nat
  KUTRACE_LOCKWAKEUP : Nat
  kSpecialName : Nat → CStr
  Base40ToChar : Nat → CStr

/-! ## Remaining event tests (lines 307-414) -/

def PidToEvent (pid : Nat) : Nat := (pid &&& 0xFFFF) ||| 0x10000
def EventToPid (event : Nat) : Nat := event &&& 0xFFFF

def is_cpu_description (K : LibConsts) (event : Nat) : Bool :=
  if event = K.KUTRACE_MBIT_SEC then true else false

def is_contextswitch (event : Nat) : Bool := decide (event = KUTRACE_USERPID)

def is_idle (event : Nat) : Bool := decide (event = 0x10000)

def is_usermode (event : Nat) : Bool := decide (event > 0xffff) && !is_idle event

/-- The mask `~0x0f0` at 64 bits. -/
def not00f0 : Nat := 0xFFFFFFFFFFFFFF0F

def is_timepair (K : LibConsts) (event : Nat) : Bool :=
  decide (event &&& not00f0 = K.KUTRACE_TIMEPAIR)

def is_namedef (K : LibConsts) (event : Nat) : Bool :=
  decide (0x010 ≤ event) && decide (event ≤ 0x1ff) && decide (event ≠ K.KUTRACE_PC_TEMP)

def is_pidnamedef (event : Nat) : Bool := decide (event &&& 0xf0f = 0x002)
def is_methodnamedef (event : Nat) : Bool := decide (event &&& 0xf0f = 0x003)
def is_locknamedef (event : Nat) : Bool := decide (event &&& 0xf0f = 0x007)

def is_kernelnamedef (K : LibConsts) (event : Nat) : Bool :=
  decide (event &&& 0xf0f = K.KUTRACE_KERNEL_VER)

def is_modelnamedef (K : LibConsts) (event : Nat) : Bool :=
  decide (event &&& 0xf0f = K.KUTRACE_MODEL_NAME)

def is_hostnamedef (K : LibConsts) (event : Nat) : Bool :=
  decide (event &&& 0xf0f = K.KUTRACE_HOST_NAME)

def is_queuenamedef (K : LibConsts) (event : Nat) : Bool :=
  decide (event &&& 0xf0f = K.KUTRACE_QUEUE_NAME)

def is_resnamedef (K : LibConsts) (event : Nat) : Bool :=
  decide (event &&& 0xf0f = K.KUTRACE_RES_NAME)

def is_special (K : LibConsts) (event : Nat) : Bool :=
  decide (0x0200 < event) && decide (event ≤ K.KUTRACE_MAX_SPECIAL)

def is_mark (event : Nat) : Bool := decide (0x020A ≤ event) && decide (event ≤ 0x020D)

def is_mark_abc (event : Nat) : Bool :=
  decide (event = 0x020A) || decide (event = 0x020B) || decide (event = 0x020C)

def is_pc_sample (K : LibConsts) (event : Nat) : Bool :=
  decide (event = K.KUTRACE_PC_U) || decide (event = K.KUTRACE_PC_K)
    || decide (event = K.KUTRACE_PC_TEMP)

def is_timer_irq (gTIMER_IRQ_EVENT event : Nat) : Bool := decide (event = gTIMER_IRQ_EVENT)

def has_rpcid (K : LibConsts) (event : Nat) : Bool :=
  decide (KUTRACE_RPCIDREQ ≤ event) && decide (event ≤ K.KUTRACE_RPCIDTXMSG)

def is_raw_pkt_hash (K : LibConsts) (event : Nat) : Bool :=
  decide (K.KUTRACE_RX_PKT ≤ event) && decide (event ≤ K.KUTRACE_TX_PKT)

def is_user_msg_hash (K : LibConsts) (event : Nat) : Bool :=
  decide (K.KUTRACE_RX_USER ≤ event) && decide (event ≤ K.KUTRACE_TX_USER)

def is_rpc_msg (event : Nat) : Bool :=
  decide (KUTRACE_RPCIDREQ ≤ event) && decide (event ≤ KUTRACE_RPCIDRESP)

def is_lock (K : LibConsts) (event : Nat) : Bool :=
  decide (K.KUTRACE_LOCKNOACQUIRE ≤ event) && decide (event ≤ K.KUTRACE_LOCKWAKEUP)

def is_bottom_half (event : Nat) : Bool :=
  decide (event &&& not0200 = KUTRACE_IRQ + KUTRACE_BOTTOM_HALF)

/-! ## Strings (lines 193-203, 471-549) -/

def kIdleName : CStr := lit "-idle-"

def soft_irq_name : List CStr :=
  [lit "hi", lit "timer", lit "tx", lit "rx", lit "block", lit "irq_p", lit "taskl",
   lit "sched", lit "hrtim", lit "rcu", lit "", lit "", lit "", lit "", lit "", lit "ast"]

def missingeventname : List CStr :=
  [lit "nam#", lit "nam#", lit "spl#", lit "spl#",
   lit "trp#", lit "irq#", lit "/trp#", lit "/irq#",
   lit "sys#", lit "sys#", lit "/sys#", lit "/sys#",
   lit "s32#", lit "s32#", lit "/s32#", lit "/s32#"]

/-- The characters printed by `%lld` for a non-negative value. -/
def decimal (n : Nat) : CStr := (Nat.toDigits 10 n).map Char.toNat

/-- The characters printed by `%0<width>llx`. -/
def hexLower (width n : Nat) : CStr :=
  let d := (Nat.toDigits 16 n).map Char.toNat
  List.replicate (width - d.length) 0x30 ++ d

/-- The characters printed by `%0<width>llX`. -/
def hexUpper (width n : Nat) : CStr :=
  let d := (Nat.toDigits 16 n).map (fun c => c.toUpper.toNat)
  List.replicate (width - d.length) 0x30 ++ d

/-- Whether `strstr(hay, needle)` finds an occurrence. -/
def strstrFound (hay needle : CStr) : Bool :=
  hay.tails.any (fun t => needle.isPrefixOf t)

/-- Whether `memcmp(buf, s, |s|) == 0`. -/
def memcmpEq (buf : List Nat) (s : CStr) : Bool := buf.take s.length == s

/-- The buffer after `strcpy(buf, s)`. -/
def strcpy (buf : List Nat) (s : CStr) : List Nat := s ++ 0 :: buf.drop (s.length + 1)

/-- The C string held in a buffer: its bytes up to the first NUL. -/
def cstrOf (buf : List Nat) : CStr := buf.takeWhile (fun b => b ≠ 0)

def AppendNum (name : CStr) (num : Nat) : CStr :=
  let num_temp := lit "." ++ decimal (num &&& 0xffff)
  if strstrFound name num_temp then name else name ++ num_temp

def AppendHexNum (name : CStr) (num : Nat) : CStr :=
  let num_temp := lit "." ++ hexUpper 4 (num &&& 0xffff)
  if strstrFound name num_temp then name else name ++ num_temp

/-- One character of `MakeSafeAscii`; `char` is signed, so bytes from 0x80 up compare below
0x20. -/
def safeAsciiChar (c : Nat) : Nat :=
  let c := if c ≥ 0x80 ∨ c ≤ 0x20 then 0x5f else c
  let c := if c = 0x22 then 0x5f else c
  let c := if c = 0x5c then 0x5f else c
  c &&& 0x7f

def MakeSafeAscii (s : CStr) : CStr := s.map safeAsciiChar

def Digit (c : Nat) : Bool := decide (0x30 ≤ c) && decide (c ≤ 0x39)

/-- One iteration of the loop of `ReduceSpaces` on the buffer `s` with write index `k`. -/
def reduceSpacesStep (acc : List Nat × Nat) (i : Nat) : List Nat × Nat :=
  let s := acc.1
  let k := acc.2
  if s.getD i 0 ≠ 0x20 then (s.set k (s.getD i 0), k + 1)
  else if Digit (s.getD (i - 1) 0) && Digit (s.getD (i + 1) 0) then (s.set k 0x5f, k + 1)
  else (s, k)

def ReduceSpaces (s : CStr) : CStr :=
  let len := s.length
  if len < 3 then s
  else
    let r := ((List.range (len - 2)).map (fun j => j + 1)).foldl reduceSpacesStep (s, 1)
    (r.1.set r.2 (r.1.getD (len - 1) 0)).take (r.2 + 1)

def RemapHighPid (fbpid : Nat) : Nat := if fbpid ≥ 100000 then fbpid - 100000 else fbpid

/-- A set of `uint64` values, by membership. -/
abbrev U64set := Nat → Bool

def U64set.insert (s : U64set) (k : Nat) : U64set := fun x => decide (x = k) || s x

/-- The new pid, name buffer and idle set left by `FixupIdlePid`, with `keep_idle` false. -/
def FixupIdlePid (pid : Nat) (pidname : List Nat) (idle_pids : U64set) :
    Nat × List Nat × U64set :=
  let r := if memcmpEq pidname (lit "idle:") then (0, idle_pids.insert pid)
           else (pid, idle_pids)
  let pidname := if r.1 = 0 then strcpy pidname kIdleName else pidname
  (r.1, pidname, r.2)

def RemapIdlePid (fbpid : Nat) (idle_pids : U64set) : Nat :=
  if idle_pids fbpid then 0 else fbpid

/-! ## Decoder state and the inner loop over entries (lines 1002-1446)

The debugging switches `verbose` and `hexevent` are taken to be off, as they are unless `-v`
or `-h` is given. `CyclesToNsec10`, a double-precision computation from the calibration
parameters, is a parameter of the model. -/

/-- Update of one slot of an array or one key of a map. -/
def upd {α : Type} (f : Nat → α) (k : Nat) (v : α) : Nat → α :=
  fun x => if x = k then v else f x

/-- The variables of `main` that live across entries, and the output written so far. -/
structure State where
  time : TimeState
  current_pid : Nat → Nat
  current_rpc : Nat → Nat
  prior_timer_irq_nsec10 : Nat → Nat
  names : Nat → Option CStr
  idle_pids : U64set
  unique_pids : U64set
  gTIMER_IRQ_EVENT : Nat
  gSCHED_EVENT : Nat
  is_low_res_ts : Bool
  event_count : Nat
  lo_timestamp : Nat
  hi_timestamp : Nat
  ctx_switches : Nat
  total_marks : Nat
  events_by_type : Nat → Nat
  out : List Line

/-- What one pass over a block is given: the block, its IPC bytes and per-block values. -/
structure Env where
  K : LibConsts
  CyclesToNsec10 : Nat → Nat
  traceblock : Nat → Nat
  ipcblock : Nat → Nat
  current_cpu : Nat
  keep_just_names : Bool

/-- How the body of the inner loop ends: `continue` (or falling off the end) with the current
value of `i`, or `break`. -/
inductive Ctl where
  | next (i : Nat)
  | brk
  deriving DecidableEq

/-- The value of `names[key]` for a key that may be absent. -/
def namesAt (names : Nat → Option CStr) (key : Nat) : CStr := (names key).getD []

/-- The map after evaluating `names[key]`: an absent key is inserted with the empty string. -/
def namesTouch (names : Nat → Option CStr) (key : Nat) : Nat → Option CStr :=
  if (names key).isSome then names else upd names key (some [])

/-- The eight bytes of a word in memory order (little-endian). -/
def wordBytes (w : Nat) : List Nat := (List.range 8).map (fun k => (w >>> (8 * k)) &&& 0xff)

/-- Lines 1182-1183: the 64-byte `tempstring` after `memset` and `memcpy`. -/
def tempstringOf (traceblock : Nat → Nat) (i len : Nat) : List Nat :=
  let bytes := (List.range (len - 1)).flatMap (fun k => wordBytes (traceblock (i + 1 + k)))
  bytes ++ List.replicate (64 - bytes.length) 0

/-- Lines 1155-1175: the name-table key of a name definition. -/
def nameinsertOf (K : LibConsts) (n arg : Nat) : Nat :=
  if is_pidnamedef n then PidToEvent arg
  else if is_locknamedef n then arg ||| 0x20000
  else if is_methodnamedef n then (arg &&& 0xffff) ||| 0x30000
  else if is_kernelnamedef K n then arg ||| 0x40000
  else if is_modelnamedef K n then arg ||| 0x50000
  else if is_hostnamedef K n then arg ||| 0x60000
  else if is_queuenamedef K n then arg ||| 0x70000
  else if is_resnamedef K n then arg ||| 0x80000
  else ((n &&& 0x00f) <<< 8) ||| arg

/-- Lines 1148-1218: a name definition. -/
def processNameDef (E : Env) (i : Nat) (f : Fields) (nsec10 : Nat) (s : State) :
    State × Ctl :=
  let n := f.n
  let nameinsert := nameinsertOf E.K n f.arg
  let len := (n >>> 4) &&& 0x00f
  if len < 1 ∨ 8 < len then (s, Ctl.next i)
  else if !is_timepair E.K n then
    let tempstring := tempstringOf E.traceblock i len
    let fx := if is_pidnamedef n then FixupIdlePid f.arg tempstring s.idle_pids
              else (f.arg, tempstring, s.idle_pids)
    let arg := fx.1
    let tempstring := fx.2.1
    let nameinsert := if is_pidnamedef n then PidToEvent arg else nameinsert
    let s := { s with idle_pids := fx.2.2 }
    let name := cstrOf tempstring
    let s := if is_modelnamedef E.K n
             then { s with is_low_res_ts := !(lit "u74-mc").isPrefixOf name }
             else s
    let name := ReduceSpaces name
    let name := MakeSafeAscii name
    let s := if name ≠ []
             then { s with names := upd s.names nameinsert (some name),
                           out := s.out ++ OutputName nsec10 n f.argall name }
             else s
    let s := if memcmpEq tempstring (lit "local_timer")
             then { s with gTIMER_IRQ_EVENT := KUTRACE_IRQ ||| (arg &&& 0xffff) }
             else s
    let s := if memcmpEq tempstring (lit "-sched-")
             then { s with gSCHED_EVENT :=
                      KUTRACE_SYSCALL64 ||| (arg &&& u64 (0xffff + ((arg &&& 0xffff) &&& 0x200))) }
             else s
    (s, Ctl.next (i + (len - 1)))
  else (s, Ctl.next (i + (len - 1)))

/-- The local variables of the loop body that the later steps of an event read and write. -/
structure Locals where
  i : Nat
  n : Nat
  event : Nat
  arg : Nat
  retval : Nat
  ipc : Nat
  nsec10 : Nat
  duration : Nat
  name : CStr

/-- Lines 1233-1239: a context switch remaps its pid and becomes the CPU's current pid. -/
def stepContextSwitch (E : Env) (v : Locals) (s : State) : Locals × State :=
  if is_contextswitch v.n then
    let arg := RemapIdlePid v.arg s.idle_pids
    ({ v with arg := arg },
     { s with unique_pids := s.unique_pids.insert arg,
              ctx_switches := if s.current_pid E.current_cpu ≠ arg then u64 (s.ctx_switches + 1)
                              else s.ctx_switches,
              current_pid := upd s.current_pid E.current_cpu arg })
  else (v, s)

/-- Lines 1243-1263: the name looked up for the event. -/
def stepLookupName (v : Locals) (s : State) : Locals :=
  let name : CStr := []
  let name :=
    if is_return v.n then
      let call_event := v.event &&& not0200
      if (s.names call_event).isSome then name ++ (lit "/" ++ namesAt s.names call_event)
      else name
    else
      if (s.names v.event).isSome then name ++ namesAt s.names v.event else name
  let name :=
    if is_contextswitch v.n then
      let target := PidToEvent v.arg
      let name := if (s.names target).isSome then name ++ namesAt s.names target else name
      AppendNum name v.arg
    else name
  let name :=
    if is_usermode v.event then
      let name := if (s.names v.event).isSome then name ++ namesAt s.names v.event else name
      AppendNum name (EventToPid v.event)
    else name
  { v with name := name }

/-- Lines 1268-1278: duration of an optimized call; other events lose the retval. -/
def stepOptCall (E : Env) (delta_t tfull : Nat) (v : Locals) (s : State) : Locals :=
  if is_opt_call v.n delta_t then
    let duration := u64 (E.CyclesToNsec10 (u64 (tfull + delta_t)) + 2 ^ 64 - v.nsec10)
    let duration := if s.is_low_res_ts && decide (delta_t = 1) then kDefaultLowResNsec10
                    else duration
    let duration := if duration = 0 then 1 else duration
    { v with duration := duration }
  else { v with retval := 0 }

/-- Lines 1281-1283: remember the start of a timer interrupt. -/
def stepTimerIrq (E : Env) (v : Locals) (s : State) : State :=
  if is_timer_irq s.gTIMER_IRQ_EVENT v.n
  then { s with prior_timer_irq_nsec10 := upd s.prior_timer_irq_nsec10 E.current_cpu v.nsec10 }
  else s

/-- Lines 1307-1337: a PC sample consumes a second word. -/
def stepPcSample (E : Env) (v : Locals) (s : State) : Locals × State :=
  if is_pc_sample E.K v.n then
    let freq_mhz := v.arg
    let i := v.i + 1
    let pc_sample := E.traceblock i
    let n := if pc_sample &&& 0x8000000000000000 ≠ 0 then E.K.KUTRACE_PC_K
             else E.K.KUTRACE_PC_U
    let nsec10 := if s.prior_timer_irq_nsec10 E.current_cpu ≠ 0
                  then u64 (s.prior_timer_irq_nsec10 E.current_cpu + 2 ^ 64 - 1)
                  else v.nsec10
    let arg := (pc_sample >>> 6) &&& 0xFFFF
    let name := lit "PC=" ++ hexLower 12 pc_sample
    let s := if 0 < freq_mhz
             then { s with out := s.out ++ OutputEvent nsec10 1 KUTRACE_PSTATE E.current_cpu
                                    (s.current_pid E.current_cpu) (s.current_rpc E.current_cpu)
                                    freq_mhz 0 0 (lit "-freq-"),
                           event_count := u64 (s.event_count + 1) }
             else s
    ({ v with i := i, n := n, event := n, nsec10 := nsec10, arg := arg, retval := 0, ipc := 0,
              name := name }, s)
  else (v, s)

/-- Lines 1340-1355: special events keep a name from the table of special names. -/
def stepSpecial (E : Env) (argall : Nat) (v : Locals) (s : State) : Locals × State :=
  if is_special E.K v.n then
    let name := v.name ++ E.K.kSpecialName (v.n &&& 0x001f)
    let r : CStr × (Nat → Option CStr) :=
      if has_rpcid E.K v.n then
        (AppendNum (namesAt s.names (v.arg ||| 0x30000)) v.arg,
         namesTouch s.names (v.arg ||| 0x30000))
      else if is_lock E.K v.n then
        (E.K.kSpecialName (v.n &&& 0x001f) ++ namesAt s.names (v.arg ||| 0x20000),
         namesTouch s.names (v.arg ||| 0x20000))
      else if is_raw_pkt_hash E.K v.n || is_user_msg_hash E.K v.n then
        let hash16 := ((argall >>> 16) ^^^ argall) &&& 0xffff
        (AppendHexNum name hash16, s.names)
      else if v.n = KUTRACE_RUNNABLE then (AppendNum name v.arg, s.names)
      else (name, s.names)
    ({ v with name := r.1, duration := if v.duration = 0 then 1 else v.duration },
     { s with names := r.2 })
  else (v, s)

/-- Lines 1358-1428: returns, bottom halves, 32-bit arguments, marks and missing names. -/
def stepFinish (E : Env) (argall : Nat) (v : Locals) : Locals :=
  let v := if is_return v.n then { v with retval := v.arg, arg := 0 } else v
  let v := if is_bottom_half v.n
           then { v with name := v.name ++ lit ":" ++ soft_irq_name.getD (v.arg &&& 0x000f) [] }
           else v
  let v := if is_raw_pkt_hash E.K v.n || is_user_msg_hash E.K v.n
           then { v with arg := argall } else v
  let v := if is_rpc_msg v.n && decide (v.arg ≠ 0) then { v with arg := argall } else v
  let v := if is_mark_abc v.n
           then { v with arg := argall,
                         name := v.name ++ lit "=" ++ E.K.Base40ToChar argall }
           else v
  if v.name = [] ∧ v.event ≤ 0xFFF then
    let nummask := if 0x800 ≤ v.event then 0x1FF else 0x0FF
    let temp := missingeventname.getD (v.event >>> 8) [] ++ decimal (v.event &&& nummask)
    let temp := if v.event = 0x9ff then lit "-sched-" else temp
    let temp := if v.event = 0xdff then lit "-sched-" else temp
    let temp := if v.event = 0xbff then lit "/-sched-" else temp
    let temp := if v.event = 0xfff then lit "/-sched-" else temp
    { v with name := temp }
  else v

/-- Lines 1220-1444: an entry that is neither a TSDELTA nor a name definition. -/
def processEvent (E : Env) (i : Nat) (f : Fields) (retval ipc tfull nsec10 : Nat)
    (deferred_rpcid0 : Bool) (s : State) : State × Ctl :=
  let s := if is_cpu_description E.K f.n
           then { s with out := s.out ++ OutputEvent nsec10 1 f.n E.current_cpu 0 0 f.argall
                                  0 0 [] }
           else s
  if E.keep_just_names then (s, Ctl.next i)
  else
    let s := { s with lo_timestamp := if s.lo_timestamp > nsec10 then nsec10
                                      else s.lo_timestamp }
    let s := { s with hi_timestamp := if s.hi_timestamp < nsec10 then nsec10
                                      else s.hi_timestamp }
    let v : Locals := { i := i, n := f.n, event := f.n, arg := f.arg, retval := retval,
                        ipc := ipc, nsec10 := nsec10, duration := 0, name := [] }
    let r := stepContextSwitch E v s
    let v := stepLookupName r.1 r.2
    let s := r.2
    let v := stepOptCall E f.delta_t tfull v s
    let s := stepTimerIrq E v s
    let r := stepPcSample E v s
    let r := stepSpecial E f.argall r.1 r.2
    let v := stepFinish E f.argall r.1
    let s := r.2
    let s := { s with out := s.out ++ OutputEvent v.nsec10 v.duration v.event E.current_cpu
                               (s.current_pid E.current_cpu) (s.current_rpc E.current_cpu)
                               v.arg v.retval v.ipc v.name,
                      event_count := u64 (s.event_count + 1) }
    let s := if deferred_rpcid0 then { s with current_rpc := upd s.current_rpc E.current_cpu 0 }
             else s
    (s, Ctl.next v.i)

/-- Lines 1003-1145: one pass through the body of the inner loop, at index `i`. -/
def processEntry (E : Env) (i : Nat) (s : State) : State × Ctl :=
  let ipc := E.ipcblock i
  if E.traceblock i = 0 then (s, Ctl.next i)
  else if E.traceblock i = 0xffffffffffffffff then (s, Ctl.brk)
  else
    let f := decodeFields (E.traceblock i)
    if f.t = 0xFFFFF ∧ f.n = 0xFFF then (s, Ctl.next i)
    else
      let retval := signExtendRetval f.retval
      let s := if is_mark f.n then { s with total_marks := u64 (s.total_marks + 1) }
               else { s with
                 events_by_type :=
                   upd s.events_by_type (f.n >>> 8) (u64 (s.events_by_type (f.n >>> 8) + 1)) }
      if f.n = E.K.KUTRACE_TSDELTA then
        ({ s with time := tsdeltaUpdate s.time f.argall }, Ctl.next i)
      else
        let tu := timeUpdate s.time f.t
        let s := { s with time := tu.1 }
        let tfull := tu.2
        let nsec10 := u64 (E.CyclesToNsec10 tfull)
        let rp : State × Bool :=
          if has_rpcid E.K f.n then
            if f.arg ≠ 0 then ({ s with current_rpc := upd s.current_rpc E.current_cpu f.arg }, false)
            else (s, true)
          else (s, false)
        if is_namedef E.K f.n then processNameDef E i f nsec10 rp.1
        else processEvent E i f retval ipc tfull nsec10 rp.2 rp.1

/-- The inner loop `for (i = first; i < kTraceBufSize; ++i)`, with `fuel` bounding the number
of passes; `kTraceBufSize - first` passes always suffice. -/
def innerLoop (E : Env) : Nat → Nat → State → State
  | 0, _, s => s
  | fuel + 1, i, s =>
    if i < kTraceBufSize then
      match processEntry E i s with
      | (s, Ctl.next j) => innerLoop E fuel (j + 1) s
      | (s, Ctl.brk) => s
    else s

/-! ## Sample inputs for evaluating the decoder -/

/-- A sample assignment of the library constants; the tables are left trivial. -/
def sampleConsts : LibConsts where
  KUTRACE_TSDELTA := 0x21D
  KUTRACE_MBIT_SEC := 0x218
  KUTRACE_PC_TEMP := 0x101
  KUTRACE_PC_U := 0x280
  KUTRACE_PC_K := 0x281
  KUTRACE_MAX_SPECIAL := 0x27F
  KUTRACE_TIMEPAIR := 0x006
  KUTRACE_KERNEL_VER := 0x102
  KUTRACE_MODEL_NAME := 0x103
  KUTRACE_HOST_NAME := 0x104
  KUTRACE_QUEUE_NAME := 0x105
  KUTRACE_RES_NAME := 0x106
  KUTRACE_RPCIDTXMSG := 0x205
  KUTRACE_RX_PKT := 0x214
  KUTRACE_TX_PKT := 0x215
  KUTRACE_RX_USER := 0x216
  KUTRACE_TX_USER := 0x217
  KUTRACE_LOCKNOACQUIRE := 0x210
  KUTRACE_LOCKWAKEUP := 0x212
  kSpecialName := fun _ => lit "special"
  Base40ToChar := fun _ => []

/-- A block on CPU 3 all of whose words are `w`, with one count per 10 ns. -/
def sampleEnv (w : Nat) : Env where
  K := sampleConsts
  CyclesToNsec10 := fun cycles => cycles
  traceblock := fun _ => w
  ipcblock := fun _ => 0
  current_cpu := 3
  keep_just_names := false

/-- The state of `main` before the first block (lines 716-766), at reconstructed cycle
`prepend | prior_t`. -/
def initialState (time : TimeState) : State where
  time := time
  current_pid := fun _ => 0
  current_rpc := fun _ => 0
  prior_timer_irq_nsec10 := fun _ => 0
  names := upd (fun _ => none) 0x10000 (some kIdleName)
  idle_pids := fun _ => false
  unique_pids := fun _ => false
  gTIMER_IRQ_EVENT := 0x05ec
  gSCHED_EVENT := 0x0dff
  is_low_res_ts := false
  event_count := 0
  lo_timestamp := 0x7FFFFFFFFFFFFFFF
  hi_timestamp := 0
  ctx_switches := 0
  total_marks := 0
  events_by_type := fun _ => 0
  out := []

/-! ## The loop body in stages

The steps of `processEntry` and `processEvent` again, cut at the points where statements
about a single entry need them. -/

/-- Lines 1044-1145 for an entry that is no TSDELTA: the state after the statistics, the
timestamp update and the RPC-id assignment, and the flag `deferred_rpcid0`. -/
def entryStart (E : Env) (f : Fields) (s : State) : State × Bool :=
  let s1 := if is_mark f.n then { s with total_marks := u64 (s.total_marks + 1) }
            else { s with
              events_by_type :=
                upd s.events_by_type (f.n >>> 8) (u64 (s.events_by_type (f.n >>> 8) + 1)) }
  let s2 := { s1 with time := (timeUpdate s1.time f.t).1 }
  if has_rpcid E.K f.n then
    if f.arg ≠ 0 then ({ s2 with current_rpc := upd s2.current_rpc E.current_cpu f.arg }, false)
    else (s2, true)
  else (s2, false)

/-- Line 1129: the reconstructed cycle count `tfull` of an entry. -/
def entryTfull (f : Fields) (s : State) : Nat := (timeUpdate s.time f.t).2

/-- Line 1136: the time `nsec10` of an entry. -/
def entryNsec10 (E : Env) (f : Fields) (s : State) : Nat :=
  u64 (E.CyclesToNsec10 (entryTfull f s))

/-- Lines 1220-1223: the line passed on for a CPU description. -/
def cpuDescLines (E : Env) (f : Fields) (nsec10 : Nat) : List Line :=
  if is_cpu_description E.K f.n
  then OutputEvent nsec10 1 f.n E.current_cpu 0 0 f.argall 0 0 []
  else []

/-- Lines 1229-1428: the locals and the state just before the final `OutputEvent`. -/
def eventLocals (E : Env) (i : Nat) (f : Fields) (retval ipc tfull nsec10 : Nat)
    (s : State) : Locals × State :=
  let s := { s with lo_timestamp := if s.lo_timestamp > nsec10 then nsec10
                                    else s.lo_timestamp }
  let s := { s with hi_timestamp := if s.hi_timestamp < nsec10 then nsec10
                                    else s.hi_timestamp }
  let v : Locals := { i := i, n := f.n, event := f.n, arg := f.arg, retval := retval,
                      ipc := ipc, nsec10 := nsec10, duration := 0, name := [] }
  let r := stepContextSwitch E v s
  let v := stepLookupName r.1 r.2
  let s := r.2
  let v := stepOptCall E f.delta_t tfull v s
  let s := stepTimerIrq E v s
  let r := stepPcSample E v s
  let r := stepSpecial E f.argall r.1 r.2
  (stepFinish E f.argall r.1, r.2)

/-- Lines 1433-1444: the final `OutputEvent`, the event count and the deferred RPC-id 0. -/
def finishEvent (E : Env) (deferred_rpcid0 : Bool) (r : Locals × State) : State × Ctl :=
  let v := r.1
  let s := r.2
  let s := { s with out := s.out ++ OutputEvent v.nsec10 v.duration v.event E.current_cpu
                             (s.current_pid E.current_cpu) (s.current_rpc E.current_cpu)
                             v.arg v.retval v.ipc v.name,
                    event_count := u64 (s.event_count + 1) }
  let s := if deferred_rpcid0 then { s with current_rpc := upd s.current_rpc E.current_cpu 0 }
           else s
  (s, Ctl.next v.i)

/-- An entry word that reaches the event classification: not a NOP, not the all-ones
terminator, not a word with timestamp 0xFFFFF and event 0xFFF. -/
def liveWord (w : Nat) : Prop :=
  w ≠ 0 ∧ w ≠ 0xffffffffffffffff ∧ ¬ ((decodeFields w).t = 0xFFFFF ∧ (decodeFields w).n = 0xFFF)

instance liveWord.decidable (w : Nat) : Decidable (liveWord w) :=
  inferInstanceAs (Decidable (w ≠ 0 ∧ w ≠ 0xffffffffffffffff ∧
    ¬ ((decodeFields w).t = 0xFFFFF ∧ (decodeFields w).n = 0xFFF)))

/-- Line 143 of `kutrace.h` (and line 43 of `rawtoevent.cc`): `kutrace_map_nr(nr)` applied to
a value, `nr + (nr & 0x200)`. -/
def kutrace_map_nr (nr : Nat) : Nat := nr + (nr &&& 0x200)

/-- Modelled from the spec: where the codes of `kutrace_lib.h`, which is not among the sources,
lie among the 12-bit event codes. The RPC-id events end at 0x205; lock, packet-hash,
CPU-description and TSDELTA codes lie above the marks (0x20A-0x20D) and up to
`KUTRACE_MAX_SPECIAL`; `KUTRACE_PC_U` and `KUTRACE_PC_K` lie between `KUTRACE_MAX_SPECIAL`
and `KUTRACE_TRAP`; `KUTRACE_PC_TEMP` lies among the name definitions. -/
def LibConsts.Sane (K : LibConsts) : Prop :=
  K.KUTRACE_RPCIDTXMSG = 0x205 ∧
  0x20D < K.KUTRACE_LOCKNOACQUIRE ∧ K.KUTRACE_LOCKWAKEUP ≤ K.KUTRACE_MAX_SPECIAL ∧
  0x20D < K.KUTRACE_RX_PKT ∧ K.KUTRACE_TX_PKT ≤ K.KUTRACE_MAX_SPECIAL ∧
  0x20D < K.KUTRACE_RX_USER ∧ K.KUTRACE_TX_USER ≤ K.KUTRACE_MAX_SPECIAL ∧
  0x20D < K.KUTRACE_MBIT_SEC ∧ K.KUTRACE_MBIT_SEC ≤ K.KUTRACE_MAX_SPECIAL ∧
  0x20D < K.KUTRACE_TSDELTA ∧ K.KUTRACE_TSDELTA ≤ K.KUTRACE_MAX_SPECIAL ∧
  K.KUTRACE_MAX_SPECIAL < K.KUTRACE_PC_U ∧ K.KUTRACE_PC_U < 0x400 ∧
  K.KUTRACE_MAX_SPECIAL < K.KUTRACE_PC_K ∧ K.KUTRACE_PC_K < 0x400 ∧
  0x010 ≤ K.KUTRACE_PC_TEMP ∧ K.KUTRACE_PC_TEMP ≤ 0x1ff

instance LibConsts.Sane.decidable (K : LibConsts) : Decidable K.Sane := by
  unfold LibConsts.Sane; infer_instance

/-- Lines 1358-1399 of the loop body: the part of `stepFinish` before the missing-name
fallback. -/
def enrichLocals (E : Env) (argall : Nat) (v : Locals) : Locals :=
  let v := if is_return v.n then { v with retval := v.arg, arg := 0 } else v
  let v := if is_bottom_half v.n
           then { v with name := v.name ++ lit ":" ++ soft_irq_name.getD (v.arg &&& 0x000f) [] }
           else v
  let v := if is_raw_pkt_hash E.K v.n || is_user_msg_hash E.K v.n
           then { v with arg := argall } else v
  let v := if is_rpc_msg v.n && decide (v.arg ≠ 0) then { v with arg := argall } else v
  if is_mark_abc v.n
  then { v with arg := argall, name := v.name ++ lit "=" ++ E.K.Base40ToChar argall }
  else v

/-- Lines 1417-1427: the name made up for an event without one. -/
def missingName (event : Nat) : CStr :=
  let nummask := if 0x800 ≤ event then 0x1FF else 0x0FF
  let temp := missingeventname.getD (event >>> 8) [] ++ decimal (event &&& nummask)
  let temp := if event = 0x9ff then lit "-sched-" else temp
  let temp := if event = 0xdff then lit "-sched-" else temp
  let temp := if event = 0xbff then lit "/-sched-" else temp
  let temp := if event = 0xfff then lit "/-sched-" else temp
  temp

/-- Lines 1229-1355: the locals and the state after the special-event step, before
`stepFinish`. -/
def eventSpecial (E : Env) (i : Nat) (f : Fields) (retval ipc tfull nsec10 : Nat)
    (s : State) : Locals × State :=
  let s := { s with lo_timestamp := if s.lo_timestamp > nsec10 then nsec10
                                    else s.lo_timestamp }
  let s := { s with hi_timestamp := if s.hi_timestamp < nsec10 then nsec10
                                    else s.hi_timestamp }
  let v : Locals := { i := i, n := f.n, event := f.n, arg := f.arg, retval := retval,
                      ipc := ipc, nsec10 := nsec10, duration := 0, name := [] }
  let r := stepContextSwitch E v s
  let v := stepLookupName r.1 r.2
  let s := r.2
  let v := stepOptCall E f.delta_t tfull v s
  let s := stepTimerIrq E v s
  let r := stepPcSample E v s
  stepSpecial E f.argall r.1 r.2

/-- Lines 1271-1275: the duration of an optimized call. -/
def optDuration (E : Env) (delta_t tfull nsec10 : Nat) (is_low_res_ts : Bool) : Nat :=
  let duration := u64 (E.CyclesToNsec10 (u64 (tfull + delta_t)) + 2 ^ 64 - nsec10)
  let duration := if is_low_res_ts && decide (delta_t = 1) then kDefaultLowResNsec10
                  else duration
  if duration = 0 then 1 else duration

/-- Line 1313: the event code of a PC sample with program counter `pc_sample`. -/
def pcCode (K : LibConsts) (pc_sample : Nat) : Nat :=
  if pc_sample &&& 0x8000000000000000 ≠ 0 then K.KUTRACE_PC_K else K.KUTRACE_PC_U

/-- Lines 1317-1319: the time of a PC sample, moved to just before the timer interrupt. -/
def pcNsec10 (prior_timer_irq_nsec10 nsec10 : Nat) : Nat :=
  if prior_timer_irq_nsec10 ≠ 0 then u64 (prior_timer_irq_nsec10 + 2 ^ 64 - 1) else nsec10

/-- Lines 1342-1353: the name of a special event. -/
def specialName (E : Env) (argall : Nat) (v : Locals) (names : Nat → Option CStr) : CStr :=
  if has_rpcid E.K v.n then AppendNum (namesAt names (v.arg ||| 0x30000)) v.arg
  else if is_lock E.K v.n then
    E.K.kSpecialName (v.n &&& 0x001f) ++ namesAt names (v.arg ||| 0x20000)
  else if is_raw_pkt_hash E.K v.n || is_user_msg_hash E.K v.n then
    AppendHexNum (v.name ++ E.K.kSpecialName (v.n &&& 0x001f))
      (((argall >>> 16) ^^^ argall) &&& 0xffff)
  else if v.n = KUTRACE_RUNNABLE then
    AppendNum (v.name ++ E.K.kSpecialName (v.n &&& 0x001f)) v.arg
  else v.name ++ E.K.kSpecialName (v.n &&& 0x001f)

/-- Lines 1243-1263: the name `stepLookupName` finds for event `n` with argument `arg`. -/
def lookupName (n event arg : Nat) (names : Nat → Option CStr) : CStr :=
  let name : CStr := []
  let name :=
    if is_return n then
      let call_event := event &&& not0200
      if (names call_event).isSome then name ++ (lit "/" ++ namesAt names call_event)
      else name
    else
      if (names event).isSome then name ++ namesAt names event else name
  let name :=
    if is_contextswitch n then
      let target := PidToEvent arg
      let name := if (names target).isSome then name ++ namesAt names target else name
      AppendNum name arg
    else name
  let name :=
    if is_usermode event then
      let name := if (names event).isSome then name ++ namesAt names event else name
      AppendNum name (EventToPid event)
    else name
  name

/-- The locals after the PC-sample step (line 1337), written out field by field from the
fields `f` of the entry and the state `s` with which lines 1229 onwards start. -/
def localsAfterPc (E : Env) (i : Nat) (f : Fields) (retval ipc tfull nsec10 : Nat)
    (s : State) : Locals :=
  let arg1 := if is_contextswitch f.n then RemapIdlePid f.arg s.idle_pids else f.arg
  let prior1 := if is_timer_irq s.gTIMER_IRQ_EVENT f.n then nsec10
                else s.prior_timer_irq_nsec10 E.current_cpu
  { i := if is_pc_sample E.K f.n then i + 1 else i,
    n := if is_pc_sample E.K f.n then pcCode E.K (E.traceblock (i + 1)) else f.n,
    event := if is_pc_sample E.K f.n then pcCode E.K (E.traceblock (i + 1)) else f.n,
    arg := if is_pc_sample E.K f.n then (E.traceblock (i + 1) >>> 6) &&& 0xFFFF else arg1,
    retval := if is_pc_sample E.K f.n then 0
              else if is_opt_call f.n f.delta_t then retval else 0,
    ipc := if is_pc_sample E.K f.n then 0 else ipc,
    nsec10 := if is_pc_sample E.K f.n then pcNsec10 prior1 nsec10 else nsec10,
    duration := if is_opt_call f.n f.delta_t
                then optDuration E f.delta_t tfull nsec10 s.is_low_res_ts else 0,
    name := if is_pc_sample E.K f.n then lit "PC=" ++ hexLower 12 (E.traceblock (i + 1))
            else lookupName f.n f.n arg1 s.names }

/-- The locals after the special-event step (line 1355), field by field. -/
def localsAfterSpecial (E : Env) (i : Nat) (f : Fields) (retval ipc tfull nsec10 : Nat)
    (s : State) : Locals :=
  let v := localsAfterPc E i f retval ipc tfull nsec10 s
  { v with
    name := if is_special E.K v.n then specialName E f.argall v s.names else v.name,
    duration := if is_special E.K v.n then (if v.duration = 0 then 1 else v.duration)
                else v.duration }

/-- The frequency line a PC sample writes first (lines 1331-1336), from the state `s` with
which lines 1229 onwards start. -/
def pcFreqLines (E : Env) (f : Fields) (nsec10 : Nat) (s : State) : List Line :=
  let arg1 := if is_contextswitch f.n then RemapIdlePid f.arg s.idle_pids else f.arg
  let prior1 := if is_timer_irq s.gTIMER_IRQ_EVENT f.n then nsec10
                else s.prior_timer_irq_nsec10 E.current_cpu
  let pid1 := if is_contextswitch f.n then arg1 else s.current_pid E.current_cpu
  if is_pc_sample E.K f.n = true ∧ 0 < arg1
  then OutputEvent (pcNsec10 prior1 nsec10) 1 KUTRACE_PSTATE E.current_cpu pid1
        (s.current_rpc E.current_cpu) arg1 0 0 (lit "-freq-")
  else []

/-- The locals handed to the final `OutputEvent` (line 1433) for the entry at index `i`, outside
keep-just-names mode. -/
def finalLocals (E : Env) (i : Nat) (s : State) : Locals :=
  let f := decodeFields (E.traceblock i)
  stepFinish E f.argall
    (localsAfterSpecial E i f (signExtendRetval f.retval) (E.ipcblock i) (entryTfull f s)
      (entryNsec10 E f s) s)

/-- The initial state at cycle `0x300000 | 0x12345` with the name "read" recorded for the
system call 5 (event 0x805). -/
def namedState : State :=
  { initialState ⟨0x300000, 0x12345⟩ with
    names := upd (initialState ⟨0x300000, 0x12345⟩).names 0x805 (some (lit "read")) }

/-- The sample block in keep-just-names mode (the very first block of a wraparound trace). -/
def namesOnlyEnv (w : Nat) : Env :=
  { sampleEnv w with keep_just_names := true }

/-- Lines 1182-1190: the argument, the buffer `tempstring` and `idle_pids` of a name
definition after the idle fixup, which only a PID name undergoes. -/
def nameDefFixup (E : Env) (i : Nat) (f : Fields) (s : State) : Nat × List Nat × U64set :=
  if is_pidnamedef f.n
  then FixupIdlePid f.arg (tempstringOf E.traceblock i ((f.n >>> 4) &&& 0x00f)) s.idle_pids
  else (f.arg, tempstringOf E.traceblock i ((f.n >>> 4) &&& 0x00f), s.idle_pids)

/-- Lines 1193-1198: the name a name definition records. -/
def nameDefName (E : Env) (i : Nat) (f : Fields) (s : State) : CStr :=
  MakeSafeAscii (ReduceSpaces (cstrOf (nameDefFixup E i f s).2.1))

/-- Lines 1155-1175, 1189: the name-table key of a name definition after the idle fixup. -/
def nameDefKey (E : Env) (i : Nat) (f : Fields) (s : State) : Nat :=
  if is_pidnamedef f.n then PidToEvent (nameDefFixup E i f s).1
  else nameinsertOf E.K f.n f.arg

/-- The sample block with the word `w` at index 12 and the word `w2` everywhere else. -/
def pairEnv (w w2 : Nat) : Env :=
  { sampleEnv w2 with traceblock := fun j => if j = 12 then w else w2 }

/-- The block of `pairEnv` in keep-just-names mode. -/
def namesOnlyPairEnv (w w2 : Nat) : Env :=
  { pairEnv w w2 with keep_just_names := true }

/-- The sample block holding `w`, `w1`, `w2` at the indices 12, 13, 14 and NOPs elsewhere. -/
def nameEnv (w w1 w2 : Nat) : Env :=
  { sampleEnv 0 with
    traceblock := fun j => if j = 12 then w else if j = 13 then w1 else if j = 14 then w2 else 0 }

/-! ## The outer loop over blocks (lines 792-1452)

A trace file is taken as the list of its blocks, each with the IPC bytes that follow it in
the file when its flags say so. `handle_very_first_block` (lines 572-709) decides by
double-precision arithmetic on the words 2 to 5 whether the calibration of the trace is
usable: if not it ends the run by `exit(0)`, otherwise it sets the conversion parameters and
returns `false`. Its outcome is the parameter `calibrate` of the model, `none` standing for
the exit and `some c` for the return with `CyclesToNsec10` fixed to `c`. The comment lines
written for each block are not part of the modelled output. -/

def IPC_Flag : Nat := 0x80
def WRAP_Flag : Nat := 0x40
def VERSION_MASK : Nat := 0x0F

/-- The bound `1000000LL * 86400 * 365 * 100` on `gettimeofday` values. -/
def usec_per_100_years : Nat := 1000000 * 86400 * 365 * 100

def TracefileVersion (flags : Nat) : Nat := flags &&& VERSION_MASK

def HasIPC (flags : Nat) : Bool := decide (flags &&& IPC_Flag ≠ 0)

def HasWraparound (flags : Nat) : Bool := decide (flags &&& WRAP_Flag ≠ 0)

/-- One block of the file: its 8192 words and the IPC bytes read after it. -/
structure Block where
  traceblock : Nat → Nat
  ipc : Nat → Nat

/-- The variables of `main` that live across blocks; `CyclesToNsec10` stands for the
conversion that `params` gives, which nothing sets before the very first block does. -/
structure RunState where
  st : State
  blocknumber : Nat
  first_flags : Nat
  all_flags : Nat
  at_first_cpu_block : Nat → Bool
  unique_cpus : U64set
  CyclesToNsec10 : Nat → Nat

/-- Lines 829-839: the sanity checks on the two header words of a block. -/
def headerFail (traceblock : Nat → Nat) : Bool :=
  let current_cpu := traceblock 0 >>> 56
  let gtod := traceblock 1 &&& 0x00ffffffffffffff
  let fail := false
  let fail := if kMAX_CPUS ≤ current_cpu then true else fail
  let fail := if usec_per_100_years ≤ gtod then true else fail
  fail

/-- Lines 913-990: the PID and name at the front of a block. Returns the state and the
array `at_first_cpu_block`. -/
def preamble (C : Nat → Nat) (traceblock : Nat → Nat) (first_real_entry current_cpu : Nat)
    (base_cycle : Nat) (keep_just_names : Bool) (at_first_cpu_block : Nat → Bool)
    (s : State) : State × (Nat → Bool) :=
  let pid := traceblock first_real_entry &&& 0x00000000ffffffff
  let freq_mhz := traceblock first_real_entry >>> 32
  let pid := RemapHighPid pid
  let pidname := wordBytes (traceblock (first_real_entry + 2)) ++
    wordBytes (traceblock (first_real_entry + 3)) ++ [0]
  let fx := FixupIdlePid pid pidname s.idle_pids
  let pid := fx.1
  let pidname := fx.2.1
  let s := { s with idle_pids := fx.2.2 }
  let nameinsert := PidToEvent pid
  let name := MakeSafeAscii (ReduceSpaces (cstrOf pidname))
  let s := { s with names := upd s.names nameinsert (some name) }
  let nsec10 := u64 (C base_cycle)
  let s := { s with out := s.out ++ OutputName nsec10 KUTRACE_PIDNAME pid name }
  let s := { s with
    unique_pids := s.unique_pids.insert pid,
    ctx_switches := if s.current_pid current_cpu ≠ pid then u64 (s.ctx_switches + 1)
                    else s.ctx_switches,
    current_pid := upd s.current_pid current_cpu pid }
  if !keep_just_names then
    let name := AppendNum name pid
    if at_first_cpu_block current_cpu then
      let s := { s with
        out := s.out ++ OutputEvent nsec10 1 KUTRACE_USERPID current_cpu pid 0 0 0 0 name }
      let s := if 0 < freq_mhz
               then { s with
                 out := s.out ++ OutputEvent nsec10 1 KUTRACE_PSTATE current_cpu pid 0
                          freq_mhz 0 0 (lit "-freq-") }
               else s
      (s, upd at_first_cpu_block current_cpu false)
    else (s, at_first_cpu_block)
  else (s, at_first_cpu_block)

/-- Lines 792-1451: one pass through the body of the outer loop; `none` when the run ends in
`handle_very_first_block`. -/
def processBlock (K : LibConsts) (calibrate : (Nat → Nat) → Option (Nat → Nat)) (b : Block)
    (r : RunState) : Option RunState :=
  let traceblock := b.traceblock
  let current_cpu := traceblock 0 >>> 56
  let base_cycle := traceblock 0 &&& 0x00ffffffffffffff
  let flags := (traceblock 1 >>> 56) % 256
  let fail := headerFail traceblock
  let all_flags := r.all_flags ||| flags
  let ipcblock := if HasIPC flags then b.ipc else fun _ => 0
  let very_first_block := decide (r.blocknumber = 0)
  let first_real_entry := if very_first_block then 8 else 2
  let first_flags := if very_first_block then flags else r.first_flags
  match (if very_first_block then calibrate traceblock else some r.CyclesToNsec10) with
  | none => none
  | some C =>
    if fail then
      some { r with all_flags := all_flags, first_flags := first_flags, CyclesToNsec10 := C,
                    blocknumber := r.blocknumber + 1 }
    else
      let first_timestamp := traceblock first_real_entry >>> 44
      let keep_just_names := HasWraparound first_flags && very_first_block
      let p := if TracefileVersion first_flags ≥ 3
               then preamble C traceblock first_real_entry current_cpu base_cycle
                      keep_just_names r.at_first_cpu_block r.st
               else (r.st, r.at_first_cpu_block)
      let first_real_entry := if TracefileVersion first_flags ≥ 3 then first_real_entry + 4
                              else first_real_entry
      let s := { p.1 with time := blockTimeState base_cycle first_timestamp }
      let E : Env := { K := K, CyclesToNsec10 := C, traceblock := traceblock,
                       ipcblock := ipcblock, current_cpu := current_cpu,
                       keep_just_names := keep_just_names }
      some { st := innerLoop E kTraceBufSize first_real_entry s,
             blocknumber := r.blocknumber + 1,
             first_flags := first_flags,
             all_flags := all_flags,
             at_first_cpu_block := p.2,
             unique_cpus := r.unique_cpus.insert current_cpu,
             CyclesToNsec10 := C }

/-- The outer loop over the blocks of the file, `maxblock` being the limit of `-maxblock`;
`none` when the run ends in `handle_very_first_block`. -/
def runBlocks (K : LibConsts) (calibrate : (Nat → Nat) → Option (Nat → Nat)) (maxblock : Nat) :
    List Block → RunState → Option RunState
  | [], r => some r
  | b :: bs, r =>
    if r.blocknumber ≥ maxblock then some r
    else
      match processBlock K calibrate b r with
      | none => none
      | some r2 => runBlocks K calibrate maxblock bs r2

/-- The state of `main` before the first block (lines 716-790), with `c` for the conversion
that the unset `params` would give. -/
def initialRun (c : Nat → Nat) : RunState where
  st := initialState ⟨0, 0⟩
  blocknumber := 0
  first_flags := 0
  all_flags := 0
  at_first_cpu_block := fun _ => true
  unique_cpus := fun _ => false
  CyclesToNsec10 := c

/-- A block whose header words are `w0` and `w1` and whose other words are NOPs. -/
def headerBlock (w0 w1 : Nat) : Block where
  traceblock := fun j => if j = 0 then w0 else if j = 1 then w1 else 0
  ipc := fun _ => 0

/-- A block whose preamble at the words 8 to 11 names the pid word `w8` "worker", with NOPs
elsewhere. -/
def workerBlock (w8 : Nat) : Nat → Nat :=
  fun j => if j = 8 then w8 else if j = 10 then 0x000072656b726f77 else 0

/-- The type of a name definition as lines 1155-1175 tell it apart: 16 times the position of
the first test of the chain that holds, or the low four bits of the event for the names of
the last branch (trap 4, interrupt 5, 64-bit system call 8, 32-bit system call 0xC). -/
def nameTypeOf (K : LibConsts) (n : Nat) : Nat :=
  if is_pidnamedef n then 0x10
  else if is_locknamedef n then 0x20
  else if is_methodnamedef n then 0x30
  else if is_kernelnamedef K n then 0x40
  else if is_modelnamedef K n then 0x50
  else if is_hostnamedef K n then 0x60
  else if is_queuenamedef K n then 0x70
  else if is_resnamedef K n then 0x80
  else n &&& 0x00f

/-! ## Double-precision arithmetic (for lines 216-264 and 572-709)

The calibration of the first block and the conversion from cycles to time are computed in
`double`. A finite double is kept as the pair of an integer and a binary exponent; every
operation rounds the exact result to the nearest number with a 53-bit mantissa, ties to even.
The exponent range is not modelled: the quantities of this program are quotients and products
of 64-bit integers and stay far inside it. -/

/-- A finite `double`: the value `m * 2 ^ e`. -/
structure Dbl where
  m : Int
  e : Int
  deriving DecidableEq

/-- The number of bits of `n` less one, for `n` below `2 ^ fuel`; `fuel = n` is enough. -/
def log2Fuel : Nat → Nat → Nat
  | 0, _ => 0
  | fuel + 1, n => if 2 ≤ n then log2Fuel fuel (n / 2) + 1 else 0

/-- The integer nearest to `num / den`, ties going to the even one. -/
def roundHalfEven (num den : Nat) : Nat :=
  let q := num / den
  let r := num % den
  if 2 * r < den then q
  else if den < 2 * r then q + 1
  else if q % 2 = 0 then q else q + 1

/-- The double nearest to `n / d`, for `d > 0`. -/
def Dbl.round (n : Int) (d : Nat) : Dbl :=
  if n = 0 then ⟨0, 0⟩
  else
    let a := n.natAbs
    let k0 : Int := (log2Fuel a a : Int) - (log2Fuel d d : Int)
    let ge : Bool := if 0 ≤ k0 then decide (d * 2 ^ k0.toNat ≤ a)
                     else decide (d ≤ a * 2 ^ (-k0).toNat)
    let k : Int := if ge then k0 else k0 - 1
    let e : Int := k - 52
    let num := if e < 0 then a * 2 ^ (-e).toNat else a
    let den := if e < 0 then d else d * 2 ^ e.toNat
    let m := roundHalfEven num den
    ⟨if n < 0 then -(m : Int) else (m : Int), e⟩

/-- The conversion of an integer to `double`. -/
def Dbl.ofInt (x : Int) : Dbl := Dbl.round x 1

/-- The quotient `x / y` for `y` other than zero. -/
def Dbl.div (x y : Dbl) : Dbl :=
  let n : Int := if y.m < 0 then -x.m else x.m
  let d : Nat := y.m.natAbs
  if y.e ≤ x.e then Dbl.round (n * 2 ^ (x.e - y.e).toNat) d
  else Dbl.round n (d * 2 ^ (y.e - x.e).toNat)

/-- The product `x * y`. -/
def Dbl.mul (x y : Dbl) : Dbl :=
  if 0 ≤ x.e + y.e then Dbl.round (x.m * y.m * 2 ^ (x.e + y.e).toNat) 1
  else Dbl.round (x.m * y.m) (2 ^ (-(x.e + y.e)).toNat)

/-- The comparison `x < y`. -/
def Dbl.lt (x y : Dbl) : Bool :=
  if y.e ≤ x.e then decide (x.m * 2 ^ (x.e - y.e).toNat < y.m)
  else decide (x.m < y.m * 2 ^ (y.e - x.e).toNat)

/-- The conversion of a `double` to `int64`: the value is truncated towards zero; a result
that does not fit, for which C leaves the conversion undefined, is taken as the x86-64
instruction gives it, `0x8000000000000000`. -/
def Dbl.toInt64 (x : Dbl) : Nat :=
  let a := x.m.natAbs
  let t : Nat := if 0 ≤ x.e then a * 2 ^ x.e.toNat else a / 2 ^ (-x.e).toNat
  if x.m < 0 then (if t ≤ 2 ^ 63 then ofInt64 (-(t : Int)) else 0x8000000000000000)
  else (if t < 2 ^ 63 then t else 0x8000000000000000)

/-! ## The conversion from cycles to time (lines 216-264) -/

/-- The struct `CyclesToUsecParams`. -/
structure CyclesToUsecParams where
  base_cycles : Nat
  base_usec : Nat
  base_cycles10 : Nat
  base_nsec10 : Nat
  m_slope : Dbl
  m_slope_nsec10 : Dbl
  deriving DecidableEq

/-- The function `SetParams` (lines 226-240); its `int64` arguments are given as 64-bit words.
The factor `1.0` makes the first difference a `double`. -/
def SetParams (start_cycles start_usec stop_cycles stop_usec : Nat)
    (params : CyclesToUsecParams) : CyclesToUsecParams :=
  let stop_cycles := if toInt64 stop_cycles ≤ toInt64 start_cycles then u64 (start_cycles + 1)
                     else stop_cycles
  let m_slope := Dbl.div (Dbl.ofInt (toInt64 (u64 (stop_usec + 2 ^ 64 - start_usec))))
    (Dbl.ofInt (toInt64 (u64 (stop_cycles + 2 ^ 64 - start_cycles))))
  { params with
    base_cycles := start_cycles,
    base_usec := start_usec,
    m_slope := m_slope,
    m_slope_nsec10 := Dbl.mul m_slope (Dbl.ofInt 100) }

/-- The function `SetParams10` (lines 242-248). -/
def SetParams10 (start_cycles10 start_nsec10 : Nat) (params : CyclesToUsecParams) :
    CyclesToUsecParams :=
  { params with base_cycles10 := start_cycles10, base_nsec10 := start_nsec10 }

/-- The function `CyclesToNsec10` (lines 255-258): the `uint64` difference is converted to
`double`, multiplied, and converted to `int64`. -/
def CyclesToNsec10 (cycles : Nat) (params : CyclesToUsecParams) : Nat :=
  let delta_nsec10 := Dbl.toInt64
    (Dbl.mul (Dbl.ofInt ((u64 (cycles + 2 ^ 64 - params.base_cycles10) : Nat) : Int))
      params.m_slope_nsec10)
  u64 (params.base_nsec10 + delta_nsec10)

/-- The function `UsecToCycles` (lines 260-264). A zero slope makes the quotient infinite or
NaN; its conversion to `int64`, undefined in C, is taken as x86-64 gives it. -/
def UsecToCycles (usec : Nat) (params : CyclesToUsecParams) : Nat :=
  let delta_cycles := u64 (usec + 2 ^ 64 - params.base_usec)
  let delta_cycles :=
    if params.m_slope.m = 0 then 0x8000000000000000
    else Dbl.toInt64 (Dbl.div (Dbl.ofInt (toInt64 delta_cycles)) params.m_slope)
  u64 (params.base_cycles + delta_cycles)

/-! ## The calibration of the very first block (lines 572-709) -/

def mhz_32bit_counts : Nat := 54

/-- The locals of `handle_very_first_block` that its checks read: the four `int64` values of
the words 2 to 5 and `delta_usec` as 64-bit words, and the ratio `counts_per_usec`. -/
structure Calib where
  start_counts : Nat
  start_usec : Nat
  stop_counts : Nat
  stop_usec : Nat
  delta_usec : Nat
  counts_per_usec : Dbl
  deriving DecidableEq

/-- The expression `(delta_counts * 1.0) / delta_usec` with
`delta_counts = stop_counts - start_counts` (lines 582, 585, 602-603, 638-639). -/
def countsPerUsec (start_counts stop_counts delta_usec : Nat) : Dbl :=
  Dbl.div (Dbl.ofInt (toInt64 (u64 (stop_counts + 2 ^ 64 - start_counts))))
    (Dbl.ofInt (toInt64 delta_usec))

/-- Lines 573-585: the values read from the block and the first ratio. -/
def calibStart (traceblock : Nat → Nat) : Calib :=
  let start_counts := u64 (traceblock 2)
  let start_usec := u64 (traceblock 3)
  let stop_counts := u64 (traceblock 4)
  let stop_usec := u64 (traceblock 5)
  let delta_usec := u64 (stop_usec + 2 ^ 64 - start_usec)
  let delta_usec := if toInt64 delta_usec ≤ 0 then 1 else delta_usec
  { start_counts := start_counts, start_usec := start_usec, stop_counts := stop_counts,
    stop_usec := stop_usec, delta_usec := delta_usec,
    counts_per_usec := countsPerUsec start_counts stop_counts delta_usec }

/-- Line 590: both counts fit in 32 bits. -/
def has_32bit_counts (c : Calib) : Bool :=
  decide ((c.start_counts ||| c.stop_counts) &&& 0xffffffff00000000 = 0)

/-- Line 592: the bytes "u74-mc" occur in the first 256 bytes of the block. -/
def likely_riscv (traceblock : Nat → Nat) : Bool :=
  strstrFound ((List.range 32).flatMap (fun k => wordBytes (traceblock k))) (lit "u74-mc")

/-- Lines 599-607: the RISC-V fixup, done when the block is likely from a RISC-V. -/
def riscvFixup (c : Calib) : Calib :=
  if Dbl.lt (Dbl.round 1001 10) c.counts_per_usec ∧
      Int.shiftRight (toInt64 c.start_counts) 32 = 0 ∧
      Int.shiftRight (toInt64 c.stop_counts) 32 = 1 then
    let stop_counts := c.stop_counts &&& 0x00000000FFFFFFFF
    { c with stop_counts := stop_counts,
             counts_per_usec := countsPerUsec c.start_counts stop_counts c.delta_usec }
  else c

/-- Lines 619-640: the Arm-32 fixup, done when both counts fit in 32 bits and the block is
not likely from a RISC-V. -/
def arm32Fixup (c : Calib) : Calib :=
  let elapsed_usec := c.delta_usec
  let expected_counts := u64 (elapsed_usec * mhz_32bit_counts)
  let approx_hi := expected_counts &&& 0xffffffff00000000
  let stop_counts := c.stop_counts ||| approx_hi
  let elapsed_counts := u64 (stop_counts + 2 ^ 64 - c.start_counts)
  let ratio := elapsed_counts / elapsed_usec
  let stop_counts := if ratio > mhz_32bit_counts + (mhz_32bit_counts >>> 3)
                     then u64 (stop_counts + 2 ^ 64 - 0x0000000100000000) else stop_counts
  let stop_counts := if ratio < mhz_32bit_counts - (mhz_32bit_counts >>> 3)
                     then u64 (stop_counts + 0x0000000100000000) else stop_counts
  { c with stop_counts := stop_counts,
           counts_per_usec := countsPerUsec c.start_counts stop_counts c.delta_usec }

/-- Lines 573-641: the locals after both fixups. -/
def calibFixups (traceblock : Nat → Nat) : Calib :=
  let c := calibStart traceblock
  let h32 := has_32bit_counts c
  let riscv := likely_riscv traceblock
  let c := if riscv then riscvFixup c else c
  let c := if h32 && !riscv then arm32Fixup c else c
  c

/-- Lines 662-689: the error checks; the last two compare as `uint64`. -/
def calibFail (c : Calib) : Bool :=
  let fail := false
  let fail := if Dbl.lt c.counts_per_usec (Dbl.round 99 100) then true else fail
  let fail := if Dbl.lt (Dbl.round 1001 10) c.counts_per_usec then true else fail
  let fail := if toInt64 c.start_counts > toInt64 c.stop_counts then true else fail
  let fail := if toInt64 c.start_usec > toInt64 c.stop_usec then true else fail
  let fail := if usec_per_100_years ≤ c.start_counts then true else fail
  let fail := if usec_per_100_years ≤ c.stop_counts then true else fail
  fail

/-- The function `handle_very_first_block`: `none` when it ends the run by `exit(0)`,
otherwise the conversion parameters it has set (it then returns `false`). -/
def handle_very_first_block (traceblock : Nat → Nat) (params : CyclesToUsecParams) :
    Option CyclesToUsecParams :=
  let c := calibFixups traceblock
  if calibFail c then none
  else
    let params := SetParams c.start_counts c.start_usec c.stop_counts c.stop_usec params
    let base_minute_usec := ofInt64 (Int.tdiv (toInt64 c.start_usec) 60000000 * 60000000)
    let base_minute_cycle := UsecToCycles base_minute_usec params
    some (SetParams10 base_minute_cycle 0 params)

/-- The parameter `calibrate` of `processBlock` as the program has it: the conversion that
`handle_very_first_block` sets up, starting from the parameters `params`. -/
def calibrateFrom (params : CyclesToUsecParams) : (Nat → Nat) → Option (Nat → Nat) :=
  fun traceblock =>
    (handle_very_first_block traceblock params).map (fun p cycles => CyclesToNsec10 cycles p)

/-- Parameters to start from; `handle_very_first_block` overwrites every field. -/
def zeroParams : CyclesToUsecParams :=
  { base_cycles := 0, base_usec := 0, base_cycles10 := 0, base_nsec10 := 0,
    m_slope := ⟨0, 0⟩, m_slope_nsec10 := ⟨0, 0⟩ }

/-- The first block of the minimal scenario: cpu 0, base cycle 0, flags 0x03, gettimeofday
1,700,000,000,000,000, start (0, 0), stop (`stop_cycles`, 1000), preamble pid 7 named "worker",
and one USERPID entry with argument 7. -/
def minimalBlock (stop_cycles : Nat) : Nat → Nat :=
  fun j =>
    if j = 1 then (0x03 <<< 56) ||| 1700000000000000
    else if j = 4 then stop_cycles
    else if j = 5 then 1000
    else if j = 8 then 7
    else if j = 10 then 0x000072656b726f77
    else if j = 12 then 0x0000020000000007
    else 0

/-- A first block with the bytes "u74-mc" as the preamble name, start (0x80000000, 0) and
stop (`stop_cycles`, 2147483). -/
def riscvBlock (stop_cycles : Nat) : Nat → Nat :=
  fun j =>
    if j = 1 then (0x03 <<< 56) ||| 1700000000000000
    else if j = 2 then 0x0000000080000000
    else if j = 4 then stop_cycles
    else if j = 5 then 2147483
    else if j = 8 then 7
    else if j = 10 then 0x0000636d2d343775
    else 0

/-- The first block of the minimal scenario (54 counts per microsecond) with the word `w` as
its entry at index 12. -/
def entryBlock (w : Nat) : Nat → Nat :=
  fun j => if j = 12 then w else minimalBlock 54000 j

/-- The reference for `ReduceSpaces`, read off the original string `s`: the first character,
then for each interior index the character itself when it is no space, an underscore when it
is a space between two digits of `s`, and nothing otherwise, then the last character; strings
shorter than 3 are returned as they are. -/
def ReduceSpacesSpec (s : CStr) : CStr :=
  if s.length < 3 then s
  else
    s.getD 0 0 ::
      (((List.range (s.length - 2)).map (fun j => j + 1)).flatMap (fun i =>
        if s.getD i 0 ≠ 0x20 then [s.getD i 0]
        else if Digit (s.getD (i - 1) 0) && Digit (s.getD (i + 1) 0) then [0x5f]
        else []) ++ [s.getD (s.length - 1) 0])

/-- A first block with flags 0x03 and the calibration words `start_counts`, `start_usec`,
`stop_counts`, `stop_usec`, all other words NOPs. -/
def calibBlock (start_counts start_usec stop_counts stop_usec : Nat) : Nat → Nat :=
  fun j =>
    if j = 1 then (0x03 <<< 56) ||| 1700000000000000
    else if j = 2 then start_counts
    else if j = 3 then start_usec
    else if j = 4 then stop_counts
    else if j = 5 then stop_usec
    else 0

/-- Lines 916-925: the pid of a block preamble after `RemapHighPid` and the idle fixup. -/
def preamblePid (traceblock : Nat → Nat) (first_real_entry : Nat) (idle_pids : U64set) : Nat :=
  (FixupIdlePid (RemapHighPid (traceblock first_real_entry &&& 0x00000000ffffffff))
    (wordBytes (traceblock (first_real_entry + 2)) ++
      wordBytes (traceblock (first_real_entry + 3)) ++ [0]) idle_pids).1

/-- Lines 921-941: the name a block preamble records for its pid. -/
def preambleName (traceblock : Nat → Nat) (first_real_entry : Nat) (idle_pids : U64set) :
    CStr :=
  MakeSafeAscii (ReduceSpaces (cstrOf
    (FixupIdlePid (RemapHighPid (traceblock first_real_entry &&& 0x00000000ffffffff))
      (wordBytes (traceblock (first_real_entry + 2)) ++
        wordBytes (traceblock (first_real_entry + 3)) ++ [0]) idle_pids).2.1))

/-- Lines 954-987: the event lines a block preamble writes when it is the first for its CPU
outside keep-just-names mode: the context switch to the pid and, for a non-zero frequency,
the frequency. -/
def preambleEvents (C : Nat → Nat) (traceblock : Nat → Nat) (first_real_entry current_cpu : Nat)
    (base_cycle : Nat) (idle_pids : U64set) : List Line :=
  OutputEvent (u64 (C base_cycle)) 1 KUTRACE_USERPID current_cpu
    (preamblePid traceblock first_real_entry idle_pids) 0 0 0 0
    (AppendNum (preambleName traceblock first_real_entry idle_pids)
      (preamblePid traceblock first_real_entry idle_pids)) ++
  (if 0 < traceblock first_real_entry >>> 32
   then OutputEvent (u64 (C base_cycle)) 1 KUTRACE_PSTATE current_cpu
     (preamblePid traceblock first_real_entry idle_pids) 0
     (traceblock first_real_entry >>> 32) 0 0 (lit "-freq-")
   else [])

/-- A first block of a wraparound trace: flags 0x43, start (0, 0), stop (54000, 1000),
preamble pid 7 named "worker", and the word `w` as its entry at index 12. -/
def wrapBlock (w : Nat) : Nat → Nat :=
  fun j =>
    if j = 1 then (0x43 <<< 56) ||| 1700000000000000
    else if j = 4 then 54000
    else if j = 5 then 1000
    else if j = 8 then 7
    else if j = 10 then 0x000072656b726f77
    else if j = 12 then w
    else 0

/-- The indices at which one pass through the body of the inner loop, at index `i`, reads
`traceblock`: the entry word itself (lines 1010-1026), the `len - 1` words that `memcpy`
takes from `&traceblock[i + 1]` for a name definition that is no time pair (line 1183), and
the second word `traceblock[++i]` of a PC sample outside keep-just-names mode (line 1311). -/
def entryReads (E : Env) (i : Nat) : List Nat :=
  if E.traceblock i = 0 then [i]
  else if E.traceblock i = 0xffffffffffffffff then [i]
  else
    let f := decodeFields (E.traceblock i)
    if f.t = 0xFFFFF ∧ f.n = 0xFFF then [i]
    else if f.n = E.K.KUTRACE_TSDELTA then [i]
    else if is_namedef E.K f.n then
      let len := (f.n >>> 4) &&& 0x00f
      if len < 1 ∨ 8 < len then [i]
      else if !is_timepair E.K f.n then i :: (List.range (len - 1)).map (fun k => i + 1 + k)
      else [i]
    else if E.keep_just_names then [i]
    else if is_pc_sample E.K f.n then [i, i + 1]
    else [i]

/-- The indices at which the inner loop reads `traceblock`, in order, with `fuel` bounding the
number of passes as in `innerLoop`. -/
def innerReads (E : Env) : Nat → Nat → State → List Nat
  | 0, _, _ => []
  | fuel + 1, i, s =>
    if i < kTraceBufSize then
      entryReads E i ++
        (match processEntry E i s with
         | (s2, Ctl.next j) => innerReads E fuel (j + 1) s2
         | (_, Ctl.brk) => [])
    else []

/-- The sample block with the word `w` as its last word, at index 8191, and NOPs before. -/
def lastWordEnv (w : Nat) : Env :=
  { sampleEnv 0 with traceblock := fun j => if j = 8191 then w else 0 }

/-- The first block of the minimal scenario with the word `w8` as the pid word of its
preamble. -/
def pidBlock (w8 : Nat) : Nat → Nat :=
  fun j => if j = 8 then w8 else minimalBlock 54000 j

/-- The first block of the minimal scenario (54 counts per microsecond) with CPU number 80 in
its header word 0. -/
def badCpuBlock : Nat → Nat :=
  fun j => if j = 0 then 0x5000000000000000 else minimalBlock 54000 j

/-- A later block of a version-3 trace, for CPU 0 at base cycle 0: the preamble at the words
2 to 5 names pid 7 "worker", the word `w` is the entry at index 6, all other words are
NOPs. -/
def laterBlock (w : Nat) : Nat → Nat :=
  fun j =>
    if j = 1 then (0x03 <<< 56) ||| 1700000000000000
    else if j = 2 then 7
    else if j = 4 then 0x000072656b726f77
    else if j = 6 then w
    else 0

/-! ## Helper lemmas on bit operations -/

theorem testBit_div_pow (x i j : Nat) : (x / 2 ^ i).testBit j = x.testBit (i + j) := by
  rw [← Nat.shiftRight_eq_div_pow, Nat.testBit_shiftRight]

theorem and_0200_eq (e : Nat) : e &&& 0x0200 = if e / 512 % 2 = 1 then 512 else 0 := by
  have h := Nat.and_two_pow e 9
  rw [Nat.testBit_to_div_mod] at h
  norm_num at h
  rw [h]
  by_cases hb : e / 512 % 2 = 1 <;> simp [hb]

theorem and_ff_eq (x : Nat) : x &&& 0xff = x % 256 :=
  Nat.and_pow_two_sub_one_eq_mod x 8

theorem and_fff_eq (x : Nat) : x &&& 0xfff = x % 4096 :=
  Nat.and_pow_two_sub_one_eq_mod x 12

theorem and_ffff_eq (x : Nat) : x &&& 0xffff = x % 65536 :=
  Nat.and_pow_two_sub_one_eq_mod x 16

theorem and_fffff_eq (x : Nat) : x &&& 0xfffff = x % 1048576 :=
  Nat.and_pow_two_sub_one_eq_mod x 20

theorem and_ffffffff_eq (x : Nat) : x &&& 0xffffffff = x % 4294967296 :=
  Nat.and_pow_two_sub_one_eq_mod x 32

theorem and_not0200 (e : Nat) (he : e < 2 ^ 64) :
    e &&& not0200 = 1024 * (e / 1024) + e % 512 := by
  have hc : not0200 = 2 ^ 10 * (2 ^ 54 - 1) + (2 ^ 9 - 1) := by norm_num [not0200]
  have hg : 1024 * (e / 1024) + e % 512 = 2 ^ 10 * (e / 2 ^ 10) + e % 2 ^ 9 := by norm_num
  have hb : e % 2 ^ 9 < 2 ^ 10 := lt_of_lt_of_le (Nat.mod_lt _ (by norm_num)) (by norm_num)
  rw [hc, hg]
  apply Nat.eq_of_testBit_eq
  intro j
  rw [Nat.testBit_and, Nat.testBit_mul_pow_two_add _ (by norm_num),
    Nat.testBit_mul_pow_two_add _ hb, Nat.testBit_two_pow_sub_one,
    Nat.testBit_two_pow_sub_one, testBit_div_pow, Nat.testBit_mod_two_pow]
  by_cases h1 : j < 10
  · by_cases h2 : j < 9
    · simp [h1, h2]
    · simp [h1, h2]
  · have e1 : 10 + (j - 10) = j := by omega
    by_cases h2 : j < 64
    · have : j - 10 < 54 := by omega
      simp [h1, this, e1]
    · have hlt : e < 2 ^ j := lt_of_lt_of_le he (Nat.pow_le_pow_right (by norm_num) (by omega))
      simp [h1, Nat.testBit_lt_two_pow hlt, e1]

/-- OR-ing a value below `2^20` into `p` only touches the low 20 bits of `p`. -/
theorem or_low20 (p t : Nat) (ht : t < 1048576) :
    ∃ r, r < 1048576 ∧ p ||| t = 1048576 * (p / 1048576) + r ∧ (p % 1048576 = 0 → r = t) := by
  have ht' : t < 2 ^ 20 := by norm_num; exact ht
  have hm : p % 1048576 < 2 ^ 20 := by norm_num; exact Nat.mod_lt _ (by norm_num)
  have hr : (p % 1048576) ||| t < 2 ^ 20 := Nat.or_lt_two_pow hm ht'
  have hp : p = 2 ^ 20 * (p / 1048576) ||| (p % 1048576) := by
    rw [← Nat.mul_add_lt_is_or hm]; norm_num; exact (Nat.div_add_mod p 1048576).symm
  refine ⟨(p % 1048576) ||| t, by norm_num at hr; exact hr, ?_, ?_⟩
  · conv_lhs => rw [hp]
    rw [Nat.or_assoc, ← Nat.mul_add_lt_is_or hr]
  · intro h0
    rw [h0, Nat.zero_or]

theorem Wrapped_iff (prior now : Nat) (hn : now < 2 ^ 20) :
    Wrapped prior now = true ↔ prior > now + 4096 := by
  have h : (now + 4096) % 2 ^ 64 = now + 4096 := Nat.mod_eq_of_lt (by omega)
  simp only [Wrapped, u64, h]
  split
  · simp; omega
  · simp

theorem LateStore_iff (prior now : Nat) (hn : now < 2 ^ 20) :
    LateStore prior now = true ↔ (prior > now ∧ prior ≤ now + 2 ^ 17) := by
  have h : (now + 131072) % 2 ^ 64 = now + 131072 := Nat.mod_eq_of_lt (by omega)
  simp only [LateStore, u64, kLateStoreThresh, h]
  split <;> simp <;> omega

theorem advancePrepend_eq (s : TimeState) (t : Nat) (ht : t < 2 ^ 20) :
    advancePrepend s t =
      if s.prior_t > t + 2 ^ 17 then (s.prepend + 2 ^ 20) % 2 ^ 64 else s.prepend := by
  have hW := Wrapped_iff s.prior_t t ht
  have hL := LateStore_iff s.prior_t t ht
  unfold advancePrepend
  by_cases h : s.prior_t > t + 2 ^ 17
  · have h1 : Wrapped s.prior_t t = true := hW.2 (by omega)
    have h2 : LateStore s.prior_t t = false := by
      rw [Bool.eq_false_iff]; intro hc; have := hL.1 hc; omega
    rw [if_pos h]
    simp [h1, h2, u64]
  · rw [if_neg h]
    by_cases hw : Wrapped s.prior_t t = true
    · have h2 : LateStore s.prior_t t = true := hL.2 (by have := hW.1 hw; omega)
      simp [hw, h2]
    · simp [hw]

/-! ## Timestamp reconstruction -/

/-- C1 (amended): for a non-TSDELTA entry with 20-bit timestamps `prior_t` and `t`, `Wrapped`
means `prior_t > t + 4096`, `LateStore` means `prior_t > t ∧ prior_t ≤ t + 2^17`; prepend
becomes `(prepend + 2^20) mod 2^64` when wrapped and not a late store and is unchanged
otherwise; when `prepend + 2^20 < 2^64` the increment is exactly `2^20` if and only if wrapped
and not a late store, and for `t1 = 0xFFFF0`, `t2 = 0x00010` prepend advances by `2^20` and
`tfull2 > tfull1`. -/
theorem C1_prepend_increment (s : TimeState) (t : Nat) (ht : t < 2 ^ 20) :
    (Wrapped s.prior_t t = true ↔ s.prior_t > t + 4096) ∧
    (LateStore s.prior_t t = true ↔ (s.prior_t > t ∧ s.prior_t ≤ t + 2 ^ 17)) ∧
    ((Wrapped s.prior_t t = true ∧ LateStore s.prior_t t = false) →
        (timeUpdate s t).1.prepend = (s.prepend + 2 ^ 20) % 2 ^ 64) ∧
    (¬ (Wrapped s.prior_t t = true ∧ LateStore s.prior_t t = false) →
        (timeUpdate s t).1.prepend = s.prepend) ∧
    (s.prepend + 2 ^ 20 < 2 ^ 64 →
        ((timeUpdate s t).1.prepend = s.prepend + 2 ^ 20 ↔
          (Wrapped s.prior_t t = true ∧ LateStore s.prior_t t = false))) ∧
    (s.prior_t = 0xFFFF0 → t = 0x00010 → s.prepend + 2 ^ 20 < 2 ^ 64 →
        (timeUpdate s t).1.prepend = s.prepend + 2 ^ 20 ∧
        (timeUpdate s t).2 > (s.prepend ||| s.prior_t)) := by
  have hW := Wrapped_iff s.prior_t t ht
  have hL := LateStore_iff s.prior_t t ht
  have hA := advancePrepend_eq s t ht
  have hcond : (Wrapped s.prior_t t = true ∧ LateStore s.prior_t t = false) ↔
      s.prior_t > t + 2 ^ 17 := by
    rw [hW, Bool.eq_false_iff, Ne, hL]; omega
  refine ⟨hW, hL, ?_, ?_, ?_, ?_⟩
  · intro h
    show advancePrepend s t = _
    rw [hA, if_pos (hcond.1 h)]
  · intro h
    show advancePrepend s t = _
    rw [hA, if_neg (fun hc => h (hcond.2 hc))]
  · intro hno
    show advancePrepend s t = _ ↔ _
    rw [hA, hcond]
    split
    · rename_i hgt
      rw [Nat.mod_eq_of_lt hno]
      exact ⟨fun _ => hgt, fun _ => rfl⟩
    · constructor
      · intro h; omega
      · intro h; contradiction
  · intro h1 h2 hno
    have hadv : advancePrepend s t = s.prepend + 2 ^ 20 := by
      rw [hA, if_pos (by omega), Nat.mod_eq_of_lt hno]
    refine ⟨hadv, ?_⟩
    show advancePrepend s t ||| t > s.prepend ||| s.prior_t
    rw [hadv]
    obtain ⟨r1, hr1, e1, -⟩ := or_low20 s.prepend s.prior_t (by omega)
    obtain ⟨r2, hr2, e2, -⟩ := or_low20 (s.prepend + 2 ^ 20) t (by omega)
    rw [e1, e2]
    omega

/-- C1 witness: the wrap scenario starting from prepend `0x300000`. -/
theorem C1_prepend_increment_witness :
    (timeUpdate ⟨0x300000, 0xFFFF0⟩ 0x00010).1.prepend = 0x300000 + 2 ^ 20 ∧
    (timeUpdate ⟨0x300000, 0xFFFF0⟩ 0x00010).2 > (0x300000 ||| 0xFFFF0) :=
  (C1_prepend_increment ⟨0x300000, 0xFFFF0⟩ 0x00010 (by decide)).2.2.2.2.2
    rfl rfl (by decide)

/-- C1 counterexample: a block with `base_cycle = 0x10` whose first timestamp is `0xFFFF0`
starts with prepend `2^64 - 2^20`; the entries `t1 = 0xFFFF0`, `t2 = 0x00010` then wrap, the
64-bit prepend becomes 0 rather than prepend + 2^20, and `tfull2 < tfull1`. -/
theorem C1_counterexample :
    blockTimeState 0x10 0xFFFF0 = ⟨0xFFFFFFFFFFF00000, 0xFFFF0⟩ ∧
    timeUpdate ⟨0xFFFFFFFFFFF00000, 0xFFFF0⟩ 0xFFFF0
      = (⟨0xFFFFFFFFFFF00000, 0xFFFF0⟩, 0xFFFFFFFFFFFFFFF0) ∧
    Wrapped 0xFFFF0 0x00010 = true ∧ LateStore 0xFFFF0 0x00010 = false ∧
    timeUpdate ⟨0xFFFFFFFFFFF00000, 0xFFFF0⟩ 0x00010 = (⟨0, 0x00010⟩, 0x00010) ∧
    ¬ ((timeUpdate ⟨0xFFFFFFFFFFF00000, 0xFFFF0⟩ 0x00010).1.prepend
        = 0xFFFFFFFFFFF00000 + 2 ^ 20) ∧
    ¬ ((timeUpdate ⟨0xFFFFFFFFFFF00000, 0xFFFF0⟩ 0x00010).2
        > (timeUpdate ⟨0xFFFFFFFFFFF00000, 0xFFFF0⟩ 0xFFFF0).2) := by
  decide

/-- C2 (amended): for consecutive non-TSDELTA entries with 20-bit timestamps `t1`, `t2`, where
prepend has its low 20 bits clear and `prepend + 2^20 < 2^64`, `tfull2 ≥ tfull1 - 2^17`; for a
late store (`t1 > t2` and `t1 ≤ t2 + 2^17`) prepend is unchanged and
`tfull2 = tfull1 - (t1 - t2)`; in every other case `tfull2 ≥ tfull1`. -/
theorem C2_tfull_late_store (s : TimeState) (t2 : Nat)
    (hclear : s.prepend &&& 0xfffff = 0) (ht1 : s.prior_t < 2 ^ 20) (ht2 : t2 < 2 ^ 20)
    (hno : s.prepend + 2 ^ 20 < 2 ^ 64) :
    (timeUpdate s t2).2 = ((timeUpdate s t2).1.prepend ||| t2) ∧
    (timeUpdate s t2).1.prior_t = t2 ∧
    (timeUpdate s t2).2 + 2 ^ 17 ≥ (s.prepend ||| s.prior_t) ∧
    ((s.prior_t > t2 ∧ s.prior_t ≤ t2 + 2 ^ 17) →
        (timeUpdate s t2).1.prepend = s.prepend ∧
        (timeUpdate s t2).2 = (s.prepend ||| s.prior_t) - (s.prior_t - t2) ∧
        (timeUpdate s t2).2 + (s.prior_t - t2) = (s.prepend ||| s.prior_t)) ∧
    (¬ (s.prior_t > t2 ∧ s.prior_t ≤ t2 + 2 ^ 17) →
        (timeUpdate s t2).2 ≥ (s.prepend ||| s.prior_t)) := by
  have hA := advancePrepend_eq s t2 ht2
  have hz : s.prepend % 1048576 = 0 := by rw [← and_fffff_eq]; exact hclear
  obtain ⟨r1, -, e1, z1⟩ := or_low20 s.prepend s.prior_t (by omega)
  have hr1 := z1 hz
  subst hr1
  have key : (timeUpdate s t2).2 =
      if s.prior_t > t2 + 2 ^ 17 then s.prepend + 2 ^ 20 + t2 else s.prepend + t2 := by
    show advancePrepend s t2 ||| t2 = _
    rw [hA]
    split
    · rw [Nat.mod_eq_of_lt hno]
      obtain ⟨r2, -, e2, z2⟩ := or_low20 (s.prepend + 2 ^ 20) t2 (by omega)
      rw [e2, z2 (by omega)]; omega
    · obtain ⟨r2, -, e2, z2⟩ := or_low20 s.prepend t2 (by omega)
      rw [e2, z2 hz]; omega
  have hpre : (timeUpdate s t2).1.prepend = advancePrepend s t2 := rfl
  refine ⟨rfl, rfl, ?_, ?_, ?_⟩
  · rw [key, e1]; split <;> omega
  · intro h
    have hn : ¬ s.prior_t > t2 + 2 ^ 17 := by omega
    rw [hpre, hA, if_neg hn, key, if_neg hn, e1]
    omega
  · intro h
    rw [key, e1]; split <;> omega

/-- C2 witness: the late-store scenario `t1 = 0x10020`, `t2 = 0x10010`. -/
theorem C2_tfull_late_store_witness :
    (timeUpdate ⟨0x300000, 0x10020⟩ 0x10010).1.prepend = 0x300000 ∧
    (timeUpdate ⟨0x300000, 0x10020⟩ 0x10010).2
      = (0x300000 ||| 0x10020) - (0x10020 - 0x10010) ∧
    (timeUpdate ⟨0x300000, 0x10020⟩ 0x10010).2 + (0x10020 - 0x10010)
      = (0x300000 ||| 0x10020) :=
  (C2_tfull_late_store ⟨0x300000, 0x10020⟩ 0x10010 (by decide) (by decide) (by decide)
    (by decide)).2.2.2.1 (by decide)

/-- C2 counterexample: after a TSDELTA of -16 from cycle 0 prepend is `2^64 - 2^20` (low 20
bits clear); the entries `t1 = 0xFFFF0`, `t2 = 0x00010` give `tfull1 = 2^64 - 16` and
`tfull2 = 16`, so `tfull2 < tfull1 - 2^17`. -/
theorem C2_counterexample :
    tsdeltaUpdate ⟨0, 0⟩ 0xFFFFFFF0 = ⟨0xFFFFFFFFFFF00000, 0xFFFF0⟩ ∧
    (0xFFFFFFFFFFF00000 &&& 0xfffff = 0) ∧
    (timeUpdate ⟨0xFFFFFFFFFFF00000, 0xFFFF0⟩ 0xFFFF0).1 = ⟨0xFFFFFFFFFFF00000, 0xFFFF0⟩ ∧
    (timeUpdate ⟨0xFFFFFFFFFFF00000, 0xFFFF0⟩ 0xFFFF0).2 = 0xFFFFFFFFFFFFFFF0 ∧
    (timeUpdate ⟨0xFFFFFFFFFFF00000, 0xFFFF0⟩ 0x00010).2 = 0x00010 ∧
    ¬ ((timeUpdate ⟨0xFFFFFFFFFFF00000, 0xFFFF0⟩ 0x00010).2 + 2 ^ 17
        ≥ (timeUpdate ⟨0xFFFFFFFFFFF00000, 0xFFFF0⟩ 0xFFFF0).2) ∧
    ¬ ((timeUpdate ⟨0xFFFFFFFFFFF00000, 0xFFFF0⟩ 0x00010).2
        ≥ (timeUpdate ⟨0xFFFFFFFFFFF00000, 0xFFFF0⟩ 0xFFFF0).2) := by
  decide

/-- C6: `OutputEvent` writes an event line exactly when, as natural numbers,
`nsec10 < 99,900,000,000` and `nsec10 + duration < 99,900,000,000`; every line it writes is
the event line of its arguments and satisfies both bounds, whatever the 64-bit sum does. -/
theorem C6_output_event_bounds (nsec10 duration event cpu pid rpc arg retval ipc : Nat)
    (name : CStr) :
    (OutputEvent nsec10 duration event cpu pid rpc arg retval ipc name ≠ [] ↔
      (nsec10 < 99900000000 ∧ nsec10 + duration < 99900000000)) ∧
    ((nsec10 < 99900000000 ∧ nsec10 + duration < 99900000000) →
      OutputEvent nsec10 duration event cpu pid rpc arg retval ipc name
        = [Line.event nsec10 duration event cpu pid rpc arg retval ipc name]) ∧
    (¬ (nsec10 < 99900000000 ∧ nsec10 + duration < 99900000000) →
      OutputEvent nsec10 duration event cpu pid rpc arg retval ipc name = []) ∧
    (∀ l ∈ OutputEvent nsec10 duration event cpu pid rpc arg retval ipc name,
      l = Line.event nsec10 duration event cpu pid rpc arg retval ipc name ∧
      0 ≤ nsec10 ∧ nsec10 < 99900000000 ∧ nsec10 + duration < 99900000000) := by
  have hyes : (nsec10 < 99900000000 ∧ nsec10 + duration < 99900000000) →
      OutputEvent nsec10 duration event cpu pid rpc arg retval ipc name
        = [Line.event nsec10 duration event cpu pid rpc arg retval ipc name] := by
    intro h
    have h1 : ¬ nsec10 ≥ 99900000000 := by omega
    have h2 : ¬ duration ≥ 99900000000 := by omega
    have h3 : ¬ u64 (nsec10 + duration) ≥ 99900000000 := by
      unfold u64; rw [Nat.mod_eq_of_lt (by omega)]; omega
    simp [OutputEvent, kCrazyTime, h1, h2, h3]
  have hno : ¬ (nsec10 < 99900000000 ∧ nsec10 + duration < 99900000000) →
      OutputEvent nsec10 duration event cpu pid rpc arg retval ipc name = [] := by
    intro h
    by_cases h1 : nsec10 ≥ 99900000000
    · simp [OutputEvent, kCrazyTime, h1]
    · by_cases h2 : duration ≥ 99900000000
      · simp [OutputEvent, kCrazyTime, h2]
      · have h3 : u64 (nsec10 + duration) ≥ 99900000000 := by
          unfold u64; rw [Nat.mod_eq_of_lt (by omega)]; omega
        simp [OutputEvent, kCrazyTime, h3]
  refine ⟨?_, hyes, hno, ?_⟩
  · constructor
    · intro h
      by_contra hc
      exact h (hno hc)
    · intro h
      rw [hyes h]
      simp
  · intro l hl
    by_cases h : nsec10 < 99900000000 ∧ nsec10 + duration < 99900000000
    · rw [hyes h] at hl
      simp at hl
      exact ⟨hl, Nat.zero_le _, h.1, h.2⟩
    · rw [hno h] at hl
      simp at hl

theorem nameLen_eq (n : Nat) (hn : n ≤ 56) :
    u64 ((u64 (n + 7) >>> 3) + 1) = (n + 7) / 8 + 1 := by
  have h7 : (n + 7) % 2 ^ 64 = n + 7 := Nat.mod_eq_of_lt (by omega)
  simp only [u64, Nat.shiftRight_eq_div_pow, h7]
  norm_num
  omega

theorem lenNibble_and (len : Nat) (h1 : 1 ≤ len) (h8 : len ≤ 8) :
    u64 (len <<< 4) = len <<< 4 ∧ (len <<< 4) &&& 0xF0F = 0 ∧ (len <<< 4) &&& 0x0F0 = len <<< 4
      ∧ ((len <<< 4) >>> 4) &&& 0xF = len := by
  interval_cases len <;> decide

/-- C7: for a name of at most 56 bytes and `nsec10 < 99,900,000,000`, `OutputName` writes
exactly two lines, equal except that the second has timestamp -1, both with duration 1 and
event code `(event & 0xF0F) | (len << 4)` where `len = ceil(strlen(name)/8) + 1` lies in 1..8,
so the bits under mask `0xF0F` are those of `event` and the length nibble is `len`; for
`nsec10 ≥ 99,900,000,000` it writes nothing. -/
theorem C7_output_name (nsec10 event argall : Nat) (name : CStr) (hlen : name.length ≤ 56) :
    (nsec10 < 99900000000 →
      OutputName nsec10 event argall name =
        [Line.name (nsec10 : Int) 1
            ((event &&& 0xF0F) ||| (((name.length + 7) / 8 + 1) <<< 4)) (argall % 2 ^ 32) name,
         Line.name (-1) 1
            ((event &&& 0xF0F) ||| (((name.length + 7) / 8 + 1) <<< 4)) (argall % 2 ^ 32) name])
    ∧ (1 ≤ (name.length + 7) / 8 + 1 ∧ (name.length + 7) / 8 + 1 ≤ 8)
    ∧ (name.length ≤ 8 * ((name.length + 7) / 8) ∧ 8 * ((name.length + 7) / 8) < name.length + 8)
    ∧ ((event &&& 0xF0F) ||| (((name.length + 7) / 8 + 1) <<< 4)) &&& 0xF0F = event &&& 0xF0F
    ∧ ((event &&& 0xF0F) ||| (((name.length + 7) / 8 + 1) <<< 4)) &&& 0x0F0
        = ((name.length + 7) / 8 + 1) <<< 4
    ∧ (nsec10 ≥ 99900000000 → OutputName nsec10 event argall name = []) := by
  have hl := nameLen_eq name.length hlen
  have hb1 : 1 ≤ (name.length + 7) / 8 + 1 := by omega
  have hb8 : (name.length + 7) / 8 + 1 ≤ 8 := by omega
  obtain ⟨hu, hz, hk, -⟩ := lenNibble_and _ hb1 hb8
  refine ⟨?_, ⟨hb1, hb8⟩, ⟨by omega, by omega⟩, ?_, ?_, ?_⟩
  · intro h
    have h1 : ¬ nsec10 ≥ kCrazyTime := by unfold kCrazyTime; omega
    simp only [OutputName, if_neg h1, hl, hu]
  · rw [Nat.and_comm, Nat.and_or_distrib_left, Nat.and_comm _ (_ <<< 4), hz, Nat.or_zero,
      Nat.and_comm, Nat.and_assoc, Nat.and_self]
  · rw [Nat.and_comm, Nat.and_or_distrib_left, Nat.and_comm _ (_ <<< 4), hk,
      Nat.and_comm, Nat.and_assoc]
    have : (0xF0F : Nat) &&& 0x0F0 = 0 := by decide
    rw [this, Nat.and_zero, Nat.zero_or]
  · intro h
    have h1 : nsec10 ≥ kCrazyTime := by unfold kCrazyTime; omega
    simp only [OutputName, if_pos h1]

/-- C7 witness: the two lines written for the 6-byte name "worker" as a PID name. -/
theorem C7_output_name_witness :
    OutputName 1000 KUTRACE_PIDNAME 7 (lit "worker") =
      [Line.name 1000 1 0x022 7 (lit "worker"), Line.name (-1) 1 0x022 7 (lit "worker")] :=
  (C7_output_name 1000 KUTRACE_PIDNAME 7 (lit "worker") (by decide)).1 (by decide)

/-! ## Entry decoding and event classification -/

/-- C8: the decoded fields `t = w >> 44`, `event = (w >> 32) & 0xFFF`,
`delta_t = (w >> 24) & 0xFF`, raw `retval = (w >> 16) & 0xFF` and `arg = w & 0xFFFF` of a
64-bit word partition it, with `t < 2^20` and `event < 2^12`; `argall = w & 0xFFFFFFFF` is
`delta_t*2^24 + retval*2^16 + arg` and `arg_hi` is `delta_t*2^8 + retval`. -/
theorem C8_fields_partition (w : Nat) (hw : w < 2 ^ 64) :
    (decodeFields w).t = w >>> 44 ∧
    (decodeFields w).n = (w >>> 32) &&& 0xFFF ∧
    (decodeFields w).delta_t = (w >>> 24) &&& 0xFF ∧
    (decodeFields w).retval = (w >>> 16) &&& 0xFF ∧
    (decodeFields w).arg = w &&& 0xFFFF ∧
    (decodeFields w).argall = w &&& 0xFFFFFFFF ∧
    w = (decodeFields w).t * 2 ^ 44 + (decodeFields w).n * 2 ^ 32
          + (decodeFields w).delta_t * 2 ^ 24 + (decodeFields w).retval * 2 ^ 16
          + (decodeFields w).arg ∧
    (decodeFields w).t < 2 ^ 20 ∧ (decodeFields w).n < 2 ^ 12 ∧
    (decodeFields w).delta_t < 2 ^ 8 ∧ (decodeFields w).retval < 2 ^ 8 ∧
    (decodeFields w).arg < 2 ^ 16 ∧
    (decodeFields w).argall = (decodeFields w).delta_t * 2 ^ 24
          + (decodeFields w).retval * 2 ^ 16 + (decodeFields w).arg ∧
    (decodeFields w).arg_hi = (decodeFields w).delta_t * 2 ^ 8 + (decodeFields w).retval := by
  refine ⟨rfl, rfl, rfl, rfl, rfl, rfl, ?_⟩
  simp only [decodeFields, Nat.shiftRight_eq_div_pow, and_ff_eq, and_fff_eq, and_ffff_eq,
    and_ffffffff_eq]
  norm_num
  omega

/-- C8 witness: the fields of the word `0x12345_678_9A_BC_DEF0`. -/
theorem C8_fields_partition_witness :
    decodeFields 0x123456789ABCDEF0 =
      { t := 0x12345, n := 0x678, arg := 0xDEF0, argall := 0x9ABCDEF0, arg_hi := 0x9ABC,
        delta_t := 0x9A, retval := 0xBC } ∧
    (0x123456789ABCDEF0 : Nat) = (decodeFields 0x123456789ABCDEF0).t * 2 ^ 44
          + (decodeFields 0x123456789ABCDEF0).n * 2 ^ 32
          + (decodeFields 0x123456789ABCDEF0).delta_t * 2 ^ 24
          + (decodeFields 0x123456789ABCDEF0).retval * 2 ^ 16
          + (decodeFields 0x123456789ABCDEF0).arg :=
  ⟨by decide, (C8_fields_partition 0x123456789ABCDEF0 (by decide)).2.2.2.2.2.2.1⟩

/-- C9: the 8-bit optimized return value `r` is sign-extended to 16 bits: the decoded retval is
`r` when `r < 128` and `0xFF00 + r` when `r ≥ 128`, and is always below `2^16`. -/
theorem C9_retval_sign_extension (r : Nat) (hr : r < 256) :
    signExtendRetval r = (if r < 128 then r else 0xFF00 + r) ∧ signExtendRetval r < 2 ^ 16 := by
  have hs : ∀ v : Int, Int.shiftRight v 56 = v / ((2 ^ 56 : Nat) : Int) :=
    fun v => Int.shiftRight_eq_div_pow v 56
  have h1 : r * 2 ^ 56 % 2 ^ 64 = r * 2 ^ 56 := Nat.mod_eq_of_lt (by omega)
  have key : signExtendRetval r = if r < 128 then r else 0xFF00 + r := by
    simp only [signExtendRetval, ofInt64, toInt64, u64, Nat.shiftLeft_eq, hs, and_ffff_eq]
    rw [h1]
    split_ifs <;> push_cast <;> omega
  refine ⟨key, ?_⟩
  rw [key]
  split <;> omega

/-- C9 witness: `0xFE` (-2) extends to `0xFFFE`. -/
theorem C9_retval_sign_extension_witness :
    signExtendRetval 0xFE = 0xFFFE ∧ signExtendRetval 0xFE < 2 ^ 16 :=
  C9_retval_sign_extension 0xFE (by decide)

/-- C10: for a 12-bit event code `e`, `is_call` holds exactly on 0x400-0x5FF, 0x800-0x9FF and
0xC00-0xDFF, `is_return` exactly on 0x600-0x7FF, 0xA00-0xBFF and 0xE00-0xFFF; from 0x400 up
exactly one of the two holds and below 0x400 neither; clearing bit 0x200 maps TRAPRET, IRQRET,
SYSRET64 and SYSRET32 codes onto the TRAP, IRQ, SYSCALL64 and SYSCALL32 codes with the same
low 8 (resp. 9) bits, and every call code is the image of the return code 0x200 above it. -/
theorem C10_call_return_ranges (e : Nat) (he : e < 4096) :
    (is_call e = true ↔
      (0x400 ≤ e ∧ e ≤ 0x5FF) ∨ (0x800 ≤ e ∧ e ≤ 0x9FF) ∨ (0xC00 ≤ e ∧ e ≤ 0xDFF)) ∧
    (is_return e = true ↔
      (0x600 ≤ e ∧ e ≤ 0x7FF) ∨ (0xA00 ≤ e ∧ e ≤ 0xBFF) ∨ (0xE00 ≤ e ∧ e ≤ 0xFFF)) ∧
    (0x400 ≤ e → (is_call e = true ↔ is_return e = false)) ∧
    (e < 0x400 → is_call e = false ∧ is_return e = false) ∧
    (is_return e = true → e &&& not0200 = e - 0x200 ∧ is_call (e &&& not0200) = true) ∧
    ((KUTRACE_TRAPRET ≤ e ∧ e < KUTRACE_TRAPRET + 256) →
      KUTRACE_TRAP ≤ e &&& not0200 ∧ e &&& not0200 < KUTRACE_TRAP + 256 ∧
      (e &&& not0200) % 256 = e % 256) ∧
    ((KUTRACE_IRQRET ≤ e ∧ e < KUTRACE_IRQRET + 256) →
      KUTRACE_IRQ ≤ e &&& not0200 ∧ e &&& not0200 < KUTRACE_IRQ + 256 ∧
      (e &&& not0200) % 256 = e % 256) ∧
    ((KUTRACE_SYSRET64 ≤ e ∧ e < KUTRACE_SYSRET64 + 512) →
      KUTRACE_SYSCALL64 ≤ e &&& not0200 ∧ e &&& not0200 < KUTRACE_SYSCALL64 + 512 ∧
      (e &&& not0200) % 512 = e % 512) ∧
    ((KUTRACE_SYSRET32 ≤ e ∧ e < KUTRACE_SYSRET32 + 512) →
      KUTRACE_SYSCALL32 ≤ e &&& not0200 ∧ e &&& not0200 < KUTRACE_SYSCALL32 + 512 ∧
      (e &&& not0200) % 512 = e % 512) ∧
    (is_call e = true → is_return (e + 0x200) = true ∧ (e + 0x200) &&& not0200 = e) := by
  have hn := and_not0200 e (by omega)
  have hn2 := and_not0200 (e + 0x200) (by omega)
  have hcall : ∀ x, is_call x = true ↔ (x ≤ 0xffff ∧ 0x400 ≤ x ∧ x / 512 % 2 ≠ 1) := by
    intro x
    simp only [is_call, KUTRACE_TRAP, and_0200_eq, Bool.and_eq_true, decide_eq_true_eq]
    split <;> simp [*]
  have hret : ∀ x, is_return x = true ↔ (x ≤ 0xffff ∧ 0x400 ≤ x ∧ x / 512 % 2 = 1) := by
    intro x
    simp only [is_return, KUTRACE_TRAP, and_0200_eq, Bool.and_eq_true, decide_eq_true_eq]
    split <;> simp [*]
  simp only [Bool.eq_false_iff, Ne, hcall, hret, hn, hn2, KUTRACE_TRAP, KUTRACE_IRQ,
    KUTRACE_TRAPRET, KUTRACE_IRQRET, KUTRACE_SYSCALL64, KUTRACE_SYSRET64, KUTRACE_SYSCALL32,
    KUTRACE_SYSRET32]
  refine ⟨?_, ?_, ?_, ?_, ?_, ?_, ?_, ?_, ?_, ?_⟩ <;> omega

/-- C10 witness: the return code 0xA05 (SYSRET64 of syscall 5) and its call code 0x805. -/
theorem C10_call_return_ranges_witness :
    is_return 0xA05 = true ∧ is_call 0xA05 = false ∧ 0xA05 &&& not0200 = 0x805 ∧
    is_call 0x805 = true :=
  ⟨((C10_call_return_ranges 0xA05 (by decide)).2.1).2 (by decide), by decide, by decide,
    by decide⟩

/-! ## TSDELTA entries -/

/-- C5: processing an entry whose event is TSDELTA writes no line and leaves `current_pid`,
`current_rpc`, `prior_timer_irq_nsec10`, the name table, `idle_pids`, the lo/hi timestamps and
every other variable unchanged, except `prepend` and `prior_t` and the statistics counter of
the entry's type; the loop goes on with the next word. -/
theorem C5_tsdelta_frame (E : Env) (i : Nat) (s : State)
    (h : (decodeFields (E.traceblock i)).n = E.K.KUTRACE_TSDELTA) :
    (processEntry E i s).1.out = s.out ∧
    (processEntry E i s).1.current_pid = s.current_pid ∧
    (processEntry E i s).1.current_rpc = s.current_rpc ∧
    (processEntry E i s).1.prior_timer_irq_nsec10 = s.prior_timer_irq_nsec10 ∧
    (processEntry E i s).1.names = s.names ∧
    (processEntry E i s).1.idle_pids = s.idle_pids ∧
    (processEntry E i s).1.lo_timestamp = s.lo_timestamp ∧
    (processEntry E i s).1.hi_timestamp = s.hi_timestamp ∧
    (processEntry E i s).1.unique_pids = s.unique_pids ∧
    (processEntry E i s).1.gTIMER_IRQ_EVENT = s.gTIMER_IRQ_EVENT ∧
    (processEntry E i s).1.gSCHED_EVENT = s.gSCHED_EVENT ∧
    (processEntry E i s).1.is_low_res_ts = s.is_low_res_ts ∧
    (processEntry E i s).1.event_count = s.event_count ∧
    (processEntry E i s).1.ctx_switches = s.ctx_switches ∧
    ((processEntry E i s).1.time = s.time ∨
      (processEntry E i s).1.time
        = tsdeltaUpdate s.time (decodeFields (E.traceblock i)).argall) ∧
    (is_mark E.K.KUTRACE_TSDELTA = false →
      (processEntry E i s).1.total_marks = s.total_marks ∧
      ∀ k, k ≠ E.K.KUTRACE_TSDELTA >>> 8 →
        (processEntry E i s).1.events_by_type k = s.events_by_type k) ∧
    ((processEntry E i s).2 = Ctl.next i ∨ (processEntry E i s).2 = Ctl.brk) ∧
    (E.traceblock i ≠ 0 → E.traceblock i ≠ 0xffffffffffffffff →
      ¬ ((decodeFields (E.traceblock i)).t = 0xFFFFF ∧ (decodeFields (E.traceblock i)).n = 0xFFF) →
      processEntry E i s =
        ({ s with
            time := tsdeltaUpdate s.time (decodeFields (E.traceblock i)).argall,
            total_marks :=
              if is_mark (decodeFields (E.traceblock i)).n then u64 (s.total_marks + 1)
              else s.total_marks,
            events_by_type :=
              if is_mark (decodeFields (E.traceblock i)).n then s.events_by_type
              else upd s.events_by_type ((decodeFields (E.traceblock i)).n >>> 8)
                    (u64 (s.events_by_type ((decodeFields (E.traceblock i)).n >>> 8) + 1)) },
         Ctl.next i)) := by
  by_cases h0 : E.traceblock i = 0
  · have e : processEntry E i s = (s, Ctl.next i) := by
      simp only [processEntry, if_pos h0]
    rw [e]
    simp [h0]
  · by_cases h1 : E.traceblock i = 0xffffffffffffffff
    · have e : processEntry E i s = (s, Ctl.brk) := by
        simp only [processEntry, if_neg h0, if_pos h1]
      rw [e]
      simp [h1]
    · by_cases h2 : (decodeFields (E.traceblock i)).t = 0xFFFFF ∧
          (decodeFields (E.traceblock i)).n = 0xFFF
      · have e : processEntry E i s = (s, Ctl.next i) := by
          simp only [processEntry, if_neg h0, if_neg h1, if_pos h2]
        rw [e]
        simp [h2]
      · have e : processEntry E i s =
            ({ s with
                time := tsdeltaUpdate s.time (decodeFields (E.traceblock i)).argall,
                total_marks :=
                  if is_mark (decodeFields (E.traceblock i)).n then u64 (s.total_marks + 1)
                  else s.total_marks,
                events_by_type :=
                  if is_mark (decodeFields (E.traceblock i)).n then s.events_by_type
                  else upd s.events_by_type ((decodeFields (E.traceblock i)).n >>> 8)
                    (u64 (s.events_by_type ((decodeFields (E.traceblock i)).n >>> 8) + 1)) },
             Ctl.next i) := by
          simp only [processEntry, if_neg h0, if_neg h1, if_neg h2, if_pos h]
          by_cases hm : is_mark (decodeFields (E.traceblock i)).n = true
          · simp only [hm, if_true]
          · simp only [hm, if_false]
            simp
        rw [e]
        refine ⟨rfl, rfl, rfl, rfl, rfl, rfl, rfl, rfl, rfl, rfl, rfl, rfl, rfl, rfl,
          Or.inr rfl, ?_, Or.inl rfl, fun _ _ _ => rfl⟩
        intro hk
        rw [h, hk]
        refine ⟨rfl, fun k hne => ?_⟩
        simp [upd, hne]

/-- C5 witness: the TSDELTA entry `0x0001021D1DCD6500` (delta 500,000,000) met at word 12 in
the initial state at cycle `0x300000 | 0x12345`. -/
theorem C5_tsdelta_frame_witness :
    (decodeFields ((sampleEnv 0x0001021D1DCD6500).traceblock 12)).n
      = (sampleEnv 0x0001021D1DCD6500).K.KUTRACE_TSDELTA ∧
    (processEntry (sampleEnv 0x0001021D1DCD6500) 12 (initialState ⟨0x300000, 0x12345⟩)).1.out
      = [] ∧
    (processEntry (sampleEnv 0x0001021D1DCD6500) 12 (initialState ⟨0x300000, 0x12345⟩)).1.time
      = ⟨0x1df00000, 0xe8845⟩ ∧
    (processEntry (sampleEnv 0x0001021D1DCD6500) 12 (initialState ⟨0x300000, 0x12345⟩)).2
      = Ctl.next 12 :=
  ⟨by decide,
   (C5_tsdelta_frame (sampleEnv 0x0001021D1DCD6500) 12 (initialState ⟨0x300000, 0x12345⟩)
      (by decide)).1,
   by decide, by decide⟩

/-! ## The loop body in stages: agreement with `processEntry` -/

theorem processEntry_event (E : Env) (i : Nat) (s : State)
    (hw : liveWord (E.traceblock i))
    (ht : (decodeFields (E.traceblock i)).n ≠ E.K.KUTRACE_TSDELTA)
    (hn : is_namedef E.K (decodeFields (E.traceblock i)).n = false) :
    processEntry E i s =
      processEvent E i (decodeFields (E.traceblock i))
        (signExtendRetval (decodeFields (E.traceblock i)).retval) (E.ipcblock i)
        (entryTfull (decodeFields (E.traceblock i)) s)
        (entryNsec10 E (decodeFields (E.traceblock i)) s)
        (entryStart E (decodeFields (E.traceblock i)) s).2
        (entryStart E (decodeFields (E.traceblock i)) s).1 := by
  obtain ⟨h0, h1, h2⟩ := hw
  simp only [processEntry, if_neg h0, if_neg h1, if_neg h2, if_neg ht, hn, entryStart,
    entryTfull, entryNsec10]
  by_cases hm : is_mark (decodeFields (E.traceblock i)).n = true <;>
  by_cases hr : has_rpcid E.K (decodeFields (E.traceblock i)).n = true <;>
  by_cases ha : (decodeFields (E.traceblock i)).arg = 0 <;>
  simp [hm, hr, ha]

theorem processEvent_normal (E : Env) (i : Nat) (f : Fields) (retval ipc tfull nsec10 : Nat)
    (d : Bool) (s : State) (hk : E.keep_just_names = false) :
    processEvent E i f retval ipc tfull nsec10 d s =
      finishEvent E d (eventLocals E i f retval ipc tfull nsec10
        { s with out := s.out ++ cpuDescLines E f nsec10 }) := by
  simp only [processEvent, hk, finishEvent, eventLocals, cpuDescLines]
  by_cases hc : is_cpu_description E.K f.n = true
  · simp [hc]
  · simp [hc]

theorem processEvent_names_only (E : Env) (i : Nat) (f : Fields) (retval ipc tfull nsec10 : Nat)
    (d : Bool) (s : State) (hk : E.keep_just_names = true) :
    processEvent E i f retval ipc tfull nsec10 d s =
      ({ s with out := s.out ++ cpuDescLines E f nsec10 }, Ctl.next i) := by
  simp only [processEvent, hk, cpuDescLines]
  by_cases hc : is_cpu_description E.K f.n = true
  · simp [hc]
  · simp [hc]

theorem stepFinish_eq (E : Env) (argall : Nat) (v : Locals) :
    stepFinish E argall v =
      if (enrichLocals E argall v).name = [] ∧ (enrichLocals E argall v).event ≤ 0xFFF
      then { enrichLocals E argall v with name := missingName (enrichLocals E argall v).event }
      else enrichLocals E argall v := rfl

theorem eventLocals_eq (E : Env) (i : Nat) (f : Fields) (retval ipc tfull nsec10 : Nat)
    (s : State) :
    eventLocals E i f retval ipc tfull nsec10 s =
      (stepFinish E f.argall (eventSpecial E i f retval ipc tfull nsec10 s).1,
       (eventSpecial E i f retval ipc tfull nsec10 s).2) := rfl

theorem sampleConsts_sane : sampleConsts.Sane := by decide

/-! ## Classification of event codes -/

theorem decodeFields_n_lt (w : Nat) : (decodeFields w).n < 4096 := by
  show (w >>> 32) &&& 0xfff < 4096
  rw [and_fff_eq]; omega

theorem decodeFields_arg_lt (w : Nat) : (decodeFields w).arg < 65536 := by
  show w &&& 0x0000ffff < 65536
  rw [and_ffff_eq]; omega

theorem is_call_iff (x : Nat) :
    is_call x = true ↔ (x ≤ 0xffff ∧ 0x400 ≤ x ∧ x / 512 % 2 ≠ 1) := by
  simp only [is_call, KUTRACE_TRAP, and_0200_eq, Bool.and_eq_true, decide_eq_true_eq]
  split <;> simp [*]

theorem is_return_iff (x : Nat) :
    is_return x = true ↔ (x ≤ 0xffff ∧ 0x400 ≤ x ∧ x / 512 % 2 = 1) := by
  simp only [is_return, KUTRACE_TRAP, and_0200_eq, Bool.and_eq_true, decide_eq_true_eq]
  split <;> simp [*]

/-- With the library's codes placed as in `LibConsts.Sane`, a code from `KUTRACE_TRAP` up is
only ever a call or a return. -/
theorem class_ge_trap (K : LibConsts) (hK : K.Sane) (n : Nat) (h : 0x400 ≤ n) :
    n ≠ K.KUTRACE_TSDELTA ∧ is_cpu_description K n = false ∧ has_rpcid K n = false ∧
    is_namedef K n = false ∧ is_pc_sample K n = false ∧ is_special K n = false ∧
    is_raw_pkt_hash K n = false ∧ is_user_msg_hash K n = false ∧ is_lock K n = false ∧
    is_rpc_msg n = false ∧ is_mark_abc n = false ∧ is_contextswitch n = false ∧
    is_mark n = false := by
  obtain ⟨h1, h2, h3, h4, h5, h6, h7, h8, h9, h10, h11, h12, h13, h14, h15, h16, h17⟩ := hK
  simp only [is_cpu_description, has_rpcid, is_namedef, is_pc_sample, is_special,
    is_raw_pkt_hash, is_user_msg_hash, is_lock, is_rpc_msg, is_mark_abc, is_contextswitch,
    is_mark, KUTRACE_RPCIDREQ, KUTRACE_RPCIDRESP, KUTRACE_USERPID, Bool.and_eq_false_iff,
    Bool.or_eq_false_iff, decide_eq_false_iff_not, ite_eq_right_iff, Ne]
  refine ⟨?_, ?_, ?_, ?_, ?_, ?_, ?_, ?_, ?_, ?_, ?_, ?_, ?_⟩ <;> omega

/-! ## The steps of an event under a known classification -/

theorem stepContextSwitch_of_not (E : Env) (v : Locals) (s : State)
    (h : is_contextswitch v.n = false) : stepContextSwitch E v s = (v, s) := by
  simp [stepContextSwitch, h]

theorem stepOptCall_of_not (E : Env) (d tfull : Nat) (v : Locals) (s : State)
    (h : is_opt_call v.n d = false) : stepOptCall E d tfull v s = { v with retval := 0 } := by
  simp [stepOptCall, h]

theorem stepPcSample_of_not (E : Env) (v : Locals) (s : State)
    (h : is_pc_sample E.K v.n = false) : stepPcSample E v s = (v, s) := by
  simp [stepPcSample, h]

theorem stepSpecial_of_not (E : Env) (argall : Nat) (v : Locals) (s : State)
    (h : is_special E.K v.n = false) : stepSpecial E argall v s = (v, s) := by
  simp [stepSpecial, h]

theorem stepTimerIrq_frame (E : Env) (v : Locals) (s : State) :
    (stepTimerIrq E v s).out = s.out ∧ (stepTimerIrq E v s).current_pid = s.current_pid ∧
    (stepTimerIrq E v s).current_rpc = s.current_rpc ∧ (stepTimerIrq E v s).names = s.names ∧
    (stepTimerIrq E v s).idle_pids = s.idle_pids ∧
    (stepTimerIrq E v s).is_low_res_ts = s.is_low_res_ts := by
  unfold stepTimerIrq
  split <;> exact ⟨rfl, rfl, rfl, rfl, rfl, rfl⟩

theorem entryStart_frame (E : Env) (f : Fields) (s : State) :
    (entryStart E f s).1.out = s.out ∧ (entryStart E f s).1.current_pid = s.current_pid ∧
    (entryStart E f s).1.names = s.names ∧ (entryStart E f s).1.idle_pids = s.idle_pids ∧
    (entryStart E f s).1.is_low_res_ts = s.is_low_res_ts ∧
    (entryStart E f s).1.prior_timer_irq_nsec10 = s.prior_timer_irq_nsec10 ∧
    (entryStart E f s).1.gTIMER_IRQ_EVENT = s.gTIMER_IRQ_EVENT ∧
    (entryStart E f s).1.gSCHED_EVENT = s.gSCHED_EVENT := by
  unfold entryStart
  by_cases hm : is_mark f.n = true <;> by_cases hr : has_rpcid E.K f.n = true <;>
  by_cases ha : f.arg = 0 <;> simp [hm, hr, ha]

theorem entryStart_rpc (E : Env) (f : Fields) (s : State) :
    (entryStart E f s).1.current_rpc =
      (if has_rpcid E.K f.n = true ∧ f.arg ≠ 0 then upd s.current_rpc E.current_cpu f.arg
       else s.current_rpc) ∧
    (entryStart E f s).2 = (has_rpcid E.K f.n && decide (f.arg = 0)) := by
  unfold entryStart
  by_cases hm : is_mark f.n = true <;> by_cases hr : has_rpcid E.K f.n = true <;>
  by_cases ha : f.arg = 0 <;> simp [hm, hr, ha]

/-- An event entry outside keep-just-names mode, in stages. -/
theorem processEntry_normal (E : Env) (i : Nat) (s : State)
    (hk : E.keep_just_names = false) (hw : liveWord (E.traceblock i))
    (ht : (decodeFields (E.traceblock i)).n ≠ E.K.KUTRACE_TSDELTA)
    (hn : is_namedef E.K (decodeFields (E.traceblock i)).n = false) :
    processEntry E i s =
      finishEvent E (entryStart E (decodeFields (E.traceblock i)) s).2
        (eventLocals E i (decodeFields (E.traceblock i))
          (signExtendRetval (decodeFields (E.traceblock i)).retval) (E.ipcblock i)
          (entryTfull (decodeFields (E.traceblock i)) s)
          (entryNsec10 E (decodeFields (E.traceblock i)) s)
          { (entryStart E (decodeFields (E.traceblock i)) s).1 with
            out := (entryStart E (decodeFields (E.traceblock i)) s).1.out ++
              cpuDescLines E (decodeFields (E.traceblock i))
                (entryNsec10 E (decodeFields (E.traceblock i)) s) }) := by
  rw [processEntry_event E i s hw ht hn, processEvent_normal _ _ _ _ _ _ _ _ _ hk]

/-! ## Each step as a record of its results -/

theorem stepContextSwitch_fst (E : Env) (v : Locals) (s : State) :
    (stepContextSwitch E v s).1 =
      { v with arg := if is_contextswitch v.n then RemapIdlePid v.arg s.idle_pids else v.arg } := by
  unfold stepContextSwitch
  split <;> simp [*]

theorem stepContextSwitch_snd (E : Env) (v : Locals) (s : State) :
    (stepContextSwitch E v s).2.out = s.out ∧
    (stepContextSwitch E v s).2.current_rpc = s.current_rpc ∧
    (stepContextSwitch E v s).2.names = s.names ∧
    (stepContextSwitch E v s).2.idle_pids = s.idle_pids ∧
    (stepContextSwitch E v s).2.is_low_res_ts = s.is_low_res_ts ∧
    (stepContextSwitch E v s).2.gTIMER_IRQ_EVENT = s.gTIMER_IRQ_EVENT ∧
    (stepContextSwitch E v s).2.prior_timer_irq_nsec10 = s.prior_timer_irq_nsec10 ∧
    (stepContextSwitch E v s).2.current_pid =
      (if is_contextswitch v.n then upd s.current_pid E.current_cpu (RemapIdlePid v.arg s.idle_pids)
       else s.current_pid) := by
  unfold stepContextSwitch
  split <;> simp [*]

theorem stepOptCall_eq (E : Env) (d tfull : Nat) (v : Locals) (s : State) :
    stepOptCall E d tfull v s =
      { v with
        duration := if is_opt_call v.n d then optDuration E d tfull v.nsec10 s.is_low_res_ts
                    else v.duration,
        retval := if is_opt_call v.n d then v.retval else 0 } := by
  unfold stepOptCall optDuration
  split <;> simp [*]

theorem stepTimerIrq_prior (E : Env) (v : Locals) (s : State) :
    (stepTimerIrq E v s).prior_timer_irq_nsec10 =
      (if is_timer_irq s.gTIMER_IRQ_EVENT v.n
       then upd s.prior_timer_irq_nsec10 E.current_cpu v.nsec10
       else s.prior_timer_irq_nsec10) := by
  unfold stepTimerIrq
  split <;> simp [*]

theorem stepPcSample_fst (E : Env) (v : Locals) (s : State) :
    (stepPcSample E v s).1 =
      { i := if is_pc_sample E.K v.n then v.i + 1 else v.i,
        n := if is_pc_sample E.K v.n then pcCode E.K (E.traceblock (v.i + 1)) else v.n,
        event := if is_pc_sample E.K v.n then pcCode E.K (E.traceblock (v.i + 1)) else v.event,
        arg := if is_pc_sample E.K v.n then (E.traceblock (v.i + 1) >>> 6) &&& 0xFFFF else v.arg,
        retval := if is_pc_sample E.K v.n then 0 else v.retval,
        ipc := if is_pc_sample E.K v.n then 0 else v.ipc,
        nsec10 := if is_pc_sample E.K v.n
                  then pcNsec10 (s.prior_timer_irq_nsec10 E.current_cpu) v.nsec10 else v.nsec10,
        duration := v.duration,
        name := if is_pc_sample E.K v.n then lit "PC=" ++ hexLower 12 (E.traceblock (v.i + 1))
                else v.name } := by
  unfold stepPcSample pcCode pcNsec10
  split <;> simp [*]

theorem stepPcSample_snd (E : Env) (v : Locals) (s : State) :
    (stepPcSample E v s).2.out =
      s.out ++ (if is_pc_sample E.K v.n = true ∧ 0 < v.arg
                then OutputEvent (pcNsec10 (s.prior_timer_irq_nsec10 E.current_cpu) v.nsec10) 1
                      KUTRACE_PSTATE E.current_cpu (s.current_pid E.current_cpu)
                      (s.current_rpc E.current_cpu) v.arg 0 0 (lit "-freq-")
                else []) ∧
    (stepPcSample E v s).2.current_rpc = s.current_rpc ∧
    (stepPcSample E v s).2.current_pid = s.current_pid ∧
    (stepPcSample E v s).2.names = s.names ∧
    (stepPcSample E v s).2.idle_pids = s.idle_pids := by
  unfold stepPcSample pcNsec10
  by_cases h : is_pc_sample E.K v.n = true <;> by_cases h2 : 0 < v.arg <;> simp [h, h2]

theorem stepSpecial_fst (E : Env) (argall : Nat) (v : Locals) (s : State) :
    (stepSpecial E argall v s).1 =
      { v with
        name := if is_special E.K v.n then specialName E argall v s.names else v.name,
        duration := if is_special E.K v.n then (if v.duration = 0 then 1 else v.duration)
                    else v.duration } := by
  unfold stepSpecial specialName
  by_cases h : is_special E.K v.n = true
  · simp only [h, if_true, apply_ite Prod.fst]
  · simp [h]

theorem stepSpecial_snd (E : Env) (argall : Nat) (v : Locals) (s : State) :
    (stepSpecial E argall v s).2.out = s.out ∧
    (stepSpecial E argall v s).2.current_rpc = s.current_rpc ∧
    (stepSpecial E argall v s).2.current_pid = s.current_pid ∧
    (stepSpecial E argall v s).2.idle_pids = s.idle_pids := by
  unfold stepSpecial
  split <;> simp [*]

theorem enrichLocals_eq (E : Env) (argall : Nat) (v : Locals) :
    enrichLocals E argall v =
      { v with
        retval := if is_return v.n then v.arg else v.retval,
        arg :=
          if is_mark_abc v.n then argall
          else if is_rpc_msg v.n &&
              decide ((if is_raw_pkt_hash E.K v.n || is_user_msg_hash E.K v.n then argall
                       else if is_return v.n then 0 else v.arg) ≠ 0) then argall
          else if is_raw_pkt_hash E.K v.n || is_user_msg_hash E.K v.n then argall
          else if is_return v.n then 0 else v.arg,
        name :=
          (v.name ++
            (if is_bottom_half v.n
             then lit ":" ++ soft_irq_name.getD ((if is_return v.n then 0 else v.arg) &&& 0x000f) []
             else [])) ++
            (if is_mark_abc v.n then lit "=" ++ E.K.Base40ToChar argall else []) } := by
  unfold enrichLocals
  cases v with
  | mk vi vn vevent varg vretval vipc vnsec10 vduration vname =>
  by_cases h1 : is_return vn = true <;> by_cases h2 : is_bottom_half vn = true <;>
  by_cases h3 : (is_raw_pkt_hash E.K vn || is_user_msg_hash E.K vn) = true <;>
  by_cases h5 : is_mark_abc vn = true <;>
  by_cases h4 : is_rpc_msg vn = true <;>
  by_cases h6 : varg = 0 <;> by_cases h7 : argall = 0 <;>
  simp [h1, h2, h3, h4, h5, h6, h7]

/-! ## Return events -/

theorem return_class (n d : Nat) (h : is_return n = true) :
    is_opt_call n d = false ∧ is_usermode n = false ∧ is_call (n &&& not0200) = true ∧
    0x400 ≤ n ∧ n ≤ 0xffff := by
  have hr := (is_return_iff n).1 h
  have hc : is_call n = false := by
    rw [Bool.eq_false_iff]; intro hc; have := (is_call_iff n).1 hc; omega
  refine ⟨by simp [is_opt_call, hc], ?_, ?_, hr.2.1, hr.1⟩
  · simp only [is_usermode, Bool.and_eq_false_iff, decide_eq_false_iff_not]
    left; omega
  · rw [is_call_iff, and_not0200 n (by omega)]
    omega


theorem stepLookupName_eq (v : Locals) (s : State) :
    stepLookupName v s = { v with name := lookupName v.n v.event v.arg s.names } := rfl

theorem lookupName_return (n : Nat) (arg : Nat) (names : Nat → Option CStr)
    (hr : is_return n = true) :
    lookupName n n arg names =
      (match names (n &&& not0200) with
       | some nm => lit "/" ++ nm
       | none => []) := by
  obtain ⟨-, hu, -, hge, -⟩ := return_class n 0 hr
  have hcs : is_contextswitch n = false := by
    simp only [is_contextswitch, KUTRACE_USERPID, decide_eq_false_iff_not]; omega
  unfold lookupName
  cases h : names (n &&& not0200) <;> simp [hr, hcs, hu, h, namesAt]

theorem lookupName_plain (n : Nat) (arg : Nat) (names : Nat → Option CStr)
    (hr : is_return n = false) (hcs : is_contextswitch n = false) (hu : is_usermode n = false) :
    lookupName n n arg names = namesAt names n := by
  unfold lookupName
  cases h : names n <;> simp [hr, hcs, hu, h, namesAt]

theorem upd_same {α : Type} (g : Nat → α) (k : Nat) (x : α) : upd g k x k = x := by
  simp [upd]

theorem eventSpecial_fst (E : Env) (i : Nat) (f : Fields) (retval ipc tfull nsec10 : Nat)
    (s : State) :
    (eventSpecial E i f retval ipc tfull nsec10 s).1 =
      localsAfterSpecial E i f retval ipc tfull nsec10 s := by
  simp only [eventSpecial, localsAfterSpecial, localsAfterPc, stepSpecial_fst, stepPcSample_fst,
    stepPcSample_snd, stepOptCall_eq, stepLookupName_eq, stepContextSwitch_fst,
    stepContextSwitch_snd, stepTimerIrq_prior, (stepTimerIrq_frame _ _ _).2.2.2.1]
  by_cases ht : is_timer_irq s.gTIMER_IRQ_EVENT f.n = true
  · simp [ht, upd_same]
  · simp [ht]

theorem eventSpecial_snd (E : Env) (i : Nat) (f : Fields) (retval ipc tfull nsec10 : Nat)
    (s : State) :
    (eventSpecial E i f retval ipc tfull nsec10 s).2.out = s.out ++ pcFreqLines E f nsec10 s ∧
    (eventSpecial E i f retval ipc tfull nsec10 s).2.current_rpc = s.current_rpc ∧
    (eventSpecial E i f retval ipc tfull nsec10 s).2.current_pid =
      (if is_contextswitch f.n
       then upd s.current_pid E.current_cpu (RemapIdlePid f.arg s.idle_pids)
       else s.current_pid) ∧
    (eventSpecial E i f retval ipc tfull nsec10 s).2.idle_pids = s.idle_pids := by
  simp only [eventSpecial, pcFreqLines, stepSpecial_snd, stepPcSample_fst,
    stepPcSample_snd, stepOptCall_eq, stepLookupName_eq, stepContextSwitch_fst,
    stepContextSwitch_snd, stepTimerIrq_prior, stepTimerIrq_frame]
  by_cases ht : is_timer_irq s.gTIMER_IRQ_EVENT f.n = true <;>
  by_cases hc : is_contextswitch f.n = true <;> simp [ht, hc, upd_same]

theorem localsAfterSpecial_congr (E : Env) (i : Nat) (f : Fields)
    (retval ipc tfull nsec10 : Nat) (s s' : State)
    (h1 : s'.idle_pids = s.idle_pids) (h2 : s'.gTIMER_IRQ_EVENT = s.gTIMER_IRQ_EVENT)
    (h3 : s'.prior_timer_irq_nsec10 = s.prior_timer_irq_nsec10)
    (h4 : s'.is_low_res_ts = s.is_low_res_ts) (h5 : s'.names = s.names) :
    localsAfterSpecial E i f retval ipc tfull nsec10 s' =
      localsAfterSpecial E i f retval ipc tfull nsec10 s := by
  simp only [localsAfterSpecial, localsAfterPc, h1, h2, h3, h4, h5]

theorem pcFreqLines_congr (E : Env) (f : Fields) (nsec10 : Nat) (s s' : State)
    (h1 : s'.idle_pids = s.idle_pids) (h2 : s'.gTIMER_IRQ_EVENT = s.gTIMER_IRQ_EVENT)
    (h3 : s'.prior_timer_irq_nsec10 = s.prior_timer_irq_nsec10)
    (h4 : s'.current_pid = s.current_pid) (h5 : s'.current_rpc = s.current_rpc) :
    pcFreqLines E f nsec10 s' = pcFreqLines E f nsec10 s := by
  simp only [pcFreqLines, h1, h2, h3, h4, h5]

theorem pcFreqLines_of_not (E : Env) (f : Fields) (nsec10 : Nat) (s : State)
    (h : is_pc_sample E.K f.n = false) : pcFreqLines E f nsec10 s = [] := by
  simp [pcFreqLines, h]

theorem finishEvent_eventLocals (E : Env) (i : Nat) (f : Fields)
    (retval ipc tfull nsec10 : Nat) (d : Bool) (st : State) :
    (finishEvent E d (eventLocals E i f retval ipc tfull nsec10 st)).1.out =
      st.out ++ pcFreqLines E f nsec10 st ++
        OutputEvent
          (stepFinish E f.argall (localsAfterSpecial E i f retval ipc tfull nsec10 st)).nsec10
          (stepFinish E f.argall (localsAfterSpecial E i f retval ipc tfull nsec10 st)).duration
          (stepFinish E f.argall (localsAfterSpecial E i f retval ipc tfull nsec10 st)).event
          E.current_cpu
          ((if is_contextswitch f.n
            then upd st.current_pid E.current_cpu (RemapIdlePid f.arg st.idle_pids)
            else st.current_pid) E.current_cpu)
          (st.current_rpc E.current_cpu)
          (stepFinish E f.argall (localsAfterSpecial E i f retval ipc tfull nsec10 st)).arg
          (stepFinish E f.argall (localsAfterSpecial E i f retval ipc tfull nsec10 st)).retval
          (stepFinish E f.argall (localsAfterSpecial E i f retval ipc tfull nsec10 st)).ipc
          (stepFinish E f.argall (localsAfterSpecial E i f retval ipc tfull nsec10 st)).name ∧
    (finishEvent E d (eventLocals E i f retval ipc tfull nsec10 st)).1.current_pid =
      (if is_contextswitch f.n
       then upd st.current_pid E.current_cpu (RemapIdlePid f.arg st.idle_pids)
       else st.current_pid) ∧
    (finishEvent E d (eventLocals E i f retval ipc tfull nsec10 st)).1.current_rpc =
      (if d then upd st.current_rpc E.current_cpu 0 else st.current_rpc) ∧
    (finishEvent E d (eventLocals E i f retval ipc tfull nsec10 st)).1.idle_pids
      = st.idle_pids ∧
    (finishEvent E d (eventLocals E i f retval ipc tfull nsec10 st)).2 =
      Ctl.next
        (stepFinish E f.argall (localsAfterSpecial E i f retval ipc tfull nsec10 st)).i := by
  obtain ⟨o1, o2, o3, o4⟩ := eventSpecial_snd E i f retval ipc tfull nsec10 st
  simp only [finishEvent, eventLocals_eq, eventSpecial_fst, o1, o2, o3, o4]
  cases d <;> simp

/-- An event entry outside keep-just-names mode: what it writes and where it leaves the
per-CPU state. -/
theorem processEntry_normal_form (E : Env) (i : Nat) (s : State)
    (hk : E.keep_just_names = false) (hw : liveWord (E.traceblock i))
    (ht : (decodeFields (E.traceblock i)).n ≠ E.K.KUTRACE_TSDELTA)
    (hn : is_namedef E.K (decodeFields (E.traceblock i)).n = false) :
    (processEntry E i s).1.out =
      s.out ++ cpuDescLines E (decodeFields (E.traceblock i))
                (entryNsec10 E (decodeFields (E.traceblock i)) s)
        ++ pcFreqLines E (decodeFields (E.traceblock i))
            (entryNsec10 E (decodeFields (E.traceblock i)) s)
            (entryStart E (decodeFields (E.traceblock i)) s).1
        ++ OutputEvent (finalLocals E i s).nsec10 (finalLocals E i s).duration
            (finalLocals E i s).event E.current_cpu
            ((if is_contextswitch (decodeFields (E.traceblock i)).n
              then upd s.current_pid E.current_cpu
                    (RemapIdlePid (decodeFields (E.traceblock i)).arg s.idle_pids)
              else s.current_pid) E.current_cpu)
            ((entryStart E (decodeFields (E.traceblock i)) s).1.current_rpc E.current_cpu)
            (finalLocals E i s).arg (finalLocals E i s).retval (finalLocals E i s).ipc
            (finalLocals E i s).name ∧
    (processEntry E i s).1.current_pid =
      (if is_contextswitch (decodeFields (E.traceblock i)).n
       then upd s.current_pid E.current_cpu
              (RemapIdlePid (decodeFields (E.traceblock i)).arg s.idle_pids)
       else s.current_pid) ∧
    (processEntry E i s).1.current_rpc =
      (if (entryStart E (decodeFields (E.traceblock i)) s).2
       then upd (entryStart E (decodeFields (E.traceblock i)) s).1.current_rpc E.current_cpu 0
       else (entryStart E (decodeFields (E.traceblock i)) s).1.current_rpc) ∧
    (processEntry E i s).1.idle_pids = s.idle_pids ∧
    (processEntry E i s).2 = Ctl.next (finalLocals E i s).i := by
  rw [processEntry_normal E i s hk hw ht hn]
  simp only [finalLocals]
  generalize decodeFields (E.traceblock i) = f at *
  obtain ⟨e1, e2, e3, e4, e5, e6, e7, e8⟩ := entryStart_frame E f s
  have key : ∀ st' : State,
      st'.out = s.out ++ cpuDescLines E f (entryNsec10 E f s) →
      st'.current_pid = s.current_pid →
      st'.current_rpc = (entryStart E f s).1.current_rpc →
      st'.idle_pids = s.idle_pids → st'.gTIMER_IRQ_EVENT = s.gTIMER_IRQ_EVENT →
      st'.prior_timer_irq_nsec10 = s.prior_timer_irq_nsec10 →
      st'.is_low_res_ts = s.is_low_res_ts → st'.names = s.names →
      (finishEvent E (entryStart E f s).2
          (eventLocals E i f (signExtendRetval f.retval) (E.ipcblock i) (entryTfull f s)
            (entryNsec10 E f s) st')).1.out =
        s.out ++ cpuDescLines E f (entryNsec10 E f s)
          ++ pcFreqLines E f (entryNsec10 E f s) (entryStart E f s).1
          ++ OutputEvent (stepFinish E f.argall (localsAfterSpecial E i f (signExtendRetval f.retval)
                (E.ipcblock i) (entryTfull f s) (entryNsec10 E f s) s)).nsec10 (stepFinish E f.argall (localsAfterSpecial E i f (signExtendRetval f.retval)
                (E.ipcblock i) (entryTfull f s) (entryNsec10 E f s) s)).duration
              (stepFinish E f.argall (localsAfterSpecial E i f (signExtendRetval f.retval)
                (E.ipcblock i) (entryTfull f s) (entryNsec10 E f s) s)).event E.current_cpu
              ((if is_contextswitch f.n
                then upd s.current_pid E.current_cpu (RemapIdlePid f.arg s.idle_pids)
                else s.current_pid) E.current_cpu)
              ((entryStart E f s).1.current_rpc E.current_cpu)
              (stepFinish E f.argall (localsAfterSpecial E i f (signExtendRetval f.retval)
                (E.ipcblock i) (entryTfull f s) (entryNsec10 E f s) s)).arg (stepFinish E f.argall (localsAfterSpecial E i f (signExtendRetval f.retval)
                (E.ipcblock i) (entryTfull f s) (entryNsec10 E f s) s)).retval (stepFinish E f.argall (localsAfterSpecial E i f (signExtendRetval f.retval)
                (E.ipcblock i) (entryTfull f s) (entryNsec10 E f s) s)).ipc
              (stepFinish E f.argall (localsAfterSpecial E i f (signExtendRetval f.retval)
                (E.ipcblock i) (entryTfull f s) (entryNsec10 E f s) s)).name ∧
      (finishEvent E (entryStart E f s).2
          (eventLocals E i f (signExtendRetval f.retval) (E.ipcblock i) (entryTfull f s)
            (entryNsec10 E f s) st')).1.current_pid =
        (if is_contextswitch f.n
         then upd s.current_pid E.current_cpu (RemapIdlePid f.arg s.idle_pids)
         else s.current_pid) ∧
      (finishEvent E (entryStart E f s).2
          (eventLocals E i f (signExtendRetval f.retval) (E.ipcblock i) (entryTfull f s)
            (entryNsec10 E f s) st')).1.current_rpc =
        (if (entryStart E f s).2
         then upd (entryStart E f s).1.current_rpc E.current_cpu 0
         else (entryStart E f s).1.current_rpc) ∧
      (finishEvent E (entryStart E f s).2
          (eventLocals E i f (signExtendRetval f.retval) (E.ipcblock i) (entryTfull f s)
            (entryNsec10 E f s) st')).1.idle_pids = s.idle_pids ∧
      (finishEvent E (entryStart E f s).2
          (eventLocals E i f (signExtendRetval f.retval) (E.ipcblock i) (entryTfull f s)
            (entryNsec10 E f s) st')).2 = Ctl.next (stepFinish E f.argall (localsAfterSpecial E i f (signExtendRetval f.retval)
                (E.ipcblock i) (entryTfull f s) (entryNsec10 E f s) s)).i := by
    intro st' h1 h2 h3 h4 h5 h6 h7 h8
    have hL := localsAfterSpecial_congr E i f (signExtendRetval f.retval) (E.ipcblock i)
      (entryTfull f s) (entryNsec10 E f s) s st' h4 h5 h6 h7 h8
    have hF := pcFreqLines_congr E f (entryNsec10 E f s) (entryStart E f s).1 st'
      (h4.trans e4.symm) (h5.trans e7.symm) (h6.trans e6.symm) (h2.trans e2.symm) h3
    obtain ⟨p1, p2, p3, p4, p5⟩ := finishEvent_eventLocals E i f (signExtendRetval f.retval)
      (E.ipcblock i) (entryTfull f s) (entryNsec10 E f s) (entryStart E f s).2 st'
    rw [hL, hF, h1, h2, h3, h4] at p1
    rw [hL] at p5
    rw [h2, h4] at p2
    rw [h3] at p3
    rw [h4] at p4
    exact ⟨p1, p2, p3, p4, p5⟩
  exact key _ (by rw [← e1]) e2 rfl e4 e7 e6 e5 e3

theorem stepFinish_name (E : Env) (argall : Nat) (v : Locals) :
    stepFinish E argall v =
      { enrichLocals E argall v with
        name := if (enrichLocals E argall v).name = [] ∧ (enrichLocals E argall v).event ≤ 0xFFF
                then missingName (enrichLocals E argall v).event
                else (enrichLocals E argall v).name } := by
  rw [stepFinish_eq]
  split <;> rfl

/-- The master lemma with the decoded fields named. -/
theorem processEntry_form (E : Env) (i : Nat) (s : State) (f : Fields)
    (hf : decodeFields (E.traceblock i) = f)
    (hk : E.keep_just_names = false) (hw : liveWord (E.traceblock i))
    (ht : f.n ≠ E.K.KUTRACE_TSDELTA) (hn : is_namedef E.K f.n = false) :
    (processEntry E i s).1.out =
      s.out ++ cpuDescLines E f (entryNsec10 E f s)
        ++ pcFreqLines E f (entryNsec10 E f s) (entryStart E f s).1
        ++ OutputEvent (finalLocals E i s).nsec10 (finalLocals E i s).duration
            (finalLocals E i s).event E.current_cpu
            ((if is_contextswitch f.n
              then upd s.current_pid E.current_cpu (RemapIdlePid f.arg s.idle_pids)
              else s.current_pid) E.current_cpu)
            ((entryStart E f s).1.current_rpc E.current_cpu)
            (finalLocals E i s).arg (finalLocals E i s).retval (finalLocals E i s).ipc
            (finalLocals E i s).name ∧
    (processEntry E i s).1.current_pid =
      (if is_contextswitch f.n
       then upd s.current_pid E.current_cpu (RemapIdlePid f.arg s.idle_pids)
       else s.current_pid) ∧
    (processEntry E i s).1.current_rpc =
      (if (entryStart E f s).2
       then upd (entryStart E f s).1.current_rpc E.current_cpu 0
       else (entryStart E f s).1.current_rpc) ∧
    (processEntry E i s).1.idle_pids = s.idle_pids ∧
    (processEntry E i s).2 = Ctl.next (finalLocals E i s).i := by
  subst hf
  exact processEntry_normal_form E i s hk hw ht hn

/-- The locals handed to the final `OutputEvent` for an entry whose event number is at least
0x400 (a call or a return), field by field. -/
theorem finalLocals_trap (E : Env) (i : Nat) (s : State) (f : Fields)
    (hf : decodeFields (E.traceblock i) = f) (hK : E.K.Sane) (hge : 0x400 ≤ f.n) :
    finalLocals E i s =
      { i := i, n := f.n, event := f.n,
        arg := if is_return f.n then 0 else f.arg,
        retval := if is_return f.n then f.arg
                  else if is_opt_call f.n f.delta_t then signExtendRetval f.retval else 0,
        ipc := E.ipcblock i,
        nsec10 := entryNsec10 E f s,
        duration := if is_opt_call f.n f.delta_t
                    then optDuration E f.delta_t (entryTfull f s) (entryNsec10 E f s)
                          s.is_low_res_ts
                    else 0,
        name :=
          if lookupName f.n f.n f.arg s.names ++
              (if is_bottom_half f.n
               then lit ":" ++ soft_irq_name.getD ((if is_return f.n then 0 else f.arg) &&& 0x000f) []
               else []) = [] ∧ f.n ≤ 0xFFF
          then missingName f.n
          else lookupName f.n f.n f.arg s.names ++
              (if is_bottom_half f.n
               then lit ":" ++ soft_irq_name.getD ((if is_return f.n then 0 else f.arg) &&& 0x000f) []
               else []) } := by
  subst hf
  obtain ⟨c1, c2, c3, c4, c5, c6, c7, c8, c9, c10, c11, c12, c13⟩ :=
    class_ge_trap E.K hK _ hge
  simp only [finalLocals]
  generalize decodeFields (E.traceblock i) = f at *
  simp only [stepFinish_name, enrichLocals_eq, localsAfterSpecial, localsAfterPc]
  simp only [c5, c6, c7, c8, c10, c11, c12, Bool.false_eq_true, if_false, if_true, Bool.or_self,
    Bool.false_and, List.append_nil]

theorem OutputEvent_cases (nsec10 duration event cpu pid rpc arg retval ipc : Nat)
    (name : CStr) :
    OutputEvent nsec10 duration event cpu pid rpc arg retval ipc name = [] ∨
    OutputEvent nsec10 duration event cpu pid rpc arg retval ipc name =
      [Line.event nsec10 duration event cpu pid rpc arg retval ipc name] := by
  unfold OutputEvent
  exact ite_eq_or_eq _ _ _

theorem OutputEvent_mem (nsec10 duration event cpu pid rpc arg retval ipc : Nat)
    (name : CStr) (l : Line)
    (h : l ∈ OutputEvent nsec10 duration event cpu pid rpc arg retval ipc name) :
    l = Line.event nsec10 duration event cpu pid rpc arg retval ipc name := by
  rcases OutputEvent_cases nsec10 duration event cpu pid rpc arg retval ipc name with e | e
  · rw [e] at h; cases h
  · rw [e] at h; exact List.mem_singleton.1 h

theorem and_not0200_idem (x : Nat) : (x &&& not0200) &&& not0200 = x &&& not0200 := by
  rw [Nat.and_assoc, Nat.and_self]

theorem cpuDescLines_of_not (E : Env) (f : Fields) (nsec10 : Nat)
    (h : is_cpu_description E.K f.n = false) : cpuDescLines E f nsec10 = [] := by
  simp [cpuDescLines, h]

theorem entryStart_rpc_of_not (E : Env) (f : Fields) (s : State)
    (h : has_rpcid E.K f.n = false) :
    (entryStart E f s).1.current_rpc = s.current_rpc ∧ (entryStart E f s).2 = false := by
  obtain ⟨h1, h2⟩ := entryStart_rpc E f s
  rw [h1, h2, h]
  simp

/-- C11: a return event `r` with 16-bit argument `a` is written with arg 0 and retval `a`; when
the name table holds `nm` for the call code `r & ~0x200` its name is "/" followed by `nm`
(followed by ":hi" for the bottom-half return), and a call event with that call code is
written with the name `nm` itself, names recorded for event codes being non-empty as they
are in every state a run reaches. -/
theorem C11_return_event (E : Env) (i : Nat) (s : State) (f : Fields)
    (hf : decodeFields (E.traceblock i) = f)
    (hK : E.K.Sane) (hk : E.keep_just_names = false) (hw : liveWord (E.traceblock i))
    (hr : is_return f.n = true) :
    ∃ name : CStr,
      (processEntry E i s).1.out =
        s.out ++ OutputEvent (entryNsec10 E f s) 0 f.n E.current_cpu
          (s.current_pid E.current_cpu) (s.current_rpc E.current_cpu)
          0 f.arg (E.ipcblock i) name ∧
      (∀ l ∈ OutputEvent (entryNsec10 E f s) 0 f.n E.current_cpu
          (s.current_pid E.current_cpu) (s.current_rpc E.current_cpu)
          0 f.arg (E.ipcblock i) name,
        l = Line.event (entryNsec10 E f s) 0 f.n E.current_cpu
          (s.current_pid E.current_cpu) (s.current_rpc E.current_cpu)
          0 f.arg (E.ipcblock i) name) ∧
      (∀ nm, s.names (f.n &&& not0200) = some nm →
        name = lit "/" ++ nm ++ (if is_bottom_half f.n then lit ":hi" else [])) ∧
      is_call (f.n &&& not0200) = true ∧
      (∀ j g nm, decodeFields (E.traceblock j) = g → liveWord (E.traceblock j) →
        g.n = f.n &&& not0200 →
        s.names (f.n &&& not0200) = some nm →
        (∀ k nm2, k < 0x10000 → s.names k = some nm2 → nm2 ≠ []) →
        is_bottom_half f.n = false →
        ∃ dur arg retval,
          (processEntry E j s).1.out =
            s.out ++ OutputEvent (entryNsec10 E g s) dur
              (f.n &&& not0200) E.current_cpu (s.current_pid E.current_cpu)
              (s.current_rpc E.current_cpu) arg retval (E.ipcblock j) nm) := by
  obtain ⟨ho, hu, hc, hge, hle⟩ := return_class _ f.delta_t hr
  obtain ⟨c1, c2, c3, c4, c5, c6, c7, c8, c9, c10, c11, c12, c13⟩ :=
    class_ge_trap E.K hK _ hge
  obtain ⟨q1, -, -, -, -⟩ := processEntry_form E i s f hf hk hw c1 c4
  have hfin := finalLocals_trap E i s f hf hK hge
  have hsoft : lit ":" ++ soft_irq_name.getD (0 &&& 0x000f) [] = lit ":hi" := by decide
  simp only [hr, ho, if_true, Bool.false_eq_true, if_false, hsoft,
    lookupName_return f.n f.arg s.names hr] at hfin
  have hrpc := (entryStart_rpc_of_not E f s c3).1
  refine ⟨(finalLocals E i s).name, ?_, ?_, ?_, hc, ?_⟩
  · rw [q1, pcFreqLines_of_not _ _ _ _ c5, hrpc, cpuDescLines_of_not _ _ _ c2]
    simp only [c12, Bool.false_eq_true, if_false, List.append_nil]
    rw [hfin]
  · intro l hl
    exact OutputEvent_mem _ _ _ _ _ _ _ _ _ _ l hl
  · intro nm hnm
    rw [hfin]
    simp only [hnm]
    have hne : ¬ (lit "/" ++ nm ++ (if is_bottom_half f.n = true
        then lit ":hi" else []) = []) := by
      simp [lit]
    rw [if_neg (fun h => hne h.1)]
  · intro j g nm hg hwj hnj hnm hI hbh
    have hne : nm ≠ [] := by
      have hlt : f.n &&& not0200 ≤ f.n := Nat.and_le_left
      exact hI (f.n &&& not0200) nm (by omega) hnm
    have hcj : is_call g.n = true := by rw [hnj]; exact hc
    have hgej : 0x400 ≤ g.n := ((is_call_iff _).1 hcj).2.1
    obtain ⟨d1, d2, d3, d4, d5, d6, d7, d8, d9, d10, d11, d12, d13⟩ :=
      class_ge_trap E.K hK _ hgej
    obtain ⟨p1, -, -, -, -⟩ := processEntry_form E j s g hg hk hwj d1 d4
    have hrpcj := (entryStart_rpc_of_not E g s d3).1
    have hretj : is_return g.n = false := by
      rw [Bool.eq_false_iff]; intro h
      have h1 := (is_return_iff _).1 h
      have h2 := (is_call_iff _).1 hcj
      omega
    have huj : is_usermode g.n = false := by
      have := ((is_call_iff _).1 hcj).1
      simp only [is_usermode, Bool.and_eq_false_iff, decide_eq_false_iff_not]
      left; omega
    have hbhj : is_bottom_half g.n = false := by
      rw [hnj]
      simp only [is_bottom_half, and_not0200_idem] at hbh ⊢
      exact hbh
    have hfj := finalLocals_trap E j s g hg hK hgej
    have hn2 : namesAt s.names g.n = nm := by
      rw [hnj]; simp [namesAt, hnm]
    simp only [hretj, hbhj, Bool.false_eq_true, if_false, List.append_nil,
      lookupName_plain _ g.arg s.names hretj d12 huj, hn2] at hfj
    simp only [if_neg (show ¬ (nm = [] ∧ g.n ≤ 0xFFF) from fun h => hne h.1)] at hfj
    refine ⟨(finalLocals E j s).duration, (finalLocals E j s).arg, (finalLocals E j s).retval, ?_⟩
    rw [p1, pcFreqLines_of_not _ _ _ _ d5, hrpcj, cpuDescLines_of_not _ _ _ d2]
    simp only [d12, Bool.false_eq_true, if_false, List.append_nil]
    rw [hfj, hnj]
/-- C11 witness: the return `0xA05` of system call 5 with argument 7, met at time `0x12350`
with "read" recorded for event `0x805`. -/
theorem C11_return_event_witness :
    (processEntry (sampleEnv 0x12350A0500000007) 12 namedState).1.out =
      [Line.event 0x312350 0 0xA05 3 0 0 0 7 0 (lit "/read")] := by
  obtain ⟨name, h1, -, h3, -, -⟩ :=
    C11_return_event (sampleEnv 0x12350A0500000007) 12 namedState _ rfl
      (by decide) rfl (by decide) (by decide)
  rw [h1, h3 (lit "read") (by decide)]
  decide

/-! ## Context switches and RPC ids -/

/-- With the library's codes placed as in `LibConsts.Sane`, the codes 0x200 to 0x20D are not
TSDELTA, CPU descriptions, name definitions or PC samples. -/
theorem class_low_special (K : LibConsts) (hK : K.Sane) (n : Nat) (h1 : 0x200 ≤ n)
    (h2 : n ≤ 0x20D) :
    n ≠ K.KUTRACE_TSDELTA ∧ is_cpu_description K n = false ∧ is_namedef K n = false ∧
    is_pc_sample K n = false := by
  obtain ⟨k1, k2, k3, k4, k5, k6, k7, k8, k9, k10, k11, k12, k13, k14, k15, k16, k17⟩ := hK
  simp only [is_cpu_description, is_namedef, is_pc_sample, Bool.and_eq_false_iff,
    Bool.or_eq_false_iff, decide_eq_false_iff_not, ite_eq_right_iff, Ne]
  refine ⟨?_, ?_, ?_, ?_⟩ <;> omega

theorem finalLocals_unfold (E : Env) (i : Nat) (s : State) (f : Fields)
    (hf : decodeFields (E.traceblock i) = f) :
    finalLocals E i s =
      stepFinish E f.argall
        (localsAfterSpecial E i f (signExtendRetval f.retval) (E.ipcblock i) (entryTfull f s)
          (entryNsec10 E f s) s) := by
  subst hf; rfl

/-- C14: a context-switch entry (event 0x200) with argument `pid` in a block of CPU `cpu`.
Outside keep-just-names mode `current_pid[cpu]` becomes `RemapIdlePid(pid)`, which is 0 for
a pid in `idle_pids` and `pid` otherwise, and the line written for the entry carries the
remapped pid as its pid and as its arg. In keep-just-names mode the entry writes nothing and
leaves `current_pid` as it was. In both modes the other CPUs keep their pid and `idle_pids`
is unchanged. -/
theorem C14_context_switch (E : Env) (i : Nat) (s : State) (f : Fields)
    (hf : decodeFields (E.traceblock i) = f)
    (hK : E.K.Sane) (hw : liveWord (E.traceblock i))
    (hn : f.n = 0x200) :
    RemapIdlePid f.arg s.idle_pids = (if s.idle_pids f.arg = true then 0 else f.arg) ∧
    (∀ c, c ≠ E.current_cpu → (processEntry E i s).1.current_pid c = s.current_pid c) ∧
    (processEntry E i s).1.idle_pids = s.idle_pids ∧
    (E.keep_just_names = false →
      (processEntry E i s).1.current_pid E.current_cpu = RemapIdlePid f.arg s.idle_pids ∧
      ∃ nsec10 dur rpc retval ipc name,
        (processEntry E i s).1.out =
          s.out ++ OutputEvent nsec10 dur 0x200 E.current_cpu (RemapIdlePid f.arg s.idle_pids)
            rpc (RemapIdlePid f.arg s.idle_pids) retval ipc name ∧
        ∀ l ∈ OutputEvent nsec10 dur 0x200 E.current_cpu (RemapIdlePid f.arg s.idle_pids)
            rpc (RemapIdlePid f.arg s.idle_pids) retval ipc name,
          l = Line.event nsec10 dur 0x200 E.current_cpu (RemapIdlePid f.arg s.idle_pids)
            rpc (RemapIdlePid f.arg s.idle_pids) retval ipc name) ∧
    (E.keep_just_names = true →
      (processEntry E i s).1.out = s.out ∧
      (processEntry E i s).1.current_pid = s.current_pid) := by
  obtain ⟨c1, c2, c3, c4⟩ := class_low_special E.K hK f.n (by omega) (by omega)
  have hcs : is_contextswitch f.n = true := by rw [hn]; decide
  have hnames : E.keep_just_names = true →
      (processEntry E i s).1.out = s.out ∧
      (processEntry E i s).1.current_pid = s.current_pid ∧
      (processEntry E i s).1.idle_pids = s.idle_pids := by
    intro hk
    subst hf
    rw [processEntry_event E i s hw c1 c3, processEvent_names_only _ _ _ _ _ _ _ _ _ hk,
      cpuDescLines_of_not _ _ _ c2, List.append_nil]
    obtain ⟨e1, e2, -, e4, -⟩ := entryStart_frame E (decodeFields (E.traceblock i)) s
    exact ⟨e1, e2, e4⟩
  have hnormal : E.keep_just_names = false →
      (processEntry E i s).1.current_pid =
        upd s.current_pid E.current_cpu (RemapIdlePid f.arg s.idle_pids) ∧
      (processEntry E i s).1.idle_pids = s.idle_pids := by
    intro hk
    obtain ⟨-, q2, -, q4, -⟩ := processEntry_form E i s f hf hk hw c1 c3
    rw [q2, hcs, if_pos rfl]
    exact ⟨rfl, q4⟩
  refine ⟨rfl, ?_, ?_, ?_, fun hk => ⟨(hnames hk).1, (hnames hk).2.1⟩⟩
  · intro c hc
    cases hk : E.keep_just_names
    · rw [(hnormal hk).1]
      simp [upd, hc]
    · rw [(hnames hk).2.1]
  · cases hk : E.keep_just_names
    · exact (hnormal hk).2
    · exact (hnames hk).2.2
  · intro hk
    obtain ⟨q1, q2, -, q4, -⟩ := processEntry_form E i s f hf hk hw c1 c3
    have hsp : is_special E.K f.n = false := by rw [hn]; simp [is_special]
    have hret : is_return f.n = false := by rw [hn]; decide
    have hbh : is_bottom_half f.n = false := by rw [hn]; decide
    have hrm : is_rpc_msg f.n = false := by rw [hn]; decide
    have hma : is_mark_abc f.n = false := by rw [hn]; decide
    have hrp : is_raw_pkt_hash E.K f.n = false := by
      obtain ⟨k1, k2, k3, k4, k5, k6, k7, k8, k9, k10, k11, k12, k13, k14, k15, k16, k17⟩ := hK
      simp only [is_raw_pkt_hash, Bool.and_eq_false_iff, decide_eq_false_iff_not]
      left; omega
    have hum : is_user_msg_hash E.K f.n = false := by
      obtain ⟨k1, k2, k3, k4, k5, k6, k7, k8, k9, k10, k11, k12, k13, k14, k15, k16, k17⟩ := hK
      simp only [is_user_msg_hash, Bool.and_eq_false_iff, decide_eq_false_iff_not]
      left; omega
    have hfin := finalLocals_unfold E i s f hf
    simp only [stepFinish_name, enrichLocals_eq, localsAfterSpecial, localsAfterPc] at hfin
    simp only [c4, hcs, hsp, hret, hbh, hrm, hma, hrp, hum, Bool.false_eq_true, if_false,
      if_true, Bool.or_self, Bool.false_and, List.append_nil] at hfin
    refine ⟨?_, ?_⟩
    · rw [q2, hcs, if_pos rfl, upd_same]
    · refine ⟨(finalLocals E i s).nsec10, (finalLocals E i s).duration,
        (entryStart E f s).1.current_rpc E.current_cpu, (finalLocals E i s).retval,
        (finalLocals E i s).ipc, (finalLocals E i s).name, ?_, ?_⟩
      · rw [q1, pcFreqLines_of_not _ _ _ _ c4, cpuDescLines_of_not _ _ _ c2]
        simp only [hcs, if_true, upd_same, List.append_nil]
        have e1 : (finalLocals E i s).event = 0x200 := by rw [hfin]; exact hn
        have e2 : (finalLocals E i s).arg = RemapIdlePid f.arg s.idle_pids := by rw [hfin]
        rw [e1, e2]
      · intro l hl
        exact OutputEvent_mem _ _ _ _ _ _ _ _ _ _ l hl

/-- C14 witness: the context switch to pid 7 met on CPU 3 at time `0x12350`, outside
keep-just-names mode and in it. -/
theorem C14_context_switch_witness :
    (processEntry (sampleEnv 0x1235020000000007) 12 (initialState ⟨0x300000, 0x12345⟩)).1.current_pid 3
      = 7 ∧
    (processEntry (namesOnlyEnv 0x1235020000000007) 12
      (initialState ⟨0x300000, 0x12345⟩)).1.out = [] :=
  ⟨((C14_context_switch (sampleEnv 0x1235020000000007) 12 (initialState ⟨0x300000, 0x12345⟩) _
      rfl (by decide) (by decide) (by decide)).2.2.2.1 rfl).1,
   ((C14_context_switch (namesOnlyEnv 0x1235020000000007) 12 (initialState ⟨0x300000, 0x12345⟩)
      _ rfl (by decide) (by decide) (by decide)).2.2.2.2 rfl).1⟩

/-- C14 counterexample: in keep-just-names mode the context switch to pid 7 on CPU 3 writes
nothing and leaves `current_pid[3]` at 0, although pid 7 is not an idle pid. -/
theorem C14_counterexample :
    (decodeFields ((namesOnlyEnv 0x1235020000000007).traceblock 12)).n = 0x200 ∧
    (decodeFields ((namesOnlyEnv 0x1235020000000007).traceblock 12)).arg = 7 ∧
    RemapIdlePid 7 (initialState ⟨0x300000, 0x12345⟩).idle_pids = 7 ∧
    (processEntry (namesOnlyEnv 0x1235020000000007) 12
      (initialState ⟨0x300000, 0x12345⟩)).1.current_pid 3 = 0 ∧
    (processEntry (namesOnlyEnv 0x1235020000000007) 12
      (initialState ⟨0x300000, 0x12345⟩)).1.out = [] := by
  decide

/-! ## Name definitions in closed form -/

/-- A name definition of valid length that is no time pair, field by field. -/
theorem processNameDef_eq (E : Env) (i : Nat) (f : Fields) (nsec10 : Nat) (s : State)
    (hlen : ¬ ((f.n >>> 4) &&& 0x00f < 1 ∨ 8 < (f.n >>> 4) &&& 0x00f))
    (htp : is_timepair E.K f.n = false) :
    processNameDef E i f nsec10 s =
      ({ s with
          idle_pids := (nameDefFixup E i f s).2.2,
          is_low_res_ts :=
            if is_modelnamedef E.K f.n
            then !(lit "u74-mc").isPrefixOf (cstrOf (nameDefFixup E i f s).2.1)
            else s.is_low_res_ts,
          names := if nameDefName E i f s ≠ []
                   then upd s.names (nameDefKey E i f s) (some (nameDefName E i f s))
                   else s.names,
          out := if nameDefName E i f s ≠ []
                 then s.out ++ OutputName nsec10 f.n f.argall (nameDefName E i f s)
                 else s.out,
          gTIMER_IRQ_EVENT :=
            if memcmpEq (nameDefFixup E i f s).2.1 (lit "local_timer")
            then KUTRACE_IRQ ||| ((nameDefFixup E i f s).1 &&& 0xffff)
            else s.gTIMER_IRQ_EVENT,
          gSCHED_EVENT :=
            if memcmpEq (nameDefFixup E i f s).2.1 (lit "-sched-")
            then KUTRACE_SYSCALL64 |||
              ((nameDefFixup E i f s).1 &&&
                u64 (0xffff + (((nameDefFixup E i f s).1 &&& 0xffff) &&& 0x200)))
            else s.gSCHED_EVENT },
       Ctl.next (i + (((f.n >>> 4) &&& 0x00f) - 1))) := by
  unfold processNameDef nameDefName nameDefKey nameDefFixup
  simp only [if_neg hlen, htp, Bool.not_false, if_true]
  generalize (if is_pidnamedef f.n = true
    then FixupIdlePid f.arg (tempstringOf E.traceblock i ((f.n >>> 4) &&& 0x00f)) s.idle_pids
    else (f.arg, tempstringOf E.traceblock i ((f.n >>> 4) &&& 0x00f), s.idle_pids)) = fx
  generalize MakeSafeAscii (ReduceSpaces (cstrOf fx.2.1)) = name
  by_cases h1 : is_modelnamedef E.K f.n = true <;> by_cases h2 : name = [] <;>
  by_cases h3 : memcmpEq fx.2.1 (lit "local_timer") = true <;>
  by_cases h4 : memcmpEq fx.2.1 (lit "-sched-") = true <;>
  simp [h1, h2, h3, h4]

theorem processNameDef_frame (E : Env) (i : Nat) (f : Fields) (nsec10 : Nat) (s : State) :
    (processNameDef E i f nsec10 s).1.current_rpc = s.current_rpc ∧
    (processNameDef E i f nsec10 s).1.current_pid = s.current_pid ∧
    (processNameDef E i f nsec10 s).1.prior_timer_irq_nsec10 = s.prior_timer_irq_nsec10 ∧
    (processNameDef E i f nsec10 s).1.time = s.time := by
  by_cases hlen : ((f.n >>> 4) &&& 0x00f < 1 ∨ 8 < (f.n >>> 4) &&& 0x00f)
  · have e : processNameDef E i f nsec10 s = (s, Ctl.next i) := by
      simp only [processNameDef, if_pos hlen]
    rw [e]
    exact ⟨rfl, rfl, rfl, rfl⟩
  · cases htp : is_timepair E.K f.n
    · rw [processNameDef_eq E i f nsec10 s hlen htp]
      exact ⟨rfl, rfl, rfl, rfl⟩
    · have e : processNameDef E i f nsec10 s =
          (s, Ctl.next (i + (((f.n >>> 4) &&& 0x00f) - 1))) := by
        simp only [processNameDef, if_neg hlen, htp, Bool.not_true, Bool.false_eq_true,
          if_false]
      rw [e]
      exact ⟨rfl, rfl, rfl, rfl⟩

theorem processEntry_dead (E : Env) (i : Nat) (s : State) (hw : ¬ liveWord (E.traceblock i)) :
    (processEntry E i s).1 = s := by
  unfold processEntry
  by_cases h0 : E.traceblock i = 0
  · simp [h0]
  · by_cases h1 : E.traceblock i = 0xffffffffffffffff
    · simp [h1]
    · have h2 : (decodeFields (E.traceblock i)).t = 0xFFFFF ∧
          (decodeFields (E.traceblock i)).n = 0xFFF := by
        by_contra h2
        exact hw ⟨h0, h1, h2⟩
      simp only [if_neg h0, if_neg h1, if_pos h2]

theorem processEntry_tsdelta (E : Env) (i : Nat) (s : State) (hw : liveWord (E.traceblock i))
    (ht : (decodeFields (E.traceblock i)).n = E.K.KUTRACE_TSDELTA) :
    (processEntry E i s).1.current_rpc = s.current_rpc ∧
    (processEntry E i s).1.current_pid = s.current_pid ∧
    (processEntry E i s).1.out = s.out ∧
    (processEntry E i s).1.names = s.names ∧
    (processEntry E i s).1.idle_pids = s.idle_pids := by
  obtain ⟨h0, h1, h2⟩ := hw
  simp only [processEntry, if_neg h0, if_neg h1, if_neg h2, if_pos ht]
  split_ifs <;> exact ⟨rfl, rfl, rfl, rfl, rfl⟩

theorem processEntry_namedef (E : Env) (i : Nat) (s : State)
    (hw : liveWord (E.traceblock i))
    (ht : (decodeFields (E.traceblock i)).n ≠ E.K.KUTRACE_TSDELTA)
    (hn : is_namedef E.K (decodeFields (E.traceblock i)).n = true) :
    processEntry E i s =
      processNameDef E i (decodeFields (E.traceblock i))
        (entryNsec10 E (decodeFields (E.traceblock i)) s)
        (entryStart E (decodeFields (E.traceblock i)) s).1 := by
  obtain ⟨h0, h1, h2⟩ := hw
  simp only [processEntry, if_neg h0, if_neg h1, if_neg h2, if_neg ht, hn, entryStart,
    entryTfull, entryNsec10]
  by_cases hm : is_mark (decodeFields (E.traceblock i)).n = true <;>
  by_cases hr : has_rpcid E.K (decodeFields (E.traceblock i)).n = true <;>
  by_cases ha : (decodeFields (E.traceblock i)).arg = 0 <;>
  simp [hm, hr, ha]

theorem processEntry_names_only (E : Env) (i : Nat) (s : State)
    (hk : E.keep_just_names = true) (hw : liveWord (E.traceblock i))
    (ht : (decodeFields (E.traceblock i)).n ≠ E.K.KUTRACE_TSDELTA)
    (hn : is_namedef E.K (decodeFields (E.traceblock i)).n = false) :
    processEntry E i s =
      ({ (entryStart E (decodeFields (E.traceblock i)) s).1 with
          out := (entryStart E (decodeFields (E.traceblock i)) s).1.out ++
            cpuDescLines E (decodeFields (E.traceblock i))
              (entryNsec10 E (decodeFields (E.traceblock i)) s) }, Ctl.next i) := by
  rw [processEntry_event E i s hw ht hn, processEvent_names_only _ _ _ _ _ _ _ _ _ hk]

/-- An entry that is no RPC-id event leaves `current_rpc` as it was, in every mode. -/
theorem processEntry_rpc_frame (E : Env) (i : Nat) (s : State)
    (h : has_rpcid E.K (decodeFields (E.traceblock i)).n = false) :
    (processEntry E i s).1.current_rpc = s.current_rpc := by
  by_cases hw : liveWord (E.traceblock i)
  · by_cases ht : (decodeFields (E.traceblock i)).n = E.K.KUTRACE_TSDELTA
    · exact (processEntry_tsdelta E i s hw ht).1
    · have hes := entryStart_rpc_of_not E _ s h
      cases hn : is_namedef E.K (decodeFields (E.traceblock i)).n
      · cases hk : E.keep_just_names
        · obtain ⟨-, -, q3, -, -⟩ := processEntry_form E i s _ rfl hk hw ht hn
          rw [q3, hes.2, hes.1]
          simp
        · rw [processEntry_names_only E i s hk hw ht hn]
          exact hes.1
      · rw [processEntry_namedef E i s hw ht hn, (processNameDef_frame _ _ _ _ _).1]
        exact hes.1
  · rw [processEntry_dead E i s hw]

/-- C15: `current_rpc` starts at 0 on every CPU. Outside keep-just-names mode an RPC-id event
(code 0x201..0x205) with non-zero argument `a` sets `current_rpc[cpu] = a` and its line
carries rpc = `a`; one with argument 0 is written with the previous `current_rpc[cpu]` and
leaves `current_rpc[cpu] = 0`; the other CPUs keep their value. In keep-just-names mode an
RPC-id event writes no line; with a non-zero argument `a` it still sets
`current_rpc[cpu] = a`, and with argument 0 it leaves `current_rpc` as it was. In every mode
an entry that is no RPC-id event leaves `current_rpc` unchanged. -/
theorem C15_rpc_state (E : Env) (i : Nat) (s : State) (f : Fields)
    (hf : decodeFields (E.traceblock i) = f) (hK : E.K.Sane) :
    (∀ t c, (initialState t).current_rpc c = 0) ∧
    (has_rpcid E.K f.n = true ↔ (0x201 ≤ f.n ∧ f.n ≤ 0x205)) ∧
    (E.keep_just_names = false → liveWord (E.traceblock i) → has_rpcid E.K f.n = true →
      (∀ c, c ≠ E.current_cpu → (processEntry E i s).1.current_rpc c = s.current_rpc c) ∧
      (f.arg ≠ 0 →
        (processEntry E i s).1.current_rpc E.current_cpu = f.arg ∧
        ∃ nsec10 dur event pid arg retval ipc name,
          (processEntry E i s).1.out =
            s.out ++ OutputEvent nsec10 dur event E.current_cpu pid f.arg arg retval ipc name) ∧
      (f.arg = 0 →
        (processEntry E i s).1.current_rpc E.current_cpu = 0 ∧
        ∃ nsec10 dur event pid arg retval ipc name,
          (processEntry E i s).1.out =
            s.out ++ OutputEvent nsec10 dur event E.current_cpu pid
              (s.current_rpc E.current_cpu) arg retval ipc name)) ∧
    (E.keep_just_names = true → liveWord (E.traceblock i) → has_rpcid E.K f.n = true →
      (processEntry E i s).1.out = s.out ∧
      (∀ c, c ≠ E.current_cpu → (processEntry E i s).1.current_rpc c = s.current_rpc c) ∧
      (f.arg ≠ 0 → (processEntry E i s).1.current_rpc E.current_cpu = f.arg) ∧
      (f.arg = 0 → (processEntry E i s).1.current_rpc = s.current_rpc)) ∧
    (has_rpcid E.K f.n = false → (processEntry E i s).1.current_rpc = s.current_rpc) := by
  have hiff : has_rpcid E.K f.n = true ↔ (0x201 ≤ f.n ∧ f.n ≤ 0x205) := by
    obtain ⟨k1, -⟩ := hK
    simp only [has_rpcid, KUTRACE_RPCIDREQ, k1, Bool.and_eq_true, decide_eq_true_eq]
  refine ⟨fun _ _ => rfl, hiff, ?_, ?_, ?_⟩
  · intro hk hw hr
    have hrange := hiff.1 hr
    obtain ⟨c1, c2, c3, c4⟩ := class_low_special E.K hK f.n (by omega) (by omega)
    obtain ⟨q1, -, q3, -, -⟩ := processEntry_form E i s f hf hk hw c1 c3
    obtain ⟨r1, r2⟩ := entryStart_rpc E f s
    rw [pcFreqLines_of_not _ _ _ _ c4, cpuDescLines_of_not _ _ _ c2, List.append_nil,
      List.append_nil] at q1
    refine ⟨?_, ?_, ?_⟩
    · intro c hc
      rw [q3, r1, r2, hr]
      by_cases ha : f.arg = 0
      · simp [ha, upd, hc]
      · simp [ha, upd, hc]
    · intro ha
      have e1 : (entryStart E f s).1.current_rpc E.current_cpu = f.arg := by
        rw [r1, hr]
        simp [ha, upd]
      rw [e1] at q1
      refine ⟨?_, _, _, _, _, _, _, _, _, q1⟩
      rw [q3, r1, r2, hr]
      simp [ha, upd]
    · intro ha
      have e1 : (entryStart E f s).1.current_rpc E.current_cpu = s.current_rpc E.current_cpu := by
        rw [r1, hr]
        simp [ha]
      rw [e1] at q1
      refine ⟨?_, _, _, _, _, _, _, _, _, q1⟩
      rw [q3, r1, r2, hr]
      simp [ha, upd]
  · intro hk hw hr
    have hrange := hiff.1 hr
    obtain ⟨c1, c2, c3, -⟩ := class_low_special E.K hK f.n (by omega) (by omega)
    subst hf
    have hout : (processEntry E i s).1.out = s.out := by
      rw [processEntry_names_only E i s hk hw c1 c3, cpuDescLines_of_not _ _ _ c2,
        List.append_nil]
      exact (entryStart_frame E _ s).1
    have hrpc : (processEntry E i s).1.current_rpc =
        (entryStart E (decodeFields (E.traceblock i)) s).1.current_rpc := by
      rw [processEntry_names_only E i s hk hw c1 c3]
    obtain ⟨r1, -⟩ := entryStart_rpc E (decodeFields (E.traceblock i)) s
    rw [r1, hr] at hrpc
    refine ⟨hout, ?_, ?_, ?_⟩
    · intro c hc
      rw [hrpc]
      by_cases ha : (decodeFields (E.traceblock i)).arg = 0
      · simp [ha]
      · simp [ha, upd, hc]
    · intro ha
      rw [hrpc]
      simp [ha, upd]
    · intro ha
      rw [hrpc]
      simp [ha]
  · intro hr
    subst hf
    exact processEntry_rpc_frame E i s hr

/-- C15 witness: the RPC request `0x201` with id 9 met on CPU 3, outside keep-just-names mode
and in it. -/
theorem C15_rpc_state_witness :
    (processEntry (sampleEnv 0x1235020100000009) 12
      (initialState ⟨0x300000, 0x12345⟩)).1.current_rpc 3 = 9 ∧
    (processEntry (namesOnlyEnv 0x1235020100000009) 12
      (initialState ⟨0x300000, 0x12345⟩)).1.out = [] ∧
    (processEntry (namesOnlyEnv 0x1235020100000009) 12
      (initialState ⟨0x300000, 0x12345⟩)).1.current_rpc 3 = 9 :=
  ⟨(((C15_rpc_state (sampleEnv 0x1235020100000009) 12 (initialState ⟨0x300000, 0x12345⟩) _ rfl
      (by decide)).2.2.1 rfl (by decide) (by decide)).2.1 (by decide)).1,
   ((C15_rpc_state (namesOnlyEnv 0x1235020100000009) 12 (initialState ⟨0x300000, 0x12345⟩) _ rfl
      (by decide)).2.2.2.1 rfl (by decide) (by decide)).1,
   ((C15_rpc_state (namesOnlyEnv 0x1235020100000009) 12 (initialState ⟨0x300000, 0x12345⟩) _ rfl
      (by decide)).2.2.2.1 rfl (by decide) (by decide)).2.2.1 (by decide)⟩

/-- C15 counterexample: in keep-just-names mode the RPC-id event `0x201` with argument 0, met
on CPU 3 while `current_rpc[3]` is 5, writes no line and leaves `current_rpc[3]` at 5. -/
theorem C15_counterexample :
    (decodeFields ((namesOnlyEnv 0x1235020100000000).traceblock 12)).n = 0x201 ∧
    (decodeFields ((namesOnlyEnv 0x1235020100000000).traceblock 12)).arg = 0 ∧
    (processEntry (namesOnlyEnv 0x1235020100000000) 12
      { initialState ⟨0x300000, 0x12345⟩ with current_rpc := fun _ => 5 }).1.current_rpc 3 = 5 ∧
    (processEntry (namesOnlyEnv 0x1235020100000000) 12
      { initialState ⟨0x300000, 0x12345⟩ with current_rpc := fun _ => 5 }).1.out = [] := by
  decide

/-! ## Optimized calls -/

theorem pcCode_range (K : LibConsts) (hK : K.Sane) (pc : Nat) :
    K.KUTRACE_MAX_SPECIAL < pcCode K pc ∧ pcCode K pc < 0x400 ∧ 0x20D < pcCode K pc := by
  obtain ⟨k1, k2, k3, k4, k5, k6, k7, k8, k9, k10, k11, k12, k13, k14, k15, k16, k17⟩ := hK
  unfold pcCode
  split <;> omega

theorem is_return_of_lt (n : Nat) (h : n < 0x400) : is_return n = false := by
  rw [Bool.eq_false_iff]
  intro hr
  have := (is_return_iff n).1 hr
  omega

theorem mem_of_mem_ite_nil {α : Type} {c : Prop} [Decidable c] {A : List α} {l : α}
    (h : l ∈ if c then A else []) : l ∈ A := by
  split at h
  · exact h
  · cases h

theorem cpuDescLines_mem (E : Env) (f : Fields) (nsec10 : Nat) (l : Line)
    (h : l ∈ cpuDescLines E f nsec10) :
    l = Line.event nsec10 1 f.n E.current_cpu 0 0 f.argall 0 0 [] :=
  OutputEvent_mem _ _ _ _ _ _ _ _ _ _ l (mem_of_mem_ite_nil h)

theorem pcFreqLines_mem (E : Env) (f : Fields) (nsec10 : Nat) (s : State) (l : Line)
    (h : l ∈ pcFreqLines E f nsec10 s) :
    ∃ ns pid rpc arg,
      l = Line.event ns 1 KUTRACE_PSTATE E.current_cpu pid rpc arg 0 0 (lit "-freq-") :=
  ⟨_, _, _, _, OutputEvent_mem _ _ _ _ _ _ _ _ _ _ l (mem_of_mem_ite_nil h)⟩

theorem OutputName_mem (nsec10 event argall : Nat) (name : CStr) (l : Line)
    (h : l ∈ OutputName nsec10 event argall name) :
    ∃ ts dur ev a, l = Line.name ts dur ev a name := by
  unfold OutputName at h
  split at h
  · cases h
  · simp only [List.mem_cons, List.mem_singleton, List.not_mem_nil, or_false] at h
    rcases h with h | h
    · exact ⟨_, _, _, _, h⟩
    · exact ⟨_, _, _, _, h⟩

/-- What a name definition writes is `OutputName` lines or nothing. -/
theorem processNameDef_out (E : Env) (i : Nat) (f : Fields) (nsec10 : Nat) (s : State) :
    ∃ lines, (processNameDef E i f nsec10 s).1.out = s.out ++ lines ∧
      ∀ l ∈ lines, ∃ ts dur ev a name, l = Line.name ts dur ev a name := by
  by_cases hlen : ((f.n >>> 4) &&& 0x00f < 1 ∨ 8 < (f.n >>> 4) &&& 0x00f)
  · have e : processNameDef E i f nsec10 s = (s, Ctl.next i) := by
      simp only [processNameDef, if_pos hlen]
    rw [e]
    exact ⟨[], by simp, by simp⟩
  · cases htp : is_timepair E.K f.n
    · rw [processNameDef_eq E i f nsec10 s hlen htp]
      by_cases hne : nameDefName E i f s ≠ []
      · refine ⟨OutputName nsec10 f.n f.argall (nameDefName E i f s), ?_, ?_⟩
        · simp only [if_pos hne]
        · intro l hl
          obtain ⟨ts, dur, ev, a, h⟩ := OutputName_mem _ _ _ _ l hl
          exact ⟨ts, dur, ev, a, _, h⟩
      · refine ⟨[], ?_, by simp⟩
        simp only [if_neg hne, List.append_nil]
    · have e : processNameDef E i f nsec10 s =
          (s, Ctl.next (i + (((f.n >>> 4) &&& 0x00f) - 1))) := by
        simp only [processNameDef, if_neg hlen, htp, Bool.not_true, Bool.false_eq_true,
          if_false]
      rw [e]
      exact ⟨[], by simp, by simp⟩

theorem optDuration_ne_zero (E : Env) (d tfull nsec10 : Nat) (b : Bool) :
    optDuration E d tfull nsec10 b ≠ 0 := by
  have h : ∀ x : Nat, (if x = 0 then 1 else x) ≠ 0 := by
    intro x
    split <;> omega
  exact h _

/-- C16: an optimized call (call-range event with `delta_t > 0`) is written with the duration
`optDuration`, which is never 0: 35 in low-resolution mode when `delta_t == 1`, otherwise
`CyclesToNsec10(tfull + delta_t) - nsec10` in 64 bits, raised to 1 when that is 0. An entry
that is neither an optimized call nor a return writes event lines with retval 0 only. -/
theorem C16_opt_call_duration (E : Env) (i : Nat) (s : State) (f : Fields)
    (hf : decodeFields (E.traceblock i) = f) (hK : E.K.Sane) :
    (E.keep_just_names = false → liveWord (E.traceblock i) →
      is_opt_call f.n f.delta_t = true →
      ∃ name,
        (processEntry E i s).1.out =
          s.out ++ OutputEvent (entryNsec10 E f s)
            (optDuration E f.delta_t (entryTfull f s) (entryNsec10 E f s) s.is_low_res_ts)
            f.n E.current_cpu (s.current_pid E.current_cpu) (s.current_rpc E.current_cpu)
            f.arg (signExtendRetval f.retval) (E.ipcblock i) name) ∧
    optDuration E f.delta_t (entryTfull f s) (entryNsec10 E f s) s.is_low_res_ts ≠ 0 ∧
    (s.is_low_res_ts = true → f.delta_t = 1 →
      optDuration E f.delta_t (entryTfull f s) (entryNsec10 E f s) s.is_low_res_ts = 35) ∧
    (¬ (s.is_low_res_ts = true ∧ f.delta_t = 1) →
      optDuration E f.delta_t (entryTfull f s) (entryNsec10 E f s) s.is_low_res_ts =
        if u64 (E.CyclesToNsec10 (u64 (entryTfull f s + f.delta_t)) + 2 ^ 64
              - entryNsec10 E f s) = 0
        then 1
        else u64 (E.CyclesToNsec10 (u64 (entryTfull f s + f.delta_t)) + 2 ^ 64
              - entryNsec10 E f s)) ∧
    (is_opt_call f.n f.delta_t = false → is_return f.n = false →
      ∃ lines, (processEntry E i s).1.out = s.out ++ lines ∧
        ∀ l ∈ lines, ∀ nsec10 dur event cpu pid rpc arg retval ipc name,
          l = Line.event nsec10 dur event cpu pid rpc arg retval ipc name → retval = 0) := by
  refine ⟨?_, optDuration_ne_zero _ _ _ _ _, ?_, ?_, ?_⟩
  · intro hk hw ho
    have hc : is_call f.n = true := by
      simp only [is_opt_call, Bool.and_eq_true] at ho
      exact ho.2
    have hge : 0x400 ≤ f.n := ((is_call_iff _).1 hc).2.1
    have hret : is_return f.n = false := by
      rw [Bool.eq_false_iff]; intro h
      have h1 := (is_return_iff _).1 h
      have h2 := (is_call_iff _).1 hc
      omega
    obtain ⟨c1, c2, c3, c4, c5, c6, c7, c8, c9, c10, c11, c12, c13⟩ :=
      class_ge_trap E.K hK _ hge
    obtain ⟨q1, -, -, -, -⟩ := processEntry_form E i s f hf hk hw c1 c4
    have hfin := finalLocals_trap E i s f hf hK hge
    simp only [ho, hret, Bool.false_eq_true, if_false, if_true] at hfin
    refine ⟨(finalLocals E i s).name, ?_⟩
    rw [q1, pcFreqLines_of_not _ _ _ _ c5, (entryStart_rpc_of_not E f s c3).1,
      cpuDescLines_of_not _ _ _ c2]
    simp only [c12, Bool.false_eq_true, if_false, List.append_nil]
    rw [hfin]
  · intro hl hd
    simp [optDuration, hl, hd, kDefaultLowResNsec10]
  · intro h
    unfold optDuration
    have hb : (s.is_low_res_ts && decide (f.delta_t = 1)) = false := by
      rw [Bool.eq_false_iff]
      intro hb
      simp only [Bool.and_eq_true, decide_eq_true_eq] at hb
      exact h hb
    simp only [hb, Bool.false_eq_true, if_false]
  · intro ho hret
    by_cases hw : liveWord (E.traceblock i)
    · by_cases ht : f.n = E.K.KUTRACE_TSDELTA
      · refine ⟨[], ?_, by simp⟩
        rw [(processEntry_tsdelta E i s hw (by rw [hf]; exact ht)).2.2.1, List.append_nil]
      · cases hn : is_namedef E.K f.n
        · cases hk : E.keep_just_names
          · obtain ⟨q1, -, -, -, -⟩ := processEntry_form E i s f hf hk hw ht hn
            have hfin := finalLocals_unfold E i s f hf
            simp only [stepFinish_name, enrichLocals_eq, localsAfterSpecial, localsAfterPc]
              at hfin
            have hr0 : (finalLocals E i s).retval = 0 := by
              rw [hfin]
              simp only [ho, Bool.false_eq_true, if_false, ite_self]
              by_cases hp : is_pc_sample E.K f.n = true
              · simp only [hp, if_true,
                  is_return_of_lt _ (pcCode_range E.K hK (E.traceblock (i + 1))).2.1,
                  Bool.false_eq_true, if_false]
              · simp only [hp, if_false, hret, Bool.false_eq_true]
            rw [hr0, List.append_assoc, List.append_assoc] at q1
            refine ⟨_, q1, ?_⟩
            intro l hl nsec10 dur event cpu pid rpc arg retval ipc name hev
            simp only [List.mem_append] at hl
            rcases hl with hl | hl | hl
            · rw [cpuDescLines_mem _ _ _ l hl] at hev
              injection hev with _ _ _ _ _ _ _ h8
              exact h8.symm
            · obtain ⟨a1, a2, a3, a4, h⟩ := pcFreqLines_mem _ _ _ _ l hl
              rw [h] at hev
              injection hev with _ _ _ _ _ _ _ h8
              exact h8.symm
            · have := OutputEvent_mem _ _ _ _ _ _ _ _ _ _ l hl
              rw [this] at hev
              injection hev with _ _ _ _ _ _ _ h8
              exact h8.symm
          · subst hf
            rw [processEntry_names_only E i s hk hw ht hn]
            refine ⟨_, by rw [(entryStart_frame E _ s).1], ?_⟩
            intro l hl nsec10 dur event cpu pid rpc arg retval ipc name hev
            rw [cpuDescLines_mem _ _ _ l hl] at hev
            injection hev with _ _ _ _ _ _ _ h8
            exact h8.symm
        · subst hf
          rw [processEntry_namedef E i s hw ht hn]
          obtain ⟨lines, h1, h2⟩ := processNameDef_out E i (decodeFields (E.traceblock i))
            (entryNsec10 E (decodeFields (E.traceblock i)) s)
            (entryStart E (decodeFields (E.traceblock i)) s).1
          rw [(entryStart_frame E _ s).1] at h1
          refine ⟨lines, h1, ?_⟩
          intro l hl nsec10 dur event cpu pid rpc arg retval ipc name hev
          obtain ⟨ts, d, ev, a, nm, h⟩ := h2 l hl
          rw [h] at hev
          cases hev
    · refine ⟨[], ?_, by simp⟩
      rw [processEntry_dead E i s (by rw [hf] at *; exact hw), List.append_nil]

/-- C16 witness: the optimized system call `0x805` with `delta_t` 3, return value 2 and
argument 7, met at time `0x12350` with one count per 10 ns. -/
theorem C16_opt_call_duration_witness :
    ∃ name,
      (processEntry (sampleEnv 0x1235080503020007) 12 (initialState ⟨0x300000, 0x12345⟩)).1.out =
        [Line.event 0x312350 3 0x805 3 0 0 7 2 0 name] := by
  obtain ⟨name, h⟩ :=
    (C16_opt_call_duration (sampleEnv 0x1235080503020007) 12
      (initialState ⟨0x300000, 0x12345⟩) _ rfl (by decide)).1 rfl (by decide) (by decide)
  exact ⟨name, by rw [h]; rfl⟩

/-! ## Lines per entry and the missing-name fallback -/

/-- With the library's codes placed as in `LibConsts.Sane`, a PC sample is no context switch,
no optimized call and no timer interrupt, and the code it is written with is no return and no
special event. -/
theorem class_pc_sample (K : LibConsts) (hK : K.Sane) (n d pc : Nat)
    (h : is_pc_sample K n = true) :
    is_contextswitch n = false ∧ is_opt_call n d = false ∧ n < 0x400 ∧
    is_return (pcCode K pc) = false ∧ is_special K (pcCode K pc) = false ∧
    pcCode K pc ≤ 0xFFF := by
  obtain ⟨r1, r2, r3⟩ := pcCode_range K hK pc
  obtain ⟨k1, k2, k3, k4, k5, k6, k7, k8, k9, k10, k11, k12, k13, k14, k15, k16, k17⟩ := hK
  simp only [is_pc_sample, Bool.or_eq_true, decide_eq_true_eq] at h
  have hlt : n < 0x400 := by omega
  refine ⟨?_, ?_, hlt, is_return_of_lt _ r2, ?_, by omega⟩
  · simp only [is_contextswitch, KUTRACE_USERPID, decide_eq_false_iff_not]
    omega
  · rw [Bool.eq_false_iff]
    intro ho
    simp only [is_opt_call, Bool.and_eq_true] at ho
    have := (is_call_iff n).1 ho.2
    omega
  · simp only [is_special, Bool.and_eq_false_iff, decide_eq_false_iff_not]
    right; omega

theorem OutputEvent_of_bounds (nsec10 duration event cpu pid rpc arg retval ipc : Nat)
    (name : CStr) (h : nsec10 < 99900000000 ∧ nsec10 + duration < 99900000000) :
    OutputEvent nsec10 duration event cpu pid rpc arg retval ipc name
      = [Line.event nsec10 duration event cpu pid rpc arg retval ipc name] := by
  have h1 : ¬ nsec10 ≥ 99900000000 := by omega
  have h2 : ¬ duration ≥ 99900000000 := by omega
  have h3 : ¬ u64 (nsec10 + duration) ≥ 99900000000 := by
    unfold u64; rw [Nat.mod_eq_of_lt (by omega)]; omega
  simp [OutputEvent, kCrazyTime, h1, h2, h3]

/-- C18: outside keep-just-names mode, an entry that is no NOP or filler word, no TSDELTA, no
name definition and no CPU description, and whose time is within bounds, writes exactly one
event line, unless it is a PC sample with a non-zero argument: that one writes a frequency
line and the PC line. -/
theorem C18_one_line (E : Env) (i : Nat) (s : State) (f : Fields)
    (hf : decodeFields (E.traceblock i) = f) (hK : E.K.Sane)
    (hk : E.keep_just_names = false) (hw : liveWord (E.traceblock i))
    (ht : f.n ≠ E.K.KUTRACE_TSDELTA) (hn : is_namedef E.K f.n = false)
    (hc : is_cpu_description E.K f.n = false)
    (hb : (finalLocals E i s).nsec10 < 99900000000 ∧
          (finalLocals E i s).nsec10 + (finalLocals E i s).duration < 99900000000) :
    (¬ (is_pc_sample E.K f.n = true ∧ 0 < f.arg) →
      ∃ pid rpc,
        (processEntry E i s).1.out =
          s.out ++ [Line.event (finalLocals E i s).nsec10 (finalLocals E i s).duration
            (finalLocals E i s).event E.current_cpu pid rpc (finalLocals E i s).arg
            (finalLocals E i s).retval (finalLocals E i s).ipc (finalLocals E i s).name]) ∧
    (is_pc_sample E.K f.n = true → 0 < f.arg →
      (finalLocals E i s).nsec10 + 1 < 99900000000 →
      ∃ pid rpc,
        (processEntry E i s).1.out =
          s.out ++ [Line.event (finalLocals E i s).nsec10 1 KUTRACE_PSTATE E.current_cpu pid rpc
            f.arg 0 0 (lit "-freq-"),
            Line.event (finalLocals E i s).nsec10 (finalLocals E i s).duration
            (finalLocals E i s).event E.current_cpu pid rpc (finalLocals E i s).arg
            (finalLocals E i s).retval (finalLocals E i s).ipc (finalLocals E i s).name]) := by
  obtain ⟨q1, -, -, -, -⟩ := processEntry_form E i s f hf hk hw ht hn
  rw [cpuDescLines_of_not _ _ _ hc, List.append_nil] at q1
  refine ⟨?_, ?_⟩
  · intro hp
    have hfree : pcFreqLines E f (entryNsec10 E f s) (entryStart E f s).1 = [] := by
      cases hpc : is_pc_sample E.K f.n
      · exact pcFreqLines_of_not _ _ _ _ hpc
      · obtain ⟨p1, -, -, -, -, -⟩ := class_pc_sample E.K hK f.n 0 0 hpc
        have ha : ¬ 0 < f.arg := fun h => hp ⟨hpc, h⟩
        simp [pcFreqLines, p1, ha]
    rw [hfree, List.append_nil, (OutputEvent_of_bounds _ _ _ _ _ _ _ _ _ _ hb)] at q1
    exact ⟨_, _, q1⟩
  · intro hpc ha hb1
    obtain ⟨p1, p2, p3, p4, p5, p6⟩ := class_pc_sample E.K hK f.n f.delta_t
      (E.traceblock (i + 1)) hpc
    obtain ⟨e1, e2, e3, e4, e5, e6, e7, e8⟩ := entryStart_frame E f s
    have hfin := finalLocals_unfold E i s f hf
    simp only [stepFinish_name, enrichLocals_eq, localsAfterSpecial, localsAfterPc] at hfin
    simp only [hpc, if_true, p1, p4, p5, Bool.false_eq_true, if_false] at hfin
    have hns : (finalLocals E i s).nsec10 =
        pcNsec10 (if is_timer_irq s.gTIMER_IRQ_EVENT f.n = true then entryNsec10 E f s
                  else s.prior_timer_irq_nsec10 E.current_cpu) (entryNsec10 E f s) := by
      rw [hfin]
    have hfree : pcFreqLines E f (entryNsec10 E f s) (entryStart E f s).1 =
        [Line.event (finalLocals E i s).nsec10 1 KUTRACE_PSTATE E.current_cpu
          (s.current_pid E.current_cpu) ((entryStart E f s).1.current_rpc E.current_cpu)
          f.arg 0 0 (lit "-freq-")] := by
      simp only [pcFreqLines, hpc, p1, ha, and_self, if_true, Bool.false_eq_true, if_false,
        e2, e6, e7]
      rw [← hns]
      exact OutputEvent_of_bounds _ _ _ _ _ _ _ _ _ _ ⟨by omega, hb1⟩
    rw [hfree, OutputEvent_of_bounds _ _ _ _ _ _ _ _ _ _ hb] at q1
    simp only [p1, Bool.false_eq_true, if_false, List.append_assoc, List.singleton_append]
      at q1
    exact ⟨_, _, q1⟩

/-- C18 witness: the system call `0x805` with argument 7 writes one line. -/
theorem C18_one_line_witness :
    ∃ pid rpc,
      (processEntry (sampleEnv 0x1235080500000007) 12 (initialState ⟨0x300000, 0x12345⟩)).1.out =
        [] ++ [Line.event 0x312350 0 0x805 3 pid rpc 7 0 0 (lit "sys#5")] :=
  (C18_one_line (sampleEnv 0x1235080500000007) 12 (initialState ⟨0x300000, 0x12345⟩) _ rfl
    (by decide) rfl (by decide) (by decide) (by decide) (by decide) (by decide)).1 (by decide)

/-- C18 counterexample: the PC sample `0x101` with frequency argument 2800 and program counter
`0x7f1234567890`, met outside keep-just-names mode with its time within bounds, writes two
event lines. -/
theorem C18_counterexample :
    (pairEnv 0x1235010100000AF0 0x00007f1234567890).keep_just_names = false ∧
    (decodeFields ((pairEnv 0x1235010100000AF0 0x00007f1234567890).traceblock 12)).n
      = (pairEnv 0x1235010100000AF0 0x00007f1234567890).K.KUTRACE_PC_TEMP ∧
    (processEntry (pairEnv 0x1235010100000AF0 0x00007f1234567890) 12
      (initialState ⟨0x300000, 0x12345⟩)).1.out =
      [Line.event 0x312350 1 0x209 3 0 0 2800 0 0 (lit "-freq-"),
       Line.event 0x312350 0 0x280 3 0 0 0x59E2 0 0 (lit "PC=7f1234567890")] := by
  decide

theorem missingeventname_ne_nil (k : Nat) (h : k < 16) : missingeventname.getD k [] ≠ [] := by
  have : ∀ j : Fin 16, missingeventname.getD j.1 [] ≠ [] := by decide
  exact this ⟨k, h⟩

theorem missingName_ne_nil (e : Nat) (h : e ≤ 0xFFF) : missingName e ≠ [] := by
  have hk : e >>> 8 < 16 := by
    rw [Nat.shiftRight_eq_div_pow]; omega
  have h0 := missingeventname_ne_nil _ hk
  unfold missingName
  dsimp only
  split
  · decide
  · split
    · decide
    · split
      · decide
      · split
        · decide
        · intro hcat
          exact h0 (List.append_eq_nil.1 hcat).1

theorem missingName_plain (e : Nat) (h1 : e ≠ 0x9ff) (h2 : e ≠ 0xdff) (h3 : e ≠ 0xbff)
    (h4 : e ≠ 0xfff) :
    missingName e =
      missingeventname.getD (e >>> 8) [] ++
        decimal (e &&& (if 0x800 ≤ e then 0x1FF else 0x0FF)) := by
  simp only [missingName, if_neg h1, if_neg h2, if_neg h3, if_neg h4]

/-- C19: an event entry written outside keep-just-names mode whose code `e` is at most 0xFFF
and which got no name from the name table or an enrichment step is named by the placeholder
`missingeventname[e >> 8]` followed by the decimal value of `e & 0x1FF` when `e >= 0x800` and
of `e & 0xFF` otherwise, except that 0x9FF and 0xDFF are named "-sched-" and 0xBFF and 0xFFF
the same with "/" in front; the code of every event entry is at most 0xFFF, and every event line written
after the CPU-description pass-through has a non-empty name. -/
theorem C19_missing_name (E : Env) (i : Nat) (s : State) (f : Fields)
    (hf : decodeFields (E.traceblock i) = f) (hK : E.K.Sane)
    (hk : E.keep_just_names = false) (hw : liveWord (E.traceblock i))
    (ht : f.n ≠ E.K.KUTRACE_TSDELTA) (hn : is_namedef E.K f.n = false) :
    (finalLocals E i s).event ≤ 0xFFF ∧
    ((enrichLocals E f.argall
        (localsAfterSpecial E i f (signExtendRetval f.retval) (E.ipcblock i) (entryTfull f s)
          (entryNsec10 E f s) s)).name = [] →
      (finalLocals E i s).name = missingName (finalLocals E i s).event) ∧
    (∀ e, e ≠ 0x9ff → e ≠ 0xdff → e ≠ 0xbff → e ≠ 0xfff →
      missingName e =
        missingeventname.getD (e >>> 8) [] ++
          decimal (e &&& (if 0x800 ≤ e then 0x1FF else 0x0FF))) ∧
    missingName 0x9ff = lit "-sched-" ∧ missingName 0xdff = lit "-sched-" ∧
    missingName 0xbff = lit "/-sched-" ∧ missingName 0xfff = lit "/-sched-" ∧
    missingeventname =
      [lit "nam#", lit "nam#", lit "spl#", lit "spl#", lit "trp#", lit "irq#", lit "/trp#",
       lit "/irq#", lit "sys#", lit "sys#", lit "/sys#", lit "/sys#", lit "s32#", lit "s32#",
       lit "/s32#", lit "/s32#"] ∧
    (finalLocals E i s).name ≠ [] ∧
    ∃ rest, (processEntry E i s).1.out = s.out ++ cpuDescLines E f (entryNsec10 E f s) ++ rest ∧
      ∀ l ∈ rest, ∃ nsec10 dur event cpu pid rpc arg retval ipc name,
        l = Line.event nsec10 dur event cpu pid rpc arg retval ipc name ∧ name ≠ [] := by
  obtain ⟨q1, -, -, -, -⟩ := processEntry_form E i s f hf hk hw ht hn
  have hnlt : f.n < 4096 := by rw [← hf]; exact decodeFields_n_lt _
  have hfin := finalLocals_unfold E i s f hf
  rw [stepFinish_name] at hfin
  have hev : (enrichLocals E f.argall
        (localsAfterSpecial E i f (signExtendRetval f.retval) (E.ipcblock i) (entryTfull f s)
          (entryNsec10 E f s) s)).event ≤ 0xFFF := by
    simp only [enrichLocals_eq, localsAfterSpecial, localsAfterPc]
    split
    · have := (pcCode_range E.K hK (E.traceblock (i + 1))).2.1
      omega
    · omega
  have hname : (finalLocals E i s).name ≠ [] := by
    rw [hfin]
    dsimp only
    split
    · exact missingName_ne_nil _ hev
    · rename_i h
      intro h0
      exact h ⟨h0, hev⟩
  refine ⟨?_, ?_, missingName_plain, by decide, by decide, by decide, by decide, rfl, hname, ?_⟩
  · rw [hfin]; exact hev
  · intro h0
    rw [hfin]
    dsimp only
    rw [if_pos ⟨h0, hev⟩]
  · refine ⟨_, by rw [q1, List.append_assoc], ?_⟩
    intro l hl
    rcases List.mem_append.1 hl with hl | hl
    · obtain ⟨a1, a2, a3, a4, h⟩ := pcFreqLines_mem _ _ _ _ l hl
      exact ⟨_, _, _, _, _, _, _, _, _, _, h, by decide⟩
    · exact ⟨_, _, _, _, _, _, _, _, _, _, OutputEvent_mem _ _ _ _ _ _ _ _ _ _ l hl, hname⟩

/-- C19 witness: the system call `0x805` with no name recorded is named "sys#5". -/
theorem C19_missing_name_witness :
    (finalLocals (sampleEnv 0x1235080500000007) 12 (initialState ⟨0x300000, 0x12345⟩)).name
      = lit "sys#5" := by
  have h := (C19_missing_name (sampleEnv 0x1235080500000007) 12
    (initialState ⟨0x300000, 0x12345⟩) _ rfl (by decide) rfl (by decide) (by decide)
    (by decide)).2.1 (by decide)
  rw [h]
  decide

/-- C19 counterexample: the system call `0x9ff` with no name recorded is written with the name
"-sched-", not with the placeholder "sys#511". -/
theorem C19_counterexample :
    (processEntry (sampleEnv 0x123509FF00000000) 12 (initialState ⟨0x300000, 0x12345⟩)).1.out =
      [Line.event 0x312350 0 0x9ff 3 0 0 0 0 0 (lit "-sched-")] ∧
    (initialState ⟨0x300000, 0x12345⟩).names 0x9ff = none ∧
    missingeventname.getD (0x9ff >>> 8) [] ++ decimal (0x9ff &&& 0x1FF) = lit "sys#511" ∧
    lit "sys#511" ≠ lit "-sched-" := by
  decide

/-! ## PC samples -/

/-- C17: a PC sample entry (first word with event PC_U, PC_K or PC_TEMP, second word the
program counter `pc`) met outside keep-just-names mode consumes two words and is written at
`prior_timer_irq_nsec10[cpu] - 1` when that is non-zero, with code PC_K when bit 63 of `pc` is
set and PC_U otherwise, arg `(pc >> 6) & 0xFFFF`, retval 0 and ipc 0. In keep-just-names
mode it writes nothing and consumes one word only, so the loop goes on at the word that holds
`pc`. -/
theorem C17_pc_sample (E : Env) (i : Nat) (s : State) (f : Fields)
    (hf : decodeFields (E.traceblock i) = f) (hK : E.K.Sane)
    (hw : liveWord (E.traceblock i)) (hp : is_pc_sample E.K f.n = true)
    (hT : 0x400 ≤ s.gTIMER_IRQ_EVENT) (hprior : s.prior_timer_irq_nsec10 E.current_cpu < 2 ^ 64) :
    (E.keep_just_names = false →
      (processEntry E i s).2 = Ctl.next (i + 1) ∧
      (processEntry E i s).1.out =
        s.out ++ pcFreqLines E f (entryNsec10 E f s) (entryStart E f s).1 ++
          OutputEvent (pcNsec10 (s.prior_timer_irq_nsec10 E.current_cpu) (entryNsec10 E f s)) 0
            (pcCode E.K (E.traceblock (i + 1))) E.current_cpu (s.current_pid E.current_cpu)
            (s.current_rpc E.current_cpu) ((E.traceblock (i + 1) >>> 6) &&& 0xFFFF) 0 0
            (lit "PC=" ++ hexLower 12 (E.traceblock (i + 1)))) ∧
    (s.prior_timer_irq_nsec10 E.current_cpu ≠ 0 →
      pcNsec10 (s.prior_timer_irq_nsec10 E.current_cpu) (entryNsec10 E f s) =
        s.prior_timer_irq_nsec10 E.current_cpu - 1) ∧
    (s.prior_timer_irq_nsec10 E.current_cpu = 0 →
      pcNsec10 (s.prior_timer_irq_nsec10 E.current_cpu) (entryNsec10 E f s) =
        entryNsec10 E f s) ∧
    (E.traceblock (i + 1) &&& 0x8000000000000000 ≠ 0 →
      pcCode E.K (E.traceblock (i + 1)) = E.K.KUTRACE_PC_K) ∧
    (E.traceblock (i + 1) &&& 0x8000000000000000 = 0 →
      pcCode E.K (E.traceblock (i + 1)) = E.K.KUTRACE_PC_U) ∧
    (E.keep_just_names = true →
      (processEntry E i s).2 = Ctl.next i ∧ (processEntry E i s).1.out = s.out) := by
  obtain ⟨p1, p2, p3, p4, p5, p6⟩ := class_pc_sample E.K hK f.n f.delta_t
    (E.traceblock (i + 1)) hp
  have hK0 := hK
  obtain ⟨k1, k2, k3, k4, k5, k6, k7, k8, k9, k10, k11, k12, k13, k14, k15, k16, k17⟩ := hK
  have hpc := hp
  simp only [is_pc_sample, Bool.or_eq_true, decide_eq_true_eq] at hpc
  have ht : f.n ≠ E.K.KUTRACE_TSDELTA := by omega
  have hn : is_namedef E.K f.n = false := by
    simp only [is_namedef, Bool.and_eq_false_iff, decide_eq_false_iff_not]
    omega
  have hc : is_cpu_description E.K f.n = false := by
    simp only [is_cpu_description, ite_eq_right_iff]
    intro h; omega
  have hr : has_rpcid E.K f.n = false := by
    simp only [has_rpcid, KUTRACE_RPCIDREQ, Bool.and_eq_false_iff, decide_eq_false_iff_not]
    omega
  have hti : is_timer_irq s.gTIMER_IRQ_EVENT f.n = false := by
    simp only [is_timer_irq, decide_eq_false_iff_not]
    omega
  refine ⟨?_, ?_, ?_, ?_, ?_, ?_⟩
  · intro hk
    obtain ⟨q1, -, -, -, q5⟩ := processEntry_form E i s f hf hk hw ht hn
    have hfin := finalLocals_unfold E i s f hf
    simp only [stepFinish_name, enrichLocals_eq, localsAfterSpecial, localsAfterPc] at hfin
    have hrp : is_raw_pkt_hash E.K (pcCode E.K (E.traceblock (i + 1))) = false := by
      have := pcCode_range E.K hK0 (E.traceblock (i + 1))
      simp only [is_raw_pkt_hash, Bool.and_eq_false_iff, decide_eq_false_iff_not]
      omega
    have hum : is_user_msg_hash E.K (pcCode E.K (E.traceblock (i + 1))) = false := by
      have := pcCode_range E.K hK0 (E.traceblock (i + 1))
      simp only [is_user_msg_hash, Bool.and_eq_false_iff, decide_eq_false_iff_not]
      omega
    have hrm : is_rpc_msg (pcCode E.K (E.traceblock (i + 1))) = false := by
      have := pcCode_range E.K hK0 (E.traceblock (i + 1))
      simp only [is_rpc_msg, KUTRACE_RPCIDREQ, KUTRACE_RPCIDRESP, Bool.and_eq_false_iff,
        decide_eq_false_iff_not]
      omega
    have hma : is_mark_abc (pcCode E.K (E.traceblock (i + 1))) = false := by
      have := pcCode_range E.K hK0 (E.traceblock (i + 1))
      simp only [is_mark_abc, Bool.or_eq_false_iff, decide_eq_false_iff_not]
      omega
    have hbh : is_bottom_half (pcCode E.K (E.traceblock (i + 1))) = false := by
      have := pcCode_range E.K hK0 (E.traceblock (i + 1))
      simp only [is_bottom_half, KUTRACE_IRQ, KUTRACE_BOTTOM_HALF, decide_eq_false_iff_not]
      intro h
      have hle : pcCode E.K (E.traceblock (i + 1)) &&& not0200 ≤
          pcCode E.K (E.traceblock (i + 1)) := Nat.and_le_left
      omega
    have hnm : ¬ (lit "PC=" ++ hexLower 12 (E.traceblock (i + 1)) = []) := by
      simp [lit]
    simp only [hp, if_true, p1, p2, p4, p5, hrp, hum, hrm, hma, hbh, hti, Bool.false_eq_true,
      if_false, Bool.or_self, Bool.false_and, List.append_nil,
      if_neg (fun h : (lit "PC=" ++ hexLower 12 (E.traceblock (i + 1)) = []) ∧
        pcCode E.K (E.traceblock (i + 1)) ≤ 0xFFF => hnm h.1)] at hfin
    refine ⟨?_, ?_⟩
    · rw [q5, hfin]
    · rw [q1, cpuDescLines_of_not _ _ _ hc, List.append_nil, (entryStart_rpc_of_not E f s hr).1]
      simp only [p1, Bool.false_eq_true, if_false]
      rw [hfin]
  · intro h0
    unfold pcNsec10 u64
    rw [if_pos h0]
    omega
  · intro h0
    unfold pcNsec10
    rw [if_neg (fun h => h h0)]
  · intro h
    unfold pcCode
    rw [if_pos h]
  · intro h
    unfold pcCode
    rw [if_neg (fun h2 => h2 h)]
  · intro hk
    have hw2 := hw
    rw [← hf] at ht hn hc
    rw [processEntry_names_only E i s hk hw ht hn]
    refine ⟨rfl, ?_⟩
    show (entryStart E (decodeFields (E.traceblock i)) s).1.out ++ _ = s.out
    rw [cpuDescLines_of_not _ _ _ hc, List.append_nil, (entryStart_frame E _ s).1]

/-- C17 witness: in keep-just-names mode the PC sample `0x101` at word 12 hands the loop the
word 13, which holds the program counter `0x7f1234567890`; decoded as an entry of its own
(time `0x00007`, event `0xf12`) that word sets `prior_t` back from `0x12350` to `0x00007`. -/
theorem C17_pc_sample_witness :
    ((processEntry (namesOnlyPairEnv 0x1235010100000AF0 0x00007f1234567890) 12
        (initialState ⟨0x300000, 0x12345⟩)).2 = Ctl.next 12 ∧
      (processEntry (namesOnlyPairEnv 0x1235010100000AF0 0x00007f1234567890) 12
        (initialState ⟨0x300000, 0x12345⟩)).1.out = []) ∧
    (processEntry (namesOnlyPairEnv 0x1235010100000AF0 0x00007f1234567890) 12
        (initialState ⟨0x300000, 0x12345⟩)).1.time = ⟨0x300000, 0x12350⟩ ∧
    (decodeFields ((namesOnlyPairEnv 0x1235010100000AF0 0x00007f1234567890).traceblock 13)).n
      = 0xf12 ∧
    (processEntry (namesOnlyPairEnv 0x1235010100000AF0 0x00007f1234567890) 13
      (processEntry (namesOnlyPairEnv 0x1235010100000AF0 0x00007f1234567890) 12
        (initialState ⟨0x300000, 0x12345⟩)).1).1.time = ⟨0x300000, 0x00007⟩ :=
  ⟨(C17_pc_sample (namesOnlyPairEnv 0x1235010100000AF0 0x00007f1234567890) 12
      (initialState ⟨0x300000, 0x12345⟩) _ rfl (by decide) (by decide) (by decide) (by decide)
      (by decide)).2.2.2.2.2 rfl,
   by decide, by decide, by decide⟩

/-! ## Learned event numbers and the idle fixup -/

theorem memcmpEq_iff (buf : List Nat) (s : CStr) :
    memcmpEq buf s = true ↔ buf.take s.length = s := by
  simp [memcmpEq]

theorem memcmpEq_of_head (buf : List Nat) (s : CStr) (a b : Nat) (t u : List Nat)
    (hb : buf = a :: t) (hs : s = b :: u) (hab : a ≠ b) : memcmpEq buf s = false := by
  rw [Bool.eq_false_iff]
  intro h
  rw [memcmpEq_iff, hb, hs] at h
  simp only [List.length_cons, List.take_succ_cons, List.cons.injEq] at h
  exact hab h.1

theorem head_of_memcmpEq (buf : List Nat) (s : CStr) (b : Nat) (u : List Nat)
    (hs : s = b :: u) (h : memcmpEq buf s = true) : ∃ t, buf = b :: t := by
  rw [memcmpEq_iff, hs] at h
  cases buf with
  | nil => simp at h
  | cons a t =>
    simp only [List.length_cons, List.take_succ_cons, List.cons.injEq] at h
    exact ⟨t, by rw [h.1]⟩

/-- A buffer that begins with "local_timer" or with "-sched-" does not begin with "idle:". -/
theorem not_idle_of_learned (buf : List Nat)
    (h : memcmpEq buf (lit "local_timer") = true ∨ memcmpEq buf (lit "-sched-") = true) :
    memcmpEq buf (lit "idle:") = false := by
  rcases h with h | h
  · obtain ⟨t, ht⟩ := head_of_memcmpEq buf _ 0x6c (lit "ocal_timer") (by decide) h
    exact memcmpEq_of_head buf _ 0x6c 0x69 t (lit "dle:") ht (by decide) (by decide)
  · obtain ⟨t, ht⟩ := head_of_memcmpEq buf _ 0x2d (lit "sched-") (by decide) h
    exact memcmpEq_of_head buf _ 0x2d 0x69 t (lit "dle:") ht (by decide) (by decide)

/-- The buffer after `strcpy(buf, "-idle-")` begins with neither learned name. -/
theorem strcpy_idle_not_learned (buf : List Nat) :
    memcmpEq (strcpy buf kIdleName) (lit "local_timer") = false ∧
    memcmpEq (strcpy buf kIdleName) (lit "-sched-") = false := by
  have e : strcpy buf kIdleName =
      0x2d :: (lit "idle-" ++ 0 :: buf.drop (kIdleName.length + 1)) := rfl
  refine ⟨?_, ?_⟩
  · exact memcmpEq_of_head _ _ 0x2d 0x6c _ (lit "ocal_timer") e (by decide) (by decide)
  · rw [Bool.eq_false_iff]
    intro h
    rw [memcmpEq_iff, e] at h
    have h2 := congrArg (fun l => l.getD 1 0) h
    simp [lit] at h2

theorem FixupIdlePid_cases (pid : Nat) (buf : List Nat) (idle : U64set) :
    (FixupIdlePid pid buf idle).2.1 = buf ∨
    (FixupIdlePid pid buf idle).2.1 = strcpy buf kIdleName := by
  unfold FixupIdlePid
  exact (ite_eq_or_eq _ _ _).symm

theorem FixupIdlePid_plain (pid : Nat) (buf : List Nat) (idle : U64set)
    (h1 : memcmpEq buf (lit "idle:") = false) (h2 : pid ≠ 0) :
    FixupIdlePid pid buf idle = (pid, buf, idle) := by
  simp [FixupIdlePid, h1, h2]

/-- C12: a name definition of valid length (1 to 8 words) that is no time pair and no PID name
for pid 0, with 16-bit argument `a`: if its name bytes begin with "local_timer" it sets
`timer_irq_event` to `0x500 | a`; if they begin with "-sched-" and bit 0x200 of `a` is clear
it sets `sched_event` to `0x800 | map_nr(a)`. Any name definition whose name bytes begin with
neither leaves both learned event numbers unchanged. -/
theorem C12_learned_event_numbers (E : Env) (i : Nat) (s : State) (f : Fields)
    (hf : decodeFields (E.traceblock i) = f) (hK : E.K.Sane)
    (hw : liveWord (E.traceblock i)) (hn : is_namedef E.K f.n = true) :
    (¬ ((f.n >>> 4) &&& 0x00f < 1 ∨ 8 < (f.n >>> 4) &&& 0x00f) →
      is_timepair E.K f.n = false → ¬ (is_pidnamedef f.n = true ∧ f.arg = 0) →
      memcmpEq (tempstringOf E.traceblock i ((f.n >>> 4) &&& 0x00f)) (lit "local_timer") = true →
      (processEntry E i s).1.gTIMER_IRQ_EVENT = 0x500 ||| f.arg) ∧
    (¬ ((f.n >>> 4) &&& 0x00f < 1 ∨ 8 < (f.n >>> 4) &&& 0x00f) →
      is_timepair E.K f.n = false → ¬ (is_pidnamedef f.n = true ∧ f.arg = 0) →
      memcmpEq (tempstringOf E.traceblock i ((f.n >>> 4) &&& 0x00f)) (lit "-sched-") = true →
      f.arg &&& 0x200 = 0 →
      (processEntry E i s).1.gSCHED_EVENT = 0x800 ||| kutrace_map_nr f.arg) ∧
    (memcmpEq (tempstringOf E.traceblock i ((f.n >>> 4) &&& 0x00f)) (lit "local_timer") = false →
      memcmpEq (tempstringOf E.traceblock i ((f.n >>> 4) &&& 0x00f)) (lit "-sched-") = false →
      (processEntry E i s).1.gTIMER_IRQ_EVENT = s.gTIMER_IRQ_EVENT ∧
      (processEntry E i s).1.gSCHED_EVENT = s.gSCHED_EVENT) := by
  have halt : f.arg < 65536 := by rw [← hf]; exact decodeFields_arg_lt _
  have ht : f.n ≠ E.K.KUTRACE_TSDELTA := by
    obtain ⟨k1, k2, k3, k4, k5, k6, k7, k8, k9, k10, k11, k12, k13, k14, k15, k16, k17⟩ := hK
    simp only [is_namedef, Bool.and_eq_true, decide_eq_true_eq] at hn
    omega
  have hpe : processEntry E i s = processNameDef E i f (entryNsec10 E f s) (entryStart E f s).1 := by
    subst hf
    exact processEntry_namedef E i s hw ht hn
  obtain ⟨e1, e2, e3, e4, e5, e6, e7, e8⟩ := entryStart_frame E f s
  have hfix : ¬ (is_pidnamedef f.n = true ∧ f.arg = 0) →
      memcmpEq (tempstringOf E.traceblock i ((f.n >>> 4) &&& 0x00f)) (lit "idle:") = false →
      nameDefFixup E i f (entryStart E f s).1 =
        (f.arg, tempstringOf E.traceblock i ((f.n >>> 4) &&& 0x00f), s.idle_pids) := by
    intro hp0 hidle
    unfold nameDefFixup
    rw [e4]
    cases hp : is_pidnamedef f.n
    · simp
    · simp only [if_true]
      exact FixupIdlePid_plain _ _ _ hidle (fun h0 => hp0 ⟨hp, h0⟩)
  refine ⟨?_, ?_, ?_⟩
  · intro hlen htp hp0 hm
    rw [hpe, processNameDef_eq E i f _ _ hlen htp]
    dsimp only
    rw [hfix hp0 (not_idle_of_learned _ (Or.inl hm))]
    dsimp only
    rw [if_pos hm, and_ffff_eq, Nat.mod_eq_of_lt halt]
    rfl
  · intro hlen htp hp0 hm ha
    rw [hpe, processNameDef_eq E i f _ _ hlen htp]
    dsimp only
    rw [hfix hp0 (not_idle_of_learned _ (Or.inr hm))]
    dsimp only
    rw [if_pos hm]
    have h1 : f.arg &&& 0xffff = f.arg := by rw [and_ffff_eq, Nat.mod_eq_of_lt halt]
    rw [h1, ha]
    have h2 : u64 (0xffff + 0) = 0xffff := by decide
    rw [h2, h1]
    unfold kutrace_map_nr
    rw [ha]
    rfl
  · intro hm1 hm2
    rw [hpe]
    by_cases hlen : ((f.n >>> 4) &&& 0x00f < 1 ∨ 8 < (f.n >>> 4) &&& 0x00f)
    · have e : processNameDef E i f (entryNsec10 E f s) (entryStart E f s).1 =
          ((entryStart E f s).1, Ctl.next i) := by
        simp only [processNameDef, if_pos hlen]
      rw [e]
      exact ⟨e7, e8⟩
    · cases htp : is_timepair E.K f.n
      · rw [processNameDef_eq E i f _ _ hlen htp]
        dsimp only
        have hno : memcmpEq (nameDefFixup E i f (entryStart E f s).1).2.1 (lit "local_timer")
              = false ∧
            memcmpEq (nameDefFixup E i f (entryStart E f s).1).2.1 (lit "-sched-") = false := by
          unfold nameDefFixup
          cases hp : is_pidnamedef f.n
          · simp only [Bool.false_eq_true, if_false]
            exact ⟨hm1, hm2⟩
          · simp only [if_true]
            rcases FixupIdlePid_cases f.arg
              (tempstringOf E.traceblock i ((f.n >>> 4) &&& 0x00f))
              (entryStart E f s).1.idle_pids with h | h
            · rw [h]; exact ⟨hm1, hm2⟩
            · rw [h]; exact strcpy_idle_not_learned _
        rw [hno.1, hno.2]
        simp only [Bool.false_eq_true, if_false]
        exact ⟨e7, e8⟩
      · have e : processNameDef E i f (entryNsec10 E f s) (entryStart E f s).1 =
            ((entryStart E f s).1, Ctl.next (i + (((f.n >>> 4) &&& 0x00f) - 1))) := by
          simp only [processNameDef, if_neg hlen, htp, Bool.not_true, Bool.false_eq_true,
            if_false]
        rw [e]
        exact ⟨e7, e8⟩

/-- C12 witness: the interrupt name definition `0x035` with argument `0xef` and the name
"local_timer" sets `timer_irq_event` to `0x5ef`. -/
theorem C12_learned_event_numbers_witness :
    (processEntry (nameEnv 0x12350035000000EF 0x69745f6c61636f6c 0x000000000072656d) 12
      (initialState ⟨0x300000, 0x12345⟩)).1.gTIMER_IRQ_EVENT = 0x500 ||| 0xEF :=
  (C12_learned_event_numbers (nameEnv 0x12350035000000EF 0x69745f6c61636f6c 0x000000000072656d)
    12 (initialState ⟨0x300000, 0x12345⟩) _ rfl (by decide) (by decide) (by decide)).1
    (by decide) (by decide) (by decide) (by decide)

/-- C12 counterexample: the PID name definition `0x032` for pid 0 whose name bytes are
"local_timer" leaves `timer_irq_event` at `0x5ec`, not at `0x500 | 0`: the idle fixup has
replaced the name by "-idle-" before the comparison. -/
theorem C12_counterexample :
    is_namedef (nameEnv 0x1235003200000000 0x69745f6c61636f6c 0x000000000072656d).K
      (decodeFields ((nameEnv 0x1235003200000000 0x69745f6c61636f6c 0x000000000072656d).traceblock
        12)).n = true ∧
    (decodeFields ((nameEnv 0x1235003200000000 0x69745f6c61636f6c 0x000000000072656d).traceblock
        12)).arg = 0 ∧
    memcmpEq (tempstringOf
      (nameEnv 0x1235003200000000 0x69745f6c61636f6c 0x000000000072656d).traceblock 12 3)
      (lit "local_timer") = true ∧
    (initialState ⟨0x300000, 0x12345⟩).gTIMER_IRQ_EVENT = 0x5ec ∧
    (processEntry (nameEnv 0x1235003200000000 0x69745f6c61636f6c 0x000000000072656d) 12
      (initialState ⟨0x300000, 0x12345⟩)).1.gTIMER_IRQ_EVENT = 0x5ec ∧
    0x500 ||| 0 ≠ 0x5ec := by
  decide

/-- The expansion of `kutrace_map_nr(arg & 0xffff)` at line 1211 for the system-call name
definition `0x028` of "-sched-" with argument `0x3ff`: the code sets `sched_event` to `0x9ff`,
whereas `0x800 | map_nr(0x3ff)` is `0xdff`. -/
theorem sched_event_macro_expansion :
    memcmpEq (tempstringOf (nameEnv 0x12350028000003FF 0x002d64656863732d 0).traceblock 12 2)
      (lit "-sched-") = true ∧
    (processEntry (nameEnv 0x12350028000003FF 0x002d64656863732d 0) 12
      (initialState ⟨0x300000, 0x12345⟩)).1.gSCHED_EVENT = 0x9ff ∧
    0x800 ||| kutrace_map_nr 0x3ff = 0xdff := by
  decide

theorem cstrOf_strcpy_idle (buf : List Nat) : cstrOf (strcpy buf kIdleName) = lit "-idle-" := by
  have e : strcpy buf kIdleName =
      [0x2d, 0x69, 0x64, 0x6c, 0x65, 0x2d] ++ 0 :: buf.drop (kIdleName.length + 1) := rfl
  have e2 : lit "-idle-" = [0x2d, 0x69, 0x64, 0x6c, 0x65, 0x2d] := by decide
  rw [e, e2]
  simp [cstrOf, List.takeWhile]

theorem safe_idle_name : MakeSafeAscii (ReduceSpaces (lit "-idle-")) = lit "-idle-" := by
  decide

theorem FixupIdlePid_idle (pid : Nat) (buf : List Nat) (idle : U64set)
    (h : memcmpEq buf (lit "idle:") = true) :
    FixupIdlePid pid buf idle = (0, strcpy buf kIdleName, idle.insert pid) := by
  simp [FixupIdlePid, h]

theorem FixupIdlePid_zero (buf : List Nat) (idle : U64set)
    (h : memcmpEq buf (lit "idle:") = false) :
    FixupIdlePid 0 buf idle = (0, strcpy buf kIdleName, idle) := by
  simp [FixupIdlePid, h]

/-- C13: `FixupIdlePid` on a pid and a name buffer: if the name begins with the five bytes
"idle:" the original pid is inserted into `idle_pids` (which loses no member), the pid becomes
0 and the name becomes "-idle-"; if the pid is 0 the name becomes "-idle-"; otherwise pid,
name and `idle_pids` are unchanged. Consequently a PID name definition and a block preamble
whose name begins with "idle:" store "-idle-" in the name table under
`PidToEvent(0) = 0x10000` and remember the original pid in `idle_pids`. -/
theorem C13_fixup_idle_pid (pid : Nat) (buf : List Nat) (idle : U64set) :
    (memcmpEq buf (lit "idle:") = true →
      FixupIdlePid pid buf idle = (0, strcpy buf kIdleName, idle.insert pid) ∧
      cstrOf (strcpy buf kIdleName) = lit "-idle-" ∧
      (idle.insert pid) pid = true ∧ ∀ x, idle x = true → (idle.insert pid) x = true) ∧
    (memcmpEq buf (lit "idle:") = false → pid = 0 →
      FixupIdlePid pid buf idle = (0, strcpy buf kIdleName, idle) ∧
      cstrOf (strcpy buf kIdleName) = lit "-idle-") ∧
    (memcmpEq buf (lit "idle:") = false → pid ≠ 0 →
      FixupIdlePid pid buf idle = (pid, buf, idle)) ∧
    PidToEvent 0 = 0x10000 ∧
    (∀ (E : Env) (i : Nat) (s : State) (f : Fields),
      decodeFields (E.traceblock i) = f → E.K.Sane → liveWord (E.traceblock i) →
      is_namedef E.K f.n = true → is_pidnamedef f.n = true →
      ¬ ((f.n >>> 4) &&& 0x00f < 1 ∨ 8 < (f.n >>> 4) &&& 0x00f) →
      is_timepair E.K f.n = false →
      memcmpEq (tempstringOf E.traceblock i ((f.n >>> 4) &&& 0x00f)) (lit "idle:") = true →
      (processEntry E i s).1.names 0x10000 = some (lit "-idle-") ∧
      (processEntry E i s).1.idle_pids f.arg = true ∧
      ∀ x, s.idle_pids x = true → (processEntry E i s).1.idle_pids x = true) ∧
    (∀ (C : Nat → Nat) (traceblock : Nat → Nat) (first_real_entry cpu base_cycle : Nat)
      (k : Bool) (a : Nat → Bool) (s : State),
      memcmpEq (wordBytes (traceblock (first_real_entry + 2)) ++
        wordBytes (traceblock (first_real_entry + 3)) ++ [0]) (lit "idle:") = true →
      (preamble C traceblock first_real_entry cpu base_cycle k a s).1.names 0x10000
        = some (lit "-idle-") ∧
      (preamble C traceblock first_real_entry cpu base_cycle k a s).1.idle_pids
        (RemapHighPid (traceblock first_real_entry &&& 0x00000000ffffffff)) = true ∧
      (preamble C traceblock first_real_entry cpu base_cycle k a s).1.current_pid cpu = 0 ∧
      ∀ x, s.idle_pids x = true →
        (preamble C traceblock first_real_entry cpu base_cycle k a s).1.idle_pids x = true) := by
  have hins : ∀ (idle : U64set) (p x : Nat), idle x = true → (idle.insert p) x = true := by
    intro idle p x hx
    simp [U64set.insert, hx]
  have hself : ∀ (idle : U64set) (p : Nat), (idle.insert p) p = true := by
    intro idle p
    simp [U64set.insert]
  refine ⟨?_, ?_, ?_, by decide, ?_, ?_⟩
  · intro h
    exact ⟨FixupIdlePid_idle pid buf idle h, cstrOf_strcpy_idle buf, hself idle pid,
      hins idle pid⟩
  · intro h h0
    rw [h0]
    exact ⟨FixupIdlePid_zero buf idle h, cstrOf_strcpy_idle buf⟩
  · intro h h0
    exact FixupIdlePid_plain pid buf idle h h0
  · intro E i s f hf hK hw hn hp hlen htp hm
    have ht : f.n ≠ E.K.KUTRACE_TSDELTA := by
      obtain ⟨k1, k2, k3, k4, k5, k6, k7, k8, k9, k10, k11, k12, k13, k14, k15, k16, k17⟩ := hK
      simp only [is_namedef, Bool.and_eq_true, decide_eq_true_eq] at hn
      omega
    have hpe : processEntry E i s =
        processNameDef E i f (entryNsec10 E f s) (entryStart E f s).1 := by
      subst hf
      exact processEntry_namedef E i s hw ht hn
    obtain ⟨e1, e2, e3, e4, e5, e6, e7, e8⟩ := entryStart_frame E f s
    have hfix : nameDefFixup E i f (entryStart E f s).1 =
        (0, strcpy (tempstringOf E.traceblock i ((f.n >>> 4) &&& 0x00f)) kIdleName,
          s.idle_pids.insert f.arg) := by
      unfold nameDefFixup
      rw [hp, if_pos rfl, e4]
      exact FixupIdlePid_idle _ _ _ hm
    have hname : nameDefName E i f (entryStart E f s).1 = lit "-idle-" := by
      unfold nameDefName
      rw [hfix]
      dsimp only
      rw [cstrOf_strcpy_idle, safe_idle_name]
    have hkey : nameDefKey E i f (entryStart E f s).1 = 0x10000 := by
      unfold nameDefKey
      rw [hp, if_pos rfl, hfix]
      show PidToEvent 0 = 0x10000
      decide
    rw [hpe, processNameDef_eq E i f _ _ hlen htp]
    dsimp only
    rw [hname, hkey, hfix]
    dsimp only
    refine ⟨?_, hself _ _, hins _ _⟩
    rw [if_pos (by decide)]
    simp [upd]
  · intro C traceblock fre cpu base_cycle k a s hm
    have hfix := FixupIdlePid_idle (RemapHighPid (traceblock fre &&& 0x00000000ffffffff))
      (wordBytes (traceblock (fre + 2)) ++ wordBytes (traceblock (fre + 3)) ++ [0])
      s.idle_pids hm
    have hpre : ∀ r : State × (Nat → Bool),
        r = preamble C traceblock fre cpu base_cycle k a s →
        r.1.names 0x10000 = some (lit "-idle-") ∧
        r.1.idle_pids (RemapHighPid (traceblock fre &&& 0x00000000ffffffff)) = true ∧
        r.1.current_pid cpu = 0 ∧ ∀ x, s.idle_pids x = true → r.1.idle_pids x = true := by
      intro r hr
      unfold preamble at hr
      simp only [hfix, cstrOf_strcpy_idle, safe_idle_name] at hr
      have h10 : PidToEvent 0 = 0x10000 := by decide
      rw [h10] at hr
      cases k <;> cases hat : a cpu <;>
        by_cases hfr : 0 < traceblock fre >>> 32 <;>
        simp only [hat, hfr, Bool.not_false, Bool.not_true, Bool.false_eq_true, if_true,
          if_false] at hr <;>
        (rw [hr]; exact ⟨by simp [upd], hself _ _, by simp [upd], hins _ _⟩)
    exact hpre _ rfl

/-- C13 witness: the PID name definition `0x022` for pid `0x64` with the name "idle:" stores
"-idle-" under `0x10000` and remembers pid `0x64` as an idle pid. -/
theorem C13_fixup_idle_pid_witness :
    (processEntry (nameEnv 0x1235002200000064 0x0000003a656c6469 0) 12
      (initialState ⟨0x300000, 0x12345⟩)).1.names 0x10000 = some (lit "-idle-") ∧
    (processEntry (nameEnv 0x1235002200000064 0x0000003a656c6469 0) 12
      (initialState ⟨0x300000, 0x12345⟩)).1.idle_pids 0x64 = true :=
  ⟨((C13_fixup_idle_pid 0 [] (fun _ => false)).2.2.2.2.1
      (nameEnv 0x1235002200000064 0x0000003a656c6469 0) 12 (initialState ⟨0x300000, 0x12345⟩) _
      rfl (by decide) (by decide) (by decide) (by decide) (by decide) (by decide)
      (by decide)).1,
   by decide⟩
/-! ## Sanity checks on a block -/

theorem headerFail_iff (traceblock : Nat → Nat) :
    headerFail traceblock = true ↔
      (80 ≤ traceblock 0 >>> 56 ∨
        3153600000000000 ≤ traceblock 1 &&& 0x00ffffffffffffff) := by
  unfold headerFail
  simp only [kMAX_CPUS, usec_per_100_years]
  by_cases h1 : 80 ≤ traceblock 0 >>> 56 <;>
  by_cases h2 : 3153600000000000 ≤ traceblock 1 &&& 0x00ffffffffffffff <;>
  simp [h1, h2]

theorem processBlock_fail (K : LibConsts) (calibrate : (Nat → Nat) → Option (Nat → Nat))
    (b : Block) (r : RunState) (C : Nat → Nat) (hfail : headerFail b.traceblock = true)
    (hC : (if decide (r.blocknumber = 0) = true then calibrate b.traceblock
           else some r.CyclesToNsec10) = some C) :
    processBlock K calibrate b r =
      some { r with
        all_flags := r.all_flags ||| (b.traceblock 1 >>> 56) % 256,
        first_flags := if decide (r.blocknumber = 0) = true then (b.traceblock 1 >>> 56) % 256
                       else r.first_flags,
        CyclesToNsec10 := C,
        blocknumber := r.blocknumber + 1 } := by
  unfold processBlock
  simp only [hC, hfail, if_true]

theorem runBlocks_cons (K : LibConsts) (calibrate : (Nat → Nat) → Option (Nat → Nat))
    (maxblock : Nat) (b : Block) (bs : List Block) (r r2 : RunState)
    (h : r.blocknumber < maxblock) (hb : processBlock K calibrate b r = some r2) :
    runBlocks K calibrate maxblock (b :: bs) r = runBlocks K calibrate maxblock bs r2 := by
  rw [runBlocks, if_neg (by omega), hb]

/-! ## Names recorded for event codes are never empty

The name table is keyed by event code below 0x10000 and by PID, lock, method and other
numbers from 0x10000 up. Only a name definition writes a key below 0x10000, and it drops the
empty name (line 1199), so a name found for a call or return code is never empty. -/

theorem or_ge_of_testBit (a b j : Nat) (h : b.testBit j = true) : 2 ^ j ≤ a ||| b := by
  apply Nat.testBit_implies_ge
  rw [Nat.testBit_or, h, Bool.or_true]

theorem namesTouch_low (names : Nat → Option CStr) (key k : Nat) (hk : k < key) :
    namesTouch names key k = names k := by
  unfold namesTouch
  split
  · rfl
  · simp only [upd]
    rw [if_neg (by omega)]

theorem stepSpecial_names (E : Env) (argall : Nat) (v : Locals) (s : State) (k : Nat)
    (hk : k < 0x20000) : (stepSpecial E argall v s).2.names k = s.names k := by
  have h3 : 0x20000 ≤ v.arg ||| 0x30000 := or_ge_of_testBit v.arg 0x30000 17 (by decide)
  have h2 : 0x20000 ≤ v.arg ||| 0x20000 := or_ge_of_testBit v.arg 0x20000 17 (by decide)
  unfold stepSpecial
  split
  · dsimp only
    split
    · exact namesTouch_low _ _ _ (by omega)
    · split
      · exact namesTouch_low _ _ _ (by omega)
      · split
        · rfl
        · split <;> rfl
  · rfl

theorem eventSpecial_names (E : Env) (i : Nat) (f : Fields) (retval ipc tfull nsec10 : Nat)
    (s : State) (k : Nat) (hk : k < 0x20000) :
    (eventSpecial E i f retval ipc tfull nsec10 s).2.names k = s.names k := by
  unfold eventSpecial
  dsimp only
  rw [stepSpecial_names _ _ _ _ _ hk, (stepPcSample_snd _ _ _).2.2.2.1,
    (stepTimerIrq_frame _ _ _).2.2.2.1, (stepContextSwitch_snd _ _ _).2.2.1]

theorem finishEvent_names (E : Env) (d : Bool) (r : Locals × State) :
    (finishEvent E d r).1.names = r.2.names := by
  unfold finishEvent
  cases d <;> rfl

/-- An event entry leaves the names below 0x20000 as they were. -/
theorem processEntry_event_names (E : Env) (i : Nat) (s : State)
    (hw : liveWord (E.traceblock i))
    (ht : (decodeFields (E.traceblock i)).n ≠ E.K.KUTRACE_TSDELTA)
    (hn : is_namedef E.K (decodeFields (E.traceblock i)).n = false) (k : Nat)
    (hk : k < 0x20000) : (processEntry E i s).1.names k = s.names k := by
  cases hkj : E.keep_just_names
  · rw [processEntry_normal E i s hkj hw ht hn, finishEvent_names, eventLocals_eq]
    dsimp only
    rw [eventSpecial_names _ _ _ _ _ _ _ _ _ hk]
    show (entryStart E (decodeFields (E.traceblock i)) s).1.names k = s.names k
    rw [(entryStart_frame E _ s).2.2.1]
  · rw [processEntry_names_only E i s hkj hw ht hn]
    show (entryStart E (decodeFields (E.traceblock i)) s).1.names k = s.names k
    rw [(entryStart_frame E _ s).2.2.1]

/-- The invariant: every name recorded under a key below 0x10000 is non-empty. -/
theorem names_nonempty_step (E : Env) (i : Nat) (s : State)
    (hI : ∀ k nm, k < 0x10000 → s.names k = some nm → nm ≠ []) :
    ∀ k nm, k < 0x10000 → (processEntry E i s).1.names k = some nm → nm ≠ [] := by
  intro k nm hk hnm
  by_cases hw : liveWord (E.traceblock i)
  · by_cases ht : (decodeFields (E.traceblock i)).n = E.K.KUTRACE_TSDELTA
    · rw [(processEntry_tsdelta E i s hw ht).2.2.2.1] at hnm
      exact hI k nm hk hnm
    · cases hn : is_namedef E.K (decodeFields (E.traceblock i)).n
      · rw [processEntry_event_names E i s hw ht hn k (by omega)] at hnm
        exact hI k nm hk hnm
      · rw [processEntry_namedef E i s hw ht hn] at hnm
        have he3 := (entryStart_frame E (decodeFields (E.traceblock i)) s).2.2.1
        generalize decodeFields (E.traceblock i) = f at *
        by_cases hlen : ((f.n >>> 4) &&& 0x00f < 1 ∨ 8 < (f.n >>> 4) &&& 0x00f)
        · have e : processNameDef E i f (entryNsec10 E f s) (entryStart E f s).1 =
              ((entryStart E f s).1, Ctl.next i) := by
            simp only [processNameDef, if_pos hlen]
          rw [e] at hnm
          dsimp only at hnm
          rw [he3] at hnm
          exact hI k nm hk hnm
        · cases htp : is_timepair E.K f.n
          · rw [processNameDef_eq E i f _ _ hlen htp] at hnm
            dsimp only at hnm
            by_cases hne : nameDefName E i f (entryStart E f s).1 ≠ []
            · rw [if_pos hne] at hnm
              unfold upd at hnm
              split at hnm
              · injection hnm with hnm
                rw [← hnm]
                exact hne
              · rw [he3] at hnm
                exact hI k nm hk hnm
            · rw [if_neg hne, he3] at hnm
              exact hI k nm hk hnm
          · have e : processNameDef E i f (entryNsec10 E f s) (entryStart E f s).1 =
                ((entryStart E f s).1, Ctl.next (i + (((f.n >>> 4) &&& 0x00f) - 1))) := by
              simp only [processNameDef, if_neg hlen, htp, Bool.not_true, Bool.false_eq_true,
                if_false]
            rw [e] at hnm
            dsimp only at hnm
            rw [he3] at hnm
            exact hI k nm hk hnm
  · rw [processEntry_dead E i s hw] at hnm
    exact hI k nm hk hnm

theorem names_nonempty_innerLoop (E : Env) (fuel : Nat) :
    ∀ (i : Nat) (s : State),
      (∀ k nm, k < 0x10000 → s.names k = some nm → nm ≠ []) →
      ∀ k nm, k < 0x10000 → (innerLoop E fuel i s).names k = some nm → nm ≠ [] := by
  induction fuel with
  | zero =>
    intro i s hI
    exact hI
  | succ n ih =>
    intro i s hI
    unfold innerLoop
    split
    · have hstep := names_nonempty_step E i s hI
      split
      · rename_i s2 j heq
        rw [heq] at hstep
        exact ih (j + 1) s2 hstep
      · rename_i s2 heq
        rw [heq] at hstep
        exact hstep
    · exact hI

theorem names_nonempty_initial (t : TimeState) :
    ∀ k nm, k < 0x10000 → (initialState t).names k = some nm → nm ≠ [] := by
  intro k nm hk h
  simp only [initialState, upd] at h
  rw [if_neg (by omega)] at h
  cases h

theorem preamble_names_low (C : Nat → Nat) (traceblock : Nat → Nat)
    (first_real_entry cpu base_cycle : Nat) (kj : Bool) (a : Nat → Bool) (s : State) (k : Nat)
    (hk : k < 0x10000) :
    (preamble C traceblock first_real_entry cpu base_cycle kj a s).1.names k = s.names k := by
  have hkey : ∀ pid, 0x10000 ≤ PidToEvent pid := fun pid =>
    or_ge_of_testBit (pid &&& 0xFFFF) 0x10000 16 (by decide)
  have hpre : ∀ r : State × (Nat → Bool),
      r = preamble C traceblock first_real_entry cpu base_cycle kj a s →
      r.1.names k = s.names k := by
    intro r hr
    unfold preamble at hr
    dsimp only at hr
    have hupd : ∀ (pid : Nat) (nm : CStr), upd s.names (PidToEvent pid) (some nm) k = s.names k := by
      intro pid nm
      have := hkey pid
      simp only [upd]
      rw [if_neg (by omega)]
    cases kj <;> cases hat : a cpu <;>
      by_cases hfr : 0 < traceblock first_real_entry >>> 32 <;>
      simp only [hat, hfr, Bool.not_false, Bool.not_true, Bool.false_eq_true, if_true,
        if_false] at hr <;>
      (rw [hr]; exact hupd _ _)
  exact hpre _ rfl

theorem names_nonempty_block (K : LibConsts) (calibrate : (Nat → Nat) → Option (Nat → Nat))
    (b : Block) (r r2 : RunState) (h : processBlock K calibrate b r = some r2)
    (hI : ∀ k nm, k < 0x10000 → r.st.names k = some nm → nm ≠ []) :
    ∀ k nm, k < 0x10000 → r2.st.names k = some nm → nm ≠ [] := by
  unfold processBlock at h
  dsimp only at h
  split at h
  · cases h
  · rename_i C hC
    split at h
    · injection h with h
      rw [← h]
      exact hI
    · generalize hp : (if TracefileVersion
          (if decide (r.blocknumber = 0) = true then (b.traceblock 1 >>> 56) % 256
           else r.first_flags) ≥ 3
        then preamble C b.traceblock (if decide (r.blocknumber = 0) = true then 8 else 2)
          (b.traceblock 0 >>> 56) (b.traceblock 0 &&& 0x00ffffffffffffff)
          (HasWraparound (if decide (r.blocknumber = 0) = true then (b.traceblock 1 >>> 56) % 256
             else r.first_flags) && decide (r.blocknumber = 0))
          r.at_first_cpu_block r.st
        else (r.st, r.at_first_cpu_block)) = p at h
      have hpn : ∀ k, k < 0x10000 → p.1.names k = r.st.names k := by
        intro k hk
        rw [← hp]
        by_cases hv : TracefileVersion
            (if decide (r.blocknumber = 0) = true then (b.traceblock 1 >>> 56) % 256
             else r.first_flags) ≥ 3
        · rw [if_pos hv]
          exact preamble_names_low _ _ _ _ _ _ _ _ k hk
        · rw [if_neg hv]
      injection h with h
      rw [← h]
      dsimp only
      apply names_nonempty_innerLoop
      intro k nm hk hnm
      dsimp only at hnm
      rw [hpn k hk] at hnm
      exact hI k nm hk hnm

/-- In every state a run reaches, the names recorded for event codes are non-empty. -/
theorem names_nonempty_run (K : LibConsts) (calibrate : (Nat → Nat) → Option (Nat → Nat))
    (maxblock : Nat) (bs : List Block) :
    ∀ (r r2 : RunState), runBlocks K calibrate maxblock bs r = some r2 →
      (∀ k nm, k < 0x10000 → r.st.names k = some nm → nm ≠ []) →
      ∀ k nm, k < 0x10000 → r2.st.names k = some nm → nm ≠ [] := by
  induction bs with
  | nil =>
    intro r r2 h hI
    simp only [runBlocks] at h
    injection h with h
    rw [← h]
    exact hI
  | cons b bs ih =>
    intro r r2 h hI
    rw [runBlocks] at h
    split at h
    · injection h with h
      rw [← h]
      exact hI
    · split at h
      · cases h
      · rename_i r1 hb
        exact ih r1 r2 h (names_nonempty_block K calibrate b r r1 hb hI)

/-! ## The system-call number map -/

theorem or_0800_of_lt (m : Nat) (h : m < 0x800) : 0x800 ||| m = 0x800 + m := by
  have h2 : m < 2 ^ 11 := by norm_num; exact h
  have e := Nat.mul_add_lt_is_or h2 1
  norm_num at e
  omega

/-- C25: `kutrace_map_nr(n) = n + (n & 0x200)` is the identity on 0..0x1FF, maps every `n`
in 0x200..0x3FF to `n + 0x200` (so into 0x400..0x5FF, every value of which is reached), and is
injective on 0..0x3FF; `0x800 | map_nr(n)` lies in 0x800..0x9FF for `n < 0x200` and in
0xC00..0xDFF for `n` in 0x200..0x3FF. -/
theorem C25_map_nr (n : Nat) (hn : n ≤ 0x3FF) :
    (n ≤ 0x1FF → kutrace_map_nr n = n) ∧
    (0x200 ≤ n → kutrace_map_nr n = n + 0x200 ∧
      0x400 ≤ kutrace_map_nr n ∧ kutrace_map_nr n ≤ 0x5FF) ∧
    (∀ m, 0x400 ≤ m → m ≤ 0x5FF → ∃ k, 0x200 ≤ k ∧ k ≤ 0x3FF ∧ kutrace_map_nr k = m) ∧
    (∀ k, k ≤ 0x3FF → kutrace_map_nr k = kutrace_map_nr n → k = n) ∧
    (n < 0x200 → 0x800 ≤ 0x800 ||| kutrace_map_nr n ∧ 0x800 ||| kutrace_map_nr n ≤ 0x9FF) ∧
    (0x200 ≤ n → 0xC00 ≤ 0x800 ||| kutrace_map_nr n ∧ 0x800 ||| kutrace_map_nr n ≤ 0xDFF) := by
  have hmap : ∀ k, k ≤ 0x3FF →
      kutrace_map_nr k = if 0x200 ≤ k then k + 0x200 else k := by
    intro k hk
    unfold kutrace_map_nr
    rw [and_0200_eq]
    split <;> split <;> omega
  have h1 := hmap n hn
  refine ⟨?_, ?_, ?_, ?_, ?_, ?_⟩
  · intro h
    rw [h1, if_neg (by omega)]
  · intro h
    rw [h1, if_pos h]
    omega
  · intro m hm1 hm2
    refine ⟨m - 0x200, by omega, by omega, ?_⟩
    rw [hmap _ (by omega), if_pos (by omega)]
    omega
  · intro k hk he
    rw [hmap k hk, h1] at he
    split at he <;> split at he <;> omega
  · intro h
    rw [h1, if_neg (by omega), or_0800_of_lt n (by omega)]
    omega
  · intro h
    rw [h1, if_pos h, or_0800_of_lt _ (by omega)]
    omega

/-- C25 witness: the 32-bit system call `0x3FF` maps to `0x5FF`, the 64-bit call `0x1FF` to
itself. -/
theorem C25_map_nr_witness :
    kutrace_map_nr 0x3FF = 0x3FF + 0x200 ∧ kutrace_map_nr 0x1FF = 0x1FF :=
  ⟨((C25_map_nr 0x3FF (by decide)).2.1 (by decide)).1,
   (C25_map_nr 0x1FF (by decide)).1 (by decide)⟩
/-! ## Name-table keys -/

theorem PidToEvent_eq (pid : Nat) : PidToEvent pid = 0x10000 + pid % 0x10000 := by
  unfold PidToEvent
  rw [and_ffff_eq, Nat.or_comm]
  have h2 : pid % 65536 < 2 ^ 16 := by norm_num; exact Nat.mod_lt _ (by norm_num)
  have e := Nat.mul_add_lt_is_or h2 1
  norm_num at e
  omega

theorem or_10000_of_lt (pid : Nat) (h : pid < 0x10000) : pid ||| 0x10000 = 0x10000 + pid := by
  rw [Nat.or_comm]
  have h2 : pid < 2 ^ 16 := by norm_num; exact h
  have e := Nat.mul_add_lt_is_or h2 1
  norm_num at e
  omega

/-- The name and the key under which the preamble of a block records its pid. -/
theorem preamble_names_key (C : Nat → Nat) (traceblock : Nat → Nat)
    (first_real_entry cpu base_cycle : Nat) (kj : Bool) (a : Nat → Bool) (s : State) :
    (preamble C traceblock first_real_entry cpu base_cycle kj a s).1.names
        (PidToEvent (FixupIdlePid (RemapHighPid (traceblock first_real_entry &&& 0x00000000ffffffff))
          (wordBytes (traceblock (first_real_entry + 2)) ++
            wordBytes (traceblock (first_real_entry + 3)) ++ [0]) s.idle_pids).1) =
      some (MakeSafeAscii (ReduceSpaces (cstrOf
        (FixupIdlePid (RemapHighPid (traceblock first_real_entry &&& 0x00000000ffffffff))
          (wordBytes (traceblock (first_real_entry + 2)) ++
            wordBytes (traceblock (first_real_entry + 3)) ++ [0]) s.idle_pids).2.1))) := by
  have hpre : ∀ r : State × (Nat → Bool),
      r = preamble C traceblock first_real_entry cpu base_cycle kj a s →
      r.1.names
        (PidToEvent (FixupIdlePid (RemapHighPid (traceblock first_real_entry &&& 0x00000000ffffffff))
          (wordBytes (traceblock (first_real_entry + 2)) ++
            wordBytes (traceblock (first_real_entry + 3)) ++ [0]) s.idle_pids).1) =
      some (MakeSafeAscii (ReduceSpaces (cstrOf
        (FixupIdlePid (RemapHighPid (traceblock first_real_entry &&& 0x00000000ffffffff))
          (wordBytes (traceblock (first_real_entry + 2)) ++
            wordBytes (traceblock (first_real_entry + 3)) ++ [0]) s.idle_pids).2.1))) := by
    intro r hr
    unfold preamble at hr
    dsimp only at hr
    cases kj <;> cases hat : a cpu <;>
      by_cases hfr : 0 < traceblock first_real_entry >>> 32 <;>
      simp only [hat, hfr, Bool.not_false, Bool.not_true, Bool.false_eq_true, if_true,
        if_false] at hr <;>
      (rw [hr]; simp [upd])
  exact hpre _ rfl

/-- C27: a PID name is stored under the key `PidToEvent(pid) = (pid & 0xFFFF) | 0x10000`, for
the pid of a block preamble (32 bits, after `RemapHighPid` and the idle fixup) and for the pid
of a PID name definition (16 bits, after the idle fixup). For `pid < 0x10000` the key is
`pid | 0x10000` and `EventToPid(PidToEvent(pid)) = pid`; in general
`EventToPid(PidToEvent(pid)) = pid & 0xFFFF`; and `PidToEvent(0) = 0x10000`. -/
theorem C27_pid_key (pid : Nat) :
    PidToEvent pid = (pid &&& 0xFFFF) ||| 0x10000 ∧
    EventToPid (PidToEvent pid) = pid &&& 0xFFFF ∧
    (pid < 0x10000 → PidToEvent pid = pid ||| 0x10000 ∧ EventToPid (PidToEvent pid) = pid) ∧
    PidToEvent 0 = 0x10000 ∧
    (∀ (C : Nat → Nat) (traceblock : Nat → Nat) (first_real_entry cpu base_cycle : Nat)
      (kj : Bool) (a : Nat → Bool) (s : State),
      (preamble C traceblock first_real_entry cpu base_cycle kj a s).1.names
        (PidToEvent (FixupIdlePid (RemapHighPid (traceblock first_real_entry &&& 0x00000000ffffffff))
          (wordBytes (traceblock (first_real_entry + 2)) ++
            wordBytes (traceblock (first_real_entry + 3)) ++ [0]) s.idle_pids).1) =
      some (MakeSafeAscii (ReduceSpaces (cstrOf
        (FixupIdlePid (RemapHighPid (traceblock first_real_entry &&& 0x00000000ffffffff))
          (wordBytes (traceblock (first_real_entry + 2)) ++
            wordBytes (traceblock (first_real_entry + 3)) ++ [0]) s.idle_pids).2.1)))) ∧
    (∀ (E : Env) (i : Nat) (s : State) (f : Fields),
      decodeFields (E.traceblock i) = f → E.K.Sane → liveWord (E.traceblock i) →
      is_namedef E.K f.n = true → is_pidnamedef f.n = true →
      ¬ ((f.n >>> 4) &&& 0x00f < 1 ∨ 8 < (f.n >>> 4) &&& 0x00f) →
      is_timepair E.K f.n = false →
      nameDefName E i f (entryStart E f s).1 ≠ [] →
      (processEntry E i s).1.names (PidToEvent (nameDefFixup E i f (entryStart E f s).1).1) =
        some (nameDefName E i f (entryStart E f s).1) ∧
      (nameDefFixup E i f (entryStart E f s).1).1 < 0x10000) := by
  have he : EventToPid (PidToEvent pid) = pid &&& 0xFFFF := by
    unfold EventToPid
    rw [PidToEvent_eq, and_ffff_eq, and_ffff_eq]
    omega
  refine ⟨rfl, he, ?_, by decide, preamble_names_key, ?_⟩
  · intro h
    refine ⟨?_, ?_⟩
    · rw [PidToEvent_eq, or_10000_of_lt pid h]
      omega
    · rw [he, and_ffff_eq]
      omega
  · intro E i s f hf hK hw hn hp hlen htp hne
    have halt : f.arg < 65536 := by rw [← hf]; exact decodeFields_arg_lt _
    have ht : f.n ≠ E.K.KUTRACE_TSDELTA := by
      obtain ⟨k1, k2, k3, k4, k5, k6, k7, k8, k9, k10, k11, k12, k13, k14, k15, k16, k17⟩ := hK
      simp only [is_namedef, Bool.and_eq_true, decide_eq_true_eq] at hn
      omega
    have hpe : processEntry E i s =
        processNameDef E i f (entryNsec10 E f s) (entryStart E f s).1 := by
      subst hf
      exact processEntry_namedef E i s hw ht hn
    have hkey : nameDefKey E i f (entryStart E f s).1 =
        PidToEvent (nameDefFixup E i f (entryStart E f s).1).1 := by
      unfold nameDefKey
      rw [hp, if_pos rfl]
    refine ⟨?_, ?_⟩
    · rw [hpe, processNameDef_eq E i f _ _ hlen htp]
      dsimp only
      rw [if_pos hne, hkey]
      simp [upd]
    · unfold nameDefFixup FixupIdlePid
      rw [hp, if_pos rfl]
      dsimp only
      split
      · show (0 : Nat) < 65536
        omega
      · exact halt

/-- C27 witness: the pid 7 is recorded under the key `0x10007`. -/
theorem C27_pid_key_witness :
    PidToEvent 7 = 7 ||| 0x10000 ∧ EventToPid (PidToEvent 7) = 7 :=
  (C27_pid_key 7).2.2.1 (by decide)

/-- C27 counterexample: the preamble pid 300000 becomes 200000 = `0x30D40` by `RemapHighPid`
and its name is recorded under `0x10D40`, not under `200000 | 0x10000 = 0x30D40`; and
`EventToPid(PidToEvent(200000))` is `0xD40`. -/
theorem C27_counterexample :
    RemapHighPid (workerBlock 300000 8 &&& 0x00000000ffffffff) = 200000 ∧
    (preamble (fun c => c) (workerBlock 300000) 8 0 0 false (fun _ => true)
      (initialState ⟨0, 0⟩)).1.names 0x10D40 = some (lit "worker") ∧
    (preamble (fun c => c) (workerBlock 300000) 8 0 0 false (fun _ => true)
      (initialState ⟨0, 0⟩)).1.names (200000 ||| 0x10000) = none ∧
    200000 ||| 0x10000 = 0x30D40 ∧
    PidToEvent 200000 = 0x10D40 ∧
    EventToPid (PidToEvent 200000) = 0xD40 := by
  decide
theorem or_high_of_lt (k arg : Nat) (h : arg < 0x10000) :
    arg ||| (0x10000 * k) = 0x10000 * k + arg := by
  rw [Nat.or_comm]
  have h2 : arg < 2 ^ 16 := by norm_num; exact h
  have e := Nat.mul_add_lt_is_or h2 k
  norm_num at e
  omega

theorem or_low_of_lt (t arg : Nat) (h : arg < 0x100) :
    (t <<< 8) ||| arg = 0x100 * t + arg := by
  have h2 : arg < 2 ^ 8 := by norm_num; exact h
  have e := Nat.mul_add_lt_is_or h2 t
  rw [Nat.shiftLeft_eq, Nat.mul_comm, ← e]

theorem or_sys_of_lt (t arg : Nat) (h : arg < 0x400) (ht : t % 4 = 0) :
    (t <<< 8) ||| arg = 0x100 * t + arg := by
  have h2 : arg < 2 ^ 10 := by norm_num; exact h
  have e := Nat.mul_add_lt_is_or h2 (t / 4)
  rw [Nat.shiftLeft_eq]
  have e2 : t * 2 ^ 8 = 2 ^ 10 * (t / 4) := by
    norm_num
    omega
  rw [e2, ← e]
  norm_num
  omega

/-- The key of a name definition by its type: `k * 0x10000 + arg` for the types with a test
of their own, `((n & 0xf) << 8) | arg` for the others. -/
theorem nameinsertOf_by_type (K : LibConsts) (n arg : Nat) (ha : arg < 0x10000) :
    (0x10 ≤ nameTypeOf K n →
      ∃ k, 1 ≤ k ∧ k ≤ 8 ∧ nameTypeOf K n = 16 * k ∧
        nameinsertOf K n arg = 0x10000 * k + arg) ∧
    (nameTypeOf K n < 0x10 →
      nameTypeOf K n = n &&& 0x00f ∧
      nameinsertOf K n arg = ((n &&& 0x00f) <<< 8) ||| arg) := by
  have hlow : n &&& 0x00f < 0x10 := by
    have := Nat.and_pow_two_sub_one_eq_mod n 4
    norm_num at this
    rw [this]
    omega
  have hm : arg &&& 0xffff = arg := by rw [and_ffff_eq]; omega
  have e1 := or_high_of_lt 1 arg ha
  have e2 := or_high_of_lt 2 arg ha
  have e3 := or_high_of_lt 3 arg ha
  have e4 := or_high_of_lt 4 arg ha
  have e5 := or_high_of_lt 5 arg ha
  have e6 := or_high_of_lt 6 arg ha
  have e7 := or_high_of_lt 7 arg ha
  have e8 := or_high_of_lt 8 arg ha
  norm_num at e1 e2 e3 e4 e5 e6 e7 e8
  unfold nameTypeOf nameinsertOf PidToEvent
  rw [hm]
  by_cases h1 : is_pidnamedef n = true
  · simp only [h1, if_true]
    exact ⟨fun _ => ⟨1, by omega, by omega, by omega, by omega⟩, fun h => by omega⟩
  · simp only [h1, if_false, Bool.false_eq_true]
    by_cases h2 : is_locknamedef n = true
    · simp only [h2, if_true]
      exact ⟨fun _ => ⟨2, by omega, by omega, by omega, by omega⟩, fun h => by omega⟩
    · simp only [h2, if_false, Bool.false_eq_true]
      by_cases h3 : is_methodnamedef n = true
      · simp only [h3, if_true]
        exact ⟨fun _ => ⟨3, by omega, by omega, by omega, by omega⟩, fun h => by omega⟩
      · simp only [h3, if_false, Bool.false_eq_true]
        by_cases h4 : is_kernelnamedef K n = true
        · simp only [h4, if_true]
          exact ⟨fun _ => ⟨4, by omega, by omega, by omega, by omega⟩, fun h => by omega⟩
        · simp only [h4, if_false, Bool.false_eq_true]
          by_cases h5 : is_modelnamedef K n = true
          · simp only [h5, if_true]
            exact ⟨fun _ => ⟨5, by omega, by omega, by omega, by omega⟩, fun h => by omega⟩
          · simp only [h5, if_false, Bool.false_eq_true]
            by_cases h6 : is_hostnamedef K n = true
            · simp only [h6, if_true]
              exact ⟨fun _ => ⟨6, by omega, by omega, by omega, by omega⟩, fun h => by omega⟩
            · simp only [h6, if_false, Bool.false_eq_true]
              by_cases h7 : is_queuenamedef K n = true
              · simp only [h7, if_true]
                exact ⟨fun _ => ⟨7, by omega, by omega, by omega, by omega⟩,
                  fun h => by omega⟩
              · simp only [h7, if_false, Bool.false_eq_true]
                by_cases h8 : is_resnamedef K n = true
                · simp only [h8, if_true]
                  exact ⟨fun _ => ⟨8, by omega, by omega, by omega, by omega⟩,
                    fun h => by omega⟩
                · simp only [h8, if_false, Bool.false_eq_true]
                  exact ⟨fun h => by omega, fun _ => by simp⟩

/-- C28: name-table keys of name definitions of different types differ, for any 16-bit
arguments when both types are among PID, lock, method, kernel, model, host, queue and
resource, and otherwise when the arguments of the names of the last branch (trap, interrupt,
system call) are below 0x100; among trap, interrupt, 64-bit and 32-bit system-call names they
also differ for system-call arguments below 0x400. -/
theorem C28_keys_by_type (K : LibConsts) (n1 a1 n2 a2 : Nat)
    (h1 : a1 < 0x10000) (h2 : a2 < 0x10000) (hne : nameTypeOf K n1 ≠ nameTypeOf K n2) :
    (0x10 ≤ nameTypeOf K n1 → 0x10 ≤ nameTypeOf K n2 →
      nameinsertOf K n1 a1 ≠ nameinsertOf K n2 a2) ∧
    ((nameTypeOf K n1 < 0x10 → a1 < 0x100) → (nameTypeOf K n2 < 0x10 → a2 < 0x100) →
      nameinsertOf K n1 a1 ≠ nameinsertOf K n2 a2) ∧
    ((nameTypeOf K n1 = 4 ∨ nameTypeOf K n1 = 5) → a1 < 0x100 →
      (nameTypeOf K n2 = 8 ∨ nameTypeOf K n2 = 0xC) → a2 < 0x400 →
      nameinsertOf K n1 a1 ≠ nameinsertOf K n2 a2) ∧
    (nameTypeOf K n1 = 8 → a1 < 0x400 → nameTypeOf K n2 = 0xC → a2 < 0x400 →
      nameinsertOf K n1 a1 ≠ nameinsertOf K n2 a2) := by
  obtain ⟨p1, q1⟩ := nameinsertOf_by_type K n1 a1 h1
  obtain ⟨p2, q2⟩ := nameinsertOf_by_type K n2 a2 h2
  refine ⟨?_, ?_, ?_, ?_⟩
  · intro g1 g2
    obtain ⟨k1, ka1, kb1, t1, e1⟩ := p1 g1
    obtain ⟨k2, ka2, kb2, t2, e2⟩ := p2 g2
    clear p1 p2 q1 q2
    rw [e1, e2]
    omega
  · intro b1 b2
    by_cases g1 : 0x10 ≤ nameTypeOf K n1
    · obtain ⟨k1, ka1, kb1, t1, e1⟩ := p1 g1
      by_cases g2 : 0x10 ≤ nameTypeOf K n2
      · obtain ⟨k2, ka2, kb2, t2, e2⟩ := p2 g2
        clear p1 p2 q1 q2
        rw [e1, e2]
        omega
      · obtain ⟨t2, e2⟩ := q2 (by omega)
        clear p1 p2 q1 q2
        rw [e1, e2, or_low_of_lt _ _ (b2 (by omega))]
        omega
    · obtain ⟨t1, e1⟩ := q1 (by omega)
      by_cases g2 : 0x10 ≤ nameTypeOf K n2
      · obtain ⟨k2, ka2, kb2, t2, e2⟩ := p2 g2
        clear p1 p2 q1 q2
        rw [e1, e2, or_low_of_lt _ _ (b1 (by omega))]
        omega
      · obtain ⟨t2, e2⟩ := q2 (by omega)
        clear p1 p2 q1 q2
        rw [e1, e2, or_low_of_lt _ _ (b1 (by omega)), or_low_of_lt _ _ (b2 (by omega))]
        omega
  · intro g1 b1 g2 b2
    obtain ⟨t1, e1⟩ := q1 (by omega)
    obtain ⟨t2, e2⟩ := q2 (by omega)
    clear p1 p2 q1 q2
    rw [e1, e2, or_low_of_lt _ _ b1, or_sys_of_lt _ _ b2 (by omega)]
    omega
  · intro g1 b1 g2 b2
    obtain ⟨t1, e1⟩ := q1 (by omega)
    obtain ⟨t2, e2⟩ := q2 (by omega)
    clear p1 p2 q1 q2
    rw [e1, e2, or_sys_of_lt _ _ b1 (by omega), or_sys_of_lt _ _ b2 (by omega)]
    omega

/-- C28 witness: the lock name `0x027` and the PID name `0x022`, both with argument
`0xFFFF`, have different keys. -/
theorem C28_keys_by_type_witness :
    nameinsertOf sampleConsts 0x027 0xFFFF ≠ nameinsertOf sampleConsts 0x022 0xFFFF :=
  (C28_keys_by_type sampleConsts 0x027 0xFFFF 0x022 0xFFFF (by decide) (by decide)
    (by decide)).1 (by decide) (by decide)

/-- C28 counterexample: the trap name `0x024` with argument `0x100` and the interrupt name
`0x025` with argument 0 are of different types and both have the key `0x500`. -/
theorem C28_counterexample :
    is_namedef sampleConsts 0x024 = true ∧ is_namedef sampleConsts 0x025 = true ∧
    nameTypeOf sampleConsts 0x024 = 4 ∧ nameTypeOf sampleConsts 0x025 = 5 ∧
    nameinsertOf sampleConsts 0x024 0x100 = 0x500 ∧
    nameinsertOf sampleConsts 0x025 0 = 0x500 := by
  decide

/-! ## Name definitions: length and effect -/

theorem innerLoop_step (E : Env) (fuel i j : Nat) (s s2 : State) (hi : i < kTraceBufSize)
    (h : processEntry E i s = (s2, Ctl.next j)) :
    innerLoop E (fuel + 1) i s = innerLoop E fuel (j + 1) s2 := by
  rw [innerLoop, if_pos hi, h]

/-- C29: a name-definition entry with length nibble `len = (event >> 4) & 0xF`. If `len < 1`
or `len > 8` only its own word is skipped and name table, `idle_pids` and output are
unchanged. If `1 <= len <= 8` the loop goes on at word `i + len`, only name lines are
written, and, unless the entry is a time pair or its sanitized name is empty, the name is
stored in the name table and handed to `OutputName`, which writes its two lines when the
time of the entry is below 99,900,000,000 and nothing otherwise; a time pair and an empty
name leave name table and output unchanged. -/
theorem C29_namedef_length (E : Env) (i : Nat) (s : State) (f : Fields)
    (hf : decodeFields (E.traceblock i) = f) (hK : E.K.Sane)
    (hw : liveWord (E.traceblock i)) (hn : is_namedef E.K f.n = true) :
    (((f.n >>> 4) &&& 0x00f < 1 ∨ 8 < (f.n >>> 4) &&& 0x00f) →
      (processEntry E i s).2 = Ctl.next i ∧
      (processEntry E i s).1.names = s.names ∧
      (processEntry E i s).1.idle_pids = s.idle_pids ∧
      (processEntry E i s).1.out = s.out) ∧
    (¬ ((f.n >>> 4) &&& 0x00f < 1 ∨ 8 < (f.n >>> 4) &&& 0x00f) →
      (processEntry E i s).2 = Ctl.next (i + (((f.n >>> 4) &&& 0x00f) - 1)) ∧
      (∀ fuel, i < kTraceBufSize →
        innerLoop E (fuel + 1) i s =
          innerLoop E fuel (i + ((f.n >>> 4) &&& 0x00f)) (processEntry E i s).1) ∧
      (∃ lines, (processEntry E i s).1.out = s.out ++ lines ∧
        ∀ l ∈ lines, ∃ ts dur ev a name, l = Line.name ts dur ev a name) ∧
      (is_timepair E.K f.n = false → nameDefName E i f (entryStart E f s).1 ≠ [] →
        (processEntry E i s).1.names (nameDefKey E i f (entryStart E f s).1) =
          some (nameDefName E i f (entryStart E f s).1) ∧
        (processEntry E i s).1.out =
          s.out ++ OutputName (entryNsec10 E f s) f.n f.argall
            (nameDefName E i f (entryStart E f s).1) ∧
        (entryNsec10 E f s < 99900000000 →
          ∃ l1 l2, OutputName (entryNsec10 E f s) f.n f.argall
            (nameDefName E i f (entryStart E f s).1) = [l1, l2]) ∧
        (99900000000 ≤ entryNsec10 E f s →
          OutputName (entryNsec10 E f s) f.n f.argall
            (nameDefName E i f (entryStart E f s).1) = [])) ∧
      ((is_timepair E.K f.n = true ∨ nameDefName E i f (entryStart E f s).1 = []) →
        (processEntry E i s).1.names = s.names ∧ (processEntry E i s).1.out = s.out)) := by
  have ht : f.n ≠ E.K.KUTRACE_TSDELTA := by
    obtain ⟨k1, k2, k3, k4, k5, k6, k7, k8, k9, k10, k11, k12, k13, k14, k15, k16, k17⟩ := hK
    simp only [is_namedef, Bool.and_eq_true, decide_eq_true_eq] at hn
    omega
  have hpe : processEntry E i s =
      processNameDef E i f (entryNsec10 E f s) (entryStart E f s).1 := by
    subst hf
    exact processEntry_namedef E i s hw ht hn
  obtain ⟨e1, e2, e3, e4, e5, e6, e7, e8⟩ := entryStart_frame E f s
  refine ⟨?_, ?_⟩
  · intro hlen
    have e : processNameDef E i f (entryNsec10 E f s) (entryStart E f s).1 =
        ((entryStart E f s).1, Ctl.next i) := by
      simp only [processNameDef, if_pos hlen]
    rw [hpe, e]
    exact ⟨rfl, e3, e4, e1⟩
  · intro hlen
    have hctl : (processEntry E i s).2 = Ctl.next (i + (((f.n >>> 4) &&& 0x00f) - 1)) := by
      rw [hpe]
      cases htp : is_timepair E.K f.n
      · rw [processNameDef_eq E i f _ _ hlen htp]
      · simp only [processNameDef, if_neg hlen, htp, Bool.not_true, Bool.false_eq_true,
          if_false]
    refine ⟨hctl, ?_, ?_, ?_, ?_⟩
    · intro fuel hi
      have hstep := innerLoop_step E fuel i (i + (((f.n >>> 4) &&& 0x00f) - 1)) s
        (processEntry E i s).1 hi (by rw [← hctl])
      rw [hstep]
      have : i + (((f.n >>> 4) &&& 0x00f) - 1) + 1 = i + ((f.n >>> 4) &&& 0x00f) := by omega
      rw [this]
    · obtain ⟨lines, h1, h2⟩ := processNameDef_out E i f (entryNsec10 E f s) (entryStart E f s).1
      rw [e1] at h1
      exact ⟨lines, by rw [hpe]; exact h1, h2⟩
    · intro htp hne
      rw [hpe, processNameDef_eq E i f _ _ hlen htp]
      dsimp only
      rw [if_pos hne, if_pos hne, e1]
      refine ⟨by simp [upd], rfl, ?_, ?_⟩
      · intro hb
        have : ¬ (entryNsec10 E f s ≥ kCrazyTime) := by unfold kCrazyTime; omega
        simp only [OutputName, if_neg this]
        exact ⟨_, _, rfl⟩
      · intro hb
        have : entryNsec10 E f s ≥ kCrazyTime := by unfold kCrazyTime; omega
        simp only [OutputName, if_pos this]
    · intro hor
      rw [hpe]
      cases htp : is_timepair E.K f.n
      · have hempty : nameDefName E i f (entryStart E f s).1 = [] := by
          rcases hor with h | h
          · rw [htp] at h; cases h
          · exact h
        rw [processNameDef_eq E i f _ _ hlen htp]
        dsimp only
        rw [if_neg (fun h => h hempty), if_neg (fun h => h hempty)]
        exact ⟨e3, e1⟩
      · have e : processNameDef E i f (entryNsec10 E f s) (entryStart E f s).1 =
            ((entryStart E f s).1, Ctl.next (i + (((f.n >>> 4) &&& 0x00f) - 1))) := by
          simp only [processNameDef, if_neg hlen, htp, Bool.not_true, Bool.false_eq_true,
            if_false]
        rw [e]
        exact ⟨e3, e1⟩

/-- C29 witness: the system-call name definition `0x028` of "read" for call 5, two words long,
hands the loop the word 14 and stores "read" under `0x805`. -/
theorem C29_namedef_length_witness :
    (processEntry (nameEnv 0x1235002800000005 0x0000000064616572 0) 12
      (initialState ⟨0x300000, 0x12345⟩)).2 = Ctl.next 13 ∧
    (processEntry (nameEnv 0x1235002800000005 0x0000000064616572 0) 12
      (initialState ⟨0x300000, 0x12345⟩)).1.names 0x805 = some (lit "read") :=
  ⟨((C29_namedef_length (nameEnv 0x1235002800000005 0x0000000064616572 0) 12
      (initialState ⟨0x300000, 0x12345⟩) _ rfl (by decide) (by decide) (by decide)).2
      (by decide)).1,
   by decide⟩

/-- C29 counterexample: the same name definition met at cycle `0x2000012350`, which is
137,438,953,472 + 74,576 units of 10 ns, is of valid length, no time pair and has the
non-empty name "read"; the name is stored but no name line is written. -/
theorem C29_counterexample :
    is_namedef (nameEnv 0x1235002800000005 0x0000000064616572 0).K
      (decodeFields ((nameEnv 0x1235002800000005 0x0000000064616572 0).traceblock 12)).n = true ∧
    (processEntry (nameEnv 0x1235002800000005 0x0000000064616572 0) 12
      (initialState ⟨0x2000000000, 0x12345⟩)).1.names 0x805 = some (lit "read") ∧
    (processEntry (nameEnv 0x1235002800000005 0x0000000064616572 0) 12
      (initialState ⟨0x2000000000, 0x12345⟩)).1.out = [] ∧
    entryNsec10 (nameEnv 0x1235002800000005 0x0000000064616572 0)
      (decodeFields ((nameEnv 0x1235002800000005 0x0000000064616572 0).traceblock 12))
      (initialState ⟨0x2000000000, 0x12345⟩) = 0x2000012350 := by
  decide

/-! ## What only a name definition can change

The learned event numbers and the low-resolution flag are assigned nowhere but in the body of
a name definition (lines 1195, 1207 and 1211). -/

theorem entryStart_sched (E : Env) (f : Fields) (s : State) :
    (entryStart E f s).1.gSCHED_EVENT = s.gSCHED_EVENT :=
  (entryStart_frame E f s).2.2.2.2.2.2.2

set_option maxRecDepth 100000

/-! ## The calibration checks -/

theorem calibFail_iff (c : Calib) :
    calibFail c = true ↔
      (Dbl.lt c.counts_per_usec (Dbl.round 99 100) = true ∨
       Dbl.lt (Dbl.round 1001 10) c.counts_per_usec = true ∨
       toInt64 c.start_counts > toInt64 c.stop_counts ∨
       toInt64 c.start_usec > toInt64 c.stop_usec ∨
       usec_per_100_years ≤ c.start_counts ∨
       usec_per_100_years ≤ c.stop_counts) := by
  unfold calibFail
  by_cases h1 : Dbl.lt c.counts_per_usec (Dbl.round 99 100) = true <;>
  by_cases h2 : Dbl.lt (Dbl.round 1001 10) c.counts_per_usec = true <;>
  by_cases h3 : toInt64 c.start_counts > toInt64 c.stop_counts <;>
  by_cases h4 : toInt64 c.start_usec > toInt64 c.stop_usec <;>
  by_cases h5 : usec_per_100_years ≤ c.start_counts <;>
  by_cases h6 : usec_per_100_years ≤ c.stop_counts <;>
  simp [h1, h2, h3, h4, h5, h6]

theorem riscvFixup_frame (c : Calib) :
    (riscvFixup c).start_counts = c.start_counts ∧ (riscvFixup c).start_usec = c.start_usec ∧
    (riscvFixup c).stop_usec = c.stop_usec ∧ (riscvFixup c).delta_usec = c.delta_usec ∧
    (c.counts_per_usec = countsPerUsec c.start_counts c.stop_counts c.delta_usec →
      (riscvFixup c).counts_per_usec =
        countsPerUsec c.start_counts (riscvFixup c).stop_counts c.delta_usec) := by
  unfold riscvFixup
  split
  · exact ⟨rfl, rfl, rfl, rfl, fun _ => rfl⟩
  · exact ⟨rfl, rfl, rfl, rfl, fun h => h⟩

theorem arm32Fixup_frame (c : Calib) :
    (arm32Fixup c).start_counts = c.start_counts ∧ (arm32Fixup c).start_usec = c.start_usec ∧
    (arm32Fixup c).stop_usec = c.stop_usec ∧ (arm32Fixup c).delta_usec = c.delta_usec ∧
    (arm32Fixup c).counts_per_usec =
      countsPerUsec c.start_counts (arm32Fixup c).stop_counts c.delta_usec :=
  ⟨rfl, rfl, rfl, rfl, rfl⟩

/-- After the fixups the usec values are those of the block, and `counts_per_usec` is the
ratio of the values as they then stand. -/
theorem calibFixups_frame (traceblock : Nat → Nat) :
    (calibFixups traceblock).start_counts = u64 (traceblock 2) ∧
    (calibFixups traceblock).start_usec = u64 (traceblock 3) ∧
    (calibFixups traceblock).stop_usec = u64 (traceblock 5) ∧
    (calibFixups traceblock).delta_usec = (calibStart traceblock).delta_usec ∧
    (calibFixups traceblock).counts_per_usec =
      countsPerUsec (calibFixups traceblock).start_counts (calibFixups traceblock).stop_counts
        (calibFixups traceblock).delta_usec := by
  have h0 : (calibStart traceblock).counts_per_usec =
      countsPerUsec (calibStart traceblock).start_counts (calibStart traceblock).stop_counts
        (calibStart traceblock).delta_usec := rfl
  have hs : (calibStart traceblock).start_counts = u64 (traceblock 2) ∧
      (calibStart traceblock).start_usec = u64 (traceblock 3) ∧
      (calibStart traceblock).stop_usec = u64 (traceblock 5) := ⟨rfl, rfl, rfl⟩
  obtain ⟨s1, s2, s3⟩ := hs
  unfold calibFixups
  dsimp only
  generalize calibStart traceblock = c at *
  obtain ⟨r1, r2, r3, r4, r5⟩ := riscvFixup_frame c
  cases hr : likely_riscv traceblock <;> cases h32 : has_32bit_counts c
  · simp only [Bool.false_eq_true, if_false, Bool.and_true, Bool.not_false, Bool.false_and]
    exact ⟨s1, s2, s3, trivial, h0⟩
  · simp only [Bool.false_eq_true, if_false, Bool.and_true, Bool.not_false, Bool.true_and,
      if_true]
    obtain ⟨a1, a2, a3, a4, a5⟩ := arm32Fixup_frame c
    rw [a1, a2, a3, a4, a5]
    exact ⟨s1, s2, s3, rfl, rfl⟩
  · simp only [if_true, Bool.not_true, Bool.and_false, Bool.false_eq_true, if_false]
    rw [r1, r2, r3, r4, r5 h0]
    exact ⟨s1, s2, s3, rfl, rfl⟩
  · simp only [if_true, Bool.not_true, Bool.and_false, Bool.false_eq_true, if_false]
    rw [r1, r2, r3, r4, r5 h0]
    exact ⟨s1, s2, s3, rfl, rfl⟩

theorem toInt64_one : toInt64 1 = 1 := by decide

theorem calibStart_delta_usec (traceblock : Nat → Nat) :
    toInt64 (calibStart traceblock).delta_usec =
      max (toInt64 (u64 (u64 (traceblock 5) + 2 ^ 64 - u64 (traceblock 3)))) 1 := by
  unfold calibStart
  dsimp only
  by_cases h : toInt64 (u64 (u64 (traceblock 5) + 2 ^ 64 - u64 (traceblock 3))) ≤ 0
  · rw [if_pos h, toInt64_one]
    omega
  · rw [if_neg h]
    omega

theorem handle_very_first_block_none (traceblock : Nat → Nat) (params : CyclesToUsecParams) :
    handle_very_first_block traceblock params = none ↔
      calibFail (calibFixups traceblock) = true := by
  unfold handle_very_first_block
  dsimp only
  cases calibFail (calibFixups traceblock) <;> simp

theorem calibrateFrom_none (traceblock : Nat → Nat) (params : CyclesToUsecParams) :
    calibrateFrom params traceblock = none ↔ calibFail (calibFixups traceblock) = true := by
  unfold calibrateFrom
  rw [Option.map_eq_none', handle_very_first_block_none]

theorem processBlock_first_none (K : LibConsts) (calibrate : (Nat → Nat) → Option (Nat → Nat))
    (b : Block) (r : RunState) (h0 : r.blocknumber = 0) :
    processBlock K calibrate b r = none ↔ calibrate b.traceblock = none := by
  unfold processBlock
  dsimp only
  simp only [h0, decide_True, if_true]
  cases calibrate b.traceblock with
  | none => simp
  | some C =>
    simp only [false_iff]
    split <;> simp

/-- C21: `handle_very_first_block` ends the run exactly when, on the values after the fixups,
start_cycles > stop_cycles or start_usec > stop_usec (as `int64`), or start_cycles or
stop_cycles is at least 100 years of microseconds (as `uint64`), or `counts_per_usec`, the
double-precision ratio of stop_cycles - start_cycles to max(stop_usec - start_usec, 1), is
below 0.99 or above 100.1; otherwise it returns, with conversion parameters set. On the first
block the run then ends, or goes on, accordingly. -/
theorem C21_calibration_checks (K : LibConsts) (traceblock : Nat → Nat)
    (params : CyclesToUsecParams) :
    (calibFixups traceblock).counts_per_usec =
      Dbl.div
        (Dbl.ofInt (toInt64 (u64 ((calibFixups traceblock).stop_counts + 2 ^ 64 -
          (calibFixups traceblock).start_counts))))
        (Dbl.ofInt (max (toInt64 (u64 ((calibFixups traceblock).stop_usec + 2 ^ 64 -
          (calibFixups traceblock).start_usec))) 1)) ∧
    (calibFixups traceblock).start_usec = u64 (traceblock 3) ∧
    (calibFixups traceblock).stop_usec = u64 (traceblock 5) ∧
    (handle_very_first_block traceblock params = none ↔
      (toInt64 (calibFixups traceblock).start_counts > toInt64 (calibFixups traceblock).stop_counts ∨
       toInt64 (calibFixups traceblock).start_usec > toInt64 (calibFixups traceblock).stop_usec ∨
       usec_per_100_years ≤ (calibFixups traceblock).start_counts ∨
       usec_per_100_years ≤ (calibFixups traceblock).stop_counts ∨
       Dbl.lt (calibFixups traceblock).counts_per_usec (Dbl.round 99 100) = true ∨
       Dbl.lt (Dbl.round 1001 10) (calibFixups traceblock).counts_per_usec = true)) ∧
    ((∃ p, handle_very_first_block traceblock params = some p) ↔
      ¬ (toInt64 (calibFixups traceblock).start_counts > toInt64 (calibFixups traceblock).stop_counts ∨
       toInt64 (calibFixups traceblock).start_usec > toInt64 (calibFixups traceblock).stop_usec ∨
       usec_per_100_years ≤ (calibFixups traceblock).start_counts ∨
       usec_per_100_years ≤ (calibFixups traceblock).stop_counts ∨
       Dbl.lt (calibFixups traceblock).counts_per_usec (Dbl.round 99 100) = true ∨
       Dbl.lt (Dbl.round 1001 10) (calibFixups traceblock).counts_per_usec = true)) ∧
    (∀ (b : Block) (r : RunState), b.traceblock = traceblock → r.blocknumber = 0 →
      (processBlock K (calibrateFrom params) b r = none ↔
        handle_very_first_block traceblock params = none)) := by
  obtain ⟨f1, f2, f3, f4, f5⟩ := calibFixups_frame traceblock
  have hnone : handle_very_first_block traceblock params = none ↔
      (toInt64 (calibFixups traceblock).start_counts > toInt64 (calibFixups traceblock).stop_counts ∨
       toInt64 (calibFixups traceblock).start_usec > toInt64 (calibFixups traceblock).stop_usec ∨
       usec_per_100_years ≤ (calibFixups traceblock).start_counts ∨
       usec_per_100_years ≤ (calibFixups traceblock).stop_counts ∨
       Dbl.lt (calibFixups traceblock).counts_per_usec (Dbl.round 99 100) = true ∨
       Dbl.lt (Dbl.round 1001 10) (calibFixups traceblock).counts_per_usec = true) := by
    rw [handle_very_first_block_none, calibFail_iff]
    tauto
  refine ⟨?_, f2, f3, hnone, ?_, ?_⟩
  · rw [f5, f2, f3, ← calibStart_delta_usec, ← f4]
    rfl
  · rw [← hnone]
    cases handle_very_first_block traceblock params <;> simp
  · intro b r hb h0
    rw [processBlock_first_none K _ b r h0, hb, calibrateFrom_none, handle_very_first_block_none]

theorem C21_calibration_checks_witness :
    (∃ p, handle_very_first_block (minimalBlock 54000) zeroParams = some p) ∧
    (calibFixups (minimalBlock 54000)).counts_per_usec = Dbl.ofInt 54 :=
  ⟨(C21_calibration_checks sampleConsts (minimalBlock 54000) zeroParams).2.2.2.2.1.2
      (by decide),
   by decide⟩

/-! ## Whole blocks -/

theorem processEntry_dead_ctl (E : Env) (i : Nat) (s : State)
    (hw : ¬ liveWord (E.traceblock i)) :
    processEntry E i s = (s, Ctl.next i) ∨ processEntry E i s = (s, Ctl.brk) := by
  unfold processEntry
  by_cases h0 : E.traceblock i = 0
  · simp [h0]
  · by_cases h1 : E.traceblock i = 0xffffffffffffffff
    · simp [h1]
    · have h2 : (decodeFields (E.traceblock i)).t = 0xFFFFF ∧
          (decodeFields (E.traceblock i)).n = 0xFFF := by
        by_contra hc
        exact hw ⟨h0, h1, hc⟩
      left
      simp only [if_neg h0, if_neg h1]
      rw [if_pos h2]

/-- The inner loop over words that are all NOPs or end marks changes nothing. -/
theorem innerLoop_dead (E : Env) (fuel : Nat) :
    ∀ (i : Nat) (s : State), (∀ j, i ≤ j → ¬ liveWord (E.traceblock j)) →
      innerLoop E fuel i s = s := by
  induction fuel with
  | zero =>
    intro i s _
    rfl
  | succ n ih =>
    intro i s hd
    unfold innerLoop
    split
    · rcases processEntry_dead_ctl E i s (hd i (Nat.le_refl i)) with h | h
      · rw [h]
        exact ih (i + 1) s (fun j hj => hd j (by omega))
      · rw [h]
    · rfl

/-- The inner loop started at the only live entry of the rest of the block. -/
theorem innerLoop_single (E : Env) (fuel i : Nat) (s s2 : State) (hi : i < kTraceBufSize)
    (h : processEntry E i s = (s2, Ctl.next i))
    (hd : ∀ j, i < j → ¬ liveWord (E.traceblock j)) :
    innerLoop E (fuel + 1) i s = s2 := by
  rw [innerLoop_step E fuel i i s s2 hi h]
  exact innerLoop_dead E fuel (i + 1) s2 (fun j hj => hd j (by omega))

/-- The pass over a block whose header passes the checks. -/
theorem processBlock_ok (K : LibConsts) (calibrate : (Nat → Nat) → Option (Nat → Nat))
    (b : Block) (r : RunState) (C : Nat → Nat) (hfail : headerFail b.traceblock = false)
    (hC : (if decide (r.blocknumber = 0) = true then calibrate b.traceblock
           else some r.CyclesToNsec10) = some C) :
    processBlock K calibrate b r =
      some { st :=
               innerLoop
                 { K := K, CyclesToNsec10 := C, traceblock := b.traceblock,
                   ipcblock := if HasIPC ((b.traceblock 1 >>> 56) % 256) then b.ipc
                               else fun _ => 0,
                   current_cpu := b.traceblock 0 >>> 56,
                   keep_just_names :=
                     HasWraparound (if decide (r.blocknumber = 0) = true
                       then (b.traceblock 1 >>> 56) % 256 else r.first_flags) &&
                     decide (r.blocknumber = 0) }
                 kTraceBufSize
                 (if TracefileVersion (if decide (r.blocknumber = 0) = true
                     then (b.traceblock 1 >>> 56) % 256 else r.first_flags) ≥ 3
                  then (if decide (r.blocknumber = 0) = true then 8 else 2) + 4
                  else (if decide (r.blocknumber = 0) = true then 8 else 2))
                 { (if TracefileVersion (if decide (r.blocknumber = 0) = true
                       then (b.traceblock 1 >>> 56) % 256 else r.first_flags) ≥ 3
                    then preamble C b.traceblock (if decide (r.blocknumber = 0) = true then 8 else 2)
                      (b.traceblock 0 >>> 56) (b.traceblock 0 &&& 0x00ffffffffffffff)
                      (HasWraparound (if decide (r.blocknumber = 0) = true
                         then (b.traceblock 1 >>> 56) % 256 else r.first_flags) &&
                       decide (r.blocknumber = 0))
                      r.at_first_cpu_block r.st
                    else (r.st, r.at_first_cpu_block)).1 with
                   time := blockTimeState (b.traceblock 0 &&& 0x00ffffffffffffff)
                     (b.traceblock (if decide (r.blocknumber = 0) = true then 8 else 2) >>> 44) },
             blocknumber := r.blocknumber + 1,
             first_flags := if decide (r.blocknumber = 0) = true
                            then (b.traceblock 1 >>> 56) % 256 else r.first_flags,
             all_flags := r.all_flags ||| (b.traceblock 1 >>> 56) % 256,
             at_first_cpu_block :=
               (if TracefileVersion (if decide (r.blocknumber = 0) = true
                     then (b.traceblock 1 >>> 56) % 256 else r.first_flags) ≥ 3
                then preamble C b.traceblock (if decide (r.blocknumber = 0) = true then 8 else 2)
                  (b.traceblock 0 >>> 56) (b.traceblock 0 &&& 0x00ffffffffffffff)
                  (HasWraparound (if decide (r.blocknumber = 0) = true
                     then (b.traceblock 1 >>> 56) % 256 else r.first_flags) &&
                   decide (r.blocknumber = 0))
                  r.at_first_cpu_block r.st
                else (r.st, r.at_first_cpu_block)).2,
             unique_cpus := r.unique_cpus.insert (b.traceblock 0 >>> 56),
             CyclesToNsec10 := C } := by
  unfold processBlock
  simp only [hC, hfail, Bool.false_eq_true, if_false]

theorem handle_very_first_block_params (traceblock : Nat → Nat)
    (params : CyclesToUsecParams) :
    handle_very_first_block traceblock params =
      handle_very_first_block traceblock zeroParams := by
  unfold handle_very_first_block
  dsimp only
  split
  · rfl
  · rfl

theorem calibrateFrom_params (params : CyclesToUsecParams) :
    calibrateFrom params = calibrateFrom zeroParams := by
  funext traceblock
  unfold calibrateFrom
  rw [handle_very_first_block_params]

/-- The inner loop started at the only live entry of the rest of the block, the entry being
passed with `continue` or by falling off the end of the body. -/
theorem innerLoop_last (E : Env) (fuel i : Nat) (s : State) (hi : i < kTraceBufSize)
    (h : (processEntry E i s).2 = Ctl.next i)
    (hd : ∀ j, i < j → ¬ liveWord (E.traceblock j)) :
    innerLoop E (fuel + 1) i s = (processEntry E i s).1 :=
  innerLoop_single E fuel i s _ hi (Prod.ext rfl h) hd

/-- The first block of a file of version 3 or later without the wraparound flag, when the
header passes the checks and the calibration succeeds. -/
theorem processBlock_first_v3 (K : LibConsts) (calibrate : (Nat → Nat) → Option (Nat → Nat))
    (b : Block) (r : RunState) (C : Nat → Nat) (h0 : r.blocknumber = 0)
    (hfail : headerFail b.traceblock = false) (hcal : calibrate b.traceblock = some C)
    (hv : TracefileVersion ((b.traceblock 1 >>> 56) % 256) ≥ 3)
    (hw : HasWraparound ((b.traceblock 1 >>> 56) % 256) = false) :
    ∃ r2, processBlock K calibrate b r = some r2 ∧
      r2.st = innerLoop
        { K := K, CyclesToNsec10 := C, traceblock := b.traceblock,
          ipcblock := if HasIPC ((b.traceblock 1 >>> 56) % 256) then b.ipc else fun _ => 0,
          current_cpu := b.traceblock 0 >>> 56, keep_just_names := false }
        kTraceBufSize 12
        { (preamble C b.traceblock 8 (b.traceblock 0 >>> 56)
            (b.traceblock 0 &&& 0x00ffffffffffffff) false r.at_first_cpu_block r.st).1 with
          time := blockTimeState (b.traceblock 0 &&& 0x00ffffffffffffff)
            (b.traceblock 8 >>> 44) } ∧
      r2.blocknumber = 1 ∧ r2.CyclesToNsec10 = C := by
  have hC : (if decide (r.blocknumber = 0) = true then calibrate b.traceblock
      else some r.CyclesToNsec10) = some C := by
    simp [h0, hcal]
  refine ⟨_, processBlock_ok K calibrate b r C hfail hC, ?_, ?_, rfl⟩
  · simp only [h0, decide_True, if_true, if_pos hv, hw, Bool.false_and]
  · simp only [h0]

theorem minimalBlock_tail (stop_cycles j : Nat) (hj : 12 < j) :
    ¬ liveWord (minimalBlock stop_cycles j) := by
  have e : minimalBlock stop_cycles j = 0 := by
    unfold minimalBlock
    simp only [if_neg (show ¬ j = 1 by omega), if_neg (show ¬ j = 4 by omega),
      if_neg (show ¬ j = 5 by omega), if_neg (show ¬ j = 8 by omega),
      if_neg (show ¬ j = 10 by omega), if_neg (show ¬ j = 12 by omega)]
  rw [e]
  decide

theorem minimal_calibration :
    calibrateFrom zeroParams (minimalBlock 54000) =
      some (fun cycles => CyclesToNsec10 cycles
        { base_cycles := 0, base_usec := 0, base_cycles10 := 0, base_nsec10 := 0,
          m_slope := ⟨5337599558365032, -58⟩, m_slope_nsec10 := ⟨8339999309945362, -52⟩ }) := by
  have h : handle_very_first_block (minimalBlock 54000) zeroParams =
      some { base_cycles := 0, base_usec := 0, base_cycles10 := 0, base_nsec10 := 0,
             m_slope := ⟨5337599558365032, -58⟩,
             m_slope_nsec10 := ⟨8339999309945362, -52⟩ } := by decide
  unfold calibrateFrom
  rw [h]
  rfl

/-- The run over the first block of the minimal scenario with 54 counts per microsecond. -/
theorem minimal_run (c : Nat → Nat) (ipc : Nat → Nat) :
    ∃ r2, runBlocks sampleConsts (calibrateFrom zeroParams) 1 [⟨minimalBlock 54000, ipc⟩]
        (initialRun c) = some r2 ∧
      r2.st.out =
        [Line.name 0 1 0x022 7 (lit "worker"), Line.name (-1) 1 0x022 7 (lit "worker"),
         Line.event 0 1 KUTRACE_USERPID 0 7 0 0 0 0 (lit "worker.7"),
         Line.event 0 0 KUTRACE_USERPID 0 7 0 7 0 0 (lit "worker.7")] := by
  obtain ⟨r2, hb, hst, -, -⟩ := processBlock_first_v3 sampleConsts (calibrateFrom zeroParams)
    ⟨minimalBlock 54000, ipc⟩ (initialRun c) _ rfl
    (show headerFail (minimalBlock 54000) = false by decide) minimal_calibration
    (show TracefileVersion ((minimalBlock 54000 1 >>> 56) % 256) ≥ 3 by decide)
    (show HasWraparound ((minimalBlock 54000 1 >>> 56) % 256) = false by decide)
  refine ⟨r2, ?_, ?_⟩
  · rw [runBlocks_cons _ _ _ _ _ _ r2 (show (0 : Nat) < 1 by decide) hb]
    rfl
  · rw [hst]
    have e1 : (initialRun c).st = initialState ⟨0, 0⟩ := rfl
    have e2 : (initialRun c).at_first_cpu_block = fun _ => true := rfl
    have e3 : (if HasIPC ((minimalBlock 54000 1 >>> 56) % 256) = true then ipc
        else fun _ => 0) = fun _ => 0 := by
      rw [if_neg (by decide)]
    dsimp only
    rw [e1, e2, e3]
    rw [show kTraceBufSize = 8191 + 1 from rfl, innerLoop_last _ 8191 12 _ (by decide)
      (by decide) (fun j hj => minimalBlock_tail 54000 j hj)]
    decide

/-- C22: the minimal scenario with 54 counts per microsecond (stop_cycles = 54,000): a first
block with cpu 0, base cycle 0, flags 0x03, gettimeofday 1,700,000,000,000,000, start (0, 0),
stop (54000, 1000), preamble pid 7 named "worker" and one USERPID entry with argument 7 is
decoded without a fatal calibration error; the preamble writes its two name lines and its
event line, and the entry its event line. -/
theorem C22_minimal_scenario (c : Nat → Nat) (params : CyclesToUsecParams)
    (ipc : Nat → Nat) :
    (∃ p, handle_very_first_block (minimalBlock 54000) params = some p) ∧
    (calibFixups (minimalBlock 54000)).counts_per_usec = Dbl.ofInt 54 ∧
    ∃ r2, runBlocks sampleConsts (calibrateFrom params) 1 [⟨minimalBlock 54000, ipc⟩]
        (initialRun c) = some r2 ∧
      r2.st.out =
        [Line.name 0 1 0x022 7 (lit "worker"), Line.name (-1) 1 0x022 7 (lit "worker"),
         Line.event 0 1 KUTRACE_USERPID 0 7 0 0 0 0 (lit "worker.7"),
         Line.event 0 0 KUTRACE_USERPID 0 7 0 7 0 0 (lit "worker.7")] := by
  refine ⟨?_, by decide, ?_⟩
  · rw [handle_very_first_block_params]
    exact ⟨_, (by decide : handle_very_first_block (minimalBlock 54000) zeroParams =
      some { base_cycles := 0, base_usec := 0, base_cycles10 := 0, base_nsec10 := 0,
             m_slope := ⟨5337599558365032, -58⟩,
             m_slope_nsec10 := ⟨8339999309945362, -52⟩ })⟩
  · rw [calibrateFrom_params]
    exact minimal_run c ipc

theorem C22_minimal_scenario_witness :
    (∃ p, handle_very_first_block (minimalBlock 54000) zeroParams = some p) ∧
    ∃ r2, runBlocks sampleConsts (calibrateFrom zeroParams) 1
        [⟨minimalBlock 54000, fun _ => 0⟩] (initialRun id) = some r2 ∧
      r2.st.out =
        [Line.name 0 1 0x022 7 (lit "worker"), Line.name (-1) 1 0x022 7 (lit "worker"),
         Line.event 0 1 KUTRACE_USERPID 0 7 0 0 0 0 (lit "worker.7"),
         Line.event 0 0 KUTRACE_USERPID 0 7 0 7 0 0 (lit "worker.7")] :=
  ⟨(C22_minimal_scenario id zeroParams (fun _ => 0)).1,
   (C22_minimal_scenario id zeroParams (fun _ => 0)).2.2⟩

/-- The scenario as the specification gives it, with stop_cycles = 100,000: both counts fit in
32 bits and the block has no "u74-mc", so the Arm-32 fixup runs; its ratio 100 is above 60, it
lowers stop_cycles by 2^32 to -4,294,867,296, and the run ends with the fatal error. -/
theorem C22_counterexample :
    has_32bit_counts (calibStart (minimalBlock 100000)) = true ∧
    likely_riscv (minimalBlock 100000) = false ∧
    (calibStart (minimalBlock 100000)).counts_per_usec = Dbl.ofInt 100 ∧
    toInt64 (calibFixups (minimalBlock 100000)).stop_counts = -4294867296 ∧
    handle_very_first_block (minimalBlock 100000) zeroParams = none ∧
    (runBlocks sampleConsts (calibrateFrom zeroParams) 1
      [⟨minimalBlock 100000, fun _ => 0⟩] (initialRun id)).isSome = false := by
  decide

/-! ## The RISC-V fixup -/

theorem toInt64_of_lt (x : Nat) (h : x < 2 ^ 63) : toInt64 x = (x : Int) := by
  unfold toInt64
  rw [if_pos h]

theorem u64_of_lt (x : Nat) (h : x < 2 ^ 64) : u64 x = x := by
  unfold u64
  exact Nat.mod_eq_of_lt h

theorem shiftRight_toInt64 (x : Nat) (h : x < 2 ^ 63) :
    Int.shiftRight (toInt64 x) 32 = ((x / 2 ^ 32 : Nat) : Int) := by
  rw [toInt64_of_lt x h]
  show ((x >>> 32 : Nat) : Int) = _
  rw [Nat.shiftRight_eq_div_pow]

theorem and_low32_lt (x : Nat) : x &&& 0x00000000FFFFFFFF < 2 ^ 32 := by
  have h := Nat.and_pow_two_sub_one_eq_mod x 32
  norm_num at h
  rw [h]
  omega

/-- C23: for a first block holding the bytes "u74-mc" in its first 256 bytes whose first ratio
is above 100.1, with start_cycles below 2^32 and stop_cycles in 2^32..2^33-1, the RISC-V fixup
masks stop_cycles to its low 32 bits and recomputes the ratio from the masked value, and the
Arm-32 fixup does not run; when the masked stop_cycles is below start_cycles, as it is for
start 0x80000000 and stop 0x100000000, `handle_very_first_block` ends the run with the fatal
error. -/
theorem C23_riscv_fixup (traceblock : Nat → Nat)
    (hr : likely_riscv traceblock = true)
    (h1 : Dbl.lt (Dbl.round 1001 10) (calibStart traceblock).counts_per_usec = true)
    (hs : traceblock 2 < 2 ^ 32)
    (ht : 2 ^ 32 ≤ traceblock 4) (ht2 : traceblock 4 < 2 ^ 33) :
    (calibFixups traceblock).stop_counts = traceblock 4 &&& 0x00000000FFFFFFFF ∧
    (calibFixups traceblock).start_counts = traceblock 2 ∧
    (calibFixups traceblock).counts_per_usec =
      countsPerUsec (traceblock 2) (traceblock 4 &&& 0x00000000FFFFFFFF)
        (calibStart traceblock).delta_usec ∧
    (traceblock 4 &&& 0x00000000FFFFFFFF < traceblock 2 →
      ∀ params, handle_very_first_block traceblock params = none) := by
  have hstart : (calibStart traceblock).start_counts = traceblock 2 :=
    u64_of_lt _ (by omega)
  have hstop : (calibStart traceblock).stop_counts = traceblock 4 :=
    u64_of_lt _ (by omega)
  have hcond : Dbl.lt (Dbl.round 1001 10) (calibStart traceblock).counts_per_usec = true ∧
      Int.shiftRight (toInt64 (calibStart traceblock).start_counts) 32 = 0 ∧
      Int.shiftRight (toInt64 (calibStart traceblock).stop_counts) 32 = 1 := by
    refine ⟨h1, ?_, ?_⟩
    · rw [hstart, shiftRight_toInt64 _ (by omega)]
      have : traceblock 2 / 2 ^ 32 = 0 := by omega
      rw [this]
      rfl
    · rw [hstop, shiftRight_toInt64 _ (by omega)]
      have : traceblock 4 / 2 ^ 32 = 1 := by omega
      rw [this]
      rfl
  have hfix : calibFixups traceblock =
      { calibStart traceblock with
        stop_counts := traceblock 4 &&& 0x00000000FFFFFFFF,
        counts_per_usec := countsPerUsec (traceblock 2)
          (traceblock 4 &&& 0x00000000FFFFFFFF) (calibStart traceblock).delta_usec } := by
    unfold calibFixups
    simp only [hr, if_true, Bool.not_true, Bool.and_false, Bool.false_eq_true, if_false]
    unfold riscvFixup
    rw [if_pos hcond, hstart, hstop]
  refine ⟨by rw [hfix], by rw [hfix]; exact hstart, by rw [hfix], ?_⟩
  intro hlt params
  rw [handle_very_first_block_none, calibFail_iff, hfix]
  right; right; left
  show toInt64 (calibStart traceblock).start_counts >
    toInt64 (traceblock 4 &&& 0x00000000FFFFFFFF)
  have hm := and_low32_lt (traceblock 4)
  rw [hstart, toInt64_of_lt _ (by omega), toInt64_of_lt _ (by omega)]
  exact_mod_cast hlt

theorem C23_riscv_fixup_witness :
    (calibFixups (riscvBlock 0x0000000100000000)).stop_counts = 0 ∧
    (∀ params, handle_very_first_block (riscvBlock 0x0000000100000000) params = none) ∧
    (calibFixups (riscvBlock 0x000000018020C49B)).stop_counts = 0x8020C49B ∧
    (∃ p, handle_very_first_block (riscvBlock 0x000000018020C49B) zeroParams = some p) :=
  ⟨(C23_riscv_fixup (riscvBlock 0x0000000100000000) (by decide) (by decide) (by decide)
      (by decide) (by decide)).1,
   (C23_riscv_fixup (riscvBlock 0x0000000100000000) (by decide) (by decide) (by decide)
      (by decide) (by decide)).2.2.2 (by decide),
   (C23_riscv_fixup (riscvBlock 0x000000018020C49B) (by decide) (by decide) (by decide)
      (by decide) (by decide)).1,
   ⟨{ base_cycles := 0x80000000, base_usec := 0, base_cycles10 := 0x80000000,
      base_nsec10 := 0, m_slope := ⟨4503599627370496, -52⟩,
      m_slope_nsec10 := ⟨7036874417766400, -46⟩ }, by decide⟩⟩

/-- The scenario as the specification gives it: the first ratio is about 1000, the fixup
masks stop_cycles 0x100000000 to 0, below start_cycles 0x80000000, the recomputed ratio is
about -1000, and the fatal error is reported. -/
theorem C23_counterexample :
    likely_riscv (riscvBlock 0x0000000100000000) = true ∧
    Dbl.lt (Dbl.round 1001 10) (calibStart (riscvBlock 0x0000000100000000)).counts_per_usec
      = true ∧
    (calibFixups (riscvBlock 0x0000000100000000)).stop_counts = 0 ∧
    Dbl.lt (calibFixups (riscvBlock 0x0000000100000000)).counts_per_usec (Dbl.round 99 100)
      = true ∧
    handle_very_first_block (riscvBlock 0x0000000100000000) zeroParams = none := by
  decide

/-! ## The timestamp state at the start of a block -/

/-- C24: in a block whose header passes the checks, the inner loop starts at word 8 (first
block) or 2 (other blocks), moved on by the 4 preamble words when the file version is 3 or
more, with `prior_t` set to the top 20 bits of word 8 or 2: for version 3 and later that is
the PID and frequency word of the preamble, not the first real entry at word 12 or 6. -/
theorem C24_block_prior_t (K : LibConsts) (calibrate : (Nat → Nat) → Option (Nat → Nat))
    (b : Block) (r : RunState) (C : Nat → Nat) (hfail : headerFail b.traceblock = false)
    (hC : (if decide (r.blocknumber = 0) = true then calibrate b.traceblock
           else some r.CyclesToNsec10) = some C) :
    ∃ (r2 : RunState) (E : Env) (s0 : State) (first : Nat),
      processBlock K calibrate b r = some r2 ∧
      r2.st = innerLoop E kTraceBufSize first s0 ∧
      E.K = K ∧ E.traceblock = b.traceblock ∧ E.CyclesToNsec10 = C ∧
      first = (if r.blocknumber = 0 then 8 else 2) +
        (if TracefileVersion (if r.blocknumber = 0 then (b.traceblock 1 >>> 56) % 256
            else r.first_flags) ≥ 3 then 4 else 0) ∧
      s0.time.prior_t = b.traceblock (if r.blocknumber = 0 then 8 else 2) >>> 44 ∧
      s0.time = blockTimeState (b.traceblock 0 &&& 0x00ffffffffffffff)
        (b.traceblock (if r.blocknumber = 0 then 8 else 2) >>> 44) := by
  refine ⟨_, _, _, _, processBlock_ok K calibrate b r C hfail hC, rfl, rfl, rfl, rfl, ?_, ?_, ?_⟩
  · by_cases h0 : r.blocknumber = 0 <;>
    by_cases hv : TracefileVersion (if r.blocknumber = 0 then (b.traceblock 1 >>> 56) % 256
        else r.first_flags) ≥ 3
    · simp only [h0, decide_True, if_true] at hv ⊢
      simp only [if_pos hv]
    · simp only [h0, decide_True, if_true] at hv ⊢
      simp only [if_neg hv, Nat.add_zero]
    · simp only [h0, decide_False, if_false, Bool.false_eq_true] at hv ⊢
      simp only [if_pos hv]
    · simp only [h0, decide_False, if_false, Bool.false_eq_true] at hv ⊢
      simp only [if_neg hv, Nat.add_zero]
  · by_cases h0 : r.blocknumber = 0
    · simp only [h0, decide_True, if_true]
      rfl
    · simp only [h0, decide_False, if_false, Bool.false_eq_true]
      rfl
  · by_cases h0 : r.blocknumber = 0
    · simp only [h0, decide_True, if_true]
    · simp only [h0, decide_False, if_false, Bool.false_eq_true]

theorem entry_calibration :
    calibrateFrom zeroParams (entryBlock 0x1234520000000007) =
      some (fun cycles => CyclesToNsec10 cycles
        { base_cycles := 0, base_usec := 0, base_cycles10 := 0, base_nsec10 := 0,
          m_slope := ⟨5337599558365032, -58⟩, m_slope_nsec10 := ⟨8339999309945362, -52⟩ }) := by
  have h : handle_very_first_block (entryBlock 0x1234520000000007) zeroParams =
      some { base_cycles := 0, base_usec := 0, base_cycles10 := 0, base_nsec10 := 0,
             m_slope := ⟨5337599558365032, -58⟩,
             m_slope_nsec10 := ⟨8339999309945362, -52⟩ } := by decide
  unfold calibrateFrom
  rw [h]
  rfl

theorem C24_block_prior_t_witness :
    ∃ (r2 : RunState) (E : Env) (s0 : State),
      processBlock sampleConsts (calibrateFrom zeroParams)
        ⟨entryBlock 0x1234520000000007, fun _ => 0⟩ (initialRun id) = some r2 ∧
      r2.st = innerLoop E kTraceBufSize 12 s0 ∧
      E.traceblock = entryBlock 0x1234520000000007 ∧
      s0.time.prior_t = 0 ∧
      entryBlock 0x1234520000000007 12 >>> 44 = 0x12345 := by
  obtain ⟨r2, E, s0, first, h1, h2, -, h4, -, h6, h7, -⟩ :=
    C24_block_prior_t sampleConsts (calibrateFrom zeroParams)
      ⟨entryBlock 0x1234520000000007, fun _ => 0⟩ (initialRun id) _
      (show headerFail (entryBlock 0x1234520000000007) = false by decide)
      (show (if decide ((initialRun id).blocknumber = 0) = true
          then calibrateFrom zeroParams (entryBlock 0x1234520000000007)
          else some (initialRun id).CyclesToNsec10) = _ from entry_calibration)
  have e1 : first = 12 := by
    rw [h6]
    decide
  have e2 : s0.time.prior_t = 0 := by
    rw [h7]
    decide
  rw [e1] at h2
  exact ⟨r2, E, s0, h1, h2, h4, e2, by decide⟩

/-! ## The learned event numbers and the low-resolution flag over a run -/

theorem and_7f_of_lt (c : Nat) (h : c < 0x80) : c &&& 0x7f = c := by
  have e := Nat.and_pow_two_sub_one_eq_mod c 7
  norm_num at e
  rw [e]
  omega

theorem safeAsciiChar_eq (c : Nat) :
    safeAsciiChar c =
      if c ≤ 0x20 ∨ 0x80 ≤ c ∨ c = 0x22 ∨ c = 0x5c then 0x5f else c := by
  unfold safeAsciiChar
  by_cases h1 : c ≥ 0x80 ∨ c ≤ 0x20
  · have h2 : c ≤ 0x20 ∨ 0x80 ≤ c ∨ c = 0x22 ∨ c = 0x5c := by omega
    simp only [if_pos h1, if_pos h2]
    decide
  · by_cases h3 : c = 0x22
    · subst h3
      decide
    · by_cases h4 : c = 0x5c
      · subst h4
        decide
      · have h2 : ¬ (c ≤ 0x20 ∨ 0x80 ≤ c ∨ c = 0x22 ∨ c = 0x5c) := by omega
        simp only [if_neg h1, if_neg h3, if_neg h4, if_neg h2]
        exact and_7f_of_lt c (by omega)

/-- C36: `MakeSafeAscii` keeps the length; every character of the result is a 7-bit value
above 0x20 other than the double quote and the backslash; a byte that is at most 0x20, has the
high bit set (`char` being signed), or is a double quote or a backslash becomes the
underscore, every other byte is unchanged; and applying it twice is applying it once. -/
theorem C36_make_safe_ascii (s : CStr) :
    (MakeSafeAscii s).length = s.length ∧
    (∀ c ∈ MakeSafeAscii s, 0x20 < c ∧ c < 0x80 ∧ c ≠ 0x22 ∧ c ≠ 0x5c) ∧
    (∀ i, i < s.length →
      ((s.getD i 0 ≤ 0x20 ∨ 0x80 ≤ s.getD i 0 ∨ s.getD i 0 = 0x22 ∨ s.getD i 0 = 0x5c) →
        (MakeSafeAscii s).getD i 0 = 0x5f) ∧
      (¬ (s.getD i 0 ≤ 0x20 ∨ 0x80 ≤ s.getD i 0 ∨ s.getD i 0 = 0x22 ∨ s.getD i 0 = 0x5c) →
        (MakeSafeAscii s).getD i 0 = s.getD i 0)) ∧
    MakeSafeAscii (MakeSafeAscii s) = MakeSafeAscii s := by
  refine ⟨by simp [MakeSafeAscii], ?_, ?_, ?_⟩
  · intro c hc
    simp only [MakeSafeAscii, List.mem_map] at hc
    obtain ⟨a, -, ha⟩ := hc
    rw [← ha, safeAsciiChar_eq]
    split <;> omega
  · intro i hi
    have e : (MakeSafeAscii s).getD i 0 = safeAsciiChar (s.getD i 0) := by
      simp only [MakeSafeAscii]
      rw [List.getD_eq_getElem _ _ (by simpa using hi), List.getD_eq_getElem _ _ hi,
        List.getElem_map]
    rw [e, safeAsciiChar_eq]
    exact ⟨fun h => if_pos h, fun h => if_neg h⟩
  · simp only [MakeSafeAscii, List.map_map]
    apply List.map_congr_left
    intro a _
    simp only [Function.comp]
    rw [safeAsciiChar_eq a]
    split
    · decide
    · rename_i h
      rw [safeAsciiChar_eq, if_neg h]

theorem C36_make_safe_ascii_witness :
    MakeSafeAscii (lit "a b\"c\\d") = lit "a_b_c_d" ∧
    MakeSafeAscii [0x41, 0x09, 0xC3, 0x7f] = [0x41, 0x5f, 0x5f, 0x7f] ∧
    MakeSafeAscii (MakeSafeAscii [0x41, 0x09, 0xC3, 0x7f]) =
      MakeSafeAscii [0x41, 0x09, 0xC3, 0x7f] :=
  ⟨by decide, by decide, (C36_make_safe_ascii [0x41, 0x09, 0xC3, 0x7f]).2.2.2⟩

/-! ## Spaces reduced -/

theorem getD_set_of_lt (b : List Nat) (k x p : Nat) (hk : k < b.length) :
    (b.set k x).getD p 0 = if p = k then x else b.getD p 0 := by
  simp only [List.getD_eq_getElem?_getD, List.getElem?_set]
  by_cases h : k = p
  · subst h
    simp [hk]
  · have h2 : ¬ p = k := fun e => h e.symm
    simp [h, h2]

theorem take_set_succ (b : List Nat) (k x : Nat) (hk : k < b.length) :
    (b.set k x).take (k + 1) = b.take k ++ [x] := by
  rw [List.set_eq_take_append_cons_drop, if_pos hk]
  have hl : (b.take k).length = k := by
    rw [List.length_take]
    omega
  rw [List.take_append_eq_append_take, hl]
  simp

/-- What the reference writes for the interior index `i` of `s`. -/
theorem reduceSpacesStep_inv (s : CStr) (b : List Nat) (k j : Nat) (pre : List Nat)
    (hlen : b.length = s.length) (hj : j + 2 < s.length) (hk1 : 1 ≤ k) (hk : k ≤ j + 1)
    (hpre : b.take k = pre)
    (hrest : ∀ p, j + 1 ≤ p → b.getD p 0 = s.getD p 0)
    (hdig : Digit (b.getD j 0) = Digit (s.getD j 0)) :
    (reduceSpacesStep (b, k) (j + 1)).1.length = s.length ∧
    1 ≤ (reduceSpacesStep (b, k) (j + 1)).2 ∧
    (reduceSpacesStep (b, k) (j + 1)).2 ≤ j + 2 ∧
    (reduceSpacesStep (b, k) (j + 1)).1.take (reduceSpacesStep (b, k) (j + 1)).2 =
      pre ++ (if s.getD (j + 1) 0 ≠ 0x20 then [s.getD (j + 1) 0]
        else if Digit (s.getD (j + 1 - 1) 0) && Digit (s.getD (j + 1 + 1) 0) then [0x5f]
        else []) ∧
    (∀ p, j + 2 ≤ p → (reduceSpacesStep (b, k) (j + 1)).1.getD p 0 = s.getD p 0) ∧
    Digit ((reduceSpacesStep (b, k) (j + 1)).1.getD (j + 1) 0) = Digit (s.getD (j + 1) 0) := by
  have hb1 : b.getD (j + 1) 0 = s.getD (j + 1) 0 := hrest (j + 1) (Nat.le_refl _)
  have hb2 : b.getD (j + 1 + 1) 0 = s.getD (j + 1 + 1) 0 := hrest (j + 2) (by omega)
  have hkb : k < b.length := by omega
  have hj1 : j + 1 - 1 = j := by omega
  unfold reduceSpacesStep
  dsimp only
  rw [hb1, hb2, hj1, hdig]
  by_cases h1 : s.getD (j + 1) 0 ≠ 0x20
  · rw [if_pos h1, if_pos h1]
    dsimp only
    refine ⟨by rw [List.length_set, hlen], by omega, by omega, ?_, ?_, ?_⟩
    · rw [take_set_succ b k _ hkb, hpre]
    · intro p hp
      rw [getD_set_of_lt b k _ p hkb, if_neg (by omega)]
      exact hrest p (by omega)
    · rw [getD_set_of_lt b k _ _ hkb]
      by_cases e : j + 1 = k
      · rw [if_pos e]
      · rw [if_neg e, hb1]
  · rw [if_neg h1, if_neg h1]
    have hsp : s.getD (j + 1) 0 = 0x20 := by
      by_contra hc
      exact h1 hc
    by_cases h2 : (Digit (s.getD j 0) && Digit (s.getD (j + 1 + 1) 0)) = true
    · rw [if_pos h2, if_pos h2]
      dsimp only
      refine ⟨by rw [List.length_set, hlen], by omega, by omega, ?_, ?_, ?_⟩
      · rw [take_set_succ b k _ hkb, hpre]
      · intro p hp
        rw [getD_set_of_lt b k _ p hkb, if_neg (by omega)]
        exact hrest p (by omega)
      · rw [getD_set_of_lt b k _ _ hkb]
        by_cases e : j + 1 = k
        · rw [if_pos e, hsp]
          decide
        · rw [if_neg e, hb1]
    · rw [if_neg h2, if_neg h2]
      dsimp only
      refine ⟨hlen, hk1, by omega, by rw [hpre, List.append_nil], ?_, by rw [hb1]⟩
      intro p hp
      exact hrest p (by omega)

/-- The loop of `ReduceSpaces` after the interior indices 1 to `n`: the buffer holds the
output of the reference so far in front of the write index, and the original characters from
index `n + 1` on. -/
theorem reduceSpaces_loop (s : CStr) :
    ∀ n, n + 2 ≤ s.length →
      (((List.range n).map (fun j => j + 1)).foldl reduceSpacesStep (s, 1)).1.length
        = s.length ∧
      1 ≤ (((List.range n).map (fun j => j + 1)).foldl reduceSpacesStep (s, 1)).2 ∧
      (((List.range n).map (fun j => j + 1)).foldl reduceSpacesStep (s, 1)).2 ≤ n + 1 ∧
      (((List.range n).map (fun j => j + 1)).foldl reduceSpacesStep (s, 1)).1.take
          (((List.range n).map (fun j => j + 1)).foldl reduceSpacesStep (s, 1)).2 =
        s.getD 0 0 :: ((List.range n).map (fun j => j + 1)).flatMap (fun i =>
          if s.getD i 0 ≠ 0x20 then [s.getD i 0]
          else if Digit (s.getD (i - 1) 0) && Digit (s.getD (i + 1) 0) then [0x5f]
          else []) ∧
      (∀ p, n + 1 ≤ p →
        (((List.range n).map (fun j => j + 1)).foldl reduceSpacesStep (s, 1)).1.getD p 0
          = s.getD p 0) ∧
      Digit ((((List.range n).map (fun j => j + 1)).foldl reduceSpacesStep (s, 1)).1.getD n 0)
        = Digit (s.getD n 0) := by
  intro n
  induction n with
  | zero =>
    intro h
    refine ⟨rfl, Nat.le_refl 1, Nat.le_refl 1, ?_, fun _ _ => rfl, rfl⟩
    cases s with
    | nil => simp at h
    | cons a t => simp
  | succ n ih =>
    intro h
    obtain ⟨i1, i2, i3, i4, i5, i6⟩ := ih (by omega)
    rw [List.range_succ, List.map_append, List.foldl_append, List.flatMap_append]
    simp only [List.map_cons, List.map_nil, List.foldl_cons, List.foldl_nil,
      List.flatMap_cons, List.flatMap_nil, List.append_nil]
    generalize ((List.range n).map (fun j => j + 1)).foldl reduceSpacesStep (s, 1) = r at *
    obtain ⟨b, k⟩ := r
    have hs := reduceSpacesStep_inv s b k n _ i1 (by omega) i2 i3 i4 i5 i6
    obtain ⟨s1, s2, s3, s4, s5, s6⟩ := hs
    refine ⟨s1, s2, s3, ?_, s5, s6⟩
    rw [s4]
    rfl

theorem ReduceSpaces_eq_spec (s : CStr) : ReduceSpaces s = ReduceSpacesSpec s := by
  unfold ReduceSpaces ReduceSpacesSpec
  by_cases h : s.length < 3
  · simp only [if_pos h]
  · simp only [if_neg h]
    obtain ⟨i1, i2, i3, i4, i5, -⟩ := reduceSpaces_loop s (s.length - 2) (by omega)
    generalize ((List.range (s.length - 2)).map (fun j => j + 1)).foldl reduceSpacesStep
      (s, 1) = r at *
    obtain ⟨b, k⟩ := r
    dsimp only at *
    rw [take_set_succ b k _ (by omega), i4, i5 (s.length - 1) (by omega)]
    rfl

theorem ReduceSpaces_length_le (s : CStr) : (ReduceSpaces s).length ≤ s.length := by
  unfold ReduceSpaces
  by_cases h : s.length < 3
  · simp only [if_pos h]
    exact Nat.le_refl _
  · simp only [if_neg h]
    obtain ⟨i1, i2, i3, -, -, -⟩ := reduceSpaces_loop s (s.length - 2) (by omega)
    generalize ((List.range (s.length - 2)).map (fun j => j + 1)).foldl reduceSpacesStep
      (s, 1) = r at *
    obtain ⟨b, k⟩ := r
    dsimp only at *
    rw [List.length_take, List.length_set]
    omega

/-- C37: `ReduceSpaces`, which rewrites its buffer in place, gives what the reference
`ReduceSpacesSpec` reads off the original string: a string shorter than 3 unchanged;
otherwise the first character, for each interior index in order the character when it is no
space, an underscore when it is a space between two digits of the original, nothing
otherwise, and the last character. The result is not longer than the input and has no space
other than as its first or last character. -/
theorem C37_reduce_spaces (s : CStr) :
    ReduceSpaces s = ReduceSpacesSpec s ∧
    (s.length < 3 → ReduceSpaces s = s) ∧
    (3 ≤ s.length →
      ∃ mid, ReduceSpaces s = s.getD 0 0 :: (mid ++ [s.getD (s.length - 1) 0]) ∧
        mid = ((List.range (s.length - 2)).map (fun j => j + 1)).flatMap (fun i =>
          if s.getD i 0 ≠ 0x20 then [s.getD i 0]
          else if Digit (s.getD (i - 1) 0) && Digit (s.getD (i + 1) 0) then [0x5f]
          else []) ∧
        ∀ c ∈ mid, c ≠ 0x20) ∧
    (ReduceSpaces s).length ≤ s.length := by
  refine ⟨ReduceSpaces_eq_spec s, ?_, ?_, ReduceSpaces_length_le s⟩
  · intro h
    unfold ReduceSpaces
    simp only [if_pos h]
  · intro h
    refine ⟨_, ?_, rfl, ?_⟩
    · rw [ReduceSpaces_eq_spec]
      unfold ReduceSpacesSpec
      rw [if_neg (by omega)]
    · intro c hc
      rw [List.mem_flatMap] at hc
      obtain ⟨i, -, hi⟩ := hc
      by_cases h1 : s.getD i 0 ≠ 0x20
      · rw [if_pos h1, List.mem_singleton] at hi
        rw [hi]
        exact h1
      · rw [if_neg h1] at hi
        by_cases h2 : (Digit (s.getD (i - 1) 0) && Digit (s.getD (i + 1) 0)) = true
        · rw [if_pos h2, List.mem_singleton] at hi
          rw [hi]
          decide
        · rw [if_neg h2] at hi
          cases hi

theorem C37_reduce_spaces_witness :
    ReduceSpaces (lit "a 1 2  b 3 ") = lit "a1_2b3 " ∧
    ReduceSpaces (lit "a 1 2  b 3 ") = ReduceSpacesSpec (lit "a 1 2  b 3 ") ∧
    ReduceSpaces (lit "1 2 3") = lit "1_2_3" ∧
    ReduceSpaces (lit " a") = lit " a" :=
  ⟨by decide, (C37_reduce_spaces (lit "a 1 2  b 3 ")).1, by decide,
   (C37_reduce_spaces (lit " a")).2.1 (by decide)⟩

/-! ## The Arm-32 fixup -/

theorem calibStart_delta_pos (traceblock : Nat → Nat) :
    0 < (calibStart traceblock).delta_usec ∧ (calibStart traceblock).delta_usec < 2 ^ 63 := by
  unfold calibStart
  dsimp only
  by_cases h : toInt64 (u64 (u64 (traceblock 5) + 2 ^ 64 - u64 (traceblock 3))) ≤ 0
  · rw [if_pos h]
    omega
  · rw [if_neg h]
    unfold toInt64 at h
    have hlt : u64 (u64 (traceblock 5) + 2 ^ 64 - u64 (traceblock 3)) < 2 ^ 64 :=
      Nat.mod_lt _ (by norm_num)
    by_cases h2 : u64 (u64 (traceblock 5) + 2 ^ 64 - u64 (traceblock 3)) < 2 ^ 63
    · rw [if_pos h2] at h
      omega
    · rw [if_neg h2] at h
      omega

theorem or_high_mod (x y : Nat) :
    (x ||| (y &&& 0xffffffff00000000)) % 2 ^ 32 = x % 2 ^ 32 := by
  apply Nat.eq_of_testBit_eq
  intro i
  rw [Nat.testBit_mod_two_pow, Nat.testBit_mod_two_pow, Nat.testBit_or, Nat.testBit_and]
  by_cases h : i < 32
  · have e : (0xffffffff00000000 : Nat) = 2 ^ 32 * 0xffffffff := by norm_num
    have hm : Nat.testBit 0xffffffff00000000 i = false := by
      rw [e, Nat.testBit_mul_pow_two]
      simp
      omega
    rw [hm]
    simp
  · simp [h]

theorem calibFixups_arm (traceblock : Nat → Nat)
    (h32 : has_32bit_counts (calibStart traceblock) = true)
    (hr : likely_riscv traceblock = false) :
    calibFixups traceblock = arm32Fixup (calibStart traceblock) := by
  unfold calibFixups
  simp only [hr, h32, Bool.false_eq_true, if_false, Bool.not_false, Bool.and_self, if_true]

/-- C33: when both counts fit in 32 bits and the block is not likely RISC-V, the Arm-32 fixup
takes `expected = elapsed_usec * 54` (as `uint64`), ORs its high 32 bits into stop_cycles,
forms the truncated `uint64` quotient `ratio` of the resulting elapsed counts by elapsed_usec,
and lowers stop_cycles by 2^32 exactly when `ratio` is above 54 + 54/8 = 60, that is when the
elapsed counts are at least 61 per microsecond, and raises it by 2^32 exactly when `ratio` is
below 54 - 54/8 = 48, that is when the elapsed counts are below 48 per microsecond. The low
32 bits of stop_cycles are unchanged in every case, elapsed_usec is never 0, and the ratio
`counts_per_usec` is recomputed from the new stop_cycles. -/
theorem C33_arm32_fixup (traceblock : Nat → Nat)
    (h32 : has_32bit_counts (calibStart traceblock) = true)
    (hr : likely_riscv traceblock = false) :
    0 < (calibStart traceblock).delta_usec ∧
    (calibFixups traceblock).delta_usec = (calibStart traceblock).delta_usec ∧
    (calibFixups traceblock).start_counts = (calibStart traceblock).start_counts ∧
    (calibFixups traceblock).stop_counts =
      (if 54 + 54 / 8 <
          u64 (((calibStart traceblock).stop_counts |||
              (u64 ((calibStart traceblock).delta_usec * 54) &&& 0xffffffff00000000)) +
            2 ^ 64 - (calibStart traceblock).start_counts) /
          (calibStart traceblock).delta_usec
       then u64 (((calibStart traceblock).stop_counts |||
              (u64 ((calibStart traceblock).delta_usec * 54) &&& 0xffffffff00000000)) +
            2 ^ 64 - 2 ^ 32)
       else if
          u64 (((calibStart traceblock).stop_counts |||
              (u64 ((calibStart traceblock).delta_usec * 54) &&& 0xffffffff00000000)) +
            2 ^ 64 - (calibStart traceblock).start_counts) /
          (calibStart traceblock).delta_usec < 54 - 54 / 8
       then u64 (((calibStart traceblock).stop_counts |||
              (u64 ((calibStart traceblock).delta_usec * 54) &&& 0xffffffff00000000)) +
            2 ^ 32)
       else (calibStart traceblock).stop_counts |||
              (u64 ((calibStart traceblock).delta_usec * 54) &&& 0xffffffff00000000)) ∧
    (calibFixups traceblock).stop_counts &&& 0xFFFFFFFF =
      (calibStart traceblock).stop_counts &&& 0xFFFFFFFF ∧
    (calibFixups traceblock).counts_per_usec =
      countsPerUsec (calibStart traceblock).start_counts (calibFixups traceblock).stop_counts
        (calibStart traceblock).delta_usec ∧
    (54 + 54 / 8 <
        u64 (((calibStart traceblock).stop_counts |||
            (u64 ((calibStart traceblock).delta_usec * 54) &&& 0xffffffff00000000)) +
          2 ^ 64 - (calibStart traceblock).start_counts) /
        (calibStart traceblock).delta_usec ↔
      61 * (calibStart traceblock).delta_usec ≤
        u64 (((calibStart traceblock).stop_counts |||
            (u64 ((calibStart traceblock).delta_usec * 54) &&& 0xffffffff00000000)) +
          2 ^ 64 - (calibStart traceblock).start_counts)) ∧
    (u64 (((calibStart traceblock).stop_counts |||
            (u64 ((calibStart traceblock).delta_usec * 54) &&& 0xffffffff00000000)) +
          2 ^ 64 - (calibStart traceblock).start_counts) /
        (calibStart traceblock).delta_usec < 54 - 54 / 8 ↔
      u64 (((calibStart traceblock).stop_counts |||
            (u64 ((calibStart traceblock).delta_usec * 54) &&& 0xffffffff00000000)) +
          2 ^ 64 - (calibStart traceblock).start_counts) <
        48 * (calibStart traceblock).delta_usec) := by
  have hfix := calibFixups_arm traceblock h32 hr
  have hpos := (calibStart_delta_pos traceblock).1
  generalize calibStart traceblock = c at *
  have hstop : (arm32Fixup c).stop_counts =
      (if 54 + 54 / 8 <
          u64 ((c.stop_counts ||| (u64 (c.delta_usec * 54) &&& 0xffffffff00000000)) +
            2 ^ 64 - c.start_counts) / c.delta_usec
       then u64 ((c.stop_counts ||| (u64 (c.delta_usec * 54) &&& 0xffffffff00000000)) +
            2 ^ 64 - 2 ^ 32)
       else if
          u64 ((c.stop_counts ||| (u64 (c.delta_usec * 54) &&& 0xffffffff00000000)) +
            2 ^ 64 - c.start_counts) / c.delta_usec < 54 - 54 / 8
       then u64 ((c.stop_counts ||| (u64 (c.delta_usec * 54) &&& 0xffffffff00000000)) +
            2 ^ 32)
       else c.stop_counts ||| (u64 (c.delta_usec * 54) &&& 0xffffffff00000000)) := by
    unfold arm32Fixup mhz_32bit_counts
    dsimp only
    generalize u64 ((c.stop_counts ||| (u64 (c.delta_usec * 54) &&& 0xffffffff00000000)) +
      2 ^ 64 - c.start_counts) / c.delta_usec = ratio
    generalize c.stop_counts ||| (u64 (c.delta_usec * 54) &&& 0xffffffff00000000) = stop1
    have e1 : (54 : Nat) + 54 >>> 3 = 60 := by decide
    have e2 : (54 : Nat) - 54 >>> 3 = 48 := by decide
    have e3 : (54 : Nat) + 54 / 8 = 60 := by decide
    have e4 : (54 : Nat) - 54 / 8 = 48 := by decide
    have e5 : (2 : Nat) ^ 32 = 4294967296 := by norm_num
    rw [e1, e2, e3, e4, e5]
    by_cases h1 : 60 < ratio
    · have h2 : ¬ ratio < 48 := by omega
      have h1' : ratio > 60 := h1
      rw [if_pos h1, if_pos h1', if_neg h2]
    · have h1' : ¬ ratio > 60 := h1
      rw [if_neg h1, if_neg h1']
  refine ⟨?_, by rw [hfix]; rfl, by rw [hfix]; rfl, by rw [hfix]; exact hstop, ?_,
    by rw [hfix]; rfl, ?_, ?_⟩
  · exact hpos
  · rw [hfix, hstop, and_ffffffff_eq, and_ffffffff_eq]
    have hor := or_high_mod c.stop_counts (u64 (c.delta_usec * 54))
    generalize c.stop_counts ||| (u64 (c.delta_usec * 54) &&& 0xffffffff00000000) = stop1
      at hor ⊢
    norm_num at hor
    split
    · unfold u64
      omega
    · split
      · unfold u64
        omega
      · omega
  · generalize u64 ((c.stop_counts ||| (u64 (c.delta_usec * 54) &&& 0xffffffff00000000)) +
      2 ^ 64 - c.start_counts) = ec
    have e3 : (54 : Nat) + 54 / 8 = 60 := by decide
    rw [e3]
    constructor
    · intro h
      exact (Nat.le_div_iff_mul_le hpos).1 h
    · intro h
      exact (Nat.le_div_iff_mul_le hpos).2 h
  · generalize u64 ((c.stop_counts ||| (u64 (c.delta_usec * 54) &&& 0xffffffff00000000)) +
      2 ^ 64 - c.start_counts) = ec
    have e4 : (54 : Nat) - 54 / 8 = 48 := by decide
    rw [e4]
    exact Nat.div_lt_iff_lt_mul hpos

theorem C33_arm32_fixup_witness :
    (calibFixups (minimalBlock 100000)).stop_counts &&& 0xFFFFFFFF =
      (calibStart (minimalBlock 100000)).stop_counts &&& 0xFFFFFFFF ∧
    (calibStart (minimalBlock 100000)).stop_counts = 100000 ∧
    (calibFixups (minimalBlock 100000)).stop_counts = 2 ^ 64 - 2 ^ 32 + 100000 ∧
    (calibFixups (minimalBlock 10000)).stop_counts = 2 ^ 32 + 10000 ∧
    (calibFixups (minimalBlock 54000)).stop_counts = 54000 :=
  ⟨(C33_arm32_fixup (minimalBlock 100000) (by decide) (by decide)).2.2.2.2.1,
   by decide, by decide, by decide, by decide⟩

/-- Two first blocks with start (0, 0) and stop after 100 microseconds. With 4750 counts the
ratio 47.5 is within one eighth of 54 (it is 6.5 below, one eighth being 6.75), yet the
truncated quotient 47 is below 48 and stop_cycles is raised by 2^32. With 6080 counts the
ratio 60.8 is more than one eighth above 54, yet the truncated quotient 60 is not above 60
and stop_cycles is left as it is. -/
theorem C33_counterexample :
    has_32bit_counts (calibStart (calibBlock 0 0 4750 100)) = true ∧
    likely_riscv (calibBlock 0 0 4750 100) = false ∧
    (calibStart (calibBlock 0 0 4750 100)).delta_usec = 100 ∧
    8 * (54 * 100 - 4750) < 54 * 100 ∧
    (calibFixups (calibBlock 0 0 4750 100)).stop_counts = 2 ^ 32 + 4750 ∧
    has_32bit_counts (calibStart (calibBlock 0 0 6080 100)) = true ∧
    likely_riscv (calibBlock 0 0 6080 100) = false ∧
    (calibStart (calibBlock 0 0 6080 100)).delta_usec = 100 ∧
    54 * 100 < 8 * (6080 - 54 * 100) ∧
    (calibFixups (calibBlock 0 0 6080 100)).stop_counts = 6080 := by
  decide

/-! ## The sign of the slope -/

theorem log2Fuel_spec (fuel : Nat) :
    ∀ n, 1 ≤ n → n ≤ fuel → 2 ^ log2Fuel fuel n ≤ n ∧ n < 2 ^ (log2Fuel fuel n + 1) := by
  induction fuel with
  | zero =>
    intro n h1 h2
    omega
  | succ f ih =>
    intro n h1 h2
    unfold log2Fuel
    by_cases h : 2 ≤ n
    · rw [if_pos h]
      obtain ⟨a, b⟩ := ih (n / 2) (by omega) (by omega)
      rw [pow_succ] at b
      rw [pow_succ, pow_succ]
      constructor <;> omega
    · rw [if_neg h]
      constructor <;> norm_num <;> omega

theorem roundHalfEven_ge (num den : Nat) : num / den ≤ roundHalfEven num den := by
  unfold roundHalfEven
  dsimp only
  split
  · exact Nat.le_refl _
  · split
    · omega
    · split <;> omega

theorem pow_lt_of_lt_log (a la : Nat) (h : 2 ^ la ≤ a) (d ld : Nat) (hd : d < 2 ^ (ld + 1))
    (t : Nat) (ht : ld + 1 ≤ la + t) : d ≤ a * 2 ^ t := by
  have h1 : 2 ^ (ld + 1) ≤ 2 ^ (la + t) := Nat.pow_le_pow_right (by norm_num) ht
  have h2 : 2 ^ (la + t) = 2 ^ la * 2 ^ t := pow_add 2 la t
  have h3 : 2 ^ la * 2 ^ t ≤ a * 2 ^ t := Nat.mul_le_mul_right _ h
  omega

theorem mul_pow_le_of_log (a la : Nat) (h : 2 ^ la ≤ a) (d ld : Nat) (hd : d < 2 ^ (ld + 1))
    (t : Nat) (ht : ld + 1 + t ≤ la) : d * 2 ^ t ≤ a := by
  have h1 : 2 ^ (ld + 1 + t) ≤ 2 ^ la := Nat.pow_le_pow_right (by norm_num) ht
  have h2 : 2 ^ (ld + 1 + t) = 2 ^ (ld + 1) * 2 ^ t := pow_add 2 (ld + 1) t
  have h3 : d * 2 ^ t ≤ 2 ^ (ld + 1) * 2 ^ t := Nat.mul_le_mul_right _ (Nat.le_of_lt hd)
  omega

/-- The rounded quotient of two positive numbers has a positive mantissa. -/
theorem Dbl.round_m_pos (n : Int) (d : Nat) (hn : 0 < n) (hd : 0 < d) :
    0 < (Dbl.round n d).m := by
  have ha : 1 ≤ n.natAbs := by omega
  obtain ⟨a1, a2⟩ := log2Fuel_spec n.natAbs n.natAbs ha (Nat.le_refl _)
  obtain ⟨d1, d2⟩ := log2Fuel_spec d d hd (Nat.le_refl _)
  unfold Dbl.round
  rw [if_neg (by omega)]
  dsimp only
  rw [if_neg (by omega)]
  generalize log2Fuel n.natAbs n.natAbs = la at *
  generalize log2Fuel d d = ld at *
  generalize hge : (if 0 ≤ (la : Int) - (ld : Int)
      then decide (d * 2 ^ ((la : Int) - (ld : Int)).toNat ≤ n.natAbs)
      else decide (d ≤ n.natAbs * 2 ^ (-((la : Int) - (ld : Int))).toNat)) = ge
  generalize hk : (if ge = true then (la : Int) - (ld : Int)
      else (la : Int) - (ld : Int) - 1) = k
  have hkle : k ≤ (la : Int) - (ld : Int) := by
    rw [← hk]
    split <;> omega
  have hq : 1 ≤ (if k - 52 < 0 then n.natAbs * 2 ^ (-(k - 52)).toNat else n.natAbs) /
      (if k - 52 < 0 then d else d * 2 ^ (k - 52).toNat) := by
    by_cases he : k - 52 < 0
    · rw [if_pos he, if_pos he]
      apply (Nat.one_le_div_iff hd).mpr
      exact pow_lt_of_lt_log _ la a1 d ld d2 _ (by omega)
    · rw [if_neg he, if_neg he]
      apply (Nat.one_le_div_iff (by positivity)).mpr
      exact mul_pow_le_of_log _ la a1 d ld d2 _ (by omega)
  have hm := roundHalfEven_ge
    (if k - 52 < 0 then n.natAbs * 2 ^ (-(k - 52)).toNat else n.natAbs)
    (if k - 52 < 0 then d else d * 2 ^ (k - 52).toNat)
  omega

theorem Dbl.round_m_nonpos (n : Int) (d : Nat) (hn : n ≤ 0) : (Dbl.round n d).m ≤ 0 := by
  unfold Dbl.round
  by_cases h0 : n = 0
  · rw [if_pos h0]
  · rw [if_neg h0]
    dsimp only
    rw [if_pos (by omega)]
    omega

theorem Dbl.round_zero (d : Nat) : Dbl.round 0 d = ⟨0, 0⟩ := by
  unfold Dbl.round
  rw [if_pos rfl]

theorem Dbl.div_m_pos (x y : Dbl) (hx : 0 < x.m) (hy : 0 < y.m) : 0 < (Dbl.div x y).m := by
  unfold Dbl.div
  dsimp only
  have hn : (if y.m < 0 then -x.m else x.m) = x.m := if_neg (by omega)
  rw [hn]
  split
  · exact Dbl.round_m_pos _ _ (by positivity) (by omega)
  · exact Dbl.round_m_pos _ _ hx (by
      have : 0 < y.m.natAbs := by omega
      positivity)

theorem Dbl.div_m_nonpos (x y : Dbl) (hx : x.m ≤ 0) (hy : 0 ≤ y.m) : (Dbl.div x y).m ≤ 0 := by
  unfold Dbl.div
  dsimp only
  have hn : (if y.m < 0 then -x.m else x.m) = x.m := if_neg (by omega)
  rw [hn]
  split
  · apply Dbl.round_m_nonpos
    have : (0 : Int) ≤ 2 ^ (x.e - y.e).toNat := by positivity
    exact Int.mul_nonpos_of_nonpos_of_nonneg hx this
  · exact Dbl.round_m_nonpos _ _ hx

theorem Dbl.div_m_zero (x y : Dbl) (hx : x.m = 0) : (Dbl.div x y).m = 0 := by
  unfold Dbl.div
  dsimp only
  rw [hx]
  simp only [neg_zero, ite_self, zero_mul]
  split <;> rw [Dbl.round_zero]

theorem Dbl.lt_of_nonpos (x y : Dbl) (hx : x.m ≤ 0) (hy : 0 < y.m) : Dbl.lt x y = true := by
  unfold Dbl.lt
  split
  · rw [decide_eq_true_eq]
    have : (0 : Int) ≤ 2 ^ (x.e - y.e).toNat := by positivity
    have := Int.mul_nonpos_of_nonpos_of_nonneg hx this
    omega
  · rw [decide_eq_true_eq]
    have : (0 : Int) < 2 ^ (y.e - x.e).toNat := by positivity
    have := Int.mul_pos hy this
    omega

theorem Dbl.ofInt_m_pos (x : Int) (h : 0 < x) : 0 < (Dbl.ofInt x).m :=
  Dbl.round_m_pos x 1 h (by norm_num)

theorem Dbl.ofInt_m_nonpos (x : Int) (h : x ≤ 0) : (Dbl.ofInt x).m ≤ 0 :=
  Dbl.round_m_nonpos x 1 h

theorem calibFixups_stop_lt (traceblock : Nat → Nat) :
    (calibFixups traceblock).stop_counts < 2 ^ 64 := by
  have h0 : (calibStart traceblock).stop_counts < 2 ^ 64 := Nat.mod_lt _ (by norm_num)
  have hr : ∀ c : Calib, c.stop_counts < 2 ^ 64 → (riscvFixup c).stop_counts < 2 ^ 64 := by
    intro c hc
    unfold riscvFixup
    split
    · have := and_low32_lt c.stop_counts
      dsimp only
      omega
    · exact hc
  have ha : ∀ c : Calib, c.stop_counts < 2 ^ 64 → (arm32Fixup c).stop_counts < 2 ^ 64 := by
    intro c hc
    unfold arm32Fixup
    dsimp only
    have hor : c.stop_counts ||| (u64 (c.delta_usec * mhz_32bit_counts) &&&
        0xffffffff00000000) < 2 ^ 64 := by
      apply Nat.or_lt_two_pow hc
      have h1 : u64 (c.delta_usec * mhz_32bit_counts) < 2 ^ 64 := Nat.mod_lt _ (by norm_num)
      exact Nat.lt_of_le_of_lt Nat.and_le_left h1
    split
    · exact Nat.mod_lt _ (by norm_num)
    · split
      · exact Nat.mod_lt _ (by norm_num)
      · exact hor
  unfold calibFixups
  dsimp only
  have h1 : (if likely_riscv traceblock = true then riscvFixup (calibStart traceblock)
      else calibStart traceblock).stop_counts < 2 ^ 64 := by
    by_cases hc : likely_riscv traceblock = true
    · rw [if_pos hc]
      exact hr _ h0
    · rw [if_neg hc]
      exact h0
  by_cases hc2 : (has_32bit_counts (calibStart traceblock) && !likely_riscv traceblock) = true
  · rw [if_pos hc2]
    exact ha _ h1
  · rw [if_neg hc2]
    exact h1

theorem handle_very_first_block_some (traceblock : Nat → Nat)
    (params p : CyclesToUsecParams) (h : handle_very_first_block traceblock params = some p) :
    calibFail (calibFixups traceblock) = false ∧
    p.m_slope = (SetParams (calibFixups traceblock).start_counts
      (calibFixups traceblock).start_usec (calibFixups traceblock).stop_counts
      (calibFixups traceblock).stop_usec params).m_slope := by
  unfold handle_very_first_block at h
  dsimp only at h
  cases hf : calibFail (calibFixups traceblock)
  · rw [hf] at h
    simp only [Bool.false_eq_true, if_false, Option.some.injEq] at h
    rw [← h]
    exact ⟨rfl, rfl⟩
  · rw [hf] at h
    simp at h

theorem toInt64_delta_pos (traceblock : Nat → Nat) :
    0 < toInt64 (calibFixups traceblock).delta_usec := by
  obtain ⟨-, -, -, f4, -⟩ := calibFixups_frame traceblock
  obtain ⟨h1, h2⟩ := calibStart_delta_pos traceblock
  rw [f4, toInt64_of_lt _ h2]
  omega

/-- C39: whenever `handle_very_first_block` accepts block 0, stop_cycles is above start_cycles
after the fixups, so the divisor of the slope in `SetParams` is positive and its guard is not
used; the slope stored is the double quotient of stop_usec - start_usec (as `int64`) by it:
zero when stop_usec equals start_usec, positive when the difference is positive, and not
positive when the `int64` difference has wrapped to a negative value. -/
theorem C39_slope_sign (traceblock : Nat → Nat) (params p : CyclesToUsecParams)
    (h : handle_very_first_block traceblock params = some p) :
    toInt64 (calibFixups traceblock).start_counts <
      toInt64 (calibFixups traceblock).stop_counts ∧
    toInt64 (calibFixups traceblock).start_usec ≤
      toInt64 (calibFixups traceblock).stop_usec ∧
    0 < toInt64 (u64 ((calibFixups traceblock).stop_counts + 2 ^ 64 -
      (calibFixups traceblock).start_counts)) ∧
    0 < (Dbl.ofInt (toInt64 (u64 ((calibFixups traceblock).stop_counts + 2 ^ 64 -
      (calibFixups traceblock).start_counts)))).m ∧
    p.m_slope =
      Dbl.div
        (Dbl.ofInt (toInt64 (u64 ((calibFixups traceblock).stop_usec + 2 ^ 64 -
          (calibFixups traceblock).start_usec))))
        (Dbl.ofInt (toInt64 (u64 ((calibFixups traceblock).stop_counts + 2 ^ 64 -
          (calibFixups traceblock).start_counts)))) ∧
    ((calibFixups traceblock).stop_usec = (calibFixups traceblock).start_usec →
      p.m_slope.m = 0) ∧
    (0 < toInt64 (u64 ((calibFixups traceblock).stop_usec + 2 ^ 64 -
        (calibFixups traceblock).start_usec)) → 0 < p.m_slope.m) ∧
    (toInt64 (u64 ((calibFixups traceblock).stop_usec + 2 ^ 64 -
        (calibFixups traceblock).start_usec)) ≤ 0 → p.m_slope.m ≤ 0) ∧
    (toInt64 (calibFixups traceblock).start_usec < toInt64 (calibFixups traceblock).stop_usec →
      toInt64 (calibFixups traceblock).stop_usec -
        toInt64 (calibFixups traceblock).start_usec < 2 ^ 63 →
      0 < p.m_slope.m) := by
  obtain ⟨hf, hp⟩ := handle_very_first_block_some traceblock params p h
  obtain ⟨f1, f2, f3, f4, f5⟩ := calibFixups_frame traceblock
  have hstoplt := calibFixups_stop_lt traceblock
  have hdpos := toInt64_delta_pos traceblock
  have hnf : ¬ (Dbl.lt (calibFixups traceblock).counts_per_usec (Dbl.round 99 100) = true ∨
       Dbl.lt (Dbl.round 1001 10) (calibFixups traceblock).counts_per_usec = true ∨
       toInt64 (calibFixups traceblock).start_counts >
         toInt64 (calibFixups traceblock).stop_counts ∨
       toInt64 (calibFixups traceblock).start_usec >
         toInt64 (calibFixups traceblock).stop_usec ∨
       usec_per_100_years ≤ (calibFixups traceblock).start_counts ∨
       usec_per_100_years ≤ (calibFixups traceblock).stop_counts) := by
    rw [← calibFail_iff, hf]
    simp
  have hdc : 0 < toInt64 (u64 ((calibFixups traceblock).stop_counts + 2 ^ 64 -
      (calibFixups traceblock).start_counts)) := by
    by_contra hc
    apply hnf
    left
    rw [f5]
    unfold countsPerUsec
    exact Dbl.lt_of_nonpos _ _
      (Dbl.div_m_nonpos _ _ (Dbl.ofInt_m_nonpos _ (by omega))
        (Int.le_of_lt (Dbl.ofInt_m_pos _ hdpos)))
      (by decide)
  have hle : toInt64 (calibFixups traceblock).start_counts ≤
      toInt64 (calibFixups traceblock).stop_counts := by
    by_contra hc
    exact hnf (Or.inr (Or.inr (Or.inl (by omega))))
  have hule : toInt64 (calibFixups traceblock).start_usec ≤
      toInt64 (calibFixups traceblock).stop_usec := by
    by_contra hc
    exact hnf (Or.inr (Or.inr (Or.inr (Or.inl (by omega)))))
  have hstartlt : (calibFixups traceblock).start_counts < 2 ^ 64 := by
    rw [f1]
    exact Nat.mod_lt _ (by norm_num)
  have hne : (calibFixups traceblock).start_counts ≠ (calibFixups traceblock).stop_counts := by
    intro e
    rw [e] at hdc
    have e0 : u64 ((calibFixups traceblock).stop_counts + 2 ^ 64 -
        (calibFixups traceblock).stop_counts) = 0 := by
      unfold u64
      have : (calibFixups traceblock).stop_counts + 2 ^ 64 -
          (calibFixups traceblock).stop_counts = 2 ^ 64 := by omega
      rw [this]
      norm_num
    rw [e0] at hdc
    exact absurd hdc (by decide)
  have hlt : toInt64 (calibFixups traceblock).start_counts <
      toInt64 (calibFixups traceblock).stop_counts := by
    have hne2 : toInt64 (calibFixups traceblock).start_counts ≠
        toInt64 (calibFixups traceblock).stop_counts := by
      intro e
      apply hne
      unfold toInt64 at e
      split at e <;> split at e <;> omega
    omega
  have hslope : p.m_slope =
      Dbl.div
        (Dbl.ofInt (toInt64 (u64 ((calibFixups traceblock).stop_usec + 2 ^ 64 -
          (calibFixups traceblock).start_usec))))
        (Dbl.ofInt (toInt64 (u64 ((calibFixups traceblock).stop_counts + 2 ^ 64 -
          (calibFixups traceblock).start_counts)))) := by
    rw [hp]
    unfold SetParams
    dsimp only
    rw [if_neg (by omega)]
  have hdcm := Dbl.ofInt_m_pos _ hdc
  have hpos : 0 < toInt64 (u64 ((calibFixups traceblock).stop_usec + 2 ^ 64 -
        (calibFixups traceblock).start_usec)) → 0 < p.m_slope.m := by
    intro hdu
    rw [hslope]
    exact Dbl.div_m_pos _ _ (Dbl.ofInt_m_pos _ hdu) hdcm
  refine ⟨hlt, hule, hdc, hdcm, hslope, ?_, hpos, ?_, ?_⟩
  · intro e
    rw [hslope, e]
    apply Dbl.div_m_zero
    have e0 : u64 ((calibFixups traceblock).start_usec + 2 ^ 64 -
        (calibFixups traceblock).start_usec) = 0 := by
      unfold u64
      have : (calibFixups traceblock).start_usec + 2 ^ 64 -
          (calibFixups traceblock).start_usec = 2 ^ 64 := by omega
      rw [this]
      norm_num
    rw [e0]
    decide
  · intro hdu
    rw [hslope]
    exact Dbl.div_m_nonpos _ _ (Dbl.ofInt_m_nonpos _ hdu) (Int.le_of_lt hdcm)
  · intro h1 h2
    apply hpos
    have a1 : (calibFixups traceblock).start_usec < 2 ^ 64 := by
      rw [f2]
      exact Nat.mod_lt _ (by norm_num)
    have a2 : (calibFixups traceblock).stop_usec < 2 ^ 64 := by
      rw [f3]
      exact Nat.mod_lt _ (by norm_num)
    generalize (calibFixups traceblock).start_usec = su at *
    generalize (calibFixups traceblock).stop_usec = eu at *
    unfold toInt64 u64 at *
    split at h1 <;> split at h1 <;> split <;> omega

theorem C39_slope_sign_witness :
    (∀ p, handle_very_first_block (minimalBlock 54000) zeroParams = some p →
      0 < p.m_slope.m) ∧
    (∃ p, handle_very_first_block (minimalBlock 54000) zeroParams = some p) :=
  ⟨fun p h => (C39_slope_sign (minimalBlock 54000) zeroParams p h).2.2.2.2.2.2.1 (by decide),
   ⟨{ base_cycles := 0, base_usec := 0, base_cycles10 := 0, base_nsec10 := 0,
      m_slope := ⟨5337599558365032, -58⟩, m_slope_nsec10 := ⟨8339999309945362, -52⟩ },
    by decide⟩⟩

/-- A first block with start_usec = stop_usec = 0 and 54 counts between start and stop is
accepted (the ratio is taken against max(0, 1) = 1 microsecond), and the slope stored is
zero: `UsecToCycles` then divides by zero and every time converts to 0. -/
theorem C39_counterexample :
    (calibFixups (calibBlock 0 0 54 0)).counts_per_usec = Dbl.ofInt 54 ∧
    handle_very_first_block (calibBlock 0 0 54 0) zeroParams =
      some { base_cycles := 0, base_usec := 0, base_cycles10 := 0x8000000000000000,
             base_nsec10 := 0, m_slope := ⟨0, 0⟩, m_slope_nsec10 := ⟨0, 0⟩ } ∧
    CyclesToNsec10 54000
      { base_cycles := 0, base_usec := 0, base_cycles10 := 0x8000000000000000,
        base_nsec10 := 0, m_slope := ⟨0, 0⟩, m_slope_nsec10 := ⟨0, 0⟩ } = 0 := by
  decide

/-! ## Bottom halves -/

theorem is_bottom_half_iff (n : Nat) (h : n < 2 ^ 64) :
    is_bottom_half n = true ↔ (n = 0x5FF ∨ n = 0x7FF) := by
  unfold is_bottom_half
  rw [decide_eq_true_eq, and_not0200 n h]
  have e : KUTRACE_IRQ + KUTRACE_BOTTOM_HALF = 1535 := by decide
  rw [e]
  omega

/-- C31: `is_bottom_half` holds for the codes 0x5FF and 0x7FF and for no other 12-bit code.
Outside keep-just-names mode the call 0x5FF with argument `a` is written with the name found
for it followed by ":" and `soft_irq_name[a & 0xF]`; the return 0x7FF is written with arg 0,
retval `a`, and the name found for it followed by ":hi" whatever `a` is, its argument having
been moved to retval and zeroed (lines 1359-1362) before line 1368 reads `arg & 0x000f`. -/
theorem C31_bottom_half (E : Env) (i : Nat) (s : State) (f : Fields)
    (hf : decodeFields (E.traceblock i) = f)
    (hK : E.K.Sane) (hk : E.keep_just_names = false) (hw : liveWord (E.traceblock i))
    (hb : is_bottom_half f.n = true) :
    (f.n = 0x5FF ∨ f.n = 0x7FF) ∧
    (∀ n, n < 4096 → (is_bottom_half n = true ↔ (n = 0x5FF ∨ n = 0x7FF))) ∧
    soft_irq_name =
      [lit "hi", lit "timer", lit "tx", lit "rx", lit "block", lit "irq_p", lit "taskl",
       lit "sched", lit "hrtim", lit "rcu", lit "", lit "", lit "", lit "", lit "",
       lit "ast"] ∧
    (∃ dur arg retval,
      (processEntry E i s).1.out =
        s.out ++ OutputEvent (entryNsec10 E f s) dur f.n E.current_cpu
          (s.current_pid E.current_cpu) (s.current_rpc E.current_cpu)
          arg retval (E.ipcblock i) (finalLocals E i s).name ∧
      (f.n = 0x5FF → arg = f.arg) ∧ (f.n = 0x7FF → arg = 0 ∧ retval = f.arg)) ∧
    (f.n = 0x5FF →
      (finalLocals E i s).name =
        namesAt s.names 0x5FF ++ lit ":" ++ soft_irq_name.getD (f.arg &&& 0x000f) []) ∧
    (f.n = 0x7FF →
      (finalLocals E i s).name =
        (match s.names 0x5FF with
         | some nm => lit "/" ++ nm
         | none => []) ++ lit ":hi") := by
  have hnlt : f.n < 4096 := by rw [← hf]; exact decodeFields_n_lt _
  have hcases := (is_bottom_half_iff f.n (by omega)).1 hb
  have hge : 0x400 ≤ f.n := by omega
  obtain ⟨c1, c2, c3, c4, c5, c6, c7, c8, c9, c10, c11, c12, c13⟩ :=
    class_ge_trap E.K hK _ hge
  obtain ⟨q1, -, -, -, -⟩ := processEntry_form E i s f hf hk hw c1 c4
  have hfin := finalLocals_trap E i s f hf hK hge
  have hrpc := (entryStart_rpc_of_not E f s c3).1
  have hout : (processEntry E i s).1.out =
      s.out ++ OutputEvent (finalLocals E i s).nsec10 (finalLocals E i s).duration
        (finalLocals E i s).event E.current_cpu (s.current_pid E.current_cpu)
        (s.current_rpc E.current_cpu) (finalLocals E i s).arg (finalLocals E i s).retval
        (finalLocals E i s).ipc (finalLocals E i s).name := by
    rw [q1, pcFreqLines_of_not _ _ _ _ c5, hrpc, cpuDescLines_of_not _ _ _ c2]
    simp only [c12, Bool.false_eq_true, if_false, List.append_nil]
  have hnsec : (finalLocals E i s).nsec10 = entryNsec10 E f s := by rw [hfin]
  have hevent : (finalLocals E i s).event = f.n := by rw [hfin]
  have hipc : (finalLocals E i s).ipc = E.ipcblock i := by rw [hfin]
  have harg : (finalLocals E i s).arg = if is_return f.n then 0 else f.arg := by rw [hfin]
  have hret : is_return f.n = true → (finalLocals E i s).retval = f.arg := by
    intro hr
    rw [hfin]
    simp only [hr, if_true]
  have hr5 : f.n = 0x5FF → is_return f.n = false := by
    intro e
    rw [e]
    decide
  have hr7 : f.n = 0x7FF → is_return f.n = true := by
    intro e
    rw [e]
    decide
  refine ⟨hcases, fun n hn => is_bottom_half_iff n (by omega), rfl, ?_, ?_, ?_⟩
  · refine ⟨(finalLocals E i s).duration, (finalLocals E i s).arg,
      (finalLocals E i s).retval, ?_, ?_, ?_⟩
    · rw [hout, hnsec, hevent, hipc]
    · intro e
      rw [harg, hr5 e]
      simp
    · intro e
      refine ⟨?_, hret (hr7 e)⟩
      rw [harg, hr7 e]
      simp
  · intro e
    have hu : is_usermode f.n = false := by
      rw [e]
      decide
    rw [hfin]
    simp only [hb, hr5 e, if_true, Bool.false_eq_true, if_false,
      lookupName_plain f.n f.arg s.names (hr5 e) c12 hu]
    rw [if_neg (fun h => by
      have h1 := h.1
      simp [lit] at h1)]
    rw [e, List.append_assoc]
  · intro e
    have hsoft : lit ":" ++ soft_irq_name.getD (0 &&& 0x000f) [] = lit ":hi" := by decide
    have hcall : f.n &&& not0200 = 0x5FF := by
      rw [e]
      decide
    rw [hfin]
    simp only [hb, hr7 e, if_true, hsoft, lookupName_return f.n f.arg s.names (hr7 e), hcall]
    rw [if_neg (fun h => by
      have h1 := h.1
      simp [lit] at h1)]

theorem C31_bottom_half_witness :
    (finalLocals (sampleEnv 0x123507FF00000001) 12 (initialState ⟨0x300000, 0x12345⟩)).name
      = lit ":hi" ∧
    soft_irq_name.getD (1 &&& 0x000f) [] = lit "timer" ∧
    (finalLocals (sampleEnv 0x123505FF00000001) 12 (initialState ⟨0x300000, 0x12345⟩)).name
      = lit ":timer" :=
  ⟨(C31_bottom_half (sampleEnv 0x123507FF00000001) 12 (initialState ⟨0x300000, 0x12345⟩) _
      rfl (by decide) rfl (by decide) (by decide)).2.2.2.2.2 (by decide),
   by decide, by decide⟩

/-! ## The scheduler pseudo system call -/

/-- C32: outside keep-just-names mode the codes 0x9FF and 0xDFF are written with the name
the table holds for them, and with "-sched-" when it holds none (or the empty name); the
returns 0xBFF and 0xFFF are written with "/" followed by the name the table holds for the
call 0x9FF or 0xDFF, and with "-sched-" after a slash when it holds none. -/
theorem C32_sched_names (E : Env) (i : Nat) (s : State) (f : Fields)
    (hf : decodeFields (E.traceblock i) = f)
    (hK : E.K.Sane) (hk : E.keep_just_names = false) (hw : liveWord (E.traceblock i))
    (he : f.n = 0x9FF ∨ f.n = 0xDFF ∨ f.n = 0xBFF ∨ f.n = 0xFFF) :
    (∃ dur arg retval,
      (processEntry E i s).1.out =
        s.out ++ OutputEvent (entryNsec10 E f s) dur f.n E.current_cpu
          (s.current_pid E.current_cpu) (s.current_rpc E.current_cpu)
          arg retval (E.ipcblock i) (finalLocals E i s).name) ∧
    ((f.n = 0x9FF ∨ f.n = 0xDFF) →
      (s.names f.n = none → (finalLocals E i s).name = lit "-sched-") ∧
      (s.names f.n = some [] → (finalLocals E i s).name = lit "-sched-") ∧
      (∀ nm, nm ≠ [] → s.names f.n = some nm → (finalLocals E i s).name = nm)) ∧
    ((f.n = 0xBFF ∨ f.n = 0xFFF) →
      (f.n &&& not0200 = f.n - 0x200) ∧
      (s.names (f.n - 0x200) = none → (finalLocals E i s).name = lit "/-sched-") ∧
      (∀ nm, s.names (f.n - 0x200) = some nm →
        (finalLocals E i s).name = lit "/" ++ nm)) := by
  have hge : 0x400 ≤ f.n := by omega
  obtain ⟨c1, c2, c3, c4, c5, c6, c7, c8, c9, c10, c11, c12, c13⟩ :=
    class_ge_trap E.K hK _ hge
  obtain ⟨q1, -, -, -, -⟩ := processEntry_form E i s f hf hk hw c1 c4
  have hfin := finalLocals_trap E i s f hf hK hge
  have hrpc := (entryStart_rpc_of_not E f s c3).1
  have hbh : is_bottom_half f.n = false := by
    rcases he with e | e | e | e <;> rw [e] <;> decide
  have hle : f.n ≤ 0xFFF := by omega
  simp only [hbh, Bool.false_eq_true, if_false, List.append_nil] at hfin
  refine ⟨⟨(finalLocals E i s).duration, (finalLocals E i s).arg,
    (finalLocals E i s).retval, ?_⟩, ?_, ?_⟩
  · rw [q1, pcFreqLines_of_not _ _ _ _ c5, hrpc, cpuDescLines_of_not _ _ _ c2]
    simp only [c12, Bool.false_eq_true, if_false, List.append_nil]
    rw [hfin]
  · intro e
    have hr : is_return f.n = false := by
      rcases e with e | e <;> rw [e] <;> decide
    have hu : is_usermode f.n = false := by
      rcases e with e | e <;> rw [e] <;> decide
    have hm : missingName f.n = lit "-sched-" := by
      rcases e with e | e <;> rw [e] <;> decide
    rw [hfin]
    dsimp only
    rw [lookupName_plain f.n f.arg s.names hr c12 hu]
    refine ⟨?_, ?_, ?_⟩
    · intro h0
      have : namesAt s.names f.n = [] := by simp [namesAt, h0]
      rw [this, if_pos ⟨rfl, hle⟩, hm]
    · intro h0
      have : namesAt s.names f.n = [] := by simp [namesAt, h0]
      rw [this, if_pos ⟨rfl, hle⟩, hm]
    · intro nm hne h0
      have : namesAt s.names f.n = nm := by simp [namesAt, h0]
      rw [this, if_neg (fun h => hne h.1)]
  · intro e
    have hr : is_return f.n = true := by
      rcases e with e | e <;> rw [e] <;> decide
    have hm : missingName f.n = lit "/-sched-" := by
      rcases e with e | e <;> rw [e] <;> decide
    have hcall : f.n &&& not0200 = f.n - 0x200 := by
      rcases e with e | e <;> rw [e] <;> decide
    rw [hfin]
    dsimp only
    rw [lookupName_return f.n f.arg s.names hr, hcall]
    refine ⟨rfl, ?_, ?_⟩
    · intro h0
      rw [h0]
      dsimp only
      rw [if_pos ⟨rfl, hle⟩, hm]
    · intro nm h0
      rw [h0]
      dsimp only
      rw [if_neg (fun h => by
        have h1 := h.1
        simp [lit] at h1)]

theorem C32_sched_names_witness :
    (finalLocals (sampleEnv 0x123509FF00000000) 12 (initialState ⟨0x300000, 0x12345⟩)).name
      = lit "-sched-" ∧
    (finalLocals (sampleEnv 0x12350FFF00000000) 12 (initialState ⟨0x300000, 0x12345⟩)).name
      = lit "/-sched-" :=
  ⟨((C32_sched_names (sampleEnv 0x123509FF00000000) 12 (initialState ⟨0x300000, 0x12345⟩) _
      rfl (by decide) rfl (by decide) (by decide)).2.1 (by decide)).1 (by decide),
   ((C32_sched_names (sampleEnv 0x12350FFF00000000) 12 (initialState ⟨0x300000, 0x12345⟩) _
      rfl (by decide) rfl (by decide) (by decide)).2.2 (by decide)).2.1 (by decide)⟩

/-- A block that defines the name "futex" for the 64-bit system call 0x1FF (key 0x9FF) and
then holds the events 0x9FF and 0xBFF: they are written as "futex" and "/futex". -/
theorem C32_counterexample :
    (innerLoop (nameEnv 0x12350028000001FF 0x0000007865747566 0x123609FF00000000) 3 12
      (initialState ⟨0x300000, 0x12345⟩)).out =
      [Line.name 0x312350 1 0x028 0x1FF (lit "futex"),
       Line.name (-1) 1 0x028 0x1FF (lit "futex"),
       Line.event 0x312360 0 0x9FF 3 0 0 0 0 0 (lit "futex")] ∧
    (innerLoop (nameEnv 0x12350028000001FF 0x0000007865747566 0x12360BFF00000000) 3 12
      (initialState ⟨0x300000, 0x12345⟩)).out =
      [Line.name 0x312350 1 0x028 0x1FF (lit "futex"),
       Line.name (-1) 1 0x028 0x1FF (lit "futex"),
       Line.event 0x312360 0 0xBFF 3 0 0 0 0 0 (lit "/futex")] := by
  decide

/-! ## The block preamble in closed form -/

theorem preamble_eq (C : Nat → Nat) (traceblock : Nat → Nat)
    (first_real_entry cpu base_cycle : Nat) (kj : Bool) (a : Nat → Bool) (s : State) :
    preamble C traceblock first_real_entry cpu base_cycle kj a s =
      ({ s with
          idle_pids := (FixupIdlePid
            (RemapHighPid (traceblock first_real_entry &&& 0x00000000ffffffff))
            (wordBytes (traceblock (first_real_entry + 2)) ++
              wordBytes (traceblock (first_real_entry + 3)) ++ [0]) s.idle_pids).2.2,
          names := upd s.names (PidToEvent (preamblePid traceblock first_real_entry s.idle_pids))
            (some (preambleName traceblock first_real_entry s.idle_pids)),
          out := s.out ++ OutputName (u64 (C base_cycle)) KUTRACE_PIDNAME
              (preamblePid traceblock first_real_entry s.idle_pids)
              (preambleName traceblock first_real_entry s.idle_pids) ++
            (if kj = false ∧ a cpu = true
             then preambleEvents C traceblock first_real_entry cpu base_cycle s.idle_pids
             else []),
          unique_pids := s.unique_pids.insert
            (preamblePid traceblock first_real_entry s.idle_pids),
          ctx_switches :=
            if s.current_pid cpu ≠ preamblePid traceblock first_real_entry s.idle_pids
            then u64 (s.ctx_switches + 1) else s.ctx_switches,
          current_pid := upd s.current_pid cpu
            (preamblePid traceblock first_real_entry s.idle_pids) },
       if kj = false ∧ a cpu = true then upd a cpu false else a) := by
  unfold preamble preambleEvents preamblePid preambleName
  dsimp only
  cases kj <;> cases hat : a cpu <;>
    by_cases hfr : 0 < traceblock first_real_entry >>> 32 <;>
    simp [hat, hfr]

/-! ## The first block of each CPU -/

theorem preamble_flags (C : Nat → Nat) (traceblock : Nat → Nat)
    (first_real_entry cpu base_cycle : Nat) (kj : Bool) (a : Nat → Bool) (s : State) :
    (preamble C traceblock first_real_entry cpu base_cycle kj a s).2 =
      if kj = false ∧ a cpu = true then upd a cpu false else a := by
  rw [preamble_eq]

theorem preamble_out (C : Nat → Nat) (traceblock : Nat → Nat)
    (first_real_entry cpu base_cycle : Nat) (kj : Bool) (a : Nat → Bool) (s : State) :
    (preamble C traceblock first_real_entry cpu base_cycle kj a s).1.out =
      s.out ++ OutputName (u64 (C base_cycle)) KUTRACE_PIDNAME
          (preamblePid traceblock first_real_entry s.idle_pids)
          (preambleName traceblock first_real_entry s.idle_pids) ++
        (if kj = false ∧ a cpu = true
         then preambleEvents C traceblock first_real_entry cpu base_cycle s.idle_pids
         else []) := by
  rw [preamble_eq]

/-- The flags `at_first_cpu_block` after the pass over a block. -/
theorem processBlock_flags (K : LibConsts) (calibrate : (Nat → Nat) → Option (Nat → Nat))
    (b : Block) (r r2 : RunState) (h : processBlock K calibrate b r = some r2) :
    r2.at_first_cpu_block =
      if headerFail b.traceblock = false ∧
          TracefileVersion (if r.blocknumber = 0 then (b.traceblock 1 >>> 56) % 256
            else r.first_flags) ≥ 3 ∧
          (HasWraparound (if r.blocknumber = 0 then (b.traceblock 1 >>> 56) % 256
            else r.first_flags) && decide (r.blocknumber = 0)) = false ∧
          r.at_first_cpu_block (b.traceblock 0 >>> 56) = true
      then upd r.at_first_cpu_block (b.traceblock 0 >>> 56) false
      else r.at_first_cpu_block := by
  unfold processBlock at h
  dsimp only at h
  split at h
  · cases h
  · rename_i C hC
    have hd : ∀ (x y : Nat), (if decide (r.blocknumber = 0) = true then x else y) =
        if r.blocknumber = 0 then x else y := by
      intro x y
      by_cases h0 : r.blocknumber = 0 <;> simp [h0]
    rw [hd] at h
    generalize (if r.blocknumber = 0 then (b.traceblock 1 >>> 56) % 256
      else r.first_flags) = ff at *
    cases hfail : headerFail b.traceblock
    · rw [hfail] at h
      simp only [Bool.false_eq_true, if_false, Option.some.injEq] at h
      rw [← h]
      dsimp only
      by_cases hv : TracefileVersion ff ≥ 3
      · rw [if_pos hv, preamble_flags]
        by_cases hc : (HasWraparound ff && decide (r.blocknumber = 0)) = false ∧
            r.at_first_cpu_block (b.traceblock 0 >>> 56) = true
        · rw [if_pos hc, if_pos ⟨rfl, hv, hc.1, hc.2⟩]
        · rw [if_neg hc, if_neg (fun hx => hc ⟨hx.2.2.1, hx.2.2.2⟩)]
      · rw [if_neg hv, if_neg (fun hx => hv hx.2.1)]
    · rw [hfail] at h
      simp only [if_true, Option.some.injEq] at h
      rw [← h, if_neg (fun hx => by simp at hx)]

theorem ite_upd_false_of_false (c : Prop) [Decidable c] (a : Nat → Bool) (k cpu : Nat)
    (h : a cpu = false) : (if c then upd a k false else a) cpu = false := by
  by_cases hc : c
  · rw [if_pos hc]
    simp only [upd]
    by_cases e : cpu = k
    · rw [if_pos e]
    · rw [if_neg e]
      exact h
  · rw [if_neg hc]
    exact h

theorem ite_upd_of_ne (c : Prop) [Decidable c] (a : Nat → Bool) (k cpu : Nat)
    (hne : cpu ≠ k) : (if c then upd a k false else a) cpu = a cpu := by
  by_cases hc : c
  · rw [if_pos hc]
    simp only [upd]
    rw [if_neg hne]
  · rw [if_neg hc]

theorem processBlock_flags_mono (K : LibConsts) (calibrate : (Nat → Nat) → Option (Nat → Nat))
    (b : Block) (r r2 : RunState) (h : processBlock K calibrate b r = some r2) (cpu : Nat)
    (hc : r.at_first_cpu_block cpu = false) : r2.at_first_cpu_block cpu = false := by
  rw [processBlock_flags K calibrate b r r2 h]
  exact ite_upd_false_of_false _ _ _ _ hc

/-- A flag `at_first_cpu_block` that is clear stays clear to the end of the run. -/
theorem runBlocks_flags_mono (K : LibConsts) (calibrate : (Nat → Nat) → Option (Nat → Nat))
    (maxblock : Nat) (bs : List Block) (cpu : Nat) :
    ∀ (r r2 : RunState), runBlocks K calibrate maxblock bs r = some r2 →
      r.at_first_cpu_block cpu = false → r2.at_first_cpu_block cpu = false := by
  induction bs with
  | nil =>
    intro r r2 h hc
    simp only [runBlocks] at h
    injection h with h
    rw [← h]
    exact hc
  | cons b bs ih =>
    intro r r2 h hc
    rw [runBlocks] at h
    split at h
    · injection h with h
      rw [← h]
      exact hc
    · split at h
      · cases h
      · rename_i r1 hb
        exact ih r1 r2 h (processBlock_flags_mono K calibrate b r r1 hb cpu hc)

/-- C35: `at_first_cpu_block[cpu]` is true for every cpu when the run starts. The pass over a
block clears the flag of the block's CPU exactly when the header passes the checks, the file
version is 3 or more (so that there is a preamble), the block is not decoded in
keep-just-names mode and the flag is still set; it changes no other flag, and a flag that is
clear stays clear to the end of the run. A preamble hands its context-switch event (and the
"-freq-" PSTATE event when `freq_mhz > 0`) to `OutputEvent` exactly when it clears the flag,
hence at most once per CPU per run. -/
theorem C35_first_cpu_block (K : LibConsts) (calibrate : (Nat → Nat) → Option (Nat → Nat))
    (b : Block) (r r2 : RunState) (h : processBlock K calibrate b r = some r2) :
    (∀ (c : Nat → Nat) (cpu : Nat), (initialRun c).at_first_cpu_block cpu = true) ∧
    r2.at_first_cpu_block =
      (if headerFail b.traceblock = false ∧
          TracefileVersion (if r.blocknumber = 0 then (b.traceblock 1 >>> 56) % 256
            else r.first_flags) ≥ 3 ∧
          (HasWraparound (if r.blocknumber = 0 then (b.traceblock 1 >>> 56) % 256
            else r.first_flags) && decide (r.blocknumber = 0)) = false ∧
          r.at_first_cpu_block (b.traceblock 0 >>> 56) = true
       then upd r.at_first_cpu_block (b.traceblock 0 >>> 56) false
       else r.at_first_cpu_block) ∧
    (∀ cpu, cpu ≠ b.traceblock 0 >>> 56 →
      r2.at_first_cpu_block cpu = r.at_first_cpu_block cpu) ∧
    (∀ cpu, r.at_first_cpu_block cpu = false → r2.at_first_cpu_block cpu = false) ∧
    (∀ maxblock bs r3 cpu, runBlocks K calibrate maxblock bs r2 = some r3 →
      r2.at_first_cpu_block cpu = false → r3.at_first_cpu_block cpu = false) ∧
    (∀ (C : Nat → Nat) (traceblock : Nat → Nat) (first_real_entry cpu base_cycle : Nat)
      (kj : Bool) (a : Nat → Bool) (s : State),
      (preamble C traceblock first_real_entry cpu base_cycle kj a s).1.out =
        s.out ++ OutputName (u64 (C base_cycle)) KUTRACE_PIDNAME
            (preamblePid traceblock first_real_entry s.idle_pids)
            (preambleName traceblock first_real_entry s.idle_pids) ++
          (if a cpu = true ∧
              (preamble C traceblock first_real_entry cpu base_cycle kj a s).2 cpu = false
           then preambleEvents C traceblock first_real_entry cpu base_cycle s.idle_pids
           else []) ∧
      ((a cpu = true ∧
          (preamble C traceblock first_real_entry cpu base_cycle kj a s).2 cpu = false) ↔
        (kj = false ∧ a cpu = true)) ∧
      (∀ cpu2, a cpu2 = false →
        (preamble C traceblock first_real_entry cpu base_cycle kj a s).2 cpu2 = false)) := by
  have hflags := processBlock_flags K calibrate b r r2 h
  refine ⟨fun _ _ => rfl, hflags, ?_, processBlock_flags_mono K calibrate b r r2 h, ?_, ?_⟩
  · intro cpu hne
    rw [hflags]
    exact ite_upd_of_ne _ _ _ _ hne
  · intro maxblock bs r3 cpu hrun hc
    exact runBlocks_flags_mono K calibrate maxblock bs cpu r2 r3 hrun hc
  · intro C traceblock first_real_entry cpu base_cycle kj a s
    have hiff : (a cpu = true ∧
          (preamble C traceblock first_real_entry cpu base_cycle kj a s).2 cpu = false) ↔
        (kj = false ∧ a cpu = true) := by
      rw [preamble_flags]
      constructor
      · intro hx
        obtain ⟨h1, h2⟩ := hx
        by_cases hc : kj = false ∧ a cpu = true
        · exact hc
        · rw [if_neg hc, h1] at h2
          cases h2
      · intro hx
        refine ⟨hx.2, ?_⟩
        rw [if_pos hx]
        simp [upd]
    refine ⟨?_, hiff, ?_⟩
    · rw [preamble_out]
      by_cases hc : kj = false ∧ a cpu = true
      · rw [if_pos hc, if_pos (hiff.2 hc)]
      · rw [if_neg hc, if_neg (fun hx => hc (hiff.1 hx))]
    · intro cpu2 hc2
      rw [preamble_flags]
      exact ite_upd_false_of_false _ _ _ _ hc2

theorem C35_first_cpu_block_witness :
    ∃ r2, processBlock sampleConsts (calibrateFrom zeroParams)
        ⟨minimalBlock 54000, fun _ => 0⟩ (initialRun id) = some r2 ∧
      r2.at_first_cpu_block 0 = false ∧ r2.at_first_cpu_block 1 = true := by
  obtain ⟨r2, hb, -, -, -⟩ := processBlock_first_v3 sampleConsts (calibrateFrom zeroParams)
    ⟨minimalBlock 54000, fun _ => 0⟩ (initialRun id) _ rfl
    (show headerFail (minimalBlock 54000) = false by decide) minimal_calibration
    (show TracefileVersion ((minimalBlock 54000 1 >>> 56) % 256) ≥ 3 by decide)
    (show HasWraparound ((minimalBlock 54000 1 >>> 56) % 256) = false by decide)
  have h := (C35_first_cpu_block sampleConsts (calibrateFrom zeroParams)
    ⟨minimalBlock 54000, fun _ => 0⟩ (initialRun id) r2 hb).2.1
  refine ⟨r2, hb, ?_, ?_⟩
  · rw [h]
    decide
  · rw [h]
    decide

theorem wrap_calibration :
    calibrateFrom zeroParams (wrapBlock 0) =
      some (fun cycles => CyclesToNsec10 cycles
        { base_cycles := 0, base_usec := 0, base_cycles10 := 0, base_nsec10 := 0,
          m_slope := ⟨5337599558365032, -58⟩, m_slope_nsec10 := ⟨8339999309945362, -52⟩ }) := by
  have h : handle_very_first_block (wrapBlock 0) zeroParams =
      some { base_cycles := 0, base_usec := 0, base_cycles10 := 0, base_nsec10 := 0,
             m_slope := ⟨5337599558365032, -58⟩,
             m_slope_nsec10 := ⟨8339999309945362, -52⟩ } := by decide
  unfold calibrateFrom
  rw [h]
  rfl

/-- The first block of a wraparound trace is decoded in keep-just-names mode: its preamble,
the first for CPU 0, is processed (it writes the two name lines for pid 7) and leaves
`at_first_cpu_block[0]` set. -/
theorem C35_counterexample :
    headerFail (wrapBlock 0) = false ∧
    TracefileVersion ((wrapBlock 0 1 >>> 56) % 256) = 3 ∧
    HasWraparound ((wrapBlock 0 1 >>> 56) % 256) = true ∧
    ∃ r2, processBlock sampleConsts (calibrateFrom zeroParams)
        ⟨wrapBlock 0, fun _ => 0⟩ (initialRun id) = some r2 ∧
      r2.at_first_cpu_block 0 = true ∧
      (preamble id (wrapBlock 0) 8 0 0 true (fun _ => true) (initialState ⟨0, 0⟩)).1.out =
        [Line.name 0 1 0x022 7 (lit "worker"), Line.name (-1) 1 0x022 7 (lit "worker")] := by
  refine ⟨by decide, by decide, by decide, ?_⟩
  have hb := processBlock_ok sampleConsts (calibrateFrom zeroParams)
    ⟨wrapBlock 0, fun _ => 0⟩ (initialRun id) _
    (show headerFail (wrapBlock 0) = false by decide)
    (show (if decide ((initialRun id).blocknumber = 0) = true
        then calibrateFrom zeroParams (wrapBlock 0)
        else some (initialRun id).CyclesToNsec10) = _ from wrap_calibration)
  refine ⟨_, hb, ?_, by decide⟩
  rw [processBlock_flags _ _ _ _ _ hb]
  decide

/-! ## Keep-just-names mode -/

theorem entryStart_stats (E : Env) (f : Fields) (s : State) :
    (entryStart E f s).1.lo_timestamp = s.lo_timestamp ∧
    (entryStart E f s).1.hi_timestamp = s.hi_timestamp ∧
    (entryStart E f s).1.ctx_switches = s.ctx_switches ∧
    (entryStart E f s).1.unique_pids = s.unique_pids ∧
    (entryStart E f s).1.event_count = s.event_count := by
  unfold entryStart
  by_cases hm : is_mark f.n = true <;> by_cases hr : has_rpcid E.K f.n = true <;>
  by_cases ha : f.arg = 0 <;> simp [hm, hr, ha]

theorem processNameDef_stats (E : Env) (i : Nat) (f : Fields) (nsec10 : Nat) (s : State) :
    (processNameDef E i f nsec10 s).1.lo_timestamp = s.lo_timestamp ∧
    (processNameDef E i f nsec10 s).1.hi_timestamp = s.hi_timestamp ∧
    (processNameDef E i f nsec10 s).1.ctx_switches = s.ctx_switches ∧
    (processNameDef E i f nsec10 s).1.unique_pids = s.unique_pids ∧
    (processNameDef E i f nsec10 s).1.event_count = s.event_count := by
  by_cases hlen : ((f.n >>> 4) &&& 0x00f < 1 ∨ 8 < (f.n >>> 4) &&& 0x00f)
  · have e : processNameDef E i f nsec10 s = (s, Ctl.next i) := by
      simp only [processNameDef, if_pos hlen]
    rw [e]
    exact ⟨rfl, rfl, rfl, rfl, rfl⟩
  · cases htp : is_timepair E.K f.n
    · rw [processNameDef_eq E i f nsec10 s hlen htp]
      exact ⟨rfl, rfl, rfl, rfl, rfl⟩
    · have e : processNameDef E i f nsec10 s =
          (s, Ctl.next (i + (((f.n >>> 4) &&& 0x00f) - 1))) := by
        simp only [processNameDef, if_neg hlen, htp, Bool.not_true, Bool.false_eq_true,
          if_false]
      rw [e]
      exact ⟨rfl, rfl, rfl, rfl, rfl⟩

theorem processEntry_tsdelta_stats (E : Env) (i : Nat) (s : State)
    (hw : liveWord (E.traceblock i))
    (ht : (decodeFields (E.traceblock i)).n = E.K.KUTRACE_TSDELTA) :
    (processEntry E i s).1.out = s.out ∧
    (processEntry E i s).1.lo_timestamp = s.lo_timestamp ∧
    (processEntry E i s).1.hi_timestamp = s.hi_timestamp ∧
    (processEntry E i s).1.ctx_switches = s.ctx_switches ∧
    (processEntry E i s).1.unique_pids = s.unique_pids ∧
    (processEntry E i s).1.event_count = s.event_count := by
  obtain ⟨h0, h1, h2⟩ := hw
  simp only [processEntry, if_neg h0, if_neg h1, if_neg h2, if_pos ht]
  split_ifs <;> exact ⟨rfl, rfl, rfl, rfl, rfl, rfl⟩

/-- One entry in keep-just-names mode: it writes name lines, or the line of a CPU
description, and leaves the time bounds and the context-switch statistics alone. -/
theorem processEntry_kj (E : Env) (i : Nat) (s : State) (hk : E.keep_just_names = true) :
    (∃ lines, (processEntry E i s).1.out = s.out ++ lines ∧
      ∀ l ∈ lines,
        (∃ ts dur ev a name, l = Line.name ts dur ev a name) ∨
        (∃ nsec10 ev argall, is_cpu_description E.K ev = true ∧
          l = Line.event nsec10 1 ev E.current_cpu 0 0 argall 0 0 [])) ∧
    (processEntry E i s).1.lo_timestamp = s.lo_timestamp ∧
    (processEntry E i s).1.hi_timestamp = s.hi_timestamp ∧
    (processEntry E i s).1.ctx_switches = s.ctx_switches ∧
    (processEntry E i s).1.unique_pids = s.unique_pids ∧
    (processEntry E i s).1.event_count = s.event_count := by
  by_cases hw : liveWord (E.traceblock i)
  · by_cases ht : (decodeFields (E.traceblock i)).n = E.K.KUTRACE_TSDELTA
    · obtain ⟨t1, t2, t3, t4, t5, t6⟩ := processEntry_tsdelta_stats E i s hw ht
      exact ⟨⟨[], by rw [t1, List.append_nil], by simp⟩, t2, t3, t4, t5, t6⟩
    · obtain ⟨e1, e2, e3, e4, e5⟩ := entryStart_stats E (decodeFields (E.traceblock i)) s
      have eo := (entryStart_frame E (decodeFields (E.traceblock i)) s).1
      cases hn : is_namedef E.K (decodeFields (E.traceblock i)).n
      · rw [processEntry_names_only E i s hk hw ht hn]
        refine ⟨⟨cpuDescLines E (decodeFields (E.traceblock i))
          (entryNsec10 E (decodeFields (E.traceblock i)) s), by rw [eo], ?_⟩,
          e1, e2, e3, e4, e5⟩
        intro l hl
        right
        unfold cpuDescLines at hl
        by_cases hc : is_cpu_description E.K (decodeFields (E.traceblock i)).n = true
        · rw [if_pos hc] at hl
          exact ⟨_, _, _, hc, OutputEvent_mem _ _ _ _ _ _ _ _ _ _ l hl⟩
        · rw [if_neg hc] at hl
          cases hl
      · rw [processEntry_namedef E i s hw ht hn]
        obtain ⟨lines, ho, hl⟩ := processNameDef_out E i (decodeFields (E.traceblock i))
          (entryNsec10 E (decodeFields (E.traceblock i)) s)
          (entryStart E (decodeFields (E.traceblock i)) s).1
        obtain ⟨n1, n2, n3, n4, n5⟩ := processNameDef_stats E i
          (decodeFields (E.traceblock i))
          (entryNsec10 E (decodeFields (E.traceblock i)) s)
          (entryStart E (decodeFields (E.traceblock i)) s).1
        refine ⟨⟨lines, by rw [ho, eo], fun l h => Or.inl (hl l h)⟩, ?_, ?_, ?_, ?_, ?_⟩
        · rw [n1, e1]
        · rw [n2, e2]
        · rw [n3, e3]
        · rw [n4, e4]
        · rw [n5, e5]
  · rw [processEntry_dead E i s hw]
    exact ⟨⟨[], by rw [List.append_nil], by simp⟩, rfl, rfl, rfl, rfl, rfl⟩

/-- The inner loop in keep-just-names mode. -/
theorem innerLoop_kj (E : Env) (hk : E.keep_just_names = true) (fuel : Nat) :
    ∀ (i : Nat) (s : State),
      (∃ lines, (innerLoop E fuel i s).out = s.out ++ lines ∧
        ∀ l ∈ lines,
          (∃ ts dur ev a name, l = Line.name ts dur ev a name) ∨
          (∃ nsec10 ev argall, is_cpu_description E.K ev = true ∧
            l = Line.event nsec10 1 ev E.current_cpu 0 0 argall 0 0 [])) ∧
      (innerLoop E fuel i s).lo_timestamp = s.lo_timestamp ∧
      (innerLoop E fuel i s).hi_timestamp = s.hi_timestamp ∧
      (innerLoop E fuel i s).ctx_switches = s.ctx_switches ∧
      (innerLoop E fuel i s).unique_pids = s.unique_pids ∧
      (innerLoop E fuel i s).event_count = s.event_count := by
  induction fuel with
  | zero =>
    intro i s
    exact ⟨⟨[], by simp [innerLoop], by simp⟩, rfl, rfl, rfl, rfl, rfl⟩
  | succ n ih =>
    intro i s
    unfold innerLoop
    split
    · obtain ⟨⟨l1, o1, p1⟩, a1, a2, a3, a4, a5⟩ := processEntry_kj E i s hk
      split
      · rename_i s2 j heq
        rw [heq] at o1 a1 a2 a3 a4 a5
        dsimp only at o1 a1 a2 a3 a4 a5
        obtain ⟨⟨l2, o2, p2⟩, b1, b2, b3, b4, b5⟩ := ih (j + 1) s2
        refine ⟨⟨l1 ++ l2, by rw [o2, o1, List.append_assoc], ?_⟩, ?_, ?_, ?_, ?_, ?_⟩
        · intro l hl
          rcases List.mem_append.1 hl with hl | hl
          · exact p1 l hl
          · exact p2 l hl
        · rw [b1, a1]
        · rw [b2, a2]
        · rw [b3, a3]
        · rw [b4, a4]
        · rw [b5, a5]
      · rename_i s2 heq
        rw [heq] at o1 a1 a2 a3 a4 a5
        exact ⟨⟨l1, o1, p1⟩, a1, a2, a3, a4, a5⟩
    · exact ⟨⟨[], by rw [List.append_nil], by simp⟩, rfl, rfl, rfl, rfl, rfl⟩

/-- The preamble in keep-just-names mode writes its name lines only. -/
theorem preamble_kj (C : Nat → Nat) (traceblock : Nat → Nat)
    (first_real_entry cpu base_cycle : Nat) (a : Nat → Bool) (s : State) :
    (preamble C traceblock first_real_entry cpu base_cycle true a s).1.out =
      s.out ++ OutputName (u64 (C base_cycle)) KUTRACE_PIDNAME
        (preamblePid traceblock first_real_entry s.idle_pids)
        (preambleName traceblock first_real_entry s.idle_pids) ∧
    (preamble C traceblock first_real_entry cpu base_cycle true a s).1.lo_timestamp =
      s.lo_timestamp ∧
    (preamble C traceblock first_real_entry cpu base_cycle true a s).1.hi_timestamp =
      s.hi_timestamp ∧
    (preamble C traceblock first_real_entry cpu base_cycle true a s).1.event_count =
      s.event_count := by
  rw [preamble_eq]
  dsimp only
  refine ⟨?_, rfl, rfl, rfl⟩
  rw [if_neg (fun hx => by simp at hx), List.append_nil]

/-- C34: when the flags of the first block have the wraparound bit, block 0 is decoded in
keep-just-names mode: every line written from it is a name line or the line of a CPU
description entry, which line 1221 passes on before the test of line 1225; its entries leave
the lowest and highest time, the event count and the context-switch statistics as they are,
and its preamble writes its name lines only and leaves `at_first_cpu_block` alone. -/
theorem C34_keep_just_names (K : LibConsts) (calibrate : (Nat → Nat) → Option (Nat → Nat))
    (b : Block) (r r2 : RunState) (h0 : r.blocknumber = 0)
    (hwrap : HasWraparound ((b.traceblock 1 >>> 56) % 256) = true)
    (h : processBlock K calibrate b r = some r2) :
    (∃ lines, r2.st.out = r.st.out ++ lines ∧
      ∀ l ∈ lines,
        (∃ ts dur ev a name, l = Line.name ts dur ev a name) ∨
        (∃ nsec10 ev argall, is_cpu_description K ev = true ∧
          l = Line.event nsec10 1 ev (b.traceblock 0 >>> 56) 0 0 argall 0 0 [])) ∧
    r2.st.lo_timestamp = r.st.lo_timestamp ∧
    r2.st.hi_timestamp = r.st.hi_timestamp ∧
    r2.st.event_count = r.st.event_count ∧
    r2.at_first_cpu_block = r.at_first_cpu_block ∧
    (∀ (E : Env) (fuel i : Nat) (s : State), E.keep_just_names = true →
      (innerLoop E fuel i s).ctx_switches = s.ctx_switches ∧
      (innerLoop E fuel i s).unique_pids = s.unique_pids) ∧
    (∀ (E : Env) (i : Nat) (s : State), E.keep_just_names = true →
      liveWord (E.traceblock i) →
      (decodeFields (E.traceblock i)).n ≠ E.K.KUTRACE_TSDELTA →
      is_namedef E.K (decodeFields (E.traceblock i)).n = false →
      (processEntry E i s).1.out =
        s.out ++ cpuDescLines E (decodeFields (E.traceblock i))
          (entryNsec10 E (decodeFields (E.traceblock i)) s)) := by
  have hflags := processBlock_flags K calibrate b r r2 h
  have key : (∃ lines, r2.st.out = r.st.out ++ lines ∧
      ∀ l ∈ lines,
        (∃ ts dur ev a name, l = Line.name ts dur ev a name) ∨
        (∃ nsec10 ev argall, is_cpu_description K ev = true ∧
          l = Line.event nsec10 1 ev (b.traceblock 0 >>> 56) 0 0 argall 0 0 [])) ∧
      r2.st.lo_timestamp = r.st.lo_timestamp ∧
      r2.st.hi_timestamp = r.st.hi_timestamp ∧
      r2.st.event_count = r.st.event_count := by
    unfold processBlock at h
    dsimp only at h
    simp only [h0, decide_True, if_true] at h
    split at h
    · cases h
    · rename_i C hC
      cases hfail : headerFail b.traceblock
      · rw [hfail] at h
        simp only [Bool.false_eq_true, if_false, Option.some.injEq, hwrap, Bool.and_self] at h
        rw [← h]
        dsimp only
        generalize hp0 : (if TracefileVersion ((b.traceblock 1 >>> 56) % 256) ≥ 3
               then preamble C b.traceblock 8 (b.traceblock 0 >>> 56)
                 (b.traceblock 0 &&& 0x00ffffffffffffff) true r.at_first_cpu_block r.st
               else (r.st, r.at_first_cpu_block)) = p
        have hp : ∃ l1, p.1.out = r.st.out ++ l1 ∧
            (∀ l ∈ l1, ∃ ts dur ev a name, l = Line.name ts dur ev a name) ∧
            p.1.lo_timestamp = r.st.lo_timestamp ∧
            p.1.hi_timestamp = r.st.hi_timestamp ∧
            p.1.event_count = r.st.event_count := by
          rw [← hp0]
          by_cases hv : TracefileVersion ((b.traceblock 1 >>> 56) % 256) ≥ 3
          · rw [if_pos hv]
            obtain ⟨k1, k2, k3, k4⟩ := preamble_kj C b.traceblock 8 (b.traceblock 0 >>> 56)
              (b.traceblock 0 &&& 0x00ffffffffffffff) r.at_first_cpu_block r.st
            refine ⟨_, k1, ?_, k2, k3, k4⟩
            intro l hl
            obtain ⟨a1, a2, a3, a4, e⟩ := OutputName_mem _ _ _ _ l hl
            exact ⟨_, _, _, _, _, e⟩
          · rw [if_neg hv]
            exact ⟨[], (List.append_nil _).symm, fun l hl => (by cases hl), rfl, rfl, rfl⟩
        obtain ⟨l1, o1, p1, q1, q2, q3⟩ := hp
        obtain ⟨⟨l2, o2, p2⟩, b1, b2, -, -, b5⟩ := innerLoop_kj
          { K := K, CyclesToNsec10 := C, traceblock := b.traceblock,
            ipcblock := if HasIPC ((b.traceblock 1 >>> 56) % 256) = true then b.ipc
              else fun _ => 0,
            current_cpu := b.traceblock 0 >>> 56, keep_just_names := true } rfl kTraceBufSize
          (if TracefileVersion ((b.traceblock 1 >>> 56) % 256) ≥ 3 then 8 + 4 else 8)
          { p.1 with
            time := blockTimeState (b.traceblock 0 &&& 0x00ffffffffffffff)
              (b.traceblock 8 >>> 44) }
        refine ⟨⟨l1 ++ l2, ?_, ?_⟩, ?_, ?_, ?_⟩
        · rw [o2]
          dsimp only
          rw [o1, List.append_assoc]
        · intro l hl
          rcases List.mem_append.1 hl with hl | hl
          · exact Or.inl (p1 l hl)
          · exact p2 l hl
        · rw [b1]
          exact q1
        · rw [b2]
          exact q2
        · rw [b5]
          exact q3
      · rw [hfail] at h
        simp only [if_true, Option.some.injEq] at h
        rw [← h]
        exact ⟨⟨[], (List.append_nil _).symm, fun l hl => (by cases hl)⟩, rfl, rfl, rfl⟩
  refine ⟨key.1, key.2.1, key.2.2.1, key.2.2.2, ?_, ?_, ?_⟩
  · rw [hflags]
    simp only [h0, if_true]
    rw [if_neg (fun hx => by
      have := hx.2.2.1
      rw [hwrap] at this
      simp at this)]
  · intro E fuel i s hk
    obtain ⟨-, -, -, a3, a4, -⟩ := innerLoop_kj E hk fuel i s
    exact ⟨a3, a4⟩
  · intro E i s hk hw ht hn
    rw [processEntry_names_only E i s hk hw ht hn]
    dsimp only
    rw [(entryStart_frame E (decodeFields (E.traceblock i)) s).1]

theorem C34_keep_just_names_witness :
    ∃ r2, processBlock sampleConsts (calibrateFrom zeroParams)
        ⟨wrapBlock 0, fun _ => 0⟩ (initialRun id) = some r2 ∧
      r2.st.lo_timestamp = 0x7FFFFFFFFFFFFFFF ∧ r2.st.hi_timestamp = 0 ∧
      r2.st.event_count = 0 ∧ r2.at_first_cpu_block 0 = true := by
  have hb := processBlock_ok sampleConsts (calibrateFrom zeroParams)
    ⟨wrapBlock 0, fun _ => 0⟩ (initialRun id) _
    (show headerFail (wrapBlock 0) = false by decide)
    (show (if decide ((initialRun id).blocknumber = 0) = true
        then calibrateFrom zeroParams (wrapBlock 0)
        else some (initialRun id).CyclesToNsec10) = _ from wrap_calibration)
  obtain ⟨-, h1, h2, h3, h4, -, -⟩ := C34_keep_just_names sampleConsts
    (calibrateFrom zeroParams) ⟨wrapBlock 0, fun _ => 0⟩ (initialRun id) _ rfl
    (show HasWraparound ((wrapBlock 0 1 >>> 56) % 256) = true by decide) hb
  exact ⟨_, hb, h1, h2, h3, by rw [h4]; rfl⟩

theorem wrapBlock_tail (w j : Nat) (hj : 12 < j) : ¬ liveWord (wrapBlock w j) := by
  have e : wrapBlock w j = 0 := by
    unfold wrapBlock
    simp only [if_neg (show ¬ j = 1 by omega), if_neg (show ¬ j = 4 by omega),
      if_neg (show ¬ j = 5 by omega), if_neg (show ¬ j = 8 by omega),
      if_neg (show ¬ j = 10 by omega), if_neg (show ¬ j = 12 by omega)]
  rw [e]
  decide

theorem wrap_cpudesc_calibration :
    calibrateFrom zeroParams (wrapBlock 0x00000218000003E8) =
      some (fun cycles => CyclesToNsec10 cycles
        { base_cycles := 0, base_usec := 0, base_cycles10 := 0, base_nsec10 := 0,
          m_slope := ⟨5337599558365032, -58⟩, m_slope_nsec10 := ⟨8339999309945362, -52⟩ }) := by
  have h : handle_very_first_block (wrapBlock 0x00000218000003E8) zeroParams =
      some { base_cycles := 0, base_usec := 0, base_cycles10 := 0, base_nsec10 := 0,
             m_slope := ⟨5337599558365032, -58⟩,
             m_slope_nsec10 := ⟨8339999309945362, -52⟩ } := by decide
  unfold calibrateFrom
  rw [h]
  rfl

/-- The first block of a wraparound trace with a CPU description entry (event 0x218 of the
sample constants, argument 1000) at word 12: the entry is written as an event line. -/
theorem C34_counterexample :
    HasWraparound ((wrapBlock 0x00000218000003E8 1 >>> 56) % 256) = true ∧
    is_cpu_description sampleConsts 0x218 = true ∧
    ∃ r2, processBlock sampleConsts (calibrateFrom zeroParams)
        ⟨wrapBlock 0x00000218000003E8, fun _ => 0⟩ (initialRun id) = some r2 ∧
      r2.st.out =
        [Line.name 0 1 0x022 7 (lit "worker"), Line.name (-1) 1 0x022 7 (lit "worker"),
         Line.event 0 1 0x218 0 0 0 1000 0 0 []] := by
  refine ⟨by decide, by decide, ?_⟩
  have hb := processBlock_ok sampleConsts (calibrateFrom zeroParams)
    ⟨wrapBlock 0x00000218000003E8, fun _ => 0⟩ (initialRun id) _
    (show headerFail (wrapBlock 0x00000218000003E8) = false by decide)
    (show (if decide ((initialRun id).blocknumber = 0) = true
        then calibrateFrom zeroParams (wrapBlock 0x00000218000003E8)
        else some (initialRun id).CyclesToNsec10) = _ from wrap_cpudesc_calibration)
  refine ⟨_, hb, ?_⟩
  dsimp only
  have e0 : (if TracefileVersion (if decide ((initialRun id).blocknumber = 0) = true
      then (wrapBlock 0x00000218000003E8 1 >>> 56) % 256 else (initialRun id).first_flags) ≥ 3
      then (if decide ((initialRun id).blocknumber = 0) = true then 8 else 2) + 4
      else (if decide ((initialRun id).blocknumber = 0) = true then 8 else 2)) = 12 := by
    decide
  rw [e0, show kTraceBufSize = 8191 + 1 from rfl,
    innerLoop_last _ 8191 12 _ (by decide) (by decide)
      (fun j hj => wrapBlock_tail 0x00000218000003E8 j hj)]
  decide

/-! ## Reads of the trace block -/

theorem entryReads_bounds (E : Env) (i : Nat) :
    ∀ idx ∈ entryReads E i, i ≤ idx ∧ idx ≤ i + 7 := by
  intro idx h
  unfold entryReads at h
  dsimp only at h
  split_ifs at h
  all_goals
    first
    | (simp only [List.mem_singleton] at h; omega)
    | (simp only [List.mem_cons, List.mem_singleton, List.not_mem_nil, or_false] at h; omega)
    | (simp only [List.mem_cons, List.mem_map, List.mem_range] at h
       rcases h with h | ⟨k, hk, e⟩
       · omega
       · omega)

theorem innerReads_bounds (E : Env) (fuel : Nat) :
    ∀ (i : Nat) (s : State), ∀ idx ∈ innerReads E fuel i s, idx < kTraceBufSize + 7 := by
  induction fuel with
  | zero =>
    intro i s idx h
    simp [innerReads] at h
  | succ n ih =>
    intro i s idx h
    unfold innerReads at h
    split at h
    · rename_i hi
      rcases List.mem_append.1 h with h | h
      · have := (entryReads_bounds E i idx h).2
        omega
      · split at h
        · exact ih _ _ idx h
        · cases h
    · cases h

theorem processEntry_zero (E : Env) (i : Nat) (s : State) (h : E.traceblock i = 0) :
    processEntry E i s = (s, Ctl.next i) := by
  unfold processEntry
  simp [h]

theorem innerReads_head (E : Env) (fuel i : Nat) (s : State) (hi : i < kTraceBufSize) :
    ∀ idx ∈ entryReads E i, idx ∈ innerReads E (fuel + 1) i s := by
  intro idx h
  unfold innerReads
  rw [if_pos hi]
  exact List.mem_append_left _ h

theorem innerReads_reach (E : Env) :
    ∀ (d i fuel : Nat) (s : State),
      (∀ j, i ≤ j → j < i + d → E.traceblock j = 0) → i + d < kTraceBufSize → d < fuel →
      ∀ idx ∈ entryReads E (i + d), idx ∈ innerReads E fuel i s := by
  intro d
  induction d with
  | zero =>
    intro i fuel s _ hi hfuel idx h
    obtain ⟨n, rfl⟩ : ∃ n, fuel = n + 1 := ⟨fuel - 1, by omega⟩
    exact innerReads_head E n i s hi idx h
  | succ d ih =>
    intro i fuel s hz hi hfuel idx h
    obtain ⟨n, rfl⟩ : ∃ n, fuel = n + 1 := ⟨fuel - 1, by omega⟩
    unfold innerReads
    rw [if_pos (by omega), processEntry_zero E i s (hz i (Nat.le_refl i) (by omega))]
    apply List.mem_append_right
    have e : i + (d + 1) = (i + 1) + d := by omega
    rw [e] at h
    exact ih (i + 1) n s (fun j h1 h2 => hz j (by omega) (by omega)) (by omega) (by omega) idx h

theorem entryReads_pc (E : Env) (i : Nat) (f : Fields)
    (hf : decodeFields (E.traceblock i) = f) (hw : liveWord (E.traceblock i))
    (ht : f.n ≠ E.K.KUTRACE_TSDELTA) (hn : is_namedef E.K f.n = false)
    (hk : E.keep_just_names = false) (hp : is_pc_sample E.K f.n = true) :
    entryReads E i = [i, i + 1] := by
  obtain ⟨h0, h1, h2⟩ := hw
  subst hf
  simp only [entryReads, if_neg h0, if_neg h1, if_neg h2, if_neg ht, hn, hk, hp,
    Bool.false_eq_true, if_false, if_true]

theorem entryReads_namedef (E : Env) (i : Nat) (f : Fields)
    (hf : decodeFields (E.traceblock i) = f) (hw : liveWord (E.traceblock i))
    (ht : f.n ≠ E.K.KUTRACE_TSDELTA) (hn : is_namedef E.K f.n = true)
    (hlen : ¬ ((f.n >>> 4) &&& 0x00f < 1 ∨ 8 < (f.n >>> 4) &&& 0x00f))
    (htp : is_timepair E.K f.n = false) :
    entryReads E i =
      i :: (List.range (((f.n >>> 4) &&& 0x00f) - 1)).map (fun k => i + 1 + k) := by
  obtain ⟨h0, h1, h2⟩ := hw
  subst hf
  simp only [entryReads, if_neg h0, if_neg h1, if_neg h2, if_neg ht, hn, if_neg hlen, htp,
    Bool.not_false, if_true]

theorem entryReads_self (E : Env) (i : Nat) : i ∈ entryReads E i := by
  unfold entryReads
  dsimp only
  split_ifs <;> simp

theorem flatMap_congr_mem {α β : Type} (l : List α) (f g : α → List β)
    (h : ∀ a ∈ l, f a = g a) : l.flatMap f = l.flatMap g := by
  induction l with
  | nil => rfl
  | cons a l ih =>
    simp only [List.flatMap_cons]
    rw [h a (List.mem_cons_self _ _), ih (fun b hb => h b (List.mem_cons_of_mem _ hb))]

theorem tempstringOf_congr (tb tb2 : Nat → Nat) (i len : Nat)
    (h : ∀ k, k < len - 1 → tb2 (i + 1 + k) = tb (i + 1 + k)) :
    tempstringOf tb2 i len = tempstringOf tb i len := by
  unfold tempstringOf
  have e : (List.range (len - 1)).flatMap (fun k => wordBytes (tb2 (i + 1 + k))) =
      (List.range (len - 1)).flatMap (fun k => wordBytes (tb (i + 1 + k))) := by
    apply flatMap_congr_mem
    intro k hk
    rw [h k (List.mem_range.1 hk)]
  dsimp only
  rw [e]

theorem processNameDef_tb (E : Env) (tb2 : Nat → Nat) (i : Nat) (f : Fields) (nsec10 : Nat)
    (s : State)
    (h : ¬ ((f.n >>> 4) &&& 0x00f < 1 ∨ 8 < (f.n >>> 4) &&& 0x00f) →
      is_timepair E.K f.n = false →
      tempstringOf tb2 i ((f.n >>> 4) &&& 0x00f) =
        tempstringOf E.traceblock i ((f.n >>> 4) &&& 0x00f)) :
    processNameDef { E with traceblock := tb2 } i f nsec10 s = processNameDef E i f nsec10 s := by
  by_cases hlen : ((f.n >>> 4) &&& 0x00f < 1 ∨ 8 < (f.n >>> 4) &&& 0x00f)
  · simp only [processNameDef, if_pos hlen]
  · cases htp : is_timepair E.K f.n
    · have e := h hlen htp
      unfold processNameDef
      dsimp only
      rw [e]
    · simp only [processNameDef, if_neg hlen, htp, Bool.not_true, Bool.false_eq_true,
        if_false]

theorem stepPcSample_tb (E : Env) (tb2 : Nat → Nat) (v : Locals) (s : State)
    (h : is_pc_sample E.K v.n = true → tb2 (v.i + 1) = E.traceblock (v.i + 1)) :
    stepPcSample { E with traceblock := tb2 } v s = stepPcSample E v s := by
  cases hp : is_pc_sample E.K v.n
  · simp only [stepPcSample, hp, Bool.false_eq_true, if_false]
  · have e := h hp
    unfold stepPcSample
    dsimp only
    rw [e]

theorem processEvent_tb (E : Env) (tb2 : Nat → Nat) (i : Nat) (f : Fields)
    (retval ipc tfull nsec10 : Nat) (d : Bool) (s : State)
    (h : E.keep_just_names = false → is_pc_sample E.K f.n = true →
      tb2 (i + 1) = E.traceblock (i + 1)) :
    processEvent { E with traceblock := tb2 } i f retval ipc tfull nsec10 d s =
      processEvent E i f retval ipc tfull nsec10 d s := by
  by_cases hkt : E.keep_just_names = true
  swap
  · have hk : E.keep_just_names = false := by
      cases hc : E.keep_just_names
      · rfl
      · exact absurd hc hkt
    rw [processEvent_normal _ i f retval ipc tfull nsec10 d s
        (show ({ E with traceblock := tb2 } : Env).keep_just_names = false from hk),
      processEvent_normal E i f retval ipc tfull nsec10 d s hk]
    have key : ∀ (V : Locals) (S : State), V.n = f.n → V.i = i →
        stepPcSample { E with traceblock := tb2 } V S = stepPcSample E V S := by
      intro V S hn hi
      apply stepPcSample_tb
      intro hp
      rw [hi]
      rw [hn] at hp
      exact h hk hp
    have e : ∀ s0 : State, eventLocals { E with traceblock := tb2 } i f retval ipc tfull nsec10 s0 =
        eventLocals E i f retval ipc tfull nsec10 s0 := by
      intro s0
      unfold eventLocals
      dsimp only
      rw [key _ _ (by rw [stepOptCall_eq, stepLookupName_eq, stepContextSwitch_fst])
        (by rw [stepOptCall_eq, stepLookupName_eq, stepContextSwitch_fst])]
      rfl
    rw [e]
    rfl
  · rw [processEvent_names_only _ i f retval ipc tfull nsec10 d s
        (show ({ E with traceblock := tb2 } : Env).keep_just_names = true from hkt),
      processEvent_names_only E i f retval ipc tfull nsec10 d s hkt]
    rfl

/-- A pass of the loop body depends on the trace block only through the words at the
indices of `entryReads`. -/
theorem processEntry_reads (E : Env) (tb2 : Nat → Nat) (i : Nat) (s : State)
    (h : ∀ idx ∈ entryReads E i, tb2 idx = E.traceblock idx) :
    processEntry { E with traceblock := tb2 } i s = processEntry E i s := by
  have hi : tb2 i = E.traceblock i := h i (entryReads_self E i)
  have hi2 : ({ E with traceblock := tb2 } : Env).traceblock i = E.traceblock i := hi
  by_cases hw : liveWord (E.traceblock i)
  · have hw2 : liveWord (({ E with traceblock := tb2 } : Env).traceblock i) := by
      rw [hi2]
      exact hw
    by_cases ht : (decodeFields (E.traceblock i)).n = E.K.KUTRACE_TSDELTA
    · obtain ⟨h0, h1, h2⟩ := hw
      simp only [processEntry, hi, if_neg h0, if_neg h1, if_neg h2, if_pos ht]
    · have ht2 : (decodeFields (({ E with traceblock := tb2 } : Env).traceblock i)).n ≠
          ({ E with traceblock := tb2 } : Env).K.KUTRACE_TSDELTA := by
        rw [hi2]
        exact ht
      cases hn : is_namedef E.K (decodeFields (E.traceblock i)).n
      · have hn2 : is_namedef ({ E with traceblock := tb2 } : Env).K
            (decodeFields (({ E with traceblock := tb2 } : Env).traceblock i)).n = false := by
          rw [hi2]
          exact hn
        rw [processEntry_event _ i s hw2 ht2 hn2, processEntry_event E i s hw ht hn, hi2]
        apply processEvent_tb
        intro hk hp
        apply h
        rw [entryReads_pc E i _ rfl hw ht hn hk hp]
        simp
      · have hn2 : is_namedef ({ E with traceblock := tb2 } : Env).K
            (decodeFields (({ E with traceblock := tb2 } : Env).traceblock i)).n = true := by
          rw [hi2]
          exact hn
        rw [processEntry_namedef _ i s hw2 ht2 hn2, processEntry_namedef E i s hw ht hn, hi2]
        apply processNameDef_tb
        intro hlen htp
        apply tempstringOf_congr
        intro k hk
        apply h
        rw [entryReads_namedef E i _ rfl hw ht hn hlen htp]
        simp only [List.mem_cons, List.mem_map, List.mem_range]
        right
        exact ⟨k, hk, rfl⟩
  · by_cases h0 : E.traceblock i = 0
    · simp only [processEntry, hi, if_pos h0]
    · by_cases h1 : E.traceblock i = 0xffffffffffffffff
      · simp only [processEntry, hi, if_neg h0, if_pos h1]
      · have h2 : (decodeFields (E.traceblock i)).t = 0xFFFFF ∧
            (decodeFields (E.traceblock i)).n = 0xFFF := by
          by_contra hc
          exact hw ⟨h0, h1, hc⟩
        simp only [processEntry, hi, if_neg h0, if_neg h1, if_pos h2]

/-- C38: the reads of `traceblock` by the inner loop. The loop body runs only at indices
`i < 8192`, and a pass at `i` reads the entry word `traceblock[i]` and nothing below `i` or
above `i + 7`, so every read of the loop is at an index below 8192 + 7. For a live entry
that is no TSDELTA: a PC sample outside keep-just-names mode reads exactly `i` and `i + 1`,
and a name definition of valid length `len` that is no time pair reads exactly
`i .. i + len - 1`. No test keeps these extra words inside the block: when the words from
`i0` up to `i` are NOPs the loop started at `i0` reaches the entry at `i` and performs all of
its reads, also those at indices of 8192 and more. The pass depends on the block through the
words it reads only. -/
theorem C38_traceblock_reads (E : Env) (i : Nat) (f : Fields)
    (hf : decodeFields (E.traceblock i) = f) (hi : i < kTraceBufSize)
    (hw : liveWord (E.traceblock i)) (ht : f.n ≠ E.K.KUTRACE_TSDELTA) :
    (∀ fuel i0 s, ∀ idx ∈ innerReads E fuel i0 s, idx < kTraceBufSize + 7) ∧
    (∀ idx ∈ entryReads E i, i ≤ idx ∧ idx ≤ i + 7) ∧
    i ∈ entryReads E i ∧
    (is_namedef E.K f.n = false → E.keep_just_names = false → is_pc_sample E.K f.n = true →
      entryReads E i = [i, i + 1]) ∧
    (is_namedef E.K f.n = true →
      ¬ ((f.n >>> 4) &&& 0x00f < 1 ∨ 8 < (f.n >>> 4) &&& 0x00f) →
      is_timepair E.K f.n = false →
      entryReads E i =
        i :: (List.range (((f.n >>> 4) &&& 0x00f) - 1)).map (fun k => i + 1 + k)) ∧
    (∀ fuel i0 s, i0 ≤ i → (∀ j, i0 ≤ j → j < i → E.traceblock j = 0) → i - i0 < fuel →
      ∀ idx ∈ entryReads E i, idx ∈ innerReads E fuel i0 s) ∧
    (∀ (tb2 : Nat → Nat) (s : State), (∀ idx ∈ entryReads E i, tb2 idx = E.traceblock idx) →
      processEntry { E with traceblock := tb2 } i s = processEntry E i s) := by
  refine ⟨fun fuel i0 s => innerReads_bounds E fuel i0 s, entryReads_bounds E i,
    entryReads_self E i, entryReads_pc E i f hf hw ht, entryReads_namedef E i f hf hw ht, ?_,
    fun tb2 s h => processEntry_reads E tb2 i s h⟩
  · intro fuel i0 s h0 hz hfuel idx h
    have e : i = i0 + (i - i0) := by omega
    rw [e] at h
    exact innerReads_reach E (i - i0) i0 fuel s
      (fun j h1 h2 => hz j h1 (by omega)) (by omega) hfuel idx h

/-- C38 witness: a block whose last word, at index 8191, is a PC sample
(`0x1235010100000000`, event 0x101) after NOPs. The loop as `main` runs it, from index 12,
reads `traceblock[8192]`, one word past the end of the array, and the line written for the
entry depends on what is found there. -/
theorem C38_traceblock_reads_witness :
    entryReads (lastWordEnv 0x1235010100000000) 8191 = [8191, 8192] ∧
    8192 ∈ innerReads (lastWordEnv 0x1235010100000000) kTraceBufSize 12
      (initialState ⟨0, 0⟩) ∧
    ¬ (8192 < kTraceBufSize) ∧
    (processEntry (lastWordEnv 0x1235010100000000) 8191 (initialState ⟨0, 0⟩)).1.out =
      [Line.event 0x12350 0 0x280 3 0 0 0 0 0 (lit "PC=000000000000")] ∧
    (processEntry
      { lastWordEnv 0x1235010100000000 with
        traceblock := fun j => if j = 8192 then 0x40
                               else (lastWordEnv 0x1235010100000000).traceblock j }
      8191 (initialState ⟨0, 0⟩)).1.out =
      [Line.event 0x12350 0 0x280 3 0 0 1 0 0 (lit "PC=000000000040")] :=
  have h := C38_traceblock_reads (lastWordEnv 0x1235010100000000) 8191 _ rfl (by decide)
    (by decide) (by decide)
  have e : entryReads (lastWordEnv 0x1235010100000000) 8191 = [8191, 8192] :=
    h.2.2.2.1 (by decide) (by decide) (by decide)
  ⟨e,
   h.2.2.2.2.2.1 kTraceBufSize 12 (initialState ⟨0, 0⟩) (by decide)
     (fun j _ h2 => if_neg (by omega)) (by decide) 8192 (by rw [e]; simp),
   by decide, by decide, by decide⟩

/-! ## The idle name and the keys of the name table -/

theorem namesTouch_some (names : Nat → Option CStr) (key k : Nat)
    (h : (names k).isSome = true) : (namesTouch names key k).isSome = true := by
  unfold namesTouch
  split
  · exact h
  · simp only [upd]
    split
    · rfl
    · exact h

theorem upd_some (names : Nat → Option CStr) (key k : Nat) (v : CStr)
    (h : (names k).isSome = true) : (upd names key (some v) k).isSome = true := by
  simp only [upd]
  split
  · rfl
  · exact h

theorem stepSpecial_names_some (E : Env) (argall : Nat) (v : Locals) (s : State) (k : Nat)
    (h : (s.names k).isSome = true) : ((stepSpecial E argall v s).2.names k).isSome = true := by
  unfold stepSpecial
  split
  · dsimp only
    split
    · exact namesTouch_some _ _ _ h
    · split
      · exact namesTouch_some _ _ _ h
      · split
        · exact h
        · split <;> exact h
  · exact h

theorem eventSpecial_names_some (E : Env) (i : Nat) (f : Fields)
    (retval ipc tfull nsec10 : Nat) (s : State) (k : Nat) (h : (s.names k).isSome = true) :
    ((eventSpecial E i f retval ipc tfull nsec10 s).2.names k).isSome = true := by
  unfold eventSpecial
  dsimp only
  apply stepSpecial_names_some
  rw [(stepPcSample_snd _ _ _).2.2.2.1, (stepTimerIrq_frame _ _ _).2.2.2.1,
    (stepContextSwitch_snd _ _ _).2.2.1]
  exact h

/-- No entry removes a key from the name table. -/
theorem processEntry_names_some (E : Env) (i : Nat) (s : State) (k : Nat)
    (h : (s.names k).isSome = true) : ((processEntry E i s).1.names k).isSome = true := by
  by_cases hw : liveWord (E.traceblock i)
  · by_cases ht : (decodeFields (E.traceblock i)).n = E.K.KUTRACE_TSDELTA
    · rw [(processEntry_tsdelta E i s hw ht).2.2.2.1]
      exact h
    · have he3 := (entryStart_frame E (decodeFields (E.traceblock i)) s).2.2.1
      cases hn : is_namedef E.K (decodeFields (E.traceblock i)).n
      · cases hkj : E.keep_just_names
        · rw [processEntry_normal E i s hkj hw ht hn, finishEvent_names, eventLocals_eq]
          dsimp only
          apply eventSpecial_names_some
          rw [he3]
          exact h
        · rw [processEntry_names_only E i s hkj hw ht hn]
          show ((entryStart E (decodeFields (E.traceblock i)) s).1.names k).isSome = true
          rw [he3]
          exact h
      · rw [processEntry_namedef E i s hw ht hn]
        generalize decodeFields (E.traceblock i) = f at *
        by_cases hlen : ((f.n >>> 4) &&& 0x00f < 1 ∨ 8 < (f.n >>> 4) &&& 0x00f)
        · have e : processNameDef E i f (entryNsec10 E f s) (entryStart E f s).1 =
              ((entryStart E f s).1, Ctl.next i) := by
            simp only [processNameDef, if_pos hlen]
          rw [e]
          dsimp only
          rw [he3]
          exact h
        · cases htp : is_timepair E.K f.n
          · rw [processNameDef_eq E i f _ _ hlen htp]
            dsimp only
            split
            · apply upd_some
              rw [he3]
              exact h
            · rw [he3]
              exact h
          · have e : processNameDef E i f (entryNsec10 E f s) (entryStart E f s).1 =
                ((entryStart E f s).1, Ctl.next (i + (((f.n >>> 4) &&& 0x00f) - 1))) := by
              simp only [processNameDef, if_neg hlen, htp, Bool.not_true, Bool.false_eq_true,
                if_false]
            rw [e]
            dsimp only
            rw [he3]
            exact h
  · rw [processEntry_dead E i s hw]
    exact h

theorem nameTypeOf_pid (K : LibConsts) (n : Nat) (h : nameTypeOf K n = 0x10) :
    is_pidnamedef n = true := by
  have hlow : n &&& 0x00f < 0x10 := by
    have := Nat.and_pow_two_sub_one_eq_mod n 4
    norm_num at this
    rw [this]
    omega
  unfold nameTypeOf at h
  split_ifs at h with h1
  · exact h1
  all_goals omega

theorem nameinsertOf_ne_idle (K : LibConsts) (n arg : Nat) (ha : arg < 0x10000)
    (hp : is_pidnamedef n = false) : nameinsertOf K n arg ≠ 0x10000 := by
  intro he
  obtain ⟨h1, h2⟩ := nameinsertOf_by_type K n arg ha
  by_cases ht : 0x10 ≤ nameTypeOf K n
  · obtain ⟨k, hk1, hk8, hty, hins⟩ := h1 ht
    have hk : k = 1 := by omega
    subst hk
    have := nameTypeOf_pid K n hty
    rw [hp] at this
    cases this
  · obtain ⟨-, hins⟩ := h2 (by omega)
    have hlow : n &&& 0x00f < 0x10 := by
      have := Nat.and_pow_two_sub_one_eq_mod n 4
      norm_num at this
      rw [this]
      omega
    have hb : ((n &&& 0x00f) <<< 8) ||| arg < 2 ^ 16 := by
      apply Nat.or_lt_two_pow
      · rw [Nat.shiftLeft_eq]
        norm_num
        omega
      · norm_num
        exact ha
    rw [hins] at he
    norm_num at hb
    omega

/-- A name definition that writes the key 0x10000 writes the idle name. -/
theorem nameDefKey_idle (E : Env) (i : Nat) (f : Fields) (s : State) (ha : f.arg < 0x10000)
    (h : nameDefKey E i f s = 0x10000) : nameDefName E i f s = kIdleName := by
  unfold nameDefKey at h
  cases hp : is_pidnamedef f.n
  · rw [hp] at h
    simp only [Bool.false_eq_true, if_false] at h
    exact absurd h (nameinsertOf_ne_idle E.K f.n f.arg ha hp)
  · rw [hp] at h
    simp only [if_true] at h
    rw [PidToEvent_eq] at h
    have hfx : nameDefFixup E i f s =
        FixupIdlePid f.arg (tempstringOf E.traceblock i ((f.n >>> 4) &&& 0x00f)) s.idle_pids := by
      unfold nameDefFixup
      rw [hp]
      rfl
    rw [hfx] at h
    unfold nameDefName
    rw [hfx]
    generalize tempstringOf E.traceblock i ((f.n >>> 4) &&& 0x00f) = buf at *
    cases hm : memcmpEq buf (lit "idle:")
    · by_cases h0 : f.arg = 0
      · rw [h0, FixupIdlePid_zero buf _ hm]
        dsimp only
        rw [cstrOf_strcpy_idle]
        exact safe_idle_name
      · rw [FixupIdlePid_plain f.arg buf _ hm h0] at h
        dsimp only at h
        omega
    · rw [FixupIdlePid_idle f.arg buf _ hm]
      dsimp only
      rw [cstrOf_strcpy_idle]
      exact safe_idle_name

/-- No entry changes the name recorded under the idle key 0x10000 once it is "-idle-". -/
theorem processEntry_idle (E : Env) (i : Nat) (s : State)
    (h : s.names 0x10000 = some kIdleName) :
    (processEntry E i s).1.names 0x10000 = some kIdleName := by
  by_cases hw : liveWord (E.traceblock i)
  · by_cases ht : (decodeFields (E.traceblock i)).n = E.K.KUTRACE_TSDELTA
    · rw [(processEntry_tsdelta E i s hw ht).2.2.2.1]
      exact h
    · cases hn : is_namedef E.K (decodeFields (E.traceblock i)).n
      · rw [processEntry_event_names E i s hw ht hn 0x10000 (by norm_num)]
        exact h
      · rw [processEntry_namedef E i s hw ht hn]
        have he3 := (entryStart_frame E (decodeFields (E.traceblock i)) s).2.2.1
        have ha := decodeFields_arg_lt (E.traceblock i)
        generalize decodeFields (E.traceblock i) = f at *
        by_cases hlen : ((f.n >>> 4) &&& 0x00f < 1 ∨ 8 < (f.n >>> 4) &&& 0x00f)
        · have e : processNameDef E i f (entryNsec10 E f s) (entryStart E f s).1 =
              ((entryStart E f s).1, Ctl.next i) := by
            simp only [processNameDef, if_pos hlen]
          rw [e]
          dsimp only
          rw [he3]
          exact h
        · cases htp : is_timepair E.K f.n
          · rw [processNameDef_eq E i f _ _ hlen htp]
            dsimp only
            split
            · simp only [upd]
              split
              · rename_i hkey
                rw [nameDefKey_idle E i f _ ha hkey.symm]
              · rw [he3]
                exact h
            · rw [he3]
              exact h
          · have e : processNameDef E i f (entryNsec10 E f s) (entryStart E f s).1 =
                ((entryStart E f s).1, Ctl.next (i + (((f.n >>> 4) &&& 0x00f) - 1))) := by
              simp only [processNameDef, if_neg hlen, htp, Bool.not_true, Bool.false_eq_true,
                if_false]
            rw [e]
            dsimp only
            rw [he3]
            exact h
  · rw [processEntry_dead E i s hw]
    exact h

theorem innerLoop_names_inv (P : (Nat → Option CStr) → Prop)
    (hent : ∀ (E : Env) (i : Nat) (s : State), P s.names → P (processEntry E i s).1.names)
    (E : Env) (fuel : Nat) :
    ∀ (i : Nat) (s : State), P s.names → P (innerLoop E fuel i s).names := by
  induction fuel with
  | zero =>
    intro i s h
    exact h
  | succ n ih =>
    intro i s h
    unfold innerLoop
    split
    · have hstep := hent E i s h
      split
      · rename_i s2 j heq
        rw [heq] at hstep
        exact ih (j + 1) s2 hstep
      · rename_i s2 heq
        rw [heq] at hstep
        exact hstep
    · exact h

theorem processBlock_names_inv (P : (Nat → Option CStr) → Prop)
    (hent : ∀ (E : Env) (i : Nat) (s : State), P s.names → P (processEntry E i s).1.names)
    (K : LibConsts) (calibrate : (Nat → Nat) → Option (Nat → Nat))
    (b : Block) (r r2 : RunState) (h : processBlock K calibrate b r = some r2)
    (hpre : ∀ (C : Nat → Nat) (cpu bc : Nat) (kj : Bool), P r.st.names →
      P (preamble C b.traceblock (if decide (r.blocknumber = 0) = true then 8 else 2) cpu bc kj
        r.at_first_cpu_block r.st).1.names)
    (h0 : P r.st.names) : P r2.st.names := by
  unfold processBlock at h
  dsimp only at h
  split at h
  · cases h
  · rename_i C hC
    split at h
    · injection h with h
      rw [← h]
      exact h0
    · generalize hp : (if TracefileVersion
          (if decide (r.blocknumber = 0) = true then (b.traceblock 1 >>> 56) % 256
           else r.first_flags) ≥ 3
        then preamble C b.traceblock (if decide (r.blocknumber = 0) = true then 8 else 2)
          (b.traceblock 0 >>> 56) (b.traceblock 0 &&& 0x00ffffffffffffff)
          (HasWraparound (if decide (r.blocknumber = 0) = true then (b.traceblock 1 >>> 56) % 256
             else r.first_flags) && decide (r.blocknumber = 0))
          r.at_first_cpu_block r.st
        else (r.st, r.at_first_cpu_block)) = p at h
      have hpn : P p.1.names := by
        rw [← hp]
        by_cases hv : TracefileVersion
            (if decide (r.blocknumber = 0) = true then (b.traceblock 1 >>> 56) % 256
             else r.first_flags) ≥ 3
        · rw [if_pos hv]
          exact hpre _ _ _ _ h0
        · rw [if_neg hv]
          exact h0
      injection h with h
      rw [← h]
      dsimp only
      apply innerLoop_names_inv P hent
      exact hpn

theorem preamble_names (C : Nat → Nat) (traceblock : Nat → Nat)
    (first_real_entry cpu base_cycle : Nat) (kj : Bool) (a : Nat → Bool) (s : State) :
    (preamble C traceblock first_real_entry cpu base_cycle kj a s).1.names =
      upd s.names (PidToEvent (preamblePid traceblock first_real_entry s.idle_pids))
        (some (preambleName traceblock first_real_entry s.idle_pids)) := by
  rw [preamble_eq]

theorem preamble_idle_key (C : Nat → Nat) (traceblock : Nat → Nat)
    (first_real_entry cpu base_cycle : Nat) (kj : Bool) (a : Nat → Bool) (s : State) :
    (preamble C traceblock first_real_entry cpu base_cycle kj a s).1.names 0x10000 =
      if preamblePid traceblock first_real_entry s.idle_pids % 0x10000 = 0
      then some (preambleName traceblock first_real_entry s.idle_pids)
      else s.names 0x10000 := by
  rw [preamble_names, PidToEvent_eq]
  simp only [upd]
  by_cases h : preamblePid traceblock first_real_entry s.idle_pids % 0x10000 = 0
  · rw [if_pos h, if_pos (by omega)]
  · rw [if_neg h, if_neg (by omega)]

theorem preambleName_of_zero (traceblock : Nat → Nat) (first_real_entry : Nat)
    (idle : U64set) (h : preamblePid traceblock first_real_entry idle = 0) :
    preambleName traceblock first_real_entry idle = kIdleName := by
  unfold preamblePid at h
  unfold preambleName
  generalize RemapHighPid (traceblock first_real_entry &&& 0x00000000ffffffff) = pid at *
  generalize wordBytes (traceblock (first_real_entry + 2)) ++
    wordBytes (traceblock (first_real_entry + 3)) ++ [0] = buf at *
  cases hm : memcmpEq buf (lit "idle:")
  · by_cases h0 : pid = 0
    · rw [h0, FixupIdlePid_zero buf _ hm]
      dsimp only
      rw [cstrOf_strcpy_idle]
      exact safe_idle_name
    · rw [FixupIdlePid_plain pid buf _ hm h0] at h
      exact absurd h h0
  · rw [FixupIdlePid_idle pid buf _ hm]
    dsimp only
    rw [cstrOf_strcpy_idle]
    exact safe_idle_name

theorem preamblePid_indep (traceblock : Nat → Nat) (first_real_entry : Nat)
    (idle idle2 : U64set) :
    preamblePid traceblock first_real_entry idle =
      preamblePid traceblock first_real_entry idle2 := by
  unfold preamblePid FixupIdlePid
  dsimp only
  split <;> rfl

theorem preamble_idle (C : Nat → Nat) (traceblock : Nat → Nat)
    (first_real_entry cpu base_cycle : Nat) (kj : Bool) (a : Nat → Bool) (s : State)
    (hpid : preamblePid traceblock first_real_entry s.idle_pids = 0 ∨
      preamblePid traceblock first_real_entry s.idle_pids % 0x10000 ≠ 0)
    (h : s.names 0x10000 = some kIdleName) :
    (preamble C traceblock first_real_entry cpu base_cycle kj a s).1.names 0x10000 =
      some kIdleName := by
  rw [preamble_idle_key]
  rcases hpid with h0 | h1
  · rw [if_pos (by rw [h0]), preambleName_of_zero _ _ _ h0]
  · rw [if_neg h1]
    exact h

theorem preamble_names_some (C : Nat → Nat) (traceblock : Nat → Nat)
    (first_real_entry cpu base_cycle : Nat) (kj : Bool) (a : Nat → Bool) (s : State) (k : Nat)
    (h : (s.names k).isSome = true) :
    ((preamble C traceblock first_real_entry cpu base_cycle kj a s).1.names k).isSome = true := by
  rw [preamble_names]
  exact upd_some _ _ _ _ h

theorem runBlocks_names_some (K : LibConsts) (calibrate : (Nat → Nat) → Option (Nat → Nat))
    (maxblock : Nat) (bs : List Block) (k : Nat) :
    ∀ (r r2 : RunState), runBlocks K calibrate maxblock bs r = some r2 →
      (r.st.names k).isSome = true → (r2.st.names k).isSome = true := by
  induction bs with
  | nil =>
    intro r r2 h hI
    simp only [runBlocks] at h
    injection h with h
    rw [← h]
    exact hI
  | cons b bs ih =>
    intro r r2 h hI
    rw [runBlocks] at h
    split at h
    · injection h with h
      rw [← h]
      exact hI
    · split at h
      · cases h
      · rename_i r1 hb
        exact ih r1 r2 h
          (processBlock_names_inv (fun nm => (nm k).isSome = true)
            (fun E i s hs => processEntry_names_some E i s k hs) K calibrate b r r1 hb
            (fun C cpu bc kj hs => preamble_names_some C _ _ cpu bc kj _ _ k hs) hI)

theorem runBlocks_idle (K : LibConsts) (calibrate : (Nat → Nat) → Option (Nat → Nat))
    (maxblock : Nat) (bs : List Block) :
    ∀ (r r2 : RunState), runBlocks K calibrate maxblock bs r = some r2 →
      (∀ b ∈ bs, ∀ fre, fre = 8 ∨ fre = 2 → ∀ idle,
        preamblePid b.traceblock fre idle = 0 ∨
        preamblePid b.traceblock fre idle % 0x10000 ≠ 0) →
      r.st.names 0x10000 = some kIdleName → r2.st.names 0x10000 = some kIdleName := by
  induction bs with
  | nil =>
    intro r r2 h _ hI
    simp only [runBlocks] at h
    injection h with h
    rw [← h]
    exact hI
  | cons b bs ih =>
    intro r r2 h hp hI
    rw [runBlocks] at h
    split at h
    · injection h with h
      rw [← h]
      exact hI
    · split at h
      · cases h
      · rename_i r1 hb
        have hfre : (if decide (r.blocknumber = 0) = true then 8 else 2) = 8 ∨
            (if decide (r.blocknumber = 0) = true then 8 else 2) = 2 := by
          split
          · exact Or.inl rfl
          · exact Or.inr rfl
        exact ih r1 r2 h (fun b2 hb2 => hp b2 (List.mem_cons_of_mem _ hb2))
          (processBlock_names_inv (fun nm => nm 0x10000 = some kIdleName)
            (fun E i s hs => processEntry_idle E i s hs) K calibrate b r r1 hb
            (fun C cpu bc kj hs => preamble_idle C _ _ cpu bc kj _ _
              (hp b (List.mem_cons_self _ _) _ hfre _) hs) hI)

/-- C40: the idle entry of the name table. The pre-seeded table maps 0x10000 to "-idle-".
No entry of the inner loop changes that: a name definition writes the key 0x10000 only for
pid 0, with the name "-idle-", and events insert keys from 0x20000 up only. A block preamble
stores its name under `PidToEvent(pid)`, which is 0x10000 exactly when the pid, after
`RemapHighPid` and the idle fixup, is a multiple of 0x10000: for pid 0 the name stored is
"-idle-", for a non-zero multiple it is the name of that process. So over a run whose block
preambles carry no pid that is a non-zero multiple of 0x10000 the table keeps mapping 0x10000
to "-idle-". No key is ever removed from the table. -/
theorem C40_idle_name (K : LibConsts) (calibrate : (Nat → Nat) → Option (Nat → Nat))
    (maxblock : Nat) (bs : List Block) (r r2 : RunState)
    (h : runBlocks K calibrate maxblock bs r = some r2) :
    (∀ c, (initialRun c).st.names 0x10000 = some kIdleName) ∧
    (∀ k, (r.st.names k).isSome = true → (r2.st.names k).isSome = true) ∧
    ((∀ b ∈ bs, ∀ fre, fre = 8 ∨ fre = 2 → ∀ idle,
        preamblePid b.traceblock fre idle = 0 ∨
        preamblePid b.traceblock fre idle % 0x10000 ≠ 0) →
      r.st.names 0x10000 = some kIdleName → r2.st.names 0x10000 = some kIdleName) ∧
    (∀ (E : Env) (fuel i : Nat) (s : State),
      (s.names 0x10000 = some kIdleName →
        (innerLoop E fuel i s).names 0x10000 = some kIdleName) ∧
      ∀ k, (s.names k).isSome = true → ((innerLoop E fuel i s).names k).isSome = true) ∧
    (∀ (C : Nat → Nat) (traceblock : Nat → Nat) (first_real_entry cpu base_cycle : Nat)
        (kj : Bool) (a : Nat → Bool) (s : State),
      (preamble C traceblock first_real_entry cpu base_cycle kj a s).1.names 0x10000 =
        (if preamblePid traceblock first_real_entry s.idle_pids % 0x10000 = 0
         then some (preambleName traceblock first_real_entry s.idle_pids)
         else s.names 0x10000) ∧
      (preamblePid traceblock first_real_entry s.idle_pids = 0 →
        preambleName traceblock first_real_entry s.idle_pids = kIdleName) ∧
      ∀ k, (s.names k).isSome = true →
        ((preamble C traceblock first_real_entry cpu base_cycle kj a s).1.names k).isSome
          = true) :=
  ⟨fun _ => rfl,
   fun k => runBlocks_names_some K calibrate maxblock bs k r r2 h,
   runBlocks_idle K calibrate maxblock bs r r2 h,
   fun E fuel i s =>
     ⟨innerLoop_names_inv (fun nm => nm 0x10000 = some kIdleName)
        (fun E i s hs => processEntry_idle E i s hs) E fuel i s,
      fun k => innerLoop_names_inv (fun nm => (nm k).isSome = true)
        (fun E i s hs => processEntry_names_some E i s k hs) E fuel i s⟩,
   fun C traceblock first_real_entry cpu base_cycle kj a s =>
     ⟨preamble_idle_key C traceblock first_real_entry cpu base_cycle kj a s,
      preambleName_of_zero traceblock first_real_entry s.idle_pids,
      fun k => preamble_names_some C traceblock first_real_entry cpu base_cycle kj a s k⟩⟩

/-- C40 witness: the run over the first block of the minimal scenario, whose preamble names
pid 7, keeps "-idle-" under the key 0x10000. -/
theorem C40_idle_name_witness :
    ∃ r2, runBlocks sampleConsts (calibrateFrom zeroParams) 1
        [⟨minimalBlock 54000, fun _ => 0⟩] (initialRun id) = some r2 ∧
      r2.st.names 0x10000 = some (lit "-idle-") ∧
      (∀ k, ((initialRun id).st.names k).isSome = true → (r2.st.names k).isSome = true) := by
  obtain ⟨r2, hr, -⟩ := minimal_run id (fun _ => 0)
  have h := C40_idle_name sampleConsts (calibrateFrom zeroParams) 1
    [⟨minimalBlock 54000, fun _ => 0⟩] (initialRun id) r2 hr
  refine ⟨r2, hr, h.2.2.1 ?_ rfl, h.2.1⟩
  intro b hb fre hfre idle
  rw [List.mem_singleton] at hb
  subst hb
  rw [preamblePid_indep _ _ idle (fun _ => false)]
  rcases hfre with rfl | rfl
  · right
    decide
  · left
    decide

theorem pidBlock_tail (w8 j : Nat) (hj : 12 < j) : ¬ liveWord (pidBlock w8 j) := by
  have e : pidBlock w8 j = minimalBlock 54000 j := by
    unfold pidBlock
    rw [if_neg (by omega)]
  rw [e]
  exact minimalBlock_tail 54000 j hj

theorem pid_calibration :
    calibrateFrom zeroParams (pidBlock 65536) =
      some (fun cycles => CyclesToNsec10 cycles
        { base_cycles := 0, base_usec := 0, base_cycles10 := 0, base_nsec10 := 0,
          m_slope := ⟨5337599558365032, -58⟩, m_slope_nsec10 := ⟨8339999309945362, -52⟩ }) := by
  have h : handle_very_first_block (pidBlock 65536) zeroParams =
      some { base_cycles := 0, base_usec := 0, base_cycles10 := 0, base_nsec10 := 0,
             m_slope := ⟨5337599558365032, -58⟩,
             m_slope_nsec10 := ⟨8339999309945362, -52⟩ } := by decide
  unfold calibrateFrom
  rw [h]
  rfl

/-- A first block of a version-3 trace whose preamble names pid 65536 "worker": the pid has
`PidToEvent(65536) = 0x10000`, none of the fixups applies, and after the block the name table
maps 0x10000 to "worker" instead of "-idle-". -/
theorem C40_counterexample :
    (initialRun id).st.names 0x10000 = some (lit "-idle-") ∧
    preamblePid (pidBlock 65536) 8 (fun _ => false) = 65536 ∧
    PidToEvent 65536 = 0x10000 ∧
    ∃ r2, runBlocks sampleConsts (calibrateFrom zeroParams) 1
        [⟨pidBlock 65536, fun _ => 0⟩] (initialRun id) = some r2 ∧
      r2.st.names 0x10000 = some (lit "worker") := by
  refine ⟨by decide, by decide, by decide, ?_⟩
  obtain ⟨r2, hb, hst, -, -⟩ := processBlock_first_v3 sampleConsts (calibrateFrom zeroParams)
    ⟨pidBlock 65536, fun _ => 0⟩ (initialRun id) _ rfl
    (show headerFail (pidBlock 65536) = false by decide) pid_calibration
    (show TracefileVersion ((pidBlock 65536 1 >>> 56) % 256) ≥ 3 by decide)
    (show HasWraparound ((pidBlock 65536 1 >>> 56) % 256) = false by decide)
  refine ⟨r2, ?_, ?_⟩
  · rw [runBlocks_cons _ _ _ _ _ _ r2 (show (0 : Nat) < 1 by decide) hb]
    rfl
  · rw [hst]
    have e1 : (initialRun id).st = initialState ⟨0, 0⟩ := rfl
    have e2 : (initialRun id).at_first_cpu_block = fun _ => true := rfl
    have e3 : (if HasIPC ((pidBlock 65536 1 >>> 56) % 256) = true then (fun _ => 0)
        else fun _ => 0) = fun (_ : Nat) => (0 : Nat) := by
      rw [if_neg (by decide)]
    dsimp only
    rw [e1, e2, e3]
    rw [show kTraceBufSize = 8191 + 1 from rfl, innerLoop_last _ 8191 12 _ (by decide)
      (by decide) (fun j hj => pidBlock_tail 65536 j hj)]
    decide

/-! ## Sanity checks on a block, with the calibration of the program -/

/-- A block after the first of a file of version 3 or later, when its header passes the
checks. -/
theorem processBlock_later_v3 (K : LibConsts) (calibrate : (Nat → Nat) → Option (Nat → Nat))
    (b : Block) (r : RunState) (hne : r.blocknumber ≠ 0)
    (hfail : headerFail b.traceblock = false) (hv : TracefileVersion r.first_flags ≥ 3) :
    ∃ r2, processBlock K calibrate b r = some r2 ∧
      r2.st = innerLoop
        { K := K, CyclesToNsec10 := r.CyclesToNsec10, traceblock := b.traceblock,
          ipcblock := if HasIPC ((b.traceblock 1 >>> 56) % 256) then b.ipc else fun _ => 0,
          current_cpu := b.traceblock 0 >>> 56, keep_just_names := false }
        kTraceBufSize 6
        { (preamble r.CyclesToNsec10 b.traceblock 2 (b.traceblock 0 >>> 56)
            (b.traceblock 0 &&& 0x00ffffffffffffff) false r.at_first_cpu_block r.st).1 with
          time := blockTimeState (b.traceblock 0 &&& 0x00ffffffffffffff)
            (b.traceblock 2 >>> 44) } ∧
      r2.blocknumber = r.blocknumber + 1 := by
  have hd : decide (r.blocknumber = 0) = false := by simp [hne]
  have hC : (if decide (r.blocknumber = 0) = true then calibrate b.traceblock
      else some r.CyclesToNsec10) = some r.CyclesToNsec10 := by
    simp [hne]
  refine ⟨_, processBlock_ok K calibrate b r _ hfail hC, ?_, rfl⟩
  simp only [hd, Bool.false_eq_true, if_false, Bool.and_false, if_pos hv]

theorem laterBlock_tail (w j : Nat) (hj : 6 < j) : ¬ liveWord (laterBlock w j) := by
  have e : laterBlock w j = 0 := by
    unfold laterBlock
    simp only [if_neg (show ¬ j = 1 by omega), if_neg (show ¬ j = 2 by omega),
      if_neg (show ¬ j = 4 by omega), if_neg (show ¬ j = 6 by omega)]
  rw [e]
  decide

theorem badCpu_calibration :
    calibrateFrom zeroParams badCpuBlock =
      some (fun cycles => CyclesToNsec10 cycles
        { base_cycles := 0, base_usec := 0, base_cycles10 := 0, base_nsec10 := 0,
          m_slope := ⟨5337599558365032, -58⟩, m_slope_nsec10 := ⟨8339999309945362, -52⟩ }) := by
  have h : handle_very_first_block badCpuBlock zeroParams =
      some { base_cycles := 0, base_usec := 0, base_cycles10 := 0, base_nsec10 := 0,
             m_slope := ⟨5337599558365032, -58⟩,
             m_slope_nsec10 := ⟨8339999309945362, -52⟩ } := by decide
  unfold calibrateFrom
  rw [h]
  rfl

/-- C20: a block whose header has cpu >= 80 or gettimeofday >= 3,153,600,000,000,000 usec
fails the check. A failing block that is not the first is skipped: the decoder state (lines
written, `current_pid`, `current_rpc`, name table, `idle_pids`) is unchanged and the run goes
on with the next block. A failing first block is skipped in the same way when
`handle_very_first_block` returns, the conversion it has set being kept; the run ends at the
first block only when `handle_very_first_block` itself exits, which it does exactly when its
own checks of the calibration words fail, whatever the header check has found. -/
theorem C20_block_sanity (K : LibConsts) (calibrate : (Nat → Nat) → Option (Nat → Nat))
    (b : Block) (r : RunState) :
    (headerFail b.traceblock = true ↔
      (80 ≤ b.traceblock 0 >>> 56 ∨
        1000000 * 86400 * 365 * 100 ≤ b.traceblock 1 &&& 0x00ffffffffffffff)) ∧
    (headerFail b.traceblock = true → r.blocknumber ≠ 0 →
      ∃ r2, processBlock K calibrate b r = some r2 ∧ r2.st = r.st ∧
        r2.blocknumber = r.blocknumber + 1 ∧
        r2.at_first_cpu_block = r.at_first_cpu_block ∧
        r2.CyclesToNsec10 = r.CyclesToNsec10 ∧ r2.first_flags = r.first_flags ∧
        ∀ maxblock bs, r.blocknumber < maxblock →
          runBlocks K calibrate maxblock (b :: bs) r = runBlocks K calibrate maxblock bs r2) ∧
    (headerFail b.traceblock = true → r.blocknumber = 0 →
      (calibrate b.traceblock = none →
        processBlock K calibrate b r = none ∧
        ∀ maxblock bs, 0 < maxblock → runBlocks K calibrate maxblock (b :: bs) r = none) ∧
      (∀ C, calibrate b.traceblock = some C →
        ∃ r2, processBlock K calibrate b r = some r2 ∧ r2.st = r.st ∧ r2.blocknumber = 1 ∧
          r2.at_first_cpu_block = r.at_first_cpu_block ∧ r2.CyclesToNsec10 = C ∧
          ∀ maxblock bs, 0 < maxblock →
            runBlocks K calibrate maxblock (b :: bs) r =
              runBlocks K calibrate maxblock bs r2)) ∧
    (∀ params, calibrateFrom params b.traceblock = none ↔
      calibFail (calibFixups b.traceblock) = true) := by
  refine ⟨headerFail_iff _, ?_, ?_, fun params => calibrateFrom_none b.traceblock params⟩
  · intro hfail hne
    have hC : (if decide (r.blocknumber = 0) = true then calibrate b.traceblock
        else some r.CyclesToNsec10) = some r.CyclesToNsec10 := by
      simp [hne]
    have hpb := processBlock_fail K calibrate b r _ hfail hC
    refine ⟨_, hpb, rfl, rfl, rfl, rfl, ?_, ?_⟩
    · simp [hne]
    · intro maxblock bs hlt
      exact runBlocks_cons K calibrate maxblock b bs r _ hlt hpb
  · intro hfail h0
    refine ⟨?_, ?_⟩
    · intro hnone
      have hpb : processBlock K calibrate b r = none := by
        unfold processBlock
        simp only [h0, decide_True, if_true, hnone]
      refine ⟨hpb, ?_⟩
      intro maxblock bs hlt
      rw [runBlocks, if_neg (by omega), hpb]
    · intro C hsome
      have hC : (if decide (r.blocknumber = 0) = true then calibrate b.traceblock
          else some r.CyclesToNsec10) = some C := by
        simp [h0, hsome]
      have hpb := processBlock_fail K calibrate b r _ hfail hC
      refine ⟨_, hpb, rfl, ?_, rfl, rfl, ?_⟩
      · show r.blocknumber + 1 = 1
        omega
      · intro maxblock bs hlt
        exact runBlocks_cons K calibrate maxblock b bs r _ (by omega) hpb

/-- C20 witness: a block with cpu byte `0x50` met as block 3 is skipped. -/
theorem C20_block_sanity_witness :
    ∃ r2, processBlock sampleConsts (calibrateFrom zeroParams)
        (headerBlock 0x5000000000000000 0)
        { initialRun (fun c => c) with blocknumber := 3 } = some r2 ∧
      r2.st = (initialRun (fun c => c)).st ∧ r2.blocknumber = 4 := by
  obtain ⟨r2, h1, h2, h3, -⟩ :=
    (C20_block_sanity sampleConsts (calibrateFrom zeroParams)
      (headerBlock 0x5000000000000000 0)
      { initialRun (fun c => c) with blocknumber := 3 }).2.1 (by decide) (by decide)
  exact ⟨r2, h1, h2, h3⟩

/-- C20 counterexample: a first block with CPU number 80 in its header and the calibration
words of the minimal scenario (start (0, 0), stop (54000, 1000)) fails the header check, yet
`handle_very_first_block` accepts its calibration and returns, so the run is not ended: the
block is skipped without any line, and the next block is decoded as block 1. -/
theorem C20_counterexample :
    headerFail badCpuBlock = true ∧
    (initialRun id).blocknumber = 0 ∧
    calibFail (calibFixups badCpuBlock) = false ∧
    ∃ r1 r2,
      processBlock sampleConsts (calibrateFrom zeroParams) ⟨badCpuBlock, fun _ => 0⟩
        (initialRun id) = some r1 ∧
      r1.blocknumber = 1 ∧ r1.st = (initialRun id).st ∧
      runBlocks sampleConsts (calibrateFrom zeroParams) 999999999
        [⟨badCpuBlock, fun _ => 0⟩, ⟨laterBlock 0x0000020000000007, fun _ => 0⟩]
        (initialRun id) = some r2 ∧
      r2.blocknumber = 2 ∧
      r2.st.out =
        [Line.name 0 1 0x022 7 (lit "worker"), Line.name (-1) 1 0x022 7 (lit "worker"),
         Line.event 0 1 KUTRACE_USERPID 0 7 0 0 0 0 (lit "worker.7"),
         Line.event 0 0 KUTRACE_USERPID 0 7 0 7 0 0 (lit "worker.7")] := by
  have hf1 : headerFail badCpuBlock = true := by decide
  have hC : (if decide ((initialRun id).blocknumber = 0) = true
      then calibrateFrom zeroParams badCpuBlock
      else some (initialRun id).CyclesToNsec10) = _ := badCpu_calibration
  have h1 := processBlock_fail sampleConsts (calibrateFrom zeroParams)
    ⟨badCpuBlock, fun _ => 0⟩ (initialRun id) _ hf1 hC
  obtain ⟨r2, hb, hst, hbn⟩ := processBlock_later_v3 sampleConsts (calibrateFrom zeroParams)
    ⟨laterBlock 0x0000020000000007, fun _ => 0⟩
    { initialRun id with
      all_flags := (initialRun id).all_flags ||| (badCpuBlock 1 >>> 56) % 256,
      first_flags := if decide ((initialRun id).blocknumber = 0) = true
                     then (badCpuBlock 1 >>> 56) % 256 else (initialRun id).first_flags,
      CyclesToNsec10 := fun cycles => CyclesToNsec10 cycles
        { base_cycles := 0, base_usec := 0, base_cycles10 := 0, base_nsec10 := 0,
          m_slope := ⟨5337599558365032, -58⟩, m_slope_nsec10 := ⟨8339999309945362, -52⟩ },
      blocknumber := (initialRun id).blocknumber + 1 }
    (show (0 : Nat) + 1 ≠ 0 by decide)
    (show headerFail (laterBlock 0x0000020000000007) = false by decide)
    (show TracefileVersion (if decide ((0 : Nat) = 0) = true
      then (badCpuBlock 1 >>> 56) % 256 else 0) ≥ 3 by decide)
  have hrun : runBlocks sampleConsts (calibrateFrom zeroParams) 999999999
      [⟨badCpuBlock, fun _ => 0⟩, ⟨laterBlock 0x0000020000000007, fun _ => 0⟩]
      (initialRun id) = some r2 := by
    rw [runBlocks_cons _ _ _ _ _ _ _ (show (0 : Nat) < 999999999 by decide) h1,
      runBlocks_cons _ _ _ _ _ _ r2 (show (0 : Nat) + 1 < 999999999 by decide) hb]
    rfl
  have hout : r2.st.out =
      [Line.name 0 1 0x022 7 (lit "worker"), Line.name (-1) 1 0x022 7 (lit "worker"),
       Line.event 0 1 KUTRACE_USERPID 0 7 0 0 0 0 (lit "worker.7"),
       Line.event 0 0 KUTRACE_USERPID 0 7 0 7 0 0 (lit "worker.7")] := by
    rw [hst]
    have e3 : (if HasIPC ((laterBlock 0x0000020000000007 1 >>> 56) % 256) = true
        then (fun _ => 0) else fun _ => 0) = fun (_ : Nat) => (0 : Nat) := by
      rw [if_neg (by decide)]
    dsimp only
    rw [e3]
    rw [show kTraceBufSize = 8191 + 1 from rfl, innerLoop_last _ 8191 6 _ (by decide)
      (by decide) (fun j hj => laterBlock_tail 0x0000020000000007 j hj)]
    decide
  exact ⟨hf1, rfl, by decide, _, r2, h1, rfl, rfl, hrun, hbn, hout⟩

end KUtrace
